import Mathlib

/-!
# Game Save Backup Manager: backup, naming and retention engine

A shallow embedding of the backup, purge and restore code of
`GameSaveBackupManager.cpp` (`endsWith`, `BackupSaveFolder`, `PurgeBackups`,
`RestoreLastBackup`, `RestoreFromLocal`, `RestoreFromCloud`,
`IsValidFilename`, `AutoSaveThreadFunction` and the message loop of `main`)
together with a model of the parts of `std::filesystem`, `std::sort`,
`std::to_wstring`, `std::stoi`, `towupper` and `wcsftime` that this code
calls.

Conventions of the embedding.

* A `std::wstring` is the list of the numeric values of its `wchar_t` code
  units, so that `std::wstring::compare` (which compares code units) is the
  lexicographic comparison of lists of numbers.
* A `std::filesystem::path` is the list of its segments; a wide string
  becomes a path by splitting at `\` and `/`.
* The file system is a finite listing of nodes.  The listing order stands
  for the (unspecified) order in which directory iteration visits entries.
* The clock readings, the time-zone conversion `localtime_s`, the last-write
  times of the directories and the lines typed by the user are inputs.
* `int` limits are integers; container sizes are natural numbers (a
  directory is taken to hold fewer than 2^31 entries, so that
  `static_cast<int>(size)` is the size itself).
* `towupper` is the mapping of the "C" locale (the program sets no locale):
  it changes the letters `a` to `z` only.
* The scheduler thread is a function of the values its loads of
  `g_keepAutoSaving` return; an execution of the two threads is an
  interleaving of the events of each.
* Paths are compared as the lists of segments they are written with.  A
  statement that needs two directories to lie apart for the file system
  (which resolves `.` and `..` and ignores the case of letters) uses the
  predicate `apart`.
* Every call of a `std::filesystem` function is recorded in the `calls` field
  of the `World`, every line sent to `wcout` in its `console` field.  The
  member functions of a directory entry (`entry.is_directory()`,
  `entry.path()`) read the listing and are not recorded.
-/

namespace GameSaveBackupManager

/-! ## Wide strings -/

/-- A `std::wstring`: the values of its code units. -/
abbrev WString := List Nat

/-- A wide string literal `L"..."` (for text within the Basic Multilingual Plane). -/
def L (s : String) : WString := s.toList.map Char.toNat

/-- The three-way result of `std::wstring::compare`: the first differing code
unit decides, and a proper prefix is smaller. -/
def wcompare : WString → WString → Ordering
  | [], [] => Ordering.eq
  | [], _ :: _ => Ordering.lt
  | _ :: _, [] => Ordering.gt
  | a :: as, b :: bs =>
    if a < b then Ordering.lt else if b < a then Ordering.gt else wcompare as bs

/-- Source lines 153-159: `endsWith(str, suffix)`. -/
def endsWith (str suffix : WString) : Bool :=
  if str.length < suffix.length then false
  else (str.drop (str.length - suffix.length)).take suffix.length == suffix

/-- Decimal digits of `n`, most significant first, as code units `0`..`9`;
the first argument bounds the number of digits produced. -/
def decimalDigits : Nat → Nat → WString
  | 0, _ => []
  | fuel + 1, n =>
    if n < 10 then [48 + n] else decimalDigits fuel (n / 10) ++ [48 + n % 10]

/-- The text of `std::to_wstring` for a non-negative value. -/
def natToWString (n : Nat) : WString := decimalDigits (n + 1) n

/-- The text of `std::to_wstring(long long)` and of `operator<<` for an `int`. -/
def to_wstring (v : Int) : WString :=
  if v < 0 then 45 :: natToWString v.natAbs else natToWString v.toNat

/-! ## Broken-down time and the folder name -/

/-- The fields of `struct tm` read by the format `%Y-%m-%d_%H-%M-%S`. -/
structure tm where
  tm_sec : Nat
  tm_min : Nat
  tm_hour : Nat
  tm_mday : Nat
  tm_mon : Nat
  tm_year : Nat
deriving DecidableEq, Repr

/-- A two-digit field of `wcsftime` (`%m`, `%d`, `%H`, `%M`, `%S`). -/
def pad2 (n : Nat) : WString :=
  if n < 10 then [48, 48 + n] else natToWString n

/-- Source line 1564: `wcsftime(timeBuffer, 100, L"%Y-%m-%d_%H-%M-%S", &ltm)`. -/
def wcsftime (ltm : tm) : WString :=
  natToWString (1900 + ltm.tm_year) ++ L "-" ++ pad2 (ltm.tm_mon + 1) ++ L "-" ++
    pad2 ltm.tm_mday ++ L "_" ++ pad2 ltm.tm_hour ++ L "-" ++ pad2 ltm.tm_min ++ L "-" ++
    pad2 ltm.tm_sec

/-- Source line 1554: the class letter of a backup (`A` automatic, `M` manual). -/
def classLetter (autosave : Bool) : WString :=
  if autosave then L "A" else L "M"

/-- Source lines 1560-1569: `backupFolderName`, built from the one reading
`now` of the system clock (`epochTime` and `now_t` are both
`to_time_t(now_time_point)`) and the time-zone conversion `localtime`. -/
def backupFolderName (localtime : Int → tm) (now : Int) (autosave : Bool) : WString :=
  let epochTime := now
  let safeDateTime := wcsftime (localtime now)
  to_wstring epochTime ++ L "-[" ++ safeDateTime ++ L "]-" ++ classLetter autosave

/-- Source line 1568: `backupPathBase`. -/
def backupPathBase (exePath profileName : WString) : WString :=
  exePath ++ L "\\Backups\\" ++ profileName

/-- Source line 1570: `targetBackupPath`. -/
def targetBackupPath (exePath profileName folderName : WString) : WString :=
  backupPathBase exePath profileName ++ L "\\" ++ folderName

/-- The conversion `localtime_s` performs in a UTC time zone, for instants
from 1970 on (a sample time zone for concrete evaluations). -/
def utcLocaltime (t : Int) : tm :=
  let s := t.toNat
  let days := s / 86400
  let rem := s % 86400
  let z := days + 719468
  let era := z / 146097
  let doe := z - era * 146097
  let yoe := (doe - doe / 1460 + doe / 36524 - doe / 146096) / 365
  let doy := doe - (365 * yoe + yoe / 4 - yoe / 100)
  let mp := (5 * doy + 2) / 153
  let d := doy - (153 * mp + 2) / 5 + 1
  let m := if mp < 10 then mp + 3 else mp - 9
  let y := yoe + era * 400 + (if m ≤ 2 then 1 else 0)
  { tm_sec := rem % 60, tm_min := rem / 60 % 60, tm_hour := rem / 3600,
    tm_mday := d, tm_mon := m - 1, tm_year := y - 1900 }

/-- The archive name format of the specification,
`<epoch-seconds>-[<YYYY-MM-DD_HH-MM-SS>]-<A|M>`, written from its words:
decimal epoch seconds, `-[`, the stamp made of the year and five two-digit
fields separated by `-`, `-`, `_`, `-`, `-`, then `]-` and the class letter. -/
def encode_spec (epochSeconds : Int) (year month day hour minute second : Nat)
    (autoClass : Bool) : WString :=
  to_wstring epochSeconds ++ L "-[" ++
    (natToWString year ++ L "-" ++ pad2 month ++ L "-" ++ pad2 day ++ L "_" ++
      pad2 hour ++ L "-" ++ pad2 minute ++ L "-" ++ pad2 second) ++
    L "]-" ++ (if autoClass then L "A" else L "M")

/-- Whether a code unit is one of the digits `0`..`9`. -/
def isDigit (c : Nat) : Bool := 48 ≤ c && c ≤ 57

/-- The archive name format of the specification as a test on a name,
written from its words: one or more digits, then
`-[dddd-dd-dd_dd-dd-dd]-` with a digit for every `d`, then `A` or `M`. -/
def isWellFormed_spec (name : WString) : Bool :=
  let digits := name.takeWhile isDigit
  let rest := name.dropWhile isDigit
  !digits.isEmpty && rest.length == 24 &&
    (List.zip rest (L "-[dddd-dd-dd_dd-dd-dd]-X")).all (fun cp =>
      if cp.2 == 100 then isDigit cp.1
      else if cp.2 == 88 then cp.1 == 65 || cp.1 == 77
      else cp.1 == cp.2)

/-! ## Paths -/

/-- A `std::filesystem::path`: its segments, outermost first. -/
abbrev Path := List WString

/-- The directory separators of a Windows path: `\` and `/`. -/
def isSeparator (c : Nat) : Bool := c == 92 || c == 47

/-- Splits a wide string at separators, from the right: the code units of the
first segment still open, and the completed segments after it. -/
def splitSegments : WString → WString × Path
  | [] => ([], [])
  | c :: cs =>
    let r := splitSegments cs
    if isSeparator c then ([], if r.1.isEmpty then r.2 else r.1 :: r.2)
    else (c :: r.1, r.2)

/-- The path a wide string denotes: its non-empty segments. -/
def parsePath (s : WString) : Path :=
  let r := splitSegments s
  if r.1.isEmpty then r.2 else r.1 :: r.2

/-- The text of `path::filename()`: the last segment. -/
def filename (p : Path) : WString := p.getLast?.getD []

/-- The three-way result of `path::compare`, which compares segment by segment
with `std::wstring::compare`. -/
def pathCompare : Path → Path → Ordering
  | [], [] => Ordering.eq
  | [], _ :: _ => Ordering.lt
  | _ :: _, [] => Ordering.gt
  | a :: as, b :: bs =>
    match wcompare a b with
    | Ordering.lt => Ordering.lt
    | Ordering.gt => Ordering.gt
    | Ordering.eq => pathCompare as bs

/-- The order `!(b < a)` on paths, with `operator<` of `std::filesystem::path`. -/
def pathLe (a b : Path) : Prop := pathCompare b a ≠ Ordering.lt

instance pathLeDecidable : DecidableRel pathLe := fun a b =>
  inferInstanceAs (Decidable (pathCompare b a ≠ Ordering.lt))

/-- The result of `std::sort(v.begin(), v.end())` on a vector of paths: the
ascending arrangement of the vector for `operator<`.  The order is total and
antisymmetric, so this arrangement is the only sorted permutation of the input
(`stdSort_unique`). -/
def stdSort (v : List Path) : List Path := v.insertionSort pathLe

/-! ## A model of the file system -/

/-- What a node of the file system is. -/
inductive FileKind where
  | directory
  | regular (content : List Nat)
deriving DecidableEq, Repr

/-- One file or directory: its path, its kind, whether it can be read (a file
copied from, a directory iterated) and whether it can be removed (it cannot
while another process holds it open). -/
structure Node where
  path : Path
  kind : FileKind
  readable : Bool
  removable : Bool
deriving DecidableEq, Repr

/-- The file system: the listing of its nodes. -/
abbrev FileSystem := List Node

/-- A `std::filesystem::filesystem_error`, with the text of `what()`. -/
structure filesystem_error where
  what : WString
deriving DecidableEq, Repr

/-- The node at a path, if there is one. -/
def lookup (fs : FileSystem) (p : Path) : Option Node := fs.find? (fun n => n.path == p)

/-- The value of `fs::exists(p)`. -/
def fs_exists (fs : FileSystem) (p : Path) : Bool := (lookup fs p).isSome

/-- The value of `fs::is_directory(p)`. -/
def fs_is_directory (fs : FileSystem) (p : Path) : Bool :=
  match lookup fs p with
  | some n => n.kind == FileKind.directory
  | none => false

/-- Whether `q` is `p` or lies below `p`. -/
def isUnder (p q : Path) : Bool := p.isPrefixOf q

/-- Whether `q` is an immediate child of `p`. -/
def isChildOf (p q : Path) : Bool := !q.isEmpty && q.dropLast == p

/-- The entries `fs::directory_iterator(p)` yields: the immediate children of
`p`; it throws when `p` is not a directory that can be read. -/
def fs_directory_iterator (fs : FileSystem) (p : Path) : Except filesystem_error (List Node) :=
  match lookup fs p with
  | none => Except.error ⟨L "directory_iterator: no such directory"⟩
  | some n =>
    if n.kind == FileKind.directory && n.readable then
      Except.ok (fs.filter (fun m => isChildOf p m.path))
    else Except.error ⟨L "directory_iterator: cannot open directory"⟩

/-- What a failing `fs::remove_all(p)` leaves: the regular files below `p`
listed before the first node that cannot be removed are gone, the rest of
the listing stays. -/
def removeUntilBlocked (p : Path) : FileSystem → FileSystem
  | [] => []
  | n :: rest =>
    if isUnder p n.path then
      if !n.removable then n :: rest
      else if n.kind == FileKind.directory then n :: removeUntilBlocked p rest
      else removeUntilBlocked p rest
    else n :: removeUntilBlocked p rest

/-- The effect of `fs::remove_all(p)`: removes `p` and everything below it;
throws, part way, when a node there cannot be removed.  A path that does not
exist is no error. -/
def fs_remove_all (fs : FileSystem) (p : Path) : FileSystem × Option filesystem_error :=
  if (fs.filter (fun n => isUnder p n.path)).all (fun n => n.removable) then
    (fs.filter (fun n => !isUnder p n.path), none)
  else (removeUntilBlocked p fs, some ⟨L "remove_all: access is denied"⟩)

/-- The effect of `fs::copy_file(from, to)` for the regular file `d` and the
target path `t`: throws when the source cannot be read, when the target exists
and `overwrite_existing` is not set, or when the target is a directory. -/
def copy_file (overwrite : Bool) (fs : FileSystem) (d : Node) (content : List Nat) (t : Path) :
    FileSystem × Option filesystem_error :=
  if !d.readable then (fs, some ⟨L "copy_file: cannot read the source file"⟩)
  else match lookup fs t with
    | none => (fs ++ [⟨t, FileKind.regular content, true, true⟩], none)
    | some old =>
      if !overwrite then (fs, some ⟨L "copy_file: the file exists"⟩)
      else if old.kind == FileKind.directory then
        (fs, some ⟨L "copy_file: the target is a directory"⟩)
      else (fs.map (fun n => if n.path == t then { n with kind := FileKind.regular content } else n),
            none)

/-- The step of a recursive `fs::copy` for one node `d` below the source
`src`: a directory is created at the matching path below `dst` unless it is
there already, a regular file is copied with `copy_file`. -/
def copyEntry (overwrite : Bool) (src dst : Path) (fs : FileSystem) (d : Node) :
    FileSystem × Option filesystem_error :=
  let t := dst ++ d.path.drop src.length
  match d.kind with
  | FileKind.directory =>
    match lookup fs t with
    | some old =>
      if old.kind == FileKind.directory then
        (if d.readable then (fs, none) else (fs, some ⟨L "copy: cannot open directory"⟩))
      else (fs, some ⟨L "copy: the target is not a directory"⟩)
    | none =>
      let fs1 := fs ++ [⟨t, FileKind.directory, true, true⟩]
      if d.readable then (fs1, none) else (fs1, some ⟨L "copy: cannot open directory"⟩)
  | FileKind.regular content => copy_file overwrite fs d content t

/-- The steps of a recursive `fs::copy` for the nodes below the source, in
listing order, up to the first one that throws. -/
def copyEntries (overwrite : Bool) (src dst : Path) :
    List Node → FileSystem → FileSystem × Option filesystem_error
  | [], fs => (fs, none)
  | d :: ds, fs =>
    match copyEntry overwrite src dst fs d with
    | (fs1, some e) => (fs1, some e)
    | (fs1, none) => copyEntries overwrite src dst ds fs1

/-- The effect of `fs::copy(from, to, recursive | ...)`; `overwrite` says
whether `overwrite_existing` is among the options.  It throws when the source
does not exist, when a directory is copied onto itself (the two paths are
equivalent) or to a place within itself (the recursion then follows its own
output until a path grows too long), when a directory is copied onto a
regular file, when the target directory has to be created and its parent is
no directory, or when a step below throws, and then leaves what it has copied
so far. -/
def fs_copy (fs : FileSystem) (src dst : Path) (overwrite : Bool) :
    FileSystem × Option filesystem_error :=
  match lookup fs src with
  | none => (fs, some ⟨L "copy: the source does not exist"⟩)
  | some n =>
    match n.kind with
    | FileKind.regular content =>
      copy_file overwrite fs n content
        (if fs_is_directory fs dst then dst ++ [filename src] else dst)
    | FileKind.directory =>
      if isUnder src dst then (fs, some ⟨L "copy: the target is the source or lies within it"⟩)
      else match lookup fs dst with
      | some old =>
        if old.kind == FileKind.directory then
          (if n.readable then
            copyEntries overwrite src dst
              (fs.filter (fun m => isUnder src m.path && m.path != src)) fs
           else (fs, some ⟨L "copy: cannot open directory"⟩))
        else (fs, some ⟨L "copy: the target is not a directory"⟩)
      | none =>
        if fs_is_directory fs dst.dropLast then
          let fs1 := fs ++ [⟨dst, FileKind.directory, true, true⟩]
          if n.readable then
            copyEntries overwrite src dst
              (fs.filter (fun m => isUnder src m.path && m.path != src)) fs1
          else (fs1, some ⟨L "copy: cannot open directory"⟩)
        else (fs, some ⟨L "copy: cannot create the target directory"⟩)

/-- The steps of `fs::create_directories` along the given ancestor paths. -/
def createChain : List Path → FileSystem → FileSystem × Option filesystem_error
  | [], fs => (fs, none)
  | p :: ps, fs =>
    match lookup fs p with
    | some old =>
      if old.kind == FileKind.directory then createChain ps fs
      else (fs, some ⟨L "create_directories: a file is in the way"⟩)
    | none => createChain ps (fs ++ [⟨p, FileKind.directory, true, true⟩])

/-- The effect of `fs::create_directories(p)`: creates `p` and its missing
ancestors; throws when one of them exists and is no directory. -/
def fs_create_directories (fs : FileSystem) (p : Path) : FileSystem × Option filesystem_error :=
  createChain (p.inits.tail) fs

/-! ## The world the program runs in -/

/-- A call of a `std::filesystem` function made by the program. -/
inductive FsCall where
  | copy (src dst : Path) (overwrite : Bool)
  | remove_all (p : Path)
  | file_exists (p : Path)
  | directory_iterator (p : Path)
  | create_directories (p : Path)
  | is_directory (p : Path)
  | last_write_time (p : Path)
deriving DecidableEq, Repr

/-- The file system, the `std::filesystem` calls made so far (oldest first)
and the lines written to `wcout` so far. -/
structure World where
  fs : FileSystem
  calls : List FsCall
  console : List WString
deriving DecidableEq, Repr

/-- Writes one line to `wcout`. -/
def World.print (w : World) (line : WString) : World :=
  { w with console := w.console ++ [line] }

/-- Runs `fs::copy(src, dst, recursive | ...)`. -/
def World.copy (w : World) (src dst : WString) (overwrite : Bool) :
    World × Option filesystem_error :=
  let r := fs_copy w.fs (parsePath src) (parsePath dst) overwrite
  ({ w with fs := r.1, calls := w.calls ++ [FsCall.copy (parsePath src) (parsePath dst) overwrite] },
    r.2)

/-- Runs `fs::remove_all(p)` on a path. -/
def World.remove_all (w : World) (p : Path) : World × Option filesystem_error :=
  let r := fs_remove_all w.fs p
  ({ w with fs := r.1, calls := w.calls ++ [FsCall.remove_all p] }, r.2)

/-- Runs `fs::exists(p)`. -/
def World.file_exists (w : World) (p : WString) : World × Bool :=
  ({ w with calls := w.calls ++ [FsCall.file_exists (parsePath p)] }, fs_exists w.fs (parsePath p))

/-- Runs `fs::directory_iterator(p)` to its end. -/
def World.directory_iterator (w : World) (p : WString) :
    World × Except filesystem_error (List Node) :=
  ({ w with calls := w.calls ++ [FsCall.directory_iterator (parsePath p)] },
    fs_directory_iterator w.fs (parsePath p))

/-- Runs `fs::create_directories(p)`. -/
def World.create_directories (w : World) (p : WString) : World × Option filesystem_error :=
  let r := fs_create_directories w.fs (parsePath p)
  ({ w with fs := r.1, calls := w.calls ++ [FsCall.create_directories (parsePath p)] }, r.2)

/-- Runs `fs::copy(src, dst, recursive | ...)` for a source given as a path
(the path of a directory entry). -/
def World.copy_path (w : World) (src dst : Path) (overwrite : Bool) :
    World × Option filesystem_error :=
  let r := fs_copy w.fs src dst overwrite
  ({ w with fs := r.1, calls := w.calls ++ [FsCall.copy src dst overwrite] }, r.2)

/-- Runs `fs::is_directory(p)`. -/
def World.is_directory (w : World) (p : WString) : World × Bool :=
  ({ w with calls := w.calls ++ [FsCall.is_directory (parsePath p)] },
    fs_is_directory w.fs (parsePath p))

/-- Writes some lines to `wcout`. -/
def World.printAll (w : World) (lines : List WString) : World :=
  { w with console := w.console ++ lines }

/-- The paths of the `remove_all` calls among some calls, in order. -/
def removeAllTargets : List FsCall → List Path
  | [] => []
  | FsCall.remove_all p :: cs => p :: removeAllTargets cs
  | _ :: cs => removeAllTargets cs

/-! ## `PurgeBackups` -/

/-- Source lines 1658-1669: the loop that sorts the directories of the listing
into `autoSaves` and `manualSaves` by the suffix of their names. -/
def categorize : List Node → List Path × List Path
  | [] => ([], [])
  | entry :: rest =>
    let r := categorize rest
    if entry.kind == FileKind.directory then
      let dirName := filename entry.path
      if endsWith dirName (L "-A") then (entry.path :: r.1, r.2)
      else if endsWith dirName (L "-M") then (r.1, entry.path :: r.2)
      else r
    else r

/-- Source lines 1686-1698 and 1709-1721: the deletion loop over the first
`toDelete` paths of a sorted vector.  Each path gets its detail line in the
log collector and one `fs::remove_all`; a `filesystem_error` is caught and
reported on `wcout`, and the loop goes on. -/
def deleteLoop (locationName label : WString) :
    List Path → World → List WString → World × List WString
  | [], w, logCollector => (w, logCollector)
  | p :: ps, w, logCollector =>
    let logCollector1 := logCollector ++ [L "         - Deleting: " ++ filename p]
    let r := w.remove_all p
    let w1 := match r.2 with
      | none => r.1
      | some e => r.1.print (L "      [PURGE:" ++ locationName ++ L "] FAILED to delete " ++
          label ++ L " " ++ filename p ++ L ": " ++ e.what)
    deleteLoop locationName label ps w1 logCollector1

/-- Source lines 1679-1699 and 1702-1722: the purge of one class.  `saves` is
the sorted vector of the class, `limit` its limit, `label` is `Auto` or
`Manual` as printed on failure and `title` the class name of the summary line. -/
def purgeClass (locationName label title : WString) (saves : List Path) (limit : Int)
    (w : World) (logCollector : List WString) : World × List WString :=
  if limit > 0 ∧ (saves.length : Int) > limit then
    let toDelete : Int := (saves.length : Int) - limit
    let logCollector1 := logCollector ++
      [L "      [PURGE:" ++ locationName ++ L "] " ++ title ++ L " limit (" ++ to_wstring limit ++
        L ") exceeded. Deleting " ++ to_wstring toDelete ++ L " oldest..."]
    deleteLoop locationName label (saves.take toDelete.toNat) w logCollector1
  else (w, logCollector)

/-- What a call of `PurgeBackups` leaves: the world, the log collector and the
exception that left the function, if one did. -/
structure PurgeResult where
  world : World
  logCollector : List WString
  thrown : Option filesystem_error
deriving DecidableEq, Repr

/-- Source lines 1654-1723: `PurgeBackups`.  The parameter `pfx` (`prefix` in
the source) is not read by the body. -/
def PurgeBackups (w : World) (backupDir : WString) (_pfx : WString) (autoLimit manualLimit : Int)
    (locationName : WString) (logCollector : List WString) : PurgeResult :=
  let r0 := w.file_exists backupDir
  if !r0.2 then ⟨r0.1, logCollector, none⟩
  else
    let r1 := r0.1.directory_iterator backupDir
    match r1.2 with
    | Except.error e => ⟨r1.1, logCollector, some e⟩
    | Except.ok entries =>
      let saves := categorize entries
      let autoSaves := stdSort saves.1
      let manualSaves := stdSort saves.2
      let r2 := purgeClass locationName (L "Auto") (L "Auto-save") autoSaves autoLimit
        r1.1 logCollector
      let r3 := purgeClass locationName (L "Manual") (L "Manual-save") manualSaves manualLimit
        r2.1 r2.2
      ⟨r3.1, r3.2, none⟩

/-- The suffix that marks the class of an archive directory: `-A` for the
automatic class, `-M` for the manual class. -/
def classSuffix (autoClass : Bool) : WString := if autoClass then L "-A" else L "-M"

/-- The directories of a listing that belong to one class: the paths of the
entries that are directories and whose name ends in the suffix of the class. -/
def classDirs (autoClass : Bool) (entries : List Node) : List Path :=
  (entries.filter (fun n => n.kind == FileKind.directory &&
    endsWith (filename n.path) (classSuffix autoClass))).map (fun n => n.path)

/-- The limit that applies to a class. -/
def classLimit (autoClass : Bool) (autoLimit manualLimit : Int) : Int :=
  if autoClass then autoLimit else manualLimit

/-- The paths the purge of one class deletes, for the sorted vector of the
class and its limit (the condition and the bound of the loop in `purgeClass`). -/
def purgeSelection (saves : List Path) (limit : Int) : List Path :=
  if limit > 0 ∧ (saves.length : Int) > limit then
    saves.take ((saves.length : Int) - limit).toNat
  else []

/-- The paths handed to `fs::remove_all` by a call of `PurgeBackups` that was
started in the world `w`, in the order of the calls. -/
def purgeDeleted (w : World) (res : PurgeResult) : List Path :=
  removeAllTargets (res.world.calls.drop w.calls.length)

/-- The paths of one class among some paths. -/
def deletedOfClass (autoClass : Bool) (deleted : List Path) : List Path :=
  deleted.filter (fun p => endsWith (filename p) (classSuffix autoClass))

/-! ## `BackupSaveFolder` -/

/-- The fields of `struct GameProfile`. -/
structure GameProfile where
  name : WString
  savePath : WString
  autoSaveInterval : Int
  cloudSaveEnabled : Bool
deriving DecidableEq, Repr

/-- The global settings read by `BackupSaveFolder`. -/
structure Globals where
  g_GoogleDrivePath : WString
  g_LocalAutoSaveLimit : Int
  g_LocalManualSaveLimit : Int
  g_CloudAutoSaveLimit : Int
  g_CloudManualSaveLimit : Int
deriving DecidableEq, Repr

/-- What a call of `BackupSaveFolder` leaves: the world, the values of its
three flags and of `purgeMessages` when it was left, and the exception that
left the function, if one did. -/
structure BackupResult where
  world : World
  localSuccess : Bool
  cloudAttempted : Bool
  cloudSuccess : Bool
  purgeMessages : List WString
  thrown : Option filesystem_error
deriving DecidableEq, Repr

/-- The separator line of the log. -/
def separatorLine : WString := L "--------------------------------------------------"

/-- Source lines 1620-1641: the summary line, the collected purge messages and
the separator. -/
def finalLogging (w : World) (currentTime pfx backupFolderName : WString)
    (localSuccess cloudAttempted cloudSuccess : Bool) (purgeMessages : List WString) : World :=
  let head := L "[" ++ currentTime ++ L "] [" ++ pfx ++ L "] Backup " ++ backupFolderName
  let w1 :=
    if localSuccess && cloudAttempted && cloudSuccess then
      w.print (head ++ L " completed (Local + Cloud Sync).")
    else if localSuccess && cloudAttempted && !cloudSuccess then
      w.print (head ++ L " completed (Local only due to Cloud sync failure).")
    else if localSuccess then w.print (head ++ L " completed (Local).")
    else w
  let w2 := purgeMessages.foldl World.print w1
  w2.print separatorLine

/-- Source lines 1598-1618: the mirror step, entered when the profile has
cloud saving enabled and the mirror root is not empty.  Returns the world,
`cloudSuccess` and the purge messages. -/
def cloudStep (g : Globals) (w : World) (profile : GameProfile) (currentTime pfx : WString)
    (targetPath folderName : WString) (purgeMessages : List WString) :
    World × Bool × List WString :=
  let cloudGamePath := g.g_GoogleDrivePath ++ L "\\Game Save Backup Manager\\" ++ profile.name
  let cloudTargetPath := cloudGamePath ++ L "\\" ++ folderName
  let failed (w0 : World) (e : filesystem_error) (msgs : List WString) : World × Bool × List WString :=
    (w0.print (L "[" ++ currentTime ++ L "] [CLOUD] Sync FAILED for " ++ folderName ++ L ": " ++
      e.what), false, msgs)
  let r1 := w.create_directories cloudGamePath
  match r1.2 with
  | some e => failed r1.1 e purgeMessages
  | none =>
    let r2 := r1.1.copy targetPath cloudTargetPath false
    match r2.2 with
    | some e => failed r2.1 e purgeMessages
    | none =>
      let r3 := PurgeBackups r2.1 cloudGamePath pfx g.g_CloudAutoSaveLimit
        g.g_CloudManualSaveLimit (L "Cloud") purgeMessages
      match r3.thrown with
      | some e => failed r3.world e r3.logCollector
      | none => (r3.world, true, r3.logCollector)

/-- Source lines 1552-1643: `BackupSaveFolder(profile, autosave)`.  The inputs
besides the world are the global settings, the value `exePath` of
`GetExePath()`, the time-zone conversion `localtime`, the reading `now` of
`to_time_t(system_clock::now())` and the text `currentTime` of
`s2ws(GetCurrentDateTime())`. -/
def BackupSaveFolder (g : Globals) (exePath : WString) (localtime : Int → tm) (now : Int)
    (currentTime : WString) (w : World) (profile : GameProfile) (autosave : Bool) :
    BackupResult :=
  let pfx := classLetter autosave
  let base := backupPathBase exePath profile.name
  let folderName := backupFolderName localtime now autosave
  let target := targetBackupPath exePath profile.name folderName
  -- 1. local backup
  let r1 := w.copy profile.savePath target false
  match r1.2 with
  | some e =>
    let w2 := r1.1.print (L "[" ++ currentTime ++ L "] [" ++ pfx ++ L "] Local backup FAILED for " ++
      folderName ++ L ": " ++ e.what)
    let w3 := (w2.remove_all (parsePath target)).1
    ⟨w3.print separatorLine, false, false, false, [], none⟩
  | none =>
    -- 2. purge of the local backups
    let r2 := PurgeBackups r1.1 base pfx g.g_LocalAutoSaveLimit g.g_LocalManualSaveLimit
      (L "Local") []
    match r2.thrown with
    | some e => ⟨r2.world, true, false, false, r2.logCollector, some e⟩
    | none =>
      -- 3. and 4. mirror copy and purge of the mirror
      if profile.cloudSaveEnabled && !g.g_GoogleDrivePath.isEmpty then
        let r3 := cloudStep g r2.world profile currentTime pfx target folderName r2.logCollector
        ⟨finalLogging r3.1 currentTime pfx folderName true true r3.2.1 r3.2.2,
          true, true, r3.2.1, r3.2.2, none⟩
      else
        ⟨finalLogging r2.world currentTime pfx folderName true false false r2.logCollector,
          true, false, false, r2.logCollector, none⟩

/-- Source line 1601: `cloudGamePath`, the directory of the profile at the
mirror location. -/
def cloudGamePath (g : Globals) (profile : GameProfile) : WString :=
  g.g_GoogleDrivePath ++ L "\\Game Save Backup Manager\\" ++ profile.name

/-- The `copy` calls among some calls, in order. -/
def copyCalls : List FsCall → List FsCall
  | [] => []
  | FsCall.copy src dst overwrite :: cs => FsCall.copy src dst overwrite :: copyCalls cs
  | _ :: cs => copyCalls cs

/-- Whether a call is one that `PurgeBackups` makes for the directory `dir`:
the existence test and the iteration of `dir`, or the removal of an immediate
child of `dir`. -/
def isPurgeCall (dir : Path) : FsCall → Bool
  | FsCall.file_exists p => p == dir
  | FsCall.directory_iterator p => p == dir
  | FsCall.remove_all p => isChildOf dir p
  | _ => false

/-! ## The steps of `BackupSaveFolder`, by name -/

/-- Source line 1580: the local copy of `BackupSaveFolder`, with the world it
leaves and the error it throws, if any. -/
def localCopy (exePath : WString) (localtime : Int → tm) (now : Int) (w : World)
    (profile : GameProfile) (autosave : Bool) : World × Option filesystem_error :=
  w.copy profile.savePath
    (targetBackupPath exePath profile.name (backupFolderName localtime now autosave)) false

/-- Source line 1595: the purge of the local backups, run after the local
copy. -/
def localPurge (g : Globals) (exePath : WString) (localtime : Int → tm) (now : Int) (w : World)
    (profile : GameProfile) (autosave : Bool) : PurgeResult :=
  PurgeBackups (localCopy exePath localtime now w profile autosave).1
    (backupPathBase exePath profile.name) (classLetter autosave) g.g_LocalAutoSaveLimit
    g.g_LocalManualSaveLimit (L "Local") []

/-- Source line 1605: `fs::create_directories(cloudGamePath)`, run after the
local purge. -/
def mirrorCreate (g : Globals) (exePath : WString) (localtime : Int → tm) (now : Int)
    (w : World) (profile : GameProfile) (autosave : Bool) : World × Option filesystem_error :=
  (localPurge g exePath localtime now w profile autosave).world.create_directories
    (cloudGamePath g profile)

/-- Source line 1606: the copy of the local archive to the mirror. -/
def mirrorCopy (g : Globals) (exePath : WString) (localtime : Int → tm) (now : Int)
    (w : World) (profile : GameProfile) (autosave : Bool) : World × Option filesystem_error :=
  (mirrorCreate g exePath localtime now w profile autosave).1.copy
    (targetBackupPath exePath profile.name (backupFolderName localtime now autosave))
    (cloudGamePath g profile ++ L "\\" ++ backupFolderName localtime now autosave) false

/-- Source line 1611: the purge of the backups at the mirror, run after the
mirror copy. -/
def mirrorPurge (g : Globals) (exePath : WString) (localtime : Int → tm) (now : Int)
    (w : World) (profile : GameProfile) (autosave : Bool) : PurgeResult :=
  PurgeBackups (mirrorCopy g exePath localtime now w profile autosave).1
    (cloudGamePath g profile) (classLetter autosave) g.g_CloudAutoSaveLimit
    g.g_CloudManualSaveLimit (L "Cloud")
    (localPurge g exePath localtime now w profile autosave).logCollector

/-- The line printed in the `catch` of the mirror step. -/
def syncFailedLine (currentTime folderName : WString) (e : filesystem_error) : WString :=
  L "[" ++ currentTime ++ L "] [CLOUD] Sync FAILED for " ++ folderName ++ L ": " ++ e.what

/-! ## Restoring -/

/-- How a restore function ends. -/
inductive RestoreOutcome where
  | pathNotSet
  | noBackups
  | noManual
  | cancelled
  | invalidSelection
  | notADirectory
  | failed (e : filesystem_error)
  | restored (archive : Path)
  | thrown (e : filesystem_error)
deriving DecidableEq, Repr

/-- The lines a restore function prints at the three ends of its restore
block: when the save path is no directory, on success, and on a
`filesystem_error`. -/
structure RestoreTexts where
  notDirectory : List WString
  success : List WString
  failure : filesystem_error → List WString

/-- Source lines 1787-1790, 1892-1895, 2018-2021: the loop that clears the
save directory, one `fs::remove_all` for each entry; the first error leaves
the loop. -/
def clearLoop : List Node → World → World × Option filesystem_error
  | [], w => (w, none)
  | entry :: rest, w =>
    let r := w.remove_all entry.path
    match r.2 with
    | some e => (r.1, some e)
    | none => clearLoop rest r.1

/-- The end of a restore block in its `catch (const fs::filesystem_error& e)`. -/
def restoreFailed (texts : RestoreTexts) (w : World) (e : filesystem_error) :
    World × RestoreOutcome :=
  (w.printAll (texts.failure e), RestoreOutcome.failed e)

/-- Source lines 1786-1795, 1891-1899, 2017-2025: the save directory is
cleared, then the backup is copied into it with
`recursive | overwrite_existing`. -/
def clearAndCopy (texts : RestoreTexts) (w : World) (backupToRestore : Path)
    (savePath : WString) : World × RestoreOutcome :=
  let r2 := w.directory_iterator savePath
  match r2.2 with
  | Except.error e => restoreFailed texts r2.1 e
  | Except.ok entries =>
    let r3 := clearLoop entries r2.1
    match r3.2 with
    | some e => restoreFailed texts r3.1 e
    | none =>
      let r4 := r3.1.copy_path backupToRestore (parsePath savePath) true
      match r4.2 with
      | some e => restoreFailed texts r4.1 e
      | none => (r4.1.printAll texts.success, RestoreOutcome.restored backupToRestore)

/-- Source lines 1774-1801, 1880-1903, 2006-2032: the restore block shared, up
to its texts, by `RestoreLastBackup`, `RestoreFromLocal` and
`RestoreFromCloud`. -/
def restoreBlock (texts : RestoreTexts) (w : World) (backupToRestore : Path)
    (savePath : WString) : World × RestoreOutcome :=
  let r0 := w.file_exists savePath
  if !r0.2 then
    let r1 := r0.1.create_directories savePath
    match r1.2 with
    | some e => restoreFailed texts r1.1 e
    | none => clearAndCopy texts r1.1 backupToRestore savePath
  else
    let r1 := r0.1.is_directory savePath
    if !r1.2 then (r1.1.printAll texts.notDirectory, RestoreOutcome.notADirectory)
    else clearAndCopy texts r1.1 backupToRestore savePath

/-- The value of `fs::file_time_type::min()`, in ticks. -/
def fileTimeMin : Int := -(2 ^ 63)

/-- Source lines 1746-1763: the loop of `RestoreLastBackup` over the entries
of the backup folder.  The state is `latestManualBackup` (empty at the start)
and `latestTime`; `last_write_time` gives the value of
`fs::last_write_time(entry)` or the error it throws, in which case the entry
is skipped. -/
def selectLatestManual (last_write_time : Path → Except filesystem_error Int) :
    List Node → Path × Int → Path × Int
  | [], st => st
  | entry :: rest, st =>
    if entry.kind == FileKind.directory && endsWith (filename entry.path) (L "-M") then
      match last_write_time entry.path with
      | Except.ok modTime =>
        if st.1.isEmpty || decide (modTime > st.2) then
          selectLatestManual last_write_time rest (entry.path, modTime)
        else selectLatestManual last_write_time rest st
      | Except.error _ => selectLatestManual last_write_time rest st
    else selectLatestManual last_write_time rest st

/-- The `fs::last_write_time` calls of the loop of `RestoreLastBackup`: one for
each directory of the listing whose name ends in `-M`. -/
def lastWriteTimeCalls (entries : List Node) : List FsCall :=
  (entries.filter (fun n => n.kind == FileKind.directory &&
    endsWith (filename n.path) (L "-M"))).map (fun n => FsCall.last_write_time n.path)

/-- The texts of the restore block of `RestoreLastBackup`. -/
def lastBackupTexts (profile : GameProfile) (latestManualBackup : Path) : RestoreTexts :=
  { notDirectory :=
      [L "RESTORE FAILED: Target save path exists but is not a directory: " ++ profile.savePath,
       separatorLine]
    success :=
      [L "Restored from latest manual backup: " ++ filename latestManualBackup, separatorLine]
    failure := fun e =>
      [L "RESTORE FAILED: " ++ e.what,
       L "Another program might be using the save files, or permissions may be insufficient.",
       separatorLine] }

/-- Source lines 1731-1802: `RestoreLastBackup(profile)`.  An error of the
iteration of the backup folder is not caught and leaves the function. -/
def RestoreLastBackup (exePath : WString)
    (last_write_time : Path → Except filesystem_error Int) (w : World)
    (profile : GameProfile) : World × RestoreOutcome :=
  let base := backupPathBase exePath profile.name
  let r0 := w.file_exists base
  if !r0.2 then
    (r0.1.printAll [L "No local backups found for this game.", separatorLine],
      RestoreOutcome.noBackups)
  else
    let r1 := r0.1.directory_iterator base
    match r1.2 with
    | Except.error e => (r1.1, RestoreOutcome.thrown e)
    | Except.ok entries =>
      let w2 : World := { r1.1 with calls := r1.1.calls ++ lastWriteTimeCalls entries }
      let st := selectLatestManual last_write_time entries ([], fileTimeMin)
      let latestManualBackup := st.1
      if latestManualBackup.isEmpty then
        (w2.printAll
          [L "No MANUAL (-M) backups found. CTRL+R only restores the latest manual save.",
           separatorLine],
          RestoreOutcome.noManual)
      else restoreBlock (lastBackupTexts profile latestManualBackup) w2 latestManualBackup
        profile.savePath

/-- A narrow string literal. -/
def N (s : String) : List Nat := s.toList.map Char.toNat

/-- The white space `std::stoi` skips. -/
def isSpace (c : Nat) : Bool := c == 32 || (9 ≤ c && c ≤ 13)

/-- The value of a run of decimal digits read from the left, given the value
read so far. -/
def digitsValue : List Nat → Nat → Nat
  | [], acc => acc
  | c :: cs, acc => digitsValue cs (acc * 10 + (c - 48))

/-- The value of `std::stoi(str)`: white space is skipped, a sign may
follow, then at least one digit is needed, and what follows the digits is
ignored; `none` stands for the exceptions `invalid_argument` (no digits) and
`out_of_range` (the value is no `int`). -/
def stoi (str : List Nat) : Option Int :=
  let s1 := str.dropWhile isSpace
  let negative := s1.head? == some 45
  let s2 := if s1.head? == some 45 || s1.head? == some 43 then s1.tail else s1
  let digits := s2.takeWhile isDigit
  if digits.isEmpty then none
  else
    let v : Int := if negative then -(digitsValue digits 0 : Int) else (digitsValue digits 0 : Int)
    if -(2 ^ 31) ≤ v ∧ v < 2 ^ 31 then some v else none

/-- The texts by which `RestoreFromLocal` and `RestoreFromCloud` differ. -/
structure MenuTexts where
  noFolder : WString
  noBackupFolders : WString
  title : WString
  warning : WString
  texts : RestoreTexts

/-- The numbered lines of the list of backups, counted from `i + 1`. -/
def menuLines : List Path → Nat → List WString
  | [], _ => []
  | p :: ps, i => (L "    " ++ natToWString (i + 1) ++ L ". " ++ filename p) :: menuLines ps (i + 1)

/-- Source lines 1814-1918 and 1940-2047: the part `RestoreFromLocal` and
`RestoreFromCloud` share: the backup folder `gamePath` is tested and listed,
its directories are sorted in descending order of their paths
(`sort(backups.rbegin(), backups.rend())`) and printed with numbers from 1,
and the backup with the number read in `choice_str` is restored when
`confirm` is `y` or `Y`.  An error of the iteration of the backup folder is
not caught and leaves the function. -/
def restoreMenu (m : MenuTexts) (w : World) (gamePath : WString) (selectedGame : GameProfile)
    (choice_str confirm : List Nat) : World × RestoreOutcome :=
  let r0 := w.file_exists gamePath
  let r1 := if r0.2 then r0.1.is_directory gamePath else (r0.1, false)
  if !r0.2 || !r1.2 then
    (r1.1.printAll [m.noFolder ++ selectedGame.name ++ L " at:", gamePath],
      RestoreOutcome.noBackups)
  else
    let r2 := r1.1.directory_iterator gamePath
    match r2.2 with
    | Except.error e => (r2.1, RestoreOutcome.thrown e)
    | Except.ok entries =>
      let backups :=
        (stdSort ((entries.filter (fun n => n.kind == FileKind.directory)).map
          (fun n => n.path))).reverse
      if backups.isEmpty then (r2.1.printAll [m.noBackupFolders], RestoreOutcome.noBackups)
      else
        let w3 := r2.1.printAll
          ([m.title ++ selectedGame.name ++ L " ---", L "   (Newest first)", []] ++
            menuLines backups 0 ++
            [L "   -------------------------------------------",
             L "   Enter a number to restore (or 'x' to cancel): "])
        if choice_str == N "x" || choice_str == N "X" then
          (w3.printAll [L "Cancelled."], RestoreOutcome.cancelled)
        else
          match stoi choice_str with
          | none => (w3.printAll [L "Invalid selection."], RestoreOutcome.invalidSelection)
          | some v =>
            let choice_idx : Int := v - 1
            if choice_idx ≥ 0 ∧ choice_idx < (backups.length : Int) then
              let backupToRestore := backups.getD choice_idx.toNat []
              let w4 := w3.printAll
                [[], L "   ===================== WARNING =====================",
                 L "    This will OVERWRITE your current save files with",
                 m.warning ++ filename backupToRestore, [],
                 L "    ARE YOU SURE? (y/n)", L "> "]
              if confirm == N "y" || confirm == N "Y" then
                restoreBlock m.texts w4 backupToRestore selectedGame.savePath
              else (w4.printAll [L "Restore cancelled."], RestoreOutcome.cancelled)
            else (w3.printAll [L "Invalid selection."], RestoreOutcome.invalidSelection)

/-- The texts of `RestoreFromLocal`. -/
def localMenuTexts : MenuTexts :=
  { noFolder := L "Local restore failed: No local backups found for "
    noBackupFolders := L "No backup folders found locally for this game."
    title := L "   --- Local Backups for "
    warning := L "    the local backup: "
    texts :=
      { notDirectory := [L "RESTORE FAILED: Save path exists but is not a directory."]
        success := [L "Restore from local backup complete."]
        failure := fun e => [L "RESTORE FAILED: " ++ e.what] } }

/-- The texts of `RestoreFromCloud`. -/
def cloudMenuTexts : MenuTexts :=
  { noFolder := L "Cloud restore failed: No cloud backups found for "
    noBackupFolders := L "No backup folders found in the cloud for this game."
    title := L "   --- Cloud Backups for "
    warning := L "    the cloud backup: "
    texts :=
      { notDirectory := [L "RESTORE FAILED: Save path exists but is not a directory."]
        success := [L "Restore from cloud complete."]
        failure := fun e =>
          [L "RESTORE FAILED: " ++ e.what,
           L ("Is the cloud client running and fully synced? " ++
              "Is the folder set to be available offline?")] } }

/-- Source lines 1808-1919: `RestoreFromLocal()`, for the selected game and
the two lines read from `cin`. -/
def RestoreFromLocal (exePath : WString) (w : World) (selectedGame : GameProfile)
    (choice_str confirm : List Nat) : World × RestoreOutcome :=
  let localGamePath := exePath ++ L "\\Backups\\" ++ selectedGame.name
  restoreMenu localMenuTexts w localGamePath selectedGame choice_str confirm

/-- Source lines 1925-2048: `RestoreFromCloud()`, for the selected game and
the two lines read from `cin`. -/
def RestoreFromCloud (g : Globals) (w : World) (selectedGame : GameProfile)
    (choice_str confirm : List Nat) : World × RestoreOutcome :=
  if g.g_GoogleDrivePath.isEmpty then
    (w.printAll [L "Cloud restore failed: Cloud Sync path is not set."],
      RestoreOutcome.pathNotSet)
  else
    restoreMenu cloudMenuTexts w (cloudGamePath g selectedGame) selectedGame choice_str confirm

/-! ## Notions for statements about the file system -/

/-- Whether `q` lies below `p` and is not `p` itself. -/
def strictlyUnder (p q : Path) : Bool := isUnder p q && q != p

/-- What a directory holds: the nodes below it, each with its path relative to
the directory and its kind (for a regular file, with its content), in listing
order. -/
def contents (fs : FileSystem) (p : Path) : List (Path × FileKind) :=
  (fs.filter (fun n => strictlyUnder p n.path)).map (fun n => (n.path.drop p.length, n.kind))

/-- Whether one of two lists of segments is an initial part of the other.
This compares the segments as they are written; whether two directories lie
apart for the file system of the program is expressed by `apart`. -/
def comparable (p q : Path) : Bool := isUnder p q || isUnder q p

/-- The two properties every real file system has: no two nodes share a path,
and the ancestors of every node exist. -/
def wellFormed (fs : FileSystem) : Bool :=
  decide ((fs.map (fun n => n.path)).Nodup) &&
    fs.all (fun n => (List.range n.path.length).all (fun k => fs_exists fs (n.path.take (k + 1))))

/-- The node a recursive copy from `src` to `dst` makes of the node `d` below
`src`: the same kind at the matching path below `dst`. -/
def relocate (src dst : Path) (d : Node) : Node :=
  ⟨dst ++ d.path.drop src.length, d.kind, true, true⟩

/-! ## Sample worlds -/

/-- A directory that can be read and removed, at the path a text denotes. -/
def dirNode (p : String) : Node := ⟨parsePath (L p), FileKind.directory, true, true⟩

/-- A regular file that can be read and removed. -/
def fileNode (p : String) (content : List Nat) : Node :=
  ⟨parsePath (L p), FileKind.regular content, true, true⟩

/-- A regular file that another process holds open: it can be neither read
nor removed. -/
def lockedFileNode (p : String) (content : List Nat) : Node :=
  ⟨parsePath (L p), FileKind.regular content, false, false⟩

/-- The program directory of the samples. -/
def sampleExePath : WString := L "C:\\App"

/-- The profile of the samples: game `G` with its saves in `C:\Saves`. -/
def sampleProfile : GameProfile := ⟨L "G", L "C:\\Saves", 60, false⟩

/-- The backup directory of the sample profile. -/
def sampleBackupDir : WString := backupPathBase sampleExePath sampleProfile.name

/-- Source lines 42-46: the initial values of the global settings. -/
def defaultGlobals : Globals := ⟨[], 20, 0, 10, 25⟩

/-- The program directory, an empty backup directory for `G` and a save
directory with one file. -/
def baseFs : FileSystem :=
  [dirNode "C:", dirNode "C:\\App", dirNode "C:\\App\\Backups", dirNode "C:\\App\\Backups\\G",
   dirNode "C:\\Saves", fileNode "C:\\Saves\\a.sav" [1, 2]]

/-- A world whose backup directory holds three automatic and two manual
archives, a directory `notes`, and a regular file whose name ends in `-A`. -/
def purgeWorld : World :=
  ⟨baseFs ++
    [dirNode "C:\\App\\Backups\\G\\1700000120-[2023-11-14_22-15-20]-A",
     dirNode "C:\\App\\Backups\\G\\1700000030-[2023-11-14_22-13-50]-M",
     dirNode "C:\\App\\Backups\\G\\1700000000-[2023-11-14_22-13-20]-A",
     fileNode "C:\\App\\Backups\\G\\1700000000-[2023-11-14_22-13-20]-A\\a.sav" [1],
     dirNode "C:\\App\\Backups\\G\\notes",
     fileNode "C:\\App\\Backups\\G\\list-A" [7],
     dirNode "C:\\App\\Backups\\G\\1700000060-[2023-11-14_22-14-20]-A",
     dirNode "C:\\App\\Backups\\G\\1700000090-[2023-11-14_22-14-50]-M"], [], []⟩

/-- The same backup directory as in `purgeWorld` with one more automatic
archive and the manual archives listed in another order. -/
def purgeWorld2 : World :=
  ⟨baseFs ++
    [dirNode "C:\\App\\Backups\\G\\1700000090-[2023-11-14_22-14-50]-M",
     dirNode "C:\\App\\Backups\\G\\1700000180-[2023-11-14_22-16-20]-A",
     dirNode "C:\\App\\Backups\\G\\1700000120-[2023-11-14_22-15-20]-A",
     dirNode "C:\\App\\Backups\\G\\1700000000-[2023-11-14_22-13-20]-A",
     dirNode "C:\\App\\Backups\\G\\1700000060-[2023-11-14_22-14-20]-A",
     dirNode "C:\\App\\Backups\\G\\1700000030-[2023-11-14_22-13-50]-M"], [], []⟩

/-- A world whose backup directory holds the automatic archives of the
instants 999999999 and 1000000000 (9 September 2001, 01:46:39 and 01:46:40
UTC), as `BackupSaveFolder` names them. -/
def rolloverWorld : World :=
  ⟨baseFs ++
    [dirNode "C:\\App\\Backups\\G\\999999999-[2001-09-09_01-46-39]-A",
     dirNode "C:\\App\\Backups\\G\\1000000000-[2001-09-09_01-46-40]-A"], [], []⟩

/-- A world whose backup directory holds one automatic archive and a
directory `00-keep-A` made by the user. -/
def strayWorld : World :=
  ⟨baseFs ++
    [dirNode "C:\\App\\Backups\\G\\1700000000-[2023-11-14_22-13-20]-A",
     dirNode "C:\\App\\Backups\\G\\00-keep-A",
     fileNode "C:\\App\\Backups\\G\\00-keep-A\\notes.txt" [9]], [], []⟩

/-- A world in which the save directory holds a second file that the game
holds open, so that it cannot be read. -/
def unreadableWorld : World :=
  ⟨baseFs ++ [lockedFileNode "C:\\Saves\\b.sav" [3]], [], []⟩

/-- A world in which the backup directory already holds the manual archive of
the instant 1700000000, with its copy of `a.sav`. -/
def collisionWorld : World :=
  ⟨baseFs ++
    [dirNode "C:\\App\\Backups\\G\\1700000000-[2023-11-14_22-13-20]-M",
     fileNode "C:\\App\\Backups\\G\\1700000000-[2023-11-14_22-13-20]-M\\a.sav" [1, 2]], [], []⟩

/-- The world of `collisionWorld` with the archived `a.sav` held open by
another process, so that it cannot be removed. -/
def lockedCollisionWorld : World :=
  ⟨baseFs ++
    [dirNode "C:\\App\\Backups\\G\\1700000000-[2023-11-14_22-13-20]-M",
     lockedFileNode "C:\\App\\Backups\\G\\1700000000-[2023-11-14_22-13-20]-M\\a.sav" [1, 2]],
    [], []⟩

/-- The text of the clock reading used in the samples. -/
def sampleCurrentTime : WString := L "2023-11-14 22:13:20"

/-- Last-write times that follow the creation instants: the time of a
directory is the epoch seconds at the start of its name. -/
def epochTimes (p : Path) : Except filesystem_error Int :=
  Except.ok (digitsValue ((filename p).takeWhile isDigit) 0)

/-- Last-write times after the user has changed something in the older manual
archive of `restoreWorld`: that directory now has the latest time. -/
def touchedTimes (p : Path) : Except filesystem_error Int :=
  if filename p == L "1700000030-[2023-11-14_22-13-50]-M" then Except.ok 1700005000
  else epochTimes p

/-- A world with two manual archives (the older one holds `a.sav` and
`sub\\b.sav`, the newer one holds `a.sav`) and a save directory that holds
`a.sav` and `old.sav`. -/
def restoreWorld : World :=
  ⟨baseFs ++
    [fileNode "C:\\Saves\\old.sav" [9],
     dirNode "C:\\App\\Backups\\G\\1700000030-[2023-11-14_22-13-50]-M",
     fileNode "C:\\App\\Backups\\G\\1700000030-[2023-11-14_22-13-50]-M\\a.sav" [5],
     dirNode "C:\\App\\Backups\\G\\1700000030-[2023-11-14_22-13-50]-M\\sub",
     fileNode "C:\\App\\Backups\\G\\1700000030-[2023-11-14_22-13-50]-M\\sub\\b.sav" [6],
     dirNode "C:\\App\\Backups\\G\\1700000090-[2023-11-14_22-14-50]-M",
     fileNode "C:\\App\\Backups\\G\\1700000090-[2023-11-14_22-14-50]-M\\a.sav" [7]], [], []⟩

/-- A profile whose save path is the program directory, which holds the
backup folder. -/
def appProfile : GameProfile := ⟨L "G", L "C:\\App", 60, false⟩

/-- The world of `baseFs` with no call made and nothing printed. -/
def baseWorld : World := ⟨baseFs, [], []⟩

/-- The initial settings with a mirror root. -/
def mirrorGlobals : Globals := ⟨L "G:\\Drive", 20, 0, 10, 25⟩

/-- The sample profile with the mirror enabled. -/
def mirrorProfile : GameProfile := ⟨L "G", L "C:\\Saves", 60, true⟩

/-- The mirror directory of the sample profile under `mirrorGlobals`. -/
def sampleMirrorDir : WString := cloudGamePath mirrorGlobals mirrorProfile

/-- Settings with a mirror root that keep one automatic archive at the local
location. -/
def tightGlobals : Globals := ⟨L "G:\\Drive", 1, 0, 10, 25⟩

/-- A world whose backup directory holds one automatic archive, of the
instant 1700000090: ninety seconds after the clock reading 1700000000 of the
samples (the clock has been set back since). -/
def clockBackWorld : World :=
  ⟨baseFs ++ [dirNode "C:\\App\\Backups\\G\\1700000090-[2023-11-14_22-14-50]-A"], [], []⟩

/-- A world in which the mirror directory already holds a manual archive of
the instant 1700000000 with its copy of `a.sav`. -/
def mirrorCollisionWorld : World :=
  ⟨baseFs ++
    [dirNode "G:", dirNode "G:\\Drive", dirNode "G:\\Drive\\Game Save Backup Manager",
     dirNode "G:\\Drive\\Game Save Backup Manager\\G",
     dirNode "G:\\Drive\\Game Save Backup Manager\\G\\1700000000-[2023-11-14_22-13-20]-M",
     fileNode "G:\\Drive\\Game Save Backup Manager\\G\\1700000000-[2023-11-14_22-13-20]-M\\a.sav"
       [1, 2]], [], []⟩

/-- A world whose backup directory cannot be listed. -/
def unlistableWorld : World :=
  ⟨[dirNode "C:", dirNode "C:\\App", dirNode "C:\\App\\Backups",
    ⟨parsePath (L "C:\\App\\Backups\\G"), FileKind.directory, false, true⟩,
    dirNode "C:\\Saves", fileNode "C:\\Saves\\a.sav" [1, 2]], [], []⟩

/-- A world whose mirror directory cannot be listed. -/
def unlistableMirrorWorld : World :=
  ⟨baseFs ++
    [dirNode "G:", dirNode "G:\\Drive", dirNode "G:\\Drive\\Game Save Backup Manager",
     ⟨parsePath (L "G:\\Drive\\Game Save Backup Manager\\G"), FileKind.directory, false, true⟩],
    [], []⟩

/-- A world whose backup directory holds three automatic archives; the file
in the one with the least name is held open by another process, so that it
cannot be removed. -/
def lockedArchiveWorld : World :=
  ⟨baseFs ++
    [dirNode "C:\\App\\Backups\\G\\1700000000-[2023-11-14_22-13-20]-A",
     lockedFileNode "C:\\App\\Backups\\G\\1700000000-[2023-11-14_22-13-20]-A\\a.sav" [1],
     dirNode "C:\\App\\Backups\\G\\1700000060-[2023-11-14_22-14-20]-A",
     dirNode "C:\\App\\Backups\\G\\1700000120-[2023-11-14_22-15-20]-A",
     dirNode "C:\\App\\Backups\\G\\1700000030-[2023-11-14_22-13-50]-M",
     dirNode "C:\\App\\Backups\\G\\1700000090-[2023-11-14_22-14-50]-M"], [], []⟩


/-- Settings that keep two automatic archives at the local location and one
at the mirror. -/
def pairGlobals : Globals := ⟨L "G:\\Drive", 2, 0, 1, 0⟩

/-- A world with three automatic archives in the local backup directory and
two in the mirror directory. -/
def pairWorld : World :=
  ⟨baseFs ++
    [dirNode "C:\\App\\Backups\\G\\1700000000-[2023-11-14_22-13-20]-A",
     dirNode "C:\\App\\Backups\\G\\1700000060-[2023-11-14_22-14-20]-A",
     dirNode "C:\\App\\Backups\\G\\1700000120-[2023-11-14_22-15-20]-A",
     dirNode "G:", dirNode "G:\\Drive", dirNode "G:\\Drive\\Game Save Backup Manager",
     dirNode "G:\\Drive\\Game Save Backup Manager\\G",
     dirNode "G:\\Drive\\Game Save Backup Manager\\G\\1700000060-[2023-11-14_22-14-20]-A",
     dirNode "G:\\Drive\\Game Save Backup Manager\\G\\1700000120-[2023-11-14_22-15-20]-A"],
    [], []⟩

/-! ## Profile names -/

/-- The function `::towupper` in the `C` locale, which the program never
leaves (it makes no call of `setlocale`): the letters `a`..`z` go to
`A`..`Z`, every other code unit stays. -/
def towupper (c : Nat) : Nat := if 97 ≤ c && c ≤ 122 then c - 32 else c

/-- Source lines 2659-2668: the loop of `IsValidFilename` over the characters
of the name; `true` when the loop makes the function return `false`. -/
def hasInvalidChar : WString → Bool
  | [] => false
  | c :: cs =>
    if c == 60 || c == 62 || c == 58 || c == 34 || c == 47 || c == 92 || c == 124 || c == 63 ||
        c == 42 then true
    else if c < 32 then true
    else hasInvalidChar cs

/-- Source lines 2652-2689: `IsValidFilename(name)`. -/
def IsValidFilename (name : WString) : Bool :=
  if name.isEmpty then false
  else if hasInvalidChar name then false
  else
    let upperName := name.map towupper
    if upperName == L "CON" || upperName == L "PRN" || upperName == L "AUX" ||
        upperName == L "NUL" ||
        (upperName.length == 4 && upperName.take 3 == L "COM" && upperName.getD 3 0 ≥ 49 &&
          upperName.getD 3 0 ≤ 57) ||
        (upperName.length == 4 && upperName.take 3 == L "LPT" && upperName.getD 3 0 ≥ 49 &&
          upperName.getD 3 0 ≤ 57) then false
    else if !name.isEmpty && (name.getLast? == some 32 || name.getLast? == some 46) then false
    else true

/-- The characters a name must not contain, as the claim lists them:
`< > : " / \ | ? *`. -/
def forbiddenChars : WString := L "<>:\"/\\|?*"

/-- The reserved device names: `CON`, `PRN`, `AUX`, `NUL`, `COM1`..`COM9`,
`LPT1`..`LPT9`. -/
def reservedNames : List WString :=
  [L "CON", L "PRN", L "AUX", L "NUL",
   L "COM1", L "COM2", L "COM3", L "COM4", L "COM5", L "COM6", L "COM7", L "COM8", L "COM9",
   L "LPT1", L "LPT2", L "LPT3", L "LPT4", L "LPT5", L "LPT6", L "LPT7", L "LPT8", L "LPT9"]

/-- Case folding of one code unit: `A`..`Z` go to `a`..`z`. -/
def foldCase (c : Nat) : Nat := if 65 ≤ c && c ≤ 90 then c + 32 else c

/-- Whether two wide strings are equal when the case of the letters `A`..`Z`
is ignored. -/
def equalIgnoringCase (a b : WString) : Bool := a.map foldCase == b.map foldCase

/-- The validity of a name as the specification words it: not empty, none of
the forbidden characters, no code unit below 32, not one of the reserved
names whatever the case of its letters, and no space or dot at the end. -/
def isValidFilename_spec (name : WString) : Bool :=
  !name.isEmpty &&
  name.all (fun c => !forbiddenChars.contains c && !(c < 32)) &&
  reservedNames.all (fun r => !equalIgnoringCase name r) &&
  !(name.getLast? == some 32 || name.getLast? == some 46)

/-- Source line 1388 (`DeleteGame`): the folder of the local backups of a
profile, removed as a whole on request. -/
def localBackupPath (exePath : WString) (profile : GameProfile) : WString :=
  exePath ++ L "\\Backups\\" ++ profile.name

/-- Source line 1411 (`DeleteGame`): the folder of the mirror backups of a
profile, removed as a whole on request. -/
def cloudBackupPath (g : Globals) (profile : GameProfile) : WString :=
  g.g_GoogleDrivePath ++ L "\\Game Save Backup Manager\\" ++ profile.name

/-! ## The list of a restore menu -/

/-- Source lines 1822-1832 and 1948-1958: the vector `backups` of
`RestoreFromLocal` and `RestoreFromCloud` after
`sort(backups.rbegin(), backups.rend())`, for the entries of the backup
folder: the paths of the directories, in descending order. -/
def offeredBackups (entries : List Node) : List Path :=
  (stdSort ((entries.filter (fun n => n.kind == FileKind.directory)).map
    (fun n => n.path))).reverse

/-- The world in which a restore menu waits for the number of the backup: the
folder has been tested and listed and the list has been printed. -/
def menuShown (m : MenuTexts) (w : World) (gamePath : WString) (selectedGame : GameProfile)
    (entries : List Node) : World :=
  ⟨w.fs,
    w.calls ++ [FsCall.file_exists (parsePath gamePath), FsCall.is_directory (parsePath gamePath),
      FsCall.directory_iterator (parsePath gamePath)],
    w.console ++
      ([m.title ++ selectedGame.name ++ L " ---", L "   (Newest first)", []] ++
        menuLines (offeredBackups entries) 0 ++
        [L "   -------------------------------------------",
         L "   Enter a number to restore (or 'x' to cancel): "])⟩

/-- The lines a restore menu prints before it asks for the confirmation. -/
def warningLines (m : MenuTexts) (backupToRestore : Path) : List WString :=
  [[], L "   ===================== WARNING =====================",
   L "    This will OVERWRITE your current save files with",
   m.warning ++ filename backupToRestore, [],
   L "    ARE YOU SURE? (y/n)", L "> "]

/-! ## The scheduler thread -/

/-- What the scheduler thread does, in order. -/
inductive AutoEvent where
  /-- A load of the atomic flag `g_keepAutoSaving`, with the value read. -/
  | flagRead (value : Bool)
  /-- One `this_thread::sleep_for(1s)`. -/
  | sleep
  /-- The call `BackupSaveFolder(profile, true)` is entered. -/
  | backupCalled
  /-- The call returned. -/
  | backupReturned
  /-- The call threw; the exception was caught and its line printed. -/
  | backupCaught (e : filesystem_error)
  /-- `AutoSaveThreadFunction` returns. -/
  | returned
deriving DecidableEq, Repr

/-- What the scheduler thread reads from outside: the value that the `k`-th
load of `g_keepAutoSaving` returns (other threads write the flag), the
readings of the clock at the `k`-th backup (`now` and the text of
`GetCurrentDateTime()`), and the inputs of `BackupSaveFolder`. -/
structure AutoEnv where
  keepAutoSaving : Nat → Bool
  clock : Nat → Int × WString
  g : Globals
  exePath : WString
  localtime : Int → tm

/-- The state of the scheduler thread: the world, the number of loads of the
flag and of backups made so far, and what the thread has done. -/
structure AutoState where
  world : World
  loads : Nat
  backups : Nat
  events : List AutoEvent
deriving DecidableEq, Repr

/-- One load of `g_keepAutoSaving`. -/
def AutoState.load (s : AutoState) (value : Bool) : AutoState :=
  { s with loads := s.loads + 1, events := s.events ++ [AutoEvent.flagRead value] }

/-- Source lines 2322-2326: the `for` loop that sleeps in steps of one second;
`remaining` counts the steps still to make.  The second component says
whether the function has returned. -/
def sleepLoop (keep : Nat → Bool) : Nat → AutoState → AutoState × Bool
  | 0, s => (s, false)
  | remaining + 1, s =>
    let s1 := s.load (keep s.loads)
    if !keep s.loads then ({ s1 with events := s1.events ++ [AutoEvent.returned] }, true)
    else sleepLoop keep remaining { s1 with events := s1.events ++ [AutoEvent.sleep] }

/-- Source lines 2319-2340: one round of the `while` loop of
`AutoSaveThreadFunction`: the test of the loop, the sleep loop, the test
before the backup, and the backup in its `try` block.  The second component
says whether the function has returned. -/
def autoSaveRound (env : AutoEnv) (profile : GameProfile) (s : AutoState) : AutoState × Bool :=
  let s0 := s.load (env.keepAutoSaving s.loads)
  if !env.keepAutoSaving s.loads then
    ({ s0 with events := s0.events ++ [AutoEvent.returned] }, true)
  else
    let r1 := sleepLoop env.keepAutoSaving profile.autoSaveInterval.toNat s0
    if r1.2 then r1
    else
      let s2 := r1.1.load (env.keepAutoSaving r1.1.loads)
      if !env.keepAutoSaving r1.1.loads then
        ({ s2 with events := s2.events ++ [AutoEvent.returned] }, true)
      else
        let res := BackupSaveFolder env.g env.exePath env.localtime (env.clock s2.backups).1
          (env.clock s2.backups).2 s2.world profile true
        match res.thrown with
        | none =>
          ({ s2 with world := res.world, backups := s2.backups + 1,
                     events := s2.events ++ [AutoEvent.backupCalled, AutoEvent.backupReturned] },
            false)
        | some e =>
          ({ s2 with world := res.world.print (L "Auto-save thread backup error: " ++ e.what),
                     backups := s2.backups + 1,
                     events := s2.events ++ [AutoEvent.backupCalled, AutoEvent.backupCaught e] },
            false)

/-- Source lines 2316-2341: `AutoSaveThreadFunction(profile)`, run for at most
`rounds` rounds of its `while` loop.  The second component says whether the
function has returned; it is `false` when the rounds are used up and the
loop is still running. -/
def AutoSaveThreadFunction (env : AutoEnv) (profile : GameProfile) :
    Nat → AutoState → AutoState × Bool
  | 0, s => (s, false)
  | rounds + 1, s =>
    let r := autoSaveRound env profile s
    if r.2 then r else AutoSaveThreadFunction env profile rounds r.1

/-- The state in which the thread starts. -/
def AutoState.start (w : World) : AutoState := ⟨w, 0, 0, []⟩

/-- The events of `n` steps of the sleep loop that all found the flag set. -/
def sleepBlock (n : Nat) : List AutoEvent :=
  (List.replicate n [AutoEvent.flagRead true, AutoEvent.sleep]).flatten

/-- The events of a round that ends in a backup with the given outcome: the
test of the loop, `n` sleeps with the test before each, the test before the
backup, the call and its outcome. -/
def backupRound (n : Nat) (outcome : AutoEvent) : List AutoEvent :=
  AutoEvent.flagRead true :: sleepBlock n ++
    [AutoEvent.flagRead true, AutoEvent.backupCalled, outcome]

/-- The events of a round in which a test finds the flag cleared.  For `0` it
is the test of the `while` loop; for `i + 1` the test of the loop found the
flag set, `i` sleeps were made, each after a test that found it set, and the
next test (in the sleep loop or, for `i` equal to the interval, before the
backup) finds it cleared.  The function returns at once. -/
def cancelledRound : Nat → List AutoEvent
  | 0 => [AutoEvent.flagRead false, AutoEvent.returned]
  | i + 1 => AutoEvent.flagRead true :: sleepBlock i ++
      [AutoEvent.flagRead false, AutoEvent.returned]

/-- A sample environment of the scheduler thread: the flag stays set, a
backup is made every minute from 1700000000 on, the settings are the initial
ones. -/
def runningEnv : AutoEnv :=
  ⟨fun _ => true, fun k => (1700000000 + 60 * (k : Int), sampleCurrentTime), defaultGlobals,
    sampleExePath, utcLocaltime⟩

/-- The environment `runningEnv` with the flag cleared before the sixth load. -/
def stoppedEnv : AutoEnv :=
  ⟨fun k => decide (k < 5), fun k => (1700000000 + 60 * (k : Int), sampleCurrentTime),
    defaultGlobals, sampleExePath, utcLocaltime⟩

/-- The sample profile with an interval of two seconds. -/
def quickProfile : GameProfile := ⟨L "G", L "C:\\Saves", 2, false⟩

/-! ## The foreground thread and the executions of the two threads -/

/-- What the foreground thread does in its message loop, as far as the
backups and the scheduler thread are concerned. -/
inductive MainEvent where
  /-- The call `BackupSaveFolder(selectedGame, false)` is entered. -/
  | manualCalled
  /-- The call returned. -/
  | manualReturned
  /-- The store `g_keepAutoSaving = false`. -/
  | flagCleared
  /-- The call `g_autoSaveThread.join()` returned. -/
  | joined
deriving DecidableEq, Repr

/-- Source lines 336-378: the message loop of `main` while a game is
monitored, for the values of `wParam` of the `WM_HOTKEY` messages in the
order of their arrival.  The message 1 calls `BackupSaveFolder(selectedGame,
false)`; the message 5 clears the flag, joins the scheduler thread and leaves
the loop; the other messages neither call `BackupSaveFolder` nor touch the
flag. -/
def messageLoop : List Nat → List MainEvent
  | [] => []
  | wParam :: rest =>
    if wParam == 1 then MainEvent.manualCalled :: MainEvent.manualReturned :: messageLoop rest
    else if wParam == 5 then [MainEvent.flagCleared, MainEvent.joined]
    else messageLoop rest

/-- An event of one of the two threads. -/
inductive ThreadEvent where
  | main (e : MainEvent)
  | auto (e : AutoEvent)
deriving DecidableEq, Repr

/-- The events of the foreground thread in an interleaving, in order. -/
def mainPart : List ThreadEvent → List MainEvent
  | [] => []
  | ThreadEvent.main e :: t => e :: mainPart t
  | ThreadEvent.auto _ :: t => mainPart t

/-- The events of the scheduler thread in an interleaving, in order. -/
def autoPart : List ThreadEvent → List AutoEvent
  | [] => []
  | ThreadEvent.main _ :: t => autoPart t
  | ThreadEvent.auto e :: t => e :: autoPart t

/-- Whether an interleaving respects the two things the threads share: every
load of `g_keepAutoSaving` reads the value last stored (`flag`), and
`join()` returns only after the scheduler thread has returned
(`threadReturned`). -/
def respectsShared : Bool → Bool → List ThreadEvent → Bool
  | _, _, [] => true
  | _, threadReturned, ThreadEvent.main MainEvent.flagCleared :: t =>
    respectsShared false threadReturned t
  | flag, threadReturned, ThreadEvent.main MainEvent.joined :: t =>
    threadReturned && respectsShared flag threadReturned t
  | flag, threadReturned, ThreadEvent.auto (AutoEvent.flagRead value) :: t =>
    (value == flag) && respectsShared flag threadReturned t
  | flag, _, ThreadEvent.auto AutoEvent.returned :: t => respectsShared flag true t
  | flag, threadReturned, _ :: t => respectsShared flag threadReturned t

/-- An execution of the two threads: an interleaving of what the message loop
does for the messages `msgs` and of what the scheduler thread does, that
respects the flag (set by `CreateAutoSaveThread` before the thread starts)
and the join.  The source has no other synchronisation between the two
threads, so no other condition is put on the interleaving. -/
def isExecution (msgs : List Nat) (autoEvents : List AutoEvent) (t : List ThreadEvent) : Bool :=
  mainPart t == messageLoop msgs && autoPart t == autoEvents && respectsShared true false t

/-- Whether, at some moment of an interleaving, a manual and an automatic run
of `BackupSaveFolder` are both in progress; `manual` and `automatic` say
which runs are in progress at the start. -/
def bothInProgress : Bool → Bool → List ThreadEvent → Bool
  | _, _, [] => false
  | _, automatic, ThreadEvent.main MainEvent.manualCalled :: t =>
    automatic || bothInProgress true automatic t
  | _, automatic, ThreadEvent.main MainEvent.manualReturned :: t =>
    bothInProgress false automatic t
  | manual, _, ThreadEvent.auto AutoEvent.backupCalled :: t =>
    manual || bothInProgress manual true t
  | manual, _, ThreadEvent.auto AutoEvent.backupReturned :: t => bothInProgress manual false t
  | manual, _, ThreadEvent.auto (AutoEvent.backupCaught _) :: t =>
    bothInProgress manual false t
  | manual, automatic, _ :: t => bothInProgress manual automatic t

/-- Whether no run of `BackupSaveFolder` is entered while a run of the same
kind (manual, automatic) is in progress. -/
def sameKindSerial : Bool → Bool → List ThreadEvent → Bool
  | _, _, [] => true
  | manual, automatic, ThreadEvent.main MainEvent.manualCalled :: t =>
    !manual && sameKindSerial true automatic t
  | _, automatic, ThreadEvent.main MainEvent.manualReturned :: t =>
    sameKindSerial false automatic t
  | manual, automatic, ThreadEvent.auto AutoEvent.backupCalled :: t =>
    !automatic && sameKindSerial manual true t
  | manual, _, ThreadEvent.auto AutoEvent.backupReturned :: t => sameKindSerial manual false t
  | manual, _, ThreadEvent.auto (AutoEvent.backupCaught _) :: t =>
    sameKindSerial manual false t
  | manual, automatic, _ :: t => sameKindSerial manual automatic t

/-- Whether the scheduler thread does nothing after `join()` has returned in
the foreground thread; `joined` says whether it has returned already. -/
def quietAfterJoin : Bool → List ThreadEvent → Bool
  | _, [] => true
  | _, ThreadEvent.main MainEvent.joined :: t => quietAfterJoin true t
  | joined, ThreadEvent.main _ :: t => quietAfterJoin joined t
  | joined, ThreadEvent.auto _ :: t => !joined && quietAfterJoin joined t

/-- Whether the foreground thread enters no manual run while one is in
progress. -/
def mainSerial : Bool → List MainEvent → Bool
  | _, [] => true
  | manual, MainEvent.manualCalled :: t => !manual && mainSerial true t
  | _, MainEvent.manualReturned :: t => mainSerial false t
  | manual, _ :: t => mainSerial manual t

/-- Whether the scheduler thread enters no automatic run while one is in
progress. -/
def autoSerial : Bool → List AutoEvent → Bool
  | _, [] => true
  | automatic, AutoEvent.backupCalled :: t => !automatic && autoSerial true t
  | _, AutoEvent.backupReturned :: t => autoSerial false t
  | _, AutoEvent.backupCaught _ :: t => autoSerial false t
  | automatic, _ :: t => autoSerial automatic t

/-- Whether the return of the scheduler thread, if there is one, is the last
thing it does. -/
def nothingAfterReturn : List AutoEvent → Bool
  | [] => true
  | AutoEvent.returned :: t => t.isEmpty
  | _ :: t => nothingAfterReturn t

/-- An interleaving in which the hotkey of the manual backup arrives while the
automatic backup of the first round is in progress (interval of two
seconds). -/
def overlapTrace : List ThreadEvent :=
  [ThreadEvent.auto (AutoEvent.flagRead true),
   ThreadEvent.auto (AutoEvent.flagRead true), ThreadEvent.auto AutoEvent.sleep,
   ThreadEvent.auto (AutoEvent.flagRead true), ThreadEvent.auto AutoEvent.sleep,
   ThreadEvent.auto (AutoEvent.flagRead true),
   ThreadEvent.auto AutoEvent.backupCalled,
   ThreadEvent.main MainEvent.manualCalled,
   ThreadEvent.auto AutoEvent.backupReturned,
   ThreadEvent.main MainEvent.manualReturned]

/-! ## A series of automatic backups -/

/-- Whether the removals of the given paths, made one after the other, all
succeed. -/
def removalsSucceed : List Path → FileSystem → Bool
  | [], _ => true
  | p :: ps, fs => (fs_remove_all fs p).2.isNone && removalsSucceed ps (fs_remove_all fs p).1

/-- The world after automatic backups at the given readings of the clock
(`now` and the text of `GetCurrentDateTime()`), one after the other. -/
def autoBackups (g : Globals) (exePath : WString) (localtime : Int → tm)
    (profile : GameProfile) : List (Int × WString) → World → World
  | [], w => w
  | r :: rest, w =>
    autoBackups g exePath localtime profile rest
      (BackupSaveFolder g exePath localtime r.1 r.2 w profile true).world

/-- Whether each of the automatic backups at the given readings succeeds: the
local copy throws nothing and has made the archive directory (the save path
is a directory, as `main` checks before it starts the scheduler thread), and
every removal of the local purge succeeds. -/
def backupsSucceed (g : Globals) (exePath : WString) (localtime : Int → tm)
    (profile : GameProfile) : List (Int × WString) → World → Bool
  | [], _ => true
  | r :: rest, w =>
    (localCopy exePath localtime r.1 w profile true).2.isNone &&
    fs_is_directory (localCopy exePath localtime r.1 w profile true).1.fs
      (parsePath (backupPathBase exePath profile.name) ++ [backupFolderName localtime r.1 true]) &&
    removalsSucceed
      (purgeDeleted (localCopy exePath localtime r.1 w profile true).1
        (localPurge g exePath localtime r.1 w profile true))
      (localCopy exePath localtime r.1 w profile true).1.fs &&
    backupsSucceed g exePath localtime profile rest
      (BackupSaveFolder g exePath localtime r.1 r.2 w profile true).world

/-- The archive directories of one class in the local backup folder of a
profile: the directories of the class among the entries of the folder. -/
def localArchives (exePath : WString) (profile : GameProfile) (autoClass : Bool) (w : World) :
    List Path :=
  classDirs autoClass
    (w.fs.filter (fun m => isChildOf (parsePath (backupPathBase exePath profile.name)) m.path))

/-- The path of the automatic archive of an instant in a backup folder. -/
def autoArchive (localtime : Int → tm) (dir : Path) (t : Int) : Path :=
  dir ++ [backupFolderName localtime t true]

/-- A backup folder that holds automatic archives only: the folder can be
listed and its entries are, in the order of the listing, the archive
directories of the given instants. -/
def holdsAutoArchives (localtime : Int → tm) (dir : Path) (fs : FileSystem) (times : List Int) :
    Prop :=
  ∃ entries, fs_directory_iterator fs dir = Except.ok entries ∧
    entries.map (fun n => n.path) = times.map (autoArchive localtime dir) ∧
    ∀ n ∈ entries, n.kind = FileKind.directory

/-- Two readings of the clock, one second apart, around the instant at which
the epoch seconds get a tenth digit. -/
def rolloverReadings : List (Int × WString) :=
  [(999999999, L "2001-09-09 01:46:39"), (1000000000, L "2001-09-09 01:46:40")]

/-! ## Further sample worlds -/

/-- A world in which the place of the backup folder of `G` is taken by a
regular file. -/
def fileBackupWorld : World :=
  ⟨[dirNode "C:", dirNode "C:\\App", dirNode "C:\\App\\Backups",
    fileNode "C:\\App\\Backups\\G" [0],
    dirNode "C:\\Saves", fileNode "C:\\Saves\\a.sav" [1, 2]], [], []⟩

/-- A world in which the mirror root `G:\Drive` is a regular file, so that no
directory can be made below it. -/
def blockedMirrorWorld : World :=
  ⟨baseFs ++ [dirNode "G:", fileNode "G:\\Drive" [0]], [], []⟩

/-- Settings with a mirror root that keep every archive at the local location
and one automatic archive at the mirror. -/
def looseLocalGlobals : Globals := ⟨L "G:\\Drive", 0, 0, 1, 0⟩

/-- The settings of `looseLocalGlobals` with the local automatic limit 1. -/
def tightLocalGlobals : Globals := ⟨L "G:\\Drive", 1, 0, 1, 0⟩

/-- The world of `clockBackWorld` (one automatic archive at the local
location, of the instant 1700000090) with two automatic archives in the
mirror directory. -/
def clockBackMirrorWorld : World :=
  ⟨baseFs ++
    [dirNode "C:\\App\\Backups\\G\\1700000090-[2023-11-14_22-14-50]-A",
     dirNode "G:", dirNode "G:\\Drive", dirNode "G:\\Drive\\Game Save Backup Manager",
     dirNode "G:\\Drive\\Game Save Backup Manager\\G",
     dirNode "G:\\Drive\\Game Save Backup Manager\\G\\1600000000-[2020-09-13_12-26-40]-A",
     dirNode "G:\\Drive\\Game Save Backup Manager\\G\\1600000060-[2020-09-13_12-27-40]-A"],
    [], []⟩

/-- A world whose backup directory holds the automatic archives of the
instants 999999998, 999999999 and 1000000000; a file in the archive of
1000000000 is held open by another process, so that it cannot be removed. -/
def rolloverLockedWorld : World :=
  ⟨baseFs ++
    [dirNode "C:\\App\\Backups\\G\\999999998-[2001-09-09_01-46-38]-A",
     dirNode "C:\\App\\Backups\\G\\999999999-[2001-09-09_01-46-39]-A",
     dirNode "C:\\App\\Backups\\G\\1000000000-[2001-09-09_01-46-40]-A",
     lockedFileNode "C:\\App\\Backups\\G\\1000000000-[2001-09-09_01-46-40]-A\\a.sav" [1]],
    [], []⟩

/-- The paths handed to `fs::remove_all` in some calls that are immediate
children of the directory `dir`, in the order of the calls. -/
def removedUnder (dir : Path) (calls : List FsCall) : List Path :=
  (removeAllTargets calls).filter (fun p => isChildOf dir p)

/-! ## Directories that lie apart -/

/-- A segment in plain spelling: it is not empty, it is made of ASCII code
units other than `~`, and it does not end in a dot or a space.  So it is
neither `.` nor `..`, which the file system resolves, nor a name whose
trailing dots and spaces the file system drops, nor a short alias of a long
name, and `towupper` is all there is to the case of its letters. -/
def plainSegment (s : WString) : Bool :=
  !s.isEmpty && s.all (fun c => c < 128 && c != 126) &&
    s.getLast? != some 46 && s.getLast? != some 32

/-- A path in plain spelling: it starts with a drive (a letter and a colon)
and every segment after the drive is in plain spelling. -/
def plainPath : Path → Bool
  | [] => false
  | d :: rest =>
    d.length == 2 && (d.head?.map towupper).any (fun c => 65 ≤ c && c ≤ 90) &&
      d.getLast? == some 58 && rest.all plainSegment

/-- The path with every letter `a`..`z` in upper case: the file system of
the program ignores the case of letters. -/
def foldPath (p : Path) : Path := p.map (fun s => s.map towupper)

/-- Whether two directories lie apart for the file system of the program,
which resolves `.` and `..` and ignores the case of letters: both paths are
in plain spelling, and neither is at or below the other when the case of
letters is ignored.  (The worlds of this development have no links.) -/
def apart (p q : Path) : Bool :=
  plainPath p && plainPath q && !comparable (foldPath p) (foldPath q)

/-! ## Wide strings: comparison, suffixes and decimal digits -/

theorem L_dashA : L "-A" = [45, 65] := rfl

theorem L_dashM : L "-M" = [45, 77] := rfl

theorem wcompare_self (a : WString) : wcompare a a = Ordering.eq := by
  induction a with
  | nil => rfl
  | cons x xs ih => simp [wcompare, ih]

theorem wcompare_swap (a b : WString) : wcompare b a = (wcompare a b).swap := by
  induction a generalizing b with
  | nil => cases b <;> rfl
  | cons x xs ih =>
    cases b with
    | nil => rfl
    | cons y ys =>
      simp only [wcompare]
      rcases Nat.lt_trichotomy x y with h | h | h
      · have h2 : ¬ y < x := by omega
        simp [h, h2, Ordering.swap]
      · subst h
        simp [ih]
      · have h2 : ¬ x < y := by omega
        simp [h, h2, Ordering.swap]

theorem wcompare_eq_iff (a b : WString) : wcompare a b = Ordering.eq ↔ a = b := by
  induction a generalizing b with
  | nil => cases b <;> simp [wcompare]
  | cons x xs ih =>
    cases b with
    | nil => simp [wcompare]
    | cons y ys =>
      simp only [wcompare]
      rcases Nat.lt_trichotomy x y with h | h | h
      · have h3 : x ≠ y := by omega
        simp [h, h3]
      · subst h
        simp [ih]
      · have h2 : ¬ x < y := by omega
        have h3 : x ≠ y := by omega
        simp [h, h2, h3]

theorem wcompare_lt_trans (a b c : WString) (h1 : wcompare a b = Ordering.lt)
    (h2 : wcompare b c = Ordering.lt) : wcompare a c = Ordering.lt := by
  induction a generalizing b c with
  | nil =>
    cases b with
    | nil => simp [wcompare] at h1
    | cons y ys =>
      cases c with
      | nil => simp [wcompare] at h2
      | cons z zs => rfl
  | cons x xs ih =>
    cases b with
    | nil => simp [wcompare] at h1
    | cons y ys =>
      cases c with
      | nil => simp [wcompare] at h2
      | cons z zs =>
        simp only [wcompare] at h1 h2 ⊢
        by_cases hxy : x < y
        · by_cases hyz : y < z
          · have : x < z := by omega
            simp [this]
          · simp only [hyz, if_false] at h2
            by_cases hzy : z < y
            · simp [hzy] at h2
            · have : x < z := by omega
              simp [this]
        · simp only [hxy, if_false] at h1
          by_cases hyx : y < x
          · simp [hyx] at h1
          · simp only [hyx, if_false] at h1
            have hxy2 : x = y := by omega
            subst hxy2
            by_cases hyz : x < z
            · simp [hyz]
            · simp only [hyz, if_false] at h2 ⊢
              by_cases hzy : z < x
              · simp [hzy] at h2
              · simp only [hzy, if_false] at h2 ⊢
                exact ih ys zs h1 h2

theorem wcompare_append_left (p u v : WString) : wcompare (p ++ u) (p ++ v) = wcompare u v := by
  induction p with
  | nil => rfl
  | cons x xs ih => simp [wcompare, ih]

theorem wcompare_lt_append (x y u v : WString) (hlen : x.length = y.length)
    (h : wcompare x y = Ordering.lt) : wcompare (x ++ u) (y ++ v) = Ordering.lt := by
  induction x generalizing y with
  | nil =>
    cases y with
    | nil => simp [wcompare] at h
    | cons b bs => simp at hlen
  | cons a as ih =>
    cases y with
    | nil => simp at hlen
    | cons b bs =>
      simp only [List.cons_append, wcompare] at h ⊢
      by_cases hab : a < b
      · simp [hab]
      · simp only [hab, if_false] at h ⊢
        by_cases hba : b < a
        · simp [hba] at h
        · simp only [hba, if_false] at h ⊢
          exact ih bs (by simpa using hlen) h

theorem endsWith_iff (str suffix : WString) : endsWith str suffix = true ↔ suffix <:+ str := by
  unfold endsWith
  by_cases h : str.length < suffix.length
  · simp only [h, if_true]
    constructor
    · intro hf; cases hf
    · intro hs
      have := hs.length_le
      omega
  · simp only [h, if_false]
    have hlen : (str.drop (str.length - suffix.length)).length = suffix.length := by
      simp; omega
    have htake : (str.drop (str.length - suffix.length)).take suffix.length
        = str.drop (str.length - suffix.length) := by
      exact List.take_of_length_le (Nat.le_of_eq hlen)
    rw [htake, beq_iff_eq, List.suffix_iff_eq_drop]
    constructor
    · intro e; exact e.symm
    · intro e; exact e.symm

theorem endsWith_append (x s : WString) : endsWith (x ++ s) s = true :=
  (endsWith_iff _ _).2 (List.suffix_append x s)

theorem endsWith_append_pair (x : WString) (a b c d : Nat) :
    endsWith (x ++ [a, b]) [c, d] = (decide (a = c) && decide (b = d)) := by
  have h : endsWith (x ++ [a, b]) [c, d] = true ↔ (a = c ∧ b = d) := by
    rw [endsWith_iff]
    constructor
    · rintro ⟨t, ht⟩
      have h1 : t ++ [c, d] = x ++ [a, b] := ht
      have h2 := List.append_inj_right' h1 rfl
      simp at h2
      exact ⟨h2.1.symm, h2.2.symm⟩
    · rintro ⟨rfl, rfl⟩
      exact List.suffix_append x _
  by_cases hac : a = c <;> by_cases hbd : b = d <;> simp_all

theorem decimalDigits_fuel (n : Nat) : ∀ f g : Nat, n < f → n < g →
    decimalDigits f n = decimalDigits g n := by
  induction n using Nat.strong_induction_on with
  | _ n ih =>
    intro f g hf hg
    cases f with
    | zero => omega
    | succ f =>
      cases g with
      | zero => omega
      | succ g =>
        simp only [decimalDigits]
        by_cases h : n < 10
        · simp [h]
        · simp only [h, if_false]
          rw [ih (n / 10) (by omega) f g (by omega) (by omega)]

theorem natToWString_eq (n : Nat) :
    natToWString n = if n < 10 then [48 + n] else natToWString (n / 10) ++ [48 + n % 10] := by
  unfold natToWString
  by_cases h : n < 10
  · simp [decimalDigits, h]
  · rw [show decimalDigits (n + 1) n = decimalDigits n (n / 10) ++ [48 + n % 10] by
      simp [decimalDigits, h]]
    rw [if_neg h, decimalDigits_fuel (n / 10) n (n / 10 + 1) (by omega) (by omega)]

theorem natToWString_ne_nil (n : Nat) : natToWString n ≠ [] := by
  rw [natToWString_eq]
  by_cases h : n < 10 <;> simp [h]

theorem natToWString_digits (n : Nat) : ∀ c ∈ natToWString n, isDigit c = true := by
  induction n using Nat.strong_induction_on with
  | _ n ih =>
    rw [natToWString_eq]
    by_cases h : n < 10
    · simp only [h, if_true, List.mem_singleton]
      rintro c rfl
      simp [isDigit]; omega
    · simp only [h, if_false, List.mem_append, List.mem_singleton]
      rintro c (hc | rfl)
      · exact ih (n / 10) (by omega) c hc
      · simp [isDigit]; omega

theorem natToWString_lt (a b : Nat) (hab : a < b)
    (hlen : (natToWString a).length = (natToWString b).length) :
    wcompare (natToWString a) (natToWString b) = Ordering.lt := by
  induction b using Nat.strong_induction_on generalizing a with
  | _ b ih =>
    rw [natToWString_eq a, natToWString_eq b] at hlen ⊢
    by_cases ha : a < 10
    · by_cases hb : b < 10
      · simp only [ha, hb, if_true, wcompare]
        have : 48 + a < 48 + b := by omega
        simp [this]
      · exfalso
        simp only [ha, hb, if_true, if_false, List.length_append, List.length_singleton] at hlen
        have := List.length_pos.2 (natToWString_ne_nil (b / 10))
        omega
    · have hb : ¬ b < 10 := by omega
      simp only [ha, hb, if_false, List.length_append, List.length_singleton] at hlen ⊢
      have hlen2 : (natToWString (a / 10)).length = (natToWString (b / 10)).length := by omega
      rcases Nat.lt_or_ge (a / 10) (b / 10) with hq | hq
      · exact wcompare_lt_append _ _ _ _ hlen2 (ih (b / 10) (by omega) (a / 10) hq hlen2)
      · have hq2 : a / 10 = b / 10 := by
          have := Nat.div_le_div_right (c := 10) (Nat.le_of_lt hab)
          omega
        rw [hq2, wcompare_append_left]
        have : 48 + a % 10 < 48 + b % 10 := by omega
        simp [wcompare, this]

/-! ## Paths: comparison, sorting and parsing -/

theorem pathCompare_self (a : Path) : pathCompare a a = Ordering.eq := by
  induction a with
  | nil => rfl
  | cons x xs ih => simp [pathCompare, wcompare_self, ih]

theorem pathCompare_swap (a b : Path) : pathCompare b a = (pathCompare a b).swap := by
  induction a generalizing b with
  | nil => cases b <;> rfl
  | cons x xs ih =>
    cases b with
    | nil => rfl
    | cons y ys =>
      simp only [pathCompare]
      rw [wcompare_swap x y]
      cases wcompare x y <;> simp [Ordering.swap, ih]

theorem pathCompare_eq_iff (a b : Path) : pathCompare a b = Ordering.eq ↔ a = b := by
  induction a generalizing b with
  | nil => cases b <;> simp [pathCompare]
  | cons x xs ih =>
    cases b with
    | nil => simp [pathCompare]
    | cons y ys =>
      simp only [pathCompare]
      cases h : wcompare x y with
      | lt =>
        have : x ≠ y := fun e => by rw [e, wcompare_self] at h; cases h
        simp [this]
      | gt =>
        have : x ≠ y := fun e => by rw [e, wcompare_self] at h; cases h
        simp [this]
      | eq =>
        have := (wcompare_eq_iff x y).1 h
        simp [this, ih]

theorem pathCompare_lt_trans (a b c : Path) (h1 : pathCompare a b = Ordering.lt)
    (h2 : pathCompare b c = Ordering.lt) : pathCompare a c = Ordering.lt := by
  induction a generalizing b c with
  | nil =>
    cases b with
    | nil => simp [pathCompare] at h1
    | cons y ys =>
      cases c with
      | nil => simp [pathCompare] at h2
      | cons z zs => rfl
  | cons x xs ih =>
    cases b with
    | nil => simp [pathCompare] at h1
    | cons y ys =>
      cases c with
      | nil => simp [pathCompare] at h2
      | cons z zs =>
        simp only [pathCompare] at h1 h2 ⊢
        cases hxy : wcompare x y with
        | gt => simp [hxy] at h1
        | lt =>
          cases hyz : wcompare y z with
          | gt => simp [hyz] at h2
          | lt => simp [wcompare_lt_trans x y z hxy hyz]
          | eq =>
            have e := (wcompare_eq_iff y z).1 hyz
            subst e
            simp [hxy]
        | eq =>
          have e := (wcompare_eq_iff x y).1 hxy
          subst e
          simp only [hxy] at h1
          cases hyz : wcompare x z with
          | gt => simp [hyz] at h2
          | lt => rfl
          | eq =>
            simp only [hyz] at h2
            exact ih ys zs h1 h2

theorem pathCompare_append_left (p u v : Path) :
    pathCompare (p ++ u) (p ++ v) = pathCompare u v := by
  induction p with
  | nil => rfl
  | cons x xs ih => simp [pathCompare, wcompare_self, ih]

theorem pathCompare_sibling (dir : Path) (a b : WString) :
    pathCompare (dir ++ [a]) (dir ++ [b]) = wcompare a b := by
  rw [pathCompare_append_left]
  simp only [pathCompare]
  cases wcompare a b <;> rfl

theorem pathLe_total (a b : Path) : pathLe a b ∨ pathLe b a := by
  unfold pathLe
  by_cases h : pathCompare b a = Ordering.lt
  · right
    rw [pathCompare_swap b a, h]
    simp [Ordering.swap]
  · exact Or.inl h

theorem pathLe_antisymm (a b : Path) (h1 : pathLe a b) (h2 : pathLe b a) : a = b := by
  unfold pathLe at h1 h2
  apply (pathCompare_eq_iff a b).1
  rw [pathCompare_swap a b] at h1
  cases h : pathCompare a b with
  | lt => exact absurd h h2
  | eq => rfl
  | gt => rw [h] at h1; simp [Ordering.swap] at h1

theorem pathLe_trans (a b c : Path) (h1 : pathLe a b) (h2 : pathLe b c) : pathLe a c := by
  unfold pathLe at *
  intro hca
  -- `c < a`; compare `a` with `b`
  cases hab : pathCompare a b with
  | lt => exact h2 (pathCompare_lt_trans c a b hca hab)
  | eq =>
    have e := (pathCompare_eq_iff a b).1 hab
    subst e
    exact h2 hca
  | gt =>
    rw [pathCompare_swap a b, hab] at h1
    simp [Ordering.swap] at h1

instance pathLe_isTotal : IsTotal Path pathLe := ⟨pathLe_total⟩

instance pathLe_isTrans : IsTrans Path pathLe := ⟨pathLe_trans⟩

instance pathLe_isAntisymm : IsAntisymm Path pathLe := ⟨pathLe_antisymm⟩

theorem stdSort_sorted (v : List Path) : List.Sorted pathLe (stdSort v) :=
  List.sorted_insertionSort pathLe v

theorem stdSort_perm (v : List Path) : List.Perm (stdSort v) v :=
  List.perm_insertionSort pathLe v

/-- The ascending arrangement computed by `stdSort` is the only sorted
permutation of the vector: `std::sort` can return nothing else. -/
theorem stdSort_unique (v r : List Path) (hp : List.Perm r v) (hs : List.Sorted pathLe r) :
    r = stdSort v :=
  List.eq_of_perm_of_sorted (hp.trans (stdSort_perm v).symm) hs (stdSort_sorted v)

theorem stdSort_congr (u v : List Path) (hp : List.Perm u v) : stdSort u = stdSort v :=
  stdSort_unique v (stdSort u) ((stdSort_perm u).trans hp) (stdSort_sorted u)

theorem stdSort_length (v : List Path) : (stdSort v).length = v.length :=
  (stdSort_perm v).length_eq

theorem splitSegments_append_sep (a b : WString) (c : Nat) (hc : isSeparator c = true) :
    splitSegments (a ++ c :: b) = ((splitSegments a).1, (splitSegments a).2 ++ parsePath b) := by
  induction a with
  | nil => simp [splitSegments, hc, parsePath]
  | cons x xs ih =>
    have e : splitSegments (x :: xs ++ c :: b)
        = (if isSeparator x then
            ([], if (splitSegments (xs ++ c :: b)).1.isEmpty then (splitSegments (xs ++ c :: b)).2
              else (splitSegments (xs ++ c :: b)).1 :: (splitSegments (xs ++ c :: b)).2)
           else (x :: (splitSegments (xs ++ c :: b)).1, (splitSegments (xs ++ c :: b)).2)) := rfl
    have e2 : splitSegments (x :: xs)
        = (if isSeparator x then
            ([], if (splitSegments xs).1.isEmpty then (splitSegments xs).2
              else (splitSegments xs).1 :: (splitSegments xs).2)
           else (x :: (splitSegments xs).1, (splitSegments xs).2)) := rfl
    rw [e, e2, ih]
    by_cases hx : isSeparator x = true
    · simp only [hx, if_true]
      by_cases he : (splitSegments xs).1.isEmpty = true <;> simp [he]
    · simp [hx]

theorem parsePath_append_sep (a b : WString) (c : Nat) (hc : isSeparator c = true) :
    parsePath (a ++ c :: b) = parsePath a ++ parsePath b := by
  unfold parsePath
  simp only [splitSegments_append_sep a b c hc]
  by_cases he : (splitSegments a).1.isEmpty = true <;> simp [he, parsePath]

theorem splitSegments_segment (b : WString) (h : ∀ c ∈ b, isSeparator c = false) :
    splitSegments b = (b, []) := by
  induction b with
  | nil => rfl
  | cons x xs ih =>
    have hx : isSeparator x = false := h x (List.mem_cons_self _ _)
    simp [splitSegments, hx, ih (fun c hc => h c (List.mem_cons_of_mem _ hc))]

theorem parsePath_segment (b : WString) (hne : b ≠ []) (h : ∀ c ∈ b, isSeparator c = false) :
    parsePath b = [b] := by
  unfold parsePath
  rw [splitSegments_segment b h]
  cases b with
  | nil => exact absurd rfl hne
  | cons x xs => simp

theorem parsePath_child (dir name : WString) (hne : name ≠ [])
    (h : ∀ c ∈ name, isSeparator c = false) :
    parsePath (dir ++ L "\\" ++ name) = parsePath dir ++ [name] := by
  have e : dir ++ L "\\" ++ name = dir ++ 92 :: name := by
    simp [L]
  rw [e, parsePath_append_sep dir name 92 (by decide), parsePath_segment name hne h]

/-! ## The folder name -/

theorem isDigit_not_separator (c : Nat) (h : isDigit c = true) : isSeparator c = false := by
  simp [isDigit] at h
  simp [isSeparator]
  omega

theorem natToWString_no_separator (n : Nat) : ∀ c ∈ natToWString n, isSeparator c = false :=
  fun c hc => isDigit_not_separator c (natToWString_digits n c hc)

theorem pad2_no_separator (n : Nat) : ∀ c ∈ pad2 n, isSeparator c = false := by
  unfold pad2
  by_cases h : n < 10
  · simp only [h, if_true]
    intro c hc
    simp at hc
    rcases hc with rfl | rfl
    · decide
    · simp [isSeparator]; omega
  · simp only [h, if_false]
    exact natToWString_no_separator n

theorem to_wstring_no_separator (v : Int) : ∀ c ∈ to_wstring v, isSeparator c = false := by
  unfold to_wstring
  by_cases h : v < 0
  · simp only [h, if_true]
    intro c hc
    rcases List.mem_cons.1 hc with rfl | hc
    · decide
    · exact natToWString_no_separator _ c hc
  · simp only [h, if_false]
    exact natToWString_no_separator _

theorem wcsftime_no_separator (ltm : tm) : ∀ c ∈ wcsftime ltm, isSeparator c = false := by
  intro c hc
  unfold wcsftime at hc
  simp only [List.mem_append] at hc
  have hd : ∀ c ∈ L "-", isSeparator c = false := by decide
  have hu : ∀ c ∈ L "_", isSeparator c = false := by decide
  rcases hc with ((((((((((h | h) | h) | h) | h) | h) | h) | h) | h) | h) | h)
  · exact natToWString_no_separator _ c h
  · exact hd c h
  · exact pad2_no_separator _ c h
  · exact hd c h
  · exact pad2_no_separator _ c h
  · exact hu c h
  · exact pad2_no_separator _ c h
  · exact hd c h
  · exact pad2_no_separator _ c h
  · exact hd c h
  · exact pad2_no_separator _ c h

theorem classLetter_no_separator (autosave : Bool) :
    ∀ c ∈ classLetter autosave, isSeparator c = false := by
  cases autosave <;> decide

theorem backupFolderName_no_separator (localtime : Int → tm) (now : Int) (autosave : Bool) :
    ∀ c ∈ backupFolderName localtime now autosave, isSeparator c = false := by
  intro c hc
  unfold backupFolderName at hc
  simp only [List.mem_append] at hc
  have h1 : ∀ c ∈ L "-[", isSeparator c = false := by decide
  have h2 : ∀ c ∈ L "]-", isSeparator c = false := by decide
  rcases hc with ((((h | h) | h) | h) | h)
  · exact to_wstring_no_separator _ c h
  · exact h1 c h
  · exact wcsftime_no_separator _ c h
  · exact h2 c h
  · exact classLetter_no_separator _ c h

theorem backupFolderName_ne_nil (localtime : Int → tm) (now : Int) (autosave : Bool) :
    backupFolderName localtime now autosave ≠ [] := by
  unfold backupFolderName classLetter
  cases autosave <;> simp [L]

theorem parsePath_target (exePath profileName : WString) (localtime : Int → tm) (now : Int)
    (autosave : Bool) :
    parsePath (targetBackupPath exePath profileName (backupFolderName localtime now autosave))
      = parsePath (backupPathBase exePath profileName)
          ++ [backupFolderName localtime now autosave] :=
  parsePath_child _ _ (backupFolderName_ne_nil _ _ _) (backupFolderName_no_separator _ _ _)

theorem backupFolderName_endsWith (localtime : Int → tm) (now : Int) (autosave : Bool)
    (c d : Nat) :
    endsWith (backupFolderName localtime now autosave) [c, d]
      = (decide (45 = c) && decide ((if autosave then 65 else 77) = d)) := by
  have e : backupFolderName localtime now autosave
      = (to_wstring now ++ L "-[" ++ wcsftime (localtime now) ++ [93])
          ++ [45, if autosave then 65 else 77] := by
    unfold backupFolderName classLetter
    cases autosave <;> simp [L]
  rw [e, endsWith_append_pair]

theorem to_wstring_lt (t1 t2 : Int) (h0 : 0 ≤ t1) (hlt : t1 < t2)
    (hlen : (to_wstring t1).length = (to_wstring t2).length) :
    wcompare (to_wstring t1) (to_wstring t2) = Ordering.lt := by
  have h1 : ¬ t1 < 0 := by omega
  have h2 : ¬ t2 < 0 := by omega
  unfold to_wstring at hlen ⊢
  simp only [h1, h2, if_false] at hlen ⊢
  exact natToWString_lt _ _ (by omega) hlen

theorem backupFolderName_lt (localtime : Int → tm) (t1 t2 : Int) (c1 c2 : Bool) (h0 : 0 ≤ t1)
    (hlt : t1 < t2) (hlen : (to_wstring t1).length = (to_wstring t2).length) :
    wcompare (backupFolderName localtime t1 c1) (backupFolderName localtime t2 c2)
      = Ordering.lt := by
  unfold backupFolderName
  simp only [List.append_assoc]
  exact wcompare_lt_append _ _ _ _ hlen (to_wstring_lt t1 t2 h0 hlt hlen)

/-! ## `PurgeBackups`: the calls it makes -/

theorem removeAllTargets_append (a b : List FsCall) :
    removeAllTargets (a ++ b) = removeAllTargets a ++ removeAllTargets b := by
  induction a with
  | nil => rfl
  | cons c cs ih => cases c <;> simp [removeAllTargets, ih]

theorem removeAllTargets_map (ps : List Path) :
    removeAllTargets (ps.map FsCall.remove_all) = ps := by
  induction ps with
  | nil => rfl
  | cons p ps ih => simp [removeAllTargets, ih]

theorem deleteLoop_calls (locationName label : WString) (ps : List Path) (w : World)
    (logCollector : List WString) :
    (deleteLoop locationName label ps w logCollector).1.calls
      = w.calls ++ ps.map FsCall.remove_all := by
  induction ps generalizing w logCollector with
  | nil => simp [deleteLoop]
  | cons p ps ih =>
    simp only [deleteLoop]
    rw [ih]
    cases h : (w.remove_all p).2 <;> simp [World.remove_all, World.print]

theorem purgeClass_calls (locationName label title : WString) (saves : List Path) (limit : Int)
    (w : World) (logCollector : List WString) :
    (purgeClass locationName label title saves limit w logCollector).1.calls
      = w.calls ++ (purgeSelection saves limit).map FsCall.remove_all := by
  unfold purgeClass purgeSelection
  by_cases h : limit > 0 ∧ (saves.length : Int) > limit
  · simp only [h, and_self, if_true]
    exact deleteLoop_calls _ _ _ _ _
  · simp [h]

theorem listing_exists (fs : FileSystem) (p : Path) (entries : List Node)
    (h : fs_directory_iterator fs p = Except.ok entries) : fs_exists fs p = true := by
  unfold fs_directory_iterator at h
  unfold fs_exists
  cases hl : lookup fs p with
  | none => simp [hl] at h
  | some n => rfl

theorem PurgeBackups_calls (w : World) (backupDir pfx locationName : WString)
    (autoLimit manualLimit : Int) (logCollector : List WString) (entries : List Node)
    (hlist : fs_directory_iterator w.fs (parsePath backupDir) = Except.ok entries) :
    (PurgeBackups w backupDir pfx autoLimit manualLimit locationName logCollector).world.calls
      = w.calls ++ [FsCall.file_exists (parsePath backupDir),
          FsCall.directory_iterator (parsePath backupDir)]
        ++ (purgeSelection (stdSort (categorize entries).1) autoLimit).map FsCall.remove_all
        ++ (purgeSelection (stdSort (categorize entries).2) manualLimit).map FsCall.remove_all := by
  have hex := listing_exists _ _ _ hlist
  unfold PurgeBackups
  simp only [World.file_exists, hex, Bool.not_true, World.directory_iterator, hlist]
  simp [purgeClass_calls]

theorem PurgeBackups_thrown_none (w : World) (backupDir pfx locationName : WString)
    (autoLimit manualLimit : Int) (logCollector : List WString) (entries : List Node)
    (hlist : fs_directory_iterator w.fs (parsePath backupDir) = Except.ok entries) :
    (PurgeBackups w backupDir pfx autoLimit manualLimit locationName logCollector).thrown
      = none := by
  have hex := listing_exists _ _ _ hlist
  unfold PurgeBackups
  simp [World.file_exists, hex, World.directory_iterator, hlist]

theorem PurgeBackups_deleted (w : World) (backupDir pfx locationName : WString)
    (autoLimit manualLimit : Int) (logCollector : List WString) (entries : List Node)
    (hlist : fs_directory_iterator w.fs (parsePath backupDir) = Except.ok entries) :
    purgeDeleted w (PurgeBackups w backupDir pfx autoLimit manualLimit locationName logCollector)
      = purgeSelection (stdSort (categorize entries).1) autoLimit
        ++ purgeSelection (stdSort (categorize entries).2) manualLimit := by
  unfold purgeDeleted
  rw [PurgeBackups_calls w backupDir pfx locationName autoLimit manualLimit logCollector entries
    hlist]
  simp only [List.append_assoc, List.drop_left, removeAllTargets_append, removeAllTargets_map]
  simp [removeAllTargets]

/-- When the listing of the directory fails or the directory does not exist,
`PurgeBackups` calls `fs::remove_all` on nothing. -/
theorem PurgeBackups_deleted_of_no_listing (w : World) (backupDir pfx locationName : WString)
    (autoLimit manualLimit : Int) (logCollector : List WString)
    (hlist : ∀ entries, fs_directory_iterator w.fs (parsePath backupDir) ≠ Except.ok entries) :
    purgeDeleted w (PurgeBackups w backupDir pfx autoLimit manualLimit locationName logCollector)
      = [] := by
  unfold purgeDeleted PurgeBackups
  by_cases hex : fs_exists w.fs (parsePath backupDir) = true
  · simp only [World.file_exists, hex, Bool.not_true, World.directory_iterator]
    cases hl : fs_directory_iterator w.fs (parsePath backupDir) with
    | error e => simp [removeAllTargets]
    | ok entries => exact absurd hl (hlist entries)
  · simp [World.file_exists, hex, removeAllTargets]

/-! ## `PurgeBackups`: the classes -/

theorem endsWith_A_not_M (name : WString) (h : endsWith name (L "-A") = true) :
    endsWith name (L "-M") = false := by
  rw [L_dashA] at h
  rw [L_dashM]
  rcases (endsWith_iff _ _).1 h with ⟨t, ht⟩
  rw [← ht, endsWith_append_pair]
  decide

theorem endsWith_M_not_A (name : WString) (h : endsWith name (L "-M") = true) :
    endsWith name (L "-A") = false := by
  rw [L_dashM] at h
  rw [L_dashA]
  rcases (endsWith_iff _ _).1 h with ⟨t, ht⟩
  rw [← ht, endsWith_append_pair]
  decide

theorem categorize_eq (entries : List Node) :
    categorize entries = (classDirs true entries, classDirs false entries) := by
  induction entries with
  | nil => rfl
  | cons n rest ih =>
    simp only [categorize, ih, classDirs, classSuffix, List.filter_cons, if_true]
    by_cases hd : (n.kind == FileKind.directory) = true
    · by_cases hA : endsWith (filename n.path) (L "-A") = true
      · have hM := endsWith_A_not_M _ hA
        simp [hd, hA, hM]
      · by_cases hM : endsWith (filename n.path) (L "-M") = true
        · simp [hd, hA, hM]
        · simp [hd, hA, hM]
    · simp [hd]

theorem classDirs_suffix (autoClass : Bool) (entries : List Node) :
    ∀ p ∈ classDirs autoClass entries, endsWith (filename p) (classSuffix autoClass) = true := by
  intro p hp
  simp only [classDirs, List.mem_map, List.mem_filter, Bool.and_eq_true] at hp
  obtain ⟨n, ⟨_, _, hs⟩, rfl⟩ := hp
  exact hs

theorem classDirs_other (autoClass : Bool) (entries : List Node) :
    ∀ p ∈ classDirs autoClass entries,
      endsWith (filename p) (classSuffix (!autoClass)) = false := by
  intro p hp
  have h := classDirs_suffix autoClass entries p hp
  cases autoClass
  · exact endsWith_M_not_A _ h
  · exact endsWith_A_not_M _ h

theorem purgeSelection_subset (saves : List Path) (limit : Int) :
    ∀ p ∈ purgeSelection saves limit, p ∈ saves := by
  intro p hp
  unfold purgeSelection at hp
  by_cases h : limit > 0 ∧ (saves.length : Int) > limit
  · simp only [h, and_self, if_true] at hp
    exact List.mem_of_mem_take hp
  · simp [h] at hp

theorem selection_in_class (autoClass : Bool) (entries : List Node) (limit : Int) :
    ∀ p ∈ purgeSelection (stdSort (classDirs autoClass entries)) limit,
      p ∈ classDirs autoClass entries :=
  fun p hp => (stdSort_perm _).mem_iff.1 (purgeSelection_subset _ _ p hp)

theorem deletedOfClass_append (autoClass : Bool) (a b : List Path) :
    deletedOfClass autoClass (a ++ b) = deletedOfClass autoClass a ++ deletedOfClass autoClass b := by
  simp [deletedOfClass]

theorem deletedOfClass_same (autoClass : Bool) (l : List Path)
    (h : ∀ p ∈ l, endsWith (filename p) (classSuffix autoClass) = true) :
    deletedOfClass autoClass l = l := by
  unfold deletedOfClass
  exact List.filter_eq_self.2 h

theorem deletedOfClass_none (autoClass : Bool) (l : List Path)
    (h : ∀ p ∈ l, endsWith (filename p) (classSuffix autoClass) = false) :
    deletedOfClass autoClass l = [] := by
  unfold deletedOfClass
  rw [List.filter_eq_nil_iff]
  intro p hp
  simp [h p hp]

/-- The paths of one class that `PurgeBackups` deletes are the selection made
from the sorted directories of that class with the limit of that class. -/
theorem PurgeBackups_deleted_class (autoClass : Bool) (w : World)
    (backupDir pfx locationName : WString) (autoLimit manualLimit : Int)
    (logCollector : List WString) (entries : List Node)
    (hlist : fs_directory_iterator w.fs (parsePath backupDir) = Except.ok entries) :
    deletedOfClass autoClass (purgeDeleted w
        (PurgeBackups w backupDir pfx autoLimit manualLimit locationName logCollector))
      = purgeSelection (stdSort (classDirs autoClass entries))
          (classLimit autoClass autoLimit manualLimit) := by
  rw [PurgeBackups_deleted w backupDir pfx locationName autoLimit manualLimit logCollector entries
    hlist, categorize_eq, deletedOfClass_append]
  have hA := selection_in_class true entries autoLimit
  have hM := selection_in_class false entries manualLimit
  cases autoClass
  · rw [deletedOfClass_none false _ (fun p hp => classDirs_other true entries p (hA p hp)),
      deletedOfClass_same false _ (fun p hp => classDirs_suffix false entries p (hM p hp))]
    simp [classLimit]
  · rw [deletedOfClass_same true _ (fun p hp => classDirs_suffix true entries p (hA p hp)),
      deletedOfClass_none true _ (fun p hp => classDirs_other false entries p (hM p hp))]
    simp [classLimit]

theorem purgeSelection_length (saves : List Path) (limit : Int) :
    ((purgeSelection saves limit).length : Int)
      = if limit ≤ 0 ∨ (saves.length : Int) ≤ limit then 0 else (saves.length : Int) - limit := by
  unfold purgeSelection
  by_cases h : limit > 0 ∧ (saves.length : Int) > limit
  · have h2 : ¬ (limit ≤ 0 ∨ (saves.length : Int) ≤ limit) := by omega
    simp only [h, and_self, if_true, h2, if_false, List.length_take]
    omega
  · have h2 : limit ≤ 0 ∨ (saves.length : Int) ≤ limit := by omega
    simp [h, h2]

theorem classDirs_length (autoClass : Bool) (entries : List Node) :
    (classDirs autoClass entries).length
      = (entries.filter (fun n => n.kind == FileKind.directory &&
          endsWith (filename n.path) (classSuffix autoClass))).length := by
  simp [classDirs]

/-! ## `BackupSaveFolder`: the calls it makes -/

theorem foldl_print_calls (msgs : List WString) (w : World) :
    (msgs.foldl World.print w).calls = w.calls := by
  induction msgs generalizing w with
  | nil => rfl
  | cons m ms ih => simp [List.foldl, ih, World.print]

theorem foldl_print_fs (msgs : List WString) (w : World) :
    (msgs.foldl World.print w).fs = w.fs := by
  induction msgs generalizing w with
  | nil => rfl
  | cons m ms ih => simp [List.foldl, ih, World.print]

theorem finalLogging_calls (w : World) (currentTime pfx folderName : WString)
    (a b c : Bool) (msgs : List WString) :
    (finalLogging w currentTime pfx folderName a b c msgs).calls = w.calls := by
  unfold finalLogging
  simp only [World.print, foldl_print_calls]
  split_ifs <;> rfl

theorem finalLogging_fs (w : World) (currentTime pfx folderName : WString)
    (a b c : Bool) (msgs : List WString) :
    (finalLogging w currentTime pfx folderName a b c msgs).fs = w.fs := by
  unfold finalLogging
  simp only [World.print, foldl_print_fs]
  split_ifs <;> rfl

theorem PurgeBackups_calls_extends (w : World) (backupDir pfx locationName : WString)
    (autoLimit manualLimit : Int) (logCollector : List WString) :
    w.calls <+: (PurgeBackups w backupDir pfx autoLimit manualLimit locationName
      logCollector).world.calls := by
  cases hl : fs_directory_iterator w.fs (parsePath backupDir) with
  | ok entries =>
    rw [PurgeBackups_calls w backupDir pfx locationName autoLimit manualLimit logCollector
      entries hl, List.append_assoc, List.append_assoc]
    exact List.prefix_append _ _
  | error e =>
    unfold PurgeBackups
    by_cases hex : fs_exists w.fs (parsePath backupDir) = true
    · simp [World.file_exists, hex, World.directory_iterator, hl]
    · simp [World.file_exists, hex]

theorem cloudStep_calls_extends (g : Globals) (w : World) (profile : GameProfile)
    (currentTime pfx targetPath folderName : WString) (msgs : List WString) :
    w.calls <+: (cloudStep g w profile currentTime pfx targetPath folderName msgs).1.calls := by
  unfold cloudStep
  simp only
  cases h1 : (w.create_directories
      (g.g_GoogleDrivePath ++ L "\\Game Save Backup Manager\\" ++ profile.name)).2 with
  | some e => simp [World.print, World.create_directories]
  | none =>
    simp only
    cases h2 : ((w.create_directories
        (g.g_GoogleDrivePath ++ L "\\Game Save Backup Manager\\" ++ profile.name)).1.copy
        targetPath (g.g_GoogleDrivePath ++ L "\\Game Save Backup Manager\\" ++ profile.name
          ++ L "\\" ++ folderName) false).2 with
    | some e => simp [World.print, World.create_directories, World.copy]
    | none =>
      simp only
      have hp := PurgeBackups_calls_extends
        ((w.create_directories
          (g.g_GoogleDrivePath ++ L "\\Game Save Backup Manager\\" ++ profile.name)).1.copy
          targetPath (g.g_GoogleDrivePath ++ L "\\Game Save Backup Manager\\" ++ profile.name
            ++ L "\\" ++ folderName) false).1
        (g.g_GoogleDrivePath ++ L "\\Game Save Backup Manager\\" ++ profile.name) pfx (L "Cloud")
        g.g_CloudAutoSaveLimit g.g_CloudManualSaveLimit msgs
      have h0 : w.calls <+: ((w.create_directories
          (g.g_GoogleDrivePath ++ L "\\Game Save Backup Manager\\" ++ profile.name)).1.copy
          targetPath (g.g_GoogleDrivePath ++ L "\\Game Save Backup Manager\\" ++ profile.name
            ++ L "\\" ++ folderName) false).1.calls := by
        simp [World.create_directories, World.copy]
      split
      · simpa only [World.print] using h0.trans hp
      · exact h0.trans hp

/-- What `BackupSaveFolder` leaves when the local copy throws: the failure line
and the separator on the console, the copy and the cleanup `remove_all` as the
only calls, all three flags false, no purge message and no exception. -/
theorem BackupSaveFolder_of_copy_failed (g : Globals) (exePath : WString) (localtime : Int → tm)
    (now : Int) (currentTime : WString) (w : World) (profile : GameProfile) (autosave : Bool)
    (e : filesystem_error)
    (hfail : (fs_copy w.fs (parsePath profile.savePath)
      (parsePath (targetBackupPath exePath profile.name
        (backupFolderName localtime now autosave))) false).2 = some e) :
    BackupSaveFolder g exePath localtime now currentTime w profile autosave
      = ⟨⟨(fs_remove_all (fs_copy w.fs (parsePath profile.savePath)
              (parsePath (targetBackupPath exePath profile.name
                (backupFolderName localtime now autosave))) false).1
            (parsePath (targetBackupPath exePath profile.name
              (backupFolderName localtime now autosave)))).1,
          w.calls ++ [FsCall.copy (parsePath profile.savePath)
              (parsePath (targetBackupPath exePath profile.name
                (backupFolderName localtime now autosave))) false,
            FsCall.remove_all (parsePath (targetBackupPath exePath profile.name
              (backupFolderName localtime now autosave)))],
          w.console ++ [L "[" ++ currentTime ++ L "] [" ++ classLetter autosave ++
              L "] Local backup FAILED for " ++ backupFolderName localtime now autosave ++
              L ": " ++ e.what,
            separatorLine]⟩,
        false, false, false, [], none⟩ := by
  unfold BackupSaveFolder
  simp only [World.copy, hfail, World.remove_all, World.print, List.append_assoc,
    List.singleton_append, List.cons_append, List.nil_append]

theorem BackupSaveFolder_first_call (g : Globals) (exePath : WString) (localtime : Int → tm)
    (now : Int) (currentTime : WString) (w : World) (profile : GameProfile) (autosave : Bool) :
    (w.calls ++ [FsCall.copy (parsePath profile.savePath)
          (parsePath (targetBackupPath exePath profile.name
            (backupFolderName localtime now autosave))) false])
      <+: (BackupSaveFolder g exePath localtime now currentTime w profile autosave).world.calls := by
  cases hc : (fs_copy w.fs (parsePath profile.savePath)
      (parsePath (targetBackupPath exePath profile.name
        (backupFolderName localtime now autosave))) false).2 with
  | some e =>
    rw [BackupSaveFolder_of_copy_failed g exePath localtime now currentTime w profile autosave e hc]
    exact ⟨[FsCall.remove_all (parsePath (targetBackupPath exePath profile.name
      (backupFolderName localtime now autosave)))], by simp⟩
  | none =>
    unfold BackupSaveFolder
    simp only [World.copy, hc]
    have h1 := PurgeBackups_calls_extends
      ⟨(fs_copy w.fs (parsePath profile.savePath)
          (parsePath (targetBackupPath exePath profile.name
            (backupFolderName localtime now autosave))) false).1,
        w.calls ++ [FsCall.copy (parsePath profile.savePath)
          (parsePath (targetBackupPath exePath profile.name
            (backupFolderName localtime now autosave))) false], w.console⟩
      (backupPathBase exePath profile.name) (classLetter autosave) (L "Local")
      g.g_LocalAutoSaveLimit g.g_LocalManualSaveLimit []
    split
    · exact h1
    · split
      · simp only [finalLogging_calls]
        exact h1.trans (cloudStep_calls_extends _ _ _ _ _ _ _ _)
      · simp only [finalLogging_calls]
        exact h1

/-! ## The file system: removal -/

theorem isUnder_self (p : Path) : isUnder p p = true := by
  unfold isUnder
  rw [List.isPrefixOf_iff_prefix]

theorem fs_exists_false_of_none_under (fs : FileSystem) (p : Path)
    (h : ∀ n ∈ fs, isUnder p n.path = false) : fs_exists fs p = false := by
  unfold fs_exists lookup
  cases hf : fs.find? (fun n => n.path == p) with
  | none => rfl
  | some n =>
    exfalso
    have hm := List.mem_of_find?_eq_some hf
    have hp := List.find?_some hf
    simp only [beq_iff_eq] at hp
    have := h n hm
    rw [hp, isUnder_self] at this
    cases this

theorem fs_remove_all_ok (fs : FileSystem) (p : Path) (h : (fs_remove_all fs p).2 = none) :
    (fs_remove_all fs p).1 = fs.filter (fun n => !isUnder p n.path) := by
  unfold fs_remove_all at h ⊢
  split_ifs at h ⊢ with hc
  rfl

theorem fs_remove_all_ok_none_under (fs : FileSystem) (p : Path)
    (h : (fs_remove_all fs p).2 = none) :
    ∀ n ∈ (fs_remove_all fs p).1, isUnder p n.path = false := by
  rw [fs_remove_all_ok fs p h]
  intro n hn
  simpa using (List.mem_filter.1 hn).2

/-! ## The file system: what a copy and a removal leave alone -/

theorem isUnder_append (p r : Path) : isUnder p (p ++ r) = true := by
  unfold isUnder
  rw [List.isPrefixOf_iff_prefix]
  exact List.prefix_append p r

theorem copy_file_frame (fs : FileSystem) (d : Node) (content : List Nat) (t : Path) :
    ∃ added, (copy_file false fs d content t).1 = fs ++ added ∧ ∀ n ∈ added, n.path = t := by
  unfold copy_file
  by_cases hr : d.readable = true
  · cases hl : lookup fs t with
    | none => exact ⟨[⟨t, FileKind.regular content, true, true⟩], by simp [hr, hl], by simp⟩
    | some old => exact ⟨[], by simp [hr, hl], by simp⟩
  · exact ⟨[], by simp [hr], by simp⟩

theorem copyEntry_frame (src dst : Path) (fs : FileSystem) (d : Node) :
    ∃ added, (copyEntry false src dst fs d).1 = fs ++ added ∧
      ∀ n ∈ added, isUnder dst n.path = true := by
  unfold copyEntry
  cases hk : d.kind with
  | regular content =>
    obtain ⟨added, h1, h2⟩ := copy_file_frame fs d content (dst ++ d.path.drop src.length)
    exact ⟨added, h1, fun n hn => by rw [h2 n hn]; exact isUnder_append _ _⟩
  | directory =>
    simp only
    cases hl : lookup fs (dst ++ d.path.drop src.length) with
    | some old =>
      refine ⟨[], ?_, by simp⟩
      simp only [List.append_nil]
      split_ifs <;> rfl
    | none =>
      refine ⟨[⟨dst ++ d.path.drop src.length, FileKind.directory, true, true⟩], ?_, ?_⟩
      · simp only
        split_ifs <;> rfl
      · intro n hn
        rw [List.mem_singleton.1 hn]
        exact isUnder_append _ _

theorem copyEntries_frame (src dst : Path) (ds : List Node) (fs : FileSystem) :
    ∃ added, (copyEntries false src dst ds fs).1 = fs ++ added ∧
      ∀ n ∈ added, isUnder dst n.path = true := by
  induction ds generalizing fs with
  | nil => exact ⟨[], by simp [copyEntries], by simp⟩
  | cons d ds ih =>
    obtain ⟨a1, h1, h2⟩ := copyEntry_frame src dst fs d
    unfold copyEntries
    cases hr : (copyEntry false src dst fs d).2 with
    | some e =>
      refine ⟨a1, ?_, h2⟩
      rw [← h1]
      have : copyEntry false src dst fs d = ((copyEntry false src dst fs d).1, some e) := by
        rw [← hr]
      rw [this]
    | none =>
      obtain ⟨a2, h3, h4⟩ := ih (copyEntry false src dst fs d).1
      refine ⟨a1 ++ a2, ?_, ?_⟩
      · have : copyEntry false src dst fs d = ((copyEntry false src dst fs d).1, none) := by
          rw [← hr]
        rw [this]
        simp only
        rw [h3, h1, List.append_assoc]
      · intro n hn
        rcases List.mem_append.1 hn with h | h
        · exact h2 n h
        · exact h4 n h

/-- A copy without `overwrite_existing` changes no node that is there: it
only adds nodes, all of them at or below the target path. -/
theorem fs_copy_frame (fs : FileSystem) (src dst : Path) :
    ∃ added, (fs_copy fs src dst false).1 = fs ++ added ∧
      ∀ n ∈ added, isUnder dst n.path = true := by
  unfold fs_copy
  cases hs : lookup fs src with
  | none => exact ⟨[], by simp, by simp⟩
  | some n =>
    simp only
    cases hk : n.kind with
    | regular content =>
      simp only
      obtain ⟨added, h1, h2⟩ := copy_file_frame fs n content
        (if fs_is_directory fs dst then dst ++ [filename src] else dst)
      refine ⟨added, h1, fun m hm => ?_⟩
      rw [h2 m hm]
      split_ifs
      · exact isUnder_append _ _
      · exact isUnder_self _
    | directory =>
      simp only
      by_cases hu : isUnder src dst = true
      · exact ⟨[], by simp [hu], by simp⟩
      simp only [hu, Bool.false_eq_true, if_false]
      cases hd : lookup fs dst with
      | some old =>
        simp only
        split_ifs
        · exact copyEntries_frame src dst _ fs
        · exact ⟨[], by simp, by simp⟩
        · exact ⟨[], by simp, by simp⟩
      | none =>
        simp only
        split_ifs
        · obtain ⟨a, h1, h2⟩ := copyEntries_frame src dst
            (fs.filter (fun m => isUnder src m.path && m.path != src))
            (fs ++ [⟨dst, FileKind.directory, true, true⟩])
          refine ⟨⟨dst, FileKind.directory, true, true⟩ :: a, ?_, ?_⟩
          · rw [h1]; simp
          · intro m hm
            rcases List.mem_cons.1 hm with h | h
            · rw [h]; exact isUnder_self _
            · exact h2 m h
        · exact ⟨[⟨dst, FileKind.directory, true, true⟩], rfl, fun m hm => by
            rw [List.mem_singleton.1 hm]; exact isUnder_self _⟩
        · exact ⟨[], by simp, by simp⟩

theorem removeUntilBlocked_frame (p : Path) (l : FileSystem) :
    (removeUntilBlocked p l).filter (fun n => !isUnder p n.path)
      = l.filter (fun n => !isUnder p n.path) := by
  induction l with
  | nil => rfl
  | cons n rest ih =>
    unfold removeUntilBlocked
    by_cases hu : isUnder p n.path = true
    · simp only [hu, if_true]
      split_ifs
      · rfl
      · simp [List.filter_cons, hu, ih]
      · simp [List.filter_cons, hu, ih]
    · simp [List.filter_cons, hu, ih]

/-- A `remove_all`, whether it succeeds or throws, leaves every node that is
not at or below its path as it was. -/
theorem fs_remove_all_frame (fs : FileSystem) (p : Path) :
    (fs_remove_all fs p).1.filter (fun n => !isUnder p n.path)
      = fs.filter (fun n => !isUnder p n.path) := by
  unfold fs_remove_all
  split_ifs
  · simp [List.filter_filter]
  · exact removeUntilBlocked_frame p fs

/-- When the local copy throws, the nodes of the file system that are not at
or below the target path are the same, in the same order, before the call of
`BackupSaveFolder` and after it. -/
theorem BackupSaveFolder_failed_frame (g : Globals) (exePath : WString) (localtime : Int → tm)
    (now : Int) (currentTime : WString) (w : World) (profile : GameProfile) (autosave : Bool)
    (e : filesystem_error)
    (hfail : (fs_copy w.fs (parsePath profile.savePath)
      (parsePath (targetBackupPath exePath profile.name
        (backupFolderName localtime now autosave))) false).2 = some e) :
    (BackupSaveFolder g exePath localtime now currentTime w profile autosave).world.fs.filter
        (fun n => !isUnder (parsePath (targetBackupPath exePath profile.name
          (backupFolderName localtime now autosave))) n.path)
      = w.fs.filter (fun n => !isUnder (parsePath (targetBackupPath exePath profile.name
          (backupFolderName localtime now autosave))) n.path) := by
  rw [BackupSaveFolder_of_copy_failed g exePath localtime now currentTime w profile autosave e
    hfail]
  simp only
  rw [fs_remove_all_frame]
  obtain ⟨added, h1, h2⟩ := fs_copy_frame w.fs (parsePath profile.savePath)
    (parsePath (targetBackupPath exePath profile.name (backupFolderName localtime now autosave)))
  rw [h1, List.filter_append]
  have : added.filter (fun n => !isUnder (parsePath (targetBackupPath exePath profile.name
      (backupFolderName localtime now autosave))) n.path) = [] := by
    rw [List.filter_eq_nil_iff]
    intro n hn
    simp [h2 n hn]
  rw [this, List.append_nil]

/-! ## Retention: which directories `PurgeBackups` deletes -/

/-- C1. For a backup directory whose listing succeeds, and for each class
(automatic `-A`, manual `-M`) with its limit `L`, the number of directories of
that class that `PurgeBackups` hands to `fs::remove_all` is 0 when `L ≤ 0` or
`N ≤ L`, and `N - L` otherwise, where `N` is the number of directories of the
listing whose name ends in the suffix of the class. -/
theorem C1_purge_count (autoClass : Bool) (w : World) (backupDir pfx locationName : WString)
    (autoLimit manualLimit : Int) (logCollector : List WString) (entries : List Node)
    (hlist : fs_directory_iterator w.fs (parsePath backupDir) = Except.ok entries) :
    ((deletedOfClass autoClass (purgeDeleted w
        (PurgeBackups w backupDir pfx autoLimit manualLimit locationName logCollector))).length : Int)
      = if classLimit autoClass autoLimit manualLimit ≤ 0 ∨
            ((entries.filter (fun n => n.kind == FileKind.directory &&
              endsWith (filename n.path) (classSuffix autoClass))).length : Int)
              ≤ classLimit autoClass autoLimit manualLimit
        then 0
        else ((entries.filter (fun n => n.kind == FileKind.directory &&
              endsWith (filename n.path) (classSuffix autoClass))).length : Int)
              - classLimit autoClass autoLimit manualLimit := by
  rw [PurgeBackups_deleted_class autoClass w backupDir pfx locationName autoLimit manualLimit
    logCollector entries hlist, purgeSelection_length, stdSort_length, classDirs_length]

/-- C1, at a concrete input: three automatic archives and the automatic limit
2 give one deletion of the automatic class. -/
theorem C1_purge_count_witness :
    (∃ entries, fs_directory_iterator purgeWorld.fs (parsePath sampleBackupDir)
      = Except.ok entries) ∧
    ((deletedOfClass true (purgeDeleted purgeWorld
        (PurgeBackups purgeWorld sampleBackupDir (L "A") 2 0 (L "Local") []))).length : Int)
      = 1 :=
  ⟨⟨_, rfl⟩,
    (C1_purge_count true purgeWorld sampleBackupDir (L "A") (L "Local") 2 0 [] _ rfl).trans
      (by decide)⟩

/-- Where the names are in the order of the instants, the purge deletes the
oldest.  For a listing with `N > L > 0` directories of one class, the
directories of that class that `PurgeBackups` deletes are the first `N - L`
of the class in ascending order of their paths (`std::sort`), the `L` others
survive, every deleted path is less than or equal to every surviving one, and
whenever a deleted and a surviving directory carry names built by
`BackupSaveFolder` for non-negative instants with the same number of decimal
digits, the deleted one is not the later of the two. -/
theorem PurgeBackups_deletes_least_names (autoClass : Bool) (w : World)
    (backupDir pfx locationName : WString) (autoLimit manualLimit : Int)
    (logCollector : List WString) (entries : List Node)
    (hlist : fs_directory_iterator w.fs (parsePath backupDir) = Except.ok entries)
    (hL : 0 < classLimit autoClass autoLimit manualLimit)
    (hN : classLimit autoClass autoLimit manualLimit
      < ((classDirs autoClass entries).length : Int)) :
    deletedOfClass autoClass (purgeDeleted w
        (PurgeBackups w backupDir pfx autoLimit manualLimit locationName logCollector))
      = (stdSort (classDirs autoClass entries)).take
          (((classDirs autoClass entries).length : Int)
            - classLimit autoClass autoLimit manualLimit).toNat ∧
    (((stdSort (classDirs autoClass entries)).drop
          (((classDirs autoClass entries).length : Int)
            - classLimit autoClass autoLimit manualLimit).toNat).length : Int)
      = classLimit autoClass autoLimit manualLimit ∧
    (∀ d ∈ (stdSort (classDirs autoClass entries)).take
          (((classDirs autoClass entries).length : Int)
            - classLimit autoClass autoLimit manualLimit).toNat,
      ∀ s ∈ (stdSort (classDirs autoClass entries)).drop
          (((classDirs autoClass entries).length : Int)
            - classLimit autoClass autoLimit manualLimit).toNat,
        pathLe d s ∧
        ∀ (lt1 lt2 : Int → tm) (t1 t2 : Int) (c1 c2 : Bool) (dir : Path),
          d = dir ++ [backupFolderName lt1 t1 c1] → s = dir ++ [backupFolderName lt2 t2 c2] →
          0 ≤ t1 → 0 ≤ t2 → (to_wstring t1).length = (to_wstring t2).length → t1 ≤ t2) := by
  have hsel := PurgeBackups_deleted_class autoClass w backupDir pfx locationName autoLimit
    manualLimit logCollector entries hlist
  have hlen := stdSort_length (classDirs autoClass entries)
  refine ⟨?_, ?_, ?_⟩
  · rw [hsel]
    unfold purgeSelection
    rw [hlen]
    simp [hL, hN]
  · rw [List.length_drop, hlen]
    omega
  · intro d hd s hs
    have hle : pathLe d s := by
      have hsorted := stdSort_sorted (classDirs autoClass entries)
      rw [← List.take_append_drop
        (((classDirs autoClass entries).length : Int)
          - classLimit autoClass autoLimit manualLimit).toNat
        (stdSort (classDirs autoClass entries))] at hsorted
      exact (List.pairwise_append.1 hsorted).2.2 d hd s hs
    refine ⟨hle, ?_⟩
    intro lt1 lt2 t1 t2 c1 c2 dir hd1 hs1 h1 h2 hdig
    by_contra hcon
    have hlt : t2 < t1 := by omega
    have hw : wcompare (backupFolderName lt2 t2 c2) (backupFolderName lt1 t1 c1)
        = Ordering.lt := by
      unfold backupFolderName
      simp only [List.append_assoc]
      exact wcompare_lt_append _ _ _ _ hdig.symm (to_wstring_lt t2 t1 h2 hlt hdig.symm)
    apply hle
    rw [hd1, hs1, pathCompare_sibling]
    exact hw

/-- C2. The backup folder holds the automatic archives of the instants
999999999 and 1000000000, and the automatic limit is 1.  `PurgeBackups`
announces that it deletes the oldest archive (`Deleting 1 oldest...`) and
hands the archive of the later instant 1000000000 to `fs::remove_all`: the
survivor is the older of the two.  The sort that the source comments as
`chronologically (oldest first)` compares the names as text, and the text
`1000000000` is less than the text `999999999`. -/
theorem C2_purge_deletes_newer_archive_at_rollover :
    fs_directory_iterator rolloverWorld.fs (parsePath sampleBackupDir)
      = Except.ok
          [⟨parsePath sampleBackupDir ++ [backupFolderName utcLocaltime 999999999 true],
              FileKind.directory, true, true⟩,
            ⟨parsePath sampleBackupDir ++ [backupFolderName utcLocaltime 1000000000 true],
              FileKind.directory, true, true⟩] ∧
    (999999999 : Int) < 1000000000 ∧
    purgeDeleted rolloverWorld
        (PurgeBackups rolloverWorld sampleBackupDir (L "A") 1 0 (L "Local") [])
      = [parsePath sampleBackupDir ++ [backupFolderName utcLocaltime 1000000000 true]] ∧
    (PurgeBackups rolloverWorld sampleBackupDir (L "A") 1 0 (L "Local") []).logCollector
      = [L "      [PURGE:Local] Auto-save limit (1) exceeded. Deleting 1 oldest...",
         L "         - Deleting: 1000000000-[2001-09-09_01-46-40]-A"] ∧
    (PurgeBackups rolloverWorld sampleBackupDir (L "A") 1 0 (L "Local") []).world.fs
      = baseFs ++ [dirNode "C:\\App\\Backups\\G\\999999999-[2001-09-09_01-46-39]-A"] :=
  ⟨by rfl, by decide, by decide, by decide, by decide⟩

/-- C3. The directories of one class that `PurgeBackups` deletes depend only
on the directories of that class and on the limit of that class: two runs
(on any two listings, with any limits for the other class) whose directories
of the class agree up to order and whose limits for the class are equal
delete the same directories of the class.  With the manual limit 0 no
directory whose name ends in `-M` is deleted, whatever the automatic limit. -/
theorem C3_class_independence (autoClass : Bool) (w1 w2 : World)
    (dir1 dir2 pfx1 pfx2 loc1 loc2 : WString) (a1 m1 a2 m2 : Int)
    (log1 log2 : List WString) (e1 e2 : List Node)
    (h1 : fs_directory_iterator w1.fs (parsePath dir1) = Except.ok e1)
    (h2 : fs_directory_iterator w2.fs (parsePath dir2) = Except.ok e2)
    (hdirs : List.Perm (classDirs autoClass e1) (classDirs autoClass e2))
    (hlimit : classLimit autoClass a1 m1 = classLimit autoClass a2 m2) :
    deletedOfClass autoClass (purgeDeleted w1 (PurgeBackups w1 dir1 pfx1 a1 m1 loc1 log1))
      = deletedOfClass autoClass (purgeDeleted w2 (PurgeBackups w2 dir2 pfx2 a2 m2 loc2 log2)) ∧
    deletedOfClass false (purgeDeleted w1 (PurgeBackups w1 dir1 pfx1 a1 0 loc1 log1)) = [] := by
  constructor
  · rw [PurgeBackups_deleted_class autoClass w1 dir1 pfx1 loc1 a1 m1 log1 e1 h1,
      PurgeBackups_deleted_class autoClass w2 dir2 pfx2 loc2 a2 m2 log2 e2 h2,
      stdSort_congr _ _ hdirs, hlimit]
  · rw [PurgeBackups_deleted_class false w1 dir1 pfx1 loc1 a1 0 log1 e1 h1]
    simp [purgeSelection, classLimit]

/-- C3, at a concrete input: two listings with the same manual archives,
different automatic archives and different automatic limits. -/
theorem C3_class_independence_witness :
    deletedOfClass false (purgeDeleted purgeWorld
        (PurgeBackups purgeWorld sampleBackupDir (L "A") 2 1 (L "Local") []))
      = deletedOfClass false (purgeDeleted purgeWorld2
        (PurgeBackups purgeWorld2 sampleBackupDir (L "M") 0 1 (L "Local") [])) ∧
    deletedOfClass false (purgeDeleted purgeWorld
        (PurgeBackups purgeWorld sampleBackupDir (L "A") 2 0 (L "Local") [])) = [] :=
  C3_class_independence false purgeWorld purgeWorld2 sampleBackupDir sampleBackupDir (L "A")
    (L "M") (L "Local") (L "Local") 2 1 0 1 [] [] _ _ rfl rfl (by decide) (by decide)

/-- C4 as stated fails: with the automatic limit 1, `PurgeBackups` deletes the
user's directory `00-keep-A`, whose name is not in the archive name format. -/
theorem C4_counterexample :
    isWellFormed_spec (L "00-keep-A") = false ∧
    isWellFormed_spec (backupFolderName utcLocaltime 1700000000 true) = true ∧
    purgeDeleted strayWorld (PurgeBackups strayWorld sampleBackupDir (L "A") 1 0 (L "Local") [])
      = [parsePath sampleBackupDir ++ [L "00-keep-A"]] := by
  decide

/-- C4, amended. Every path that `PurgeBackups` deletes is the path of an
entry of the listing of the backup directory that is a directory, is an
immediate child of the backup directory, and has a name ending in `-A` or in
`-M`; so a directory whose name ends in neither suffix is never deleted. -/
theorem C4_purge_deletes_only_suffixed_directories (w : World)
    (backupDir pfx locationName : WString) (autoLimit manualLimit : Int)
    (logCollector : List WString) (p : Path)
    (hp : p ∈ purgeDeleted w
      (PurgeBackups w backupDir pfx autoLimit manualLimit locationName logCollector)) :
    ∃ n ∈ w.fs, n.path = p ∧ n.kind = FileKind.directory ∧
      isChildOf (parsePath backupDir) p = true ∧
      (endsWith (filename p) (L "-A") = true ∨ endsWith (filename p) (L "-M") = true) := by
  cases hl : fs_directory_iterator w.fs (parsePath backupDir) with
  | error e =>
    rw [PurgeBackups_deleted_of_no_listing w backupDir pfx locationName autoLimit manualLimit
      logCollector (fun entries he => by rw [hl] at he; cases he)] at hp
    cases hp
  | ok entries =>
    have hsub : ∀ n ∈ entries, n ∈ w.fs ∧ isChildOf (parsePath backupDir) n.path = true := by
      intro n hn
      unfold fs_directory_iterator at hl
      cases hlk : lookup w.fs (parsePath backupDir) with
      | none => simp [hlk] at hl
      | some d =>
        simp only [hlk] at hl
        split_ifs at hl
        injection hl with hl
        rw [← hl] at hn
        exact List.mem_filter.1 hn
    rw [PurgeBackups_deleted w backupDir pfx locationName autoLimit manualLimit logCollector
      entries hl, categorize_eq, List.mem_append] at hp
    have key : ∀ c : Bool, p ∈ classDirs c entries →
        ∃ n ∈ w.fs, n.path = p ∧ n.kind = FileKind.directory ∧
          isChildOf (parsePath backupDir) p = true ∧
          endsWith (filename p) (classSuffix c) = true := by
      intro c hc
      simp only [classDirs, List.mem_map, List.mem_filter, Bool.and_eq_true, beq_iff_eq] at hc
      obtain ⟨n, ⟨hn, hk, hs⟩, rfl⟩ := hc
      exact ⟨n, (hsub n hn).1, rfl, hk, (hsub n hn).2, hs⟩
    rcases hp with hp | hp
    · obtain ⟨n, hn, h1, h2, h3, h4⟩ := key true (selection_in_class true entries autoLimit p hp)
      exact ⟨n, hn, h1, h2, h3, Or.inl h4⟩
    · obtain ⟨n, hn, h1, h2, h3, h4⟩ := key false (selection_in_class false entries manualLimit p hp)
      exact ⟨n, hn, h1, h2, h3, Or.inr h4⟩

/-- C4 amended, at a concrete input: the one directory deleted from
`purgeWorld` with the automatic limit 2. -/
theorem C4_purge_deletes_only_suffixed_directories_witness :
    (parsePath sampleBackupDir ++ [backupFolderName utcLocaltime 1700000000 true])
      ∈ purgeDeleted purgeWorld
          (PurgeBackups purgeWorld sampleBackupDir (L "A") 2 0 (L "Local") []) ∧
    ∃ n ∈ purgeWorld.fs,
      n.path = parsePath sampleBackupDir ++ [backupFolderName utcLocaltime 1700000000 true] ∧
      n.kind = FileKind.directory ∧
      isChildOf (parsePath sampleBackupDir)
        (parsePath sampleBackupDir ++ [backupFolderName utcLocaltime 1700000000 true]) = true ∧
      (endsWith (filename
          (parsePath sampleBackupDir ++ [backupFolderName utcLocaltime 1700000000 true]))
          (L "-A") = true ∨
        endsWith (filename
          (parsePath sampleBackupDir ++ [backupFolderName utcLocaltime 1700000000 true]))
          (L "-M") = true) :=
  ⟨by decide,
    C4_purge_deletes_only_suffixed_directories purgeWorld sampleBackupDir (L "A") (L "Local") 2 0 []
      _ (by decide)⟩

/-! ## The folder name -/

theorem natToWString_length (k n : Nat) (h1 : 10 ^ k ≤ n) (h2 : n < 10 ^ (k + 1)) :
    (natToWString n).length = k + 1 := by
  induction k generalizing n with
  | zero =>
    rw [natToWString_eq]
    have : n < 10 := by simpa using h2
    simp [this]
  | succ k ih =>
    rw [natToWString_eq]
    have e1 : 10 ^ (k + 1) = 10 ^ k * 10 := pow_succ 10 k
    have e2 : 10 ^ (k + 1 + 1) = 10 ^ (k + 1) * 10 := pow_succ 10 (k + 1)
    have hpos : 0 < 10 ^ k := Nat.pos_pow_of_pos k (by decide)
    have hn : ¬ n < 10 := by omega
    simp only [hn, if_false, List.length_append, List.length_singleton]
    rw [ih (n / 10) (by omega) (by omega)]

/-- The epoch seconds of every instant from 9 September 2001 (10^9) to
20 November 2286 (10^10 - 1) have ten decimal digits. -/
theorem to_wstring_length_ten (t : Int) (h1 : 1000000000 ≤ t) (h2 : t < 10000000000) :
    (to_wstring t).length = 10 := by
  have h0 : ¬ t < 0 := by omega
  unfold to_wstring
  simp only [h0, if_false]
  exact natToWString_length 9 t.toNat (by norm_num; omega) (by norm_num; omega)

/-- Names of equal length are in the order of their instants.  For two instants `0 ≤ t1 < t2` whose epoch seconds have the
same number of decimal digits, any classes and any time zones, the name built
for `t1` is less than the name built for `t2` in `std::wstring::compare`, and
so is its path in a common backup directory in `path::compare`, the order
`std::sort` uses. -/
theorem backupFolderName_order_same_digits (lt1 lt2 : Int → tm) (dir : Path) (t1 t2 : Int)
    (c1 c2 : Bool) (h0 : 0 ≤ t1) (hlt : t1 < t2)
    (hlen : (to_wstring t1).length = (to_wstring t2).length) :
    wcompare (backupFolderName lt1 t1 c1) (backupFolderName lt2 t2 c2) = Ordering.lt ∧
    pathCompare (dir ++ [backupFolderName lt1 t1 c1]) (dir ++ [backupFolderName lt2 t2 c2])
      = Ordering.lt := by
  have hw : wcompare (backupFolderName lt1 t1 c1) (backupFolderName lt2 t2 c2)
      = Ordering.lt := by
    unfold backupFolderName
    simp only [List.append_assoc]
    exact wcompare_lt_append _ _ _ _ hlen (to_wstring_lt t1 t2 h0 hlt hlen)
  exact ⟨hw, by rw [pathCompare_sibling]; exact hw⟩

/-- C5. The instant 999999999 is earlier than 1000000000, and the name built
for it is greater, as a name and as a path in the backup directory, than the
name built for 1000000000: `std::sort` puts the archive of the later instant
first, where the source comments its sorts as `chronologically (oldest
first)` and `newest first`.  The epoch seconds are written without padding
and compared as text. -/
theorem C5_later_name_sorts_first_at_rollover :
    (999999999 : Int) < 1000000000 ∧
    wcompare (backupFolderName utcLocaltime 999999999 true)
      (backupFolderName utcLocaltime 1000000000 true) = Ordering.gt ∧
    pathCompare (parsePath sampleBackupDir ++ [backupFolderName utcLocaltime 999999999 true])
      (parsePath sampleBackupDir ++ [backupFolderName utcLocaltime 1000000000 true])
      = Ordering.gt ∧
    stdSort [parsePath sampleBackupDir ++ [backupFolderName utcLocaltime 999999999 true],
        parsePath sampleBackupDir ++ [backupFolderName utcLocaltime 1000000000 true]]
      = [parsePath sampleBackupDir ++ [backupFolderName utcLocaltime 1000000000 true],
         parsePath sampleBackupDir ++ [backupFolderName utcLocaltime 999999999 true]] := by
  decide

theorem filename_child (dir : Path) (name : WString) : filename (dir ++ [name]) = name := by
  simp [filename]

/-- C6. For every instant, time zone and class, the folder name built by
`BackupSaveFolder` is put back into its class by the suffix test of
`PurgeBackups`: the name of an automatic backup ends in `-A` and not in `-M`,
the name of a manual backup ends in `-M` and not in `-A`, and a directory of
that name is sorted into `autoSaves`, respectively `manualSaves`. -/
theorem C6_class_round_trip (localtime : Int → tm) (now : Int) (dir : Path)
    (readable removable : Bool) :
    endsWith (backupFolderName localtime now true) (L "-A") = true ∧
    endsWith (backupFolderName localtime now true) (L "-M") = false ∧
    endsWith (backupFolderName localtime now false) (L "-M") = true ∧
    endsWith (backupFolderName localtime now false) (L "-A") = false ∧
    categorize [⟨dir ++ [backupFolderName localtime now true], FileKind.directory,
        readable, removable⟩]
      = ([dir ++ [backupFolderName localtime now true]], []) ∧
    categorize [⟨dir ++ [backupFolderName localtime now false], FileKind.directory,
        readable, removable⟩]
      = ([], [dir ++ [backupFolderName localtime now false]]) := by
  have hAA : endsWith (backupFolderName localtime now true) (L "-A") = true := by
    rw [L_dashA, backupFolderName_endsWith]; rfl
  have hAM : endsWith (backupFolderName localtime now true) (L "-M") = false := by
    rw [L_dashM, backupFolderName_endsWith]; rfl
  have hMM : endsWith (backupFolderName localtime now false) (L "-M") = true := by
    rw [L_dashM, backupFolderName_endsWith]; rfl
  have hMA : endsWith (backupFolderName localtime now false) (L "-A") = false := by
    rw [L_dashA, backupFolderName_endsWith]; rfl
  refine ⟨hAA, hAM, hMM, hMA, ?_, ?_⟩
  · simp [categorize, filename_child, hAA]
  · simp [categorize, filename_child, hMM, hMA]

/-- C7. For every instant, time zone and class, the folder name built by
`BackupSaveFolder` is the name the specification describes: the decimal epoch
seconds of the instant, `-[`, the stamp `YYYY-MM-DD_HH-MM-SS` of the local
time of the same instant, `]-`, and `A` for an automatic or `M` for a manual
backup.  The name is one path segment, and the first file system call of
`BackupSaveFolder` copies the save path to the path made of the segments of
`<exe path>\Backups\<profile name>` followed by that name. -/
theorem C7_archive_name_and_location (g : Globals) (exePath : WString) (localtime : Int → tm)
    (now : Int) (currentTime : WString) (w : World) (profile : GameProfile) (autosave : Bool) :
    backupFolderName localtime now autosave
      = encode_spec now (1900 + (localtime now).tm_year) ((localtime now).tm_mon + 1)
          (localtime now).tm_mday (localtime now).tm_hour (localtime now).tm_min
          (localtime now).tm_sec autosave ∧
    parsePath (backupFolderName localtime now autosave)
      = [backupFolderName localtime now autosave] ∧
    targetBackupPath exePath profile.name (backupFolderName localtime now autosave)
      = exePath ++ L "\\Backups\\" ++ profile.name ++ L "\\"
          ++ backupFolderName localtime now autosave ∧
    (w.calls ++ [FsCall.copy (parsePath profile.savePath)
        (parsePath (exePath ++ L "\\Backups\\" ++ profile.name)
          ++ [backupFolderName localtime now autosave]) false])
      <+: (BackupSaveFolder g exePath localtime now currentTime w profile
            autosave).world.calls := by
  refine ⟨?_, ?_, rfl, ?_⟩
  · unfold backupFolderName encode_spec wcsftime classLetter
    cases autosave <;> simp
  · exact parsePath_segment _ (backupFolderName_ne_nil _ _ _)
      (backupFolderName_no_separator _ _ _)
  · have h := BackupSaveFolder_first_call g exePath localtime now currentTime w profile autosave
    rw [parsePath_target] at h
    exact h

/-! ## `BackupSaveFolder`: a failed local copy -/

/-- C8. When the local copy of `BackupSaveFolder` throws, the function writes
the failure line (with the text of the error) and the separator to the
console and returns: its only file system calls are the copy and the cleanup
`remove_all` of the target, so `PurgeBackups` runs on neither location (no
`exists`, no directory iteration) and no mirror copy is attempted (no
`create_directories`, no second copy); the three flags are false, no purge
message is collected and no exception leaves the function. -/
theorem C8_failed_local_copy_stops (g : Globals) (exePath : WString) (localtime : Int → tm)
    (now : Int) (currentTime : WString) (w : World) (profile : GameProfile) (autosave : Bool)
    (e : filesystem_error)
    (hfail : (fs_copy w.fs (parsePath profile.savePath)
      (parsePath (targetBackupPath exePath profile.name
        (backupFolderName localtime now autosave))) false).2 = some e) :
    (BackupSaveFolder g exePath localtime now currentTime w profile autosave).world.calls
      = w.calls ++ [FsCall.copy (parsePath profile.savePath)
            (parsePath (targetBackupPath exePath profile.name
              (backupFolderName localtime now autosave))) false,
          FsCall.remove_all (parsePath (targetBackupPath exePath profile.name
            (backupFolderName localtime now autosave)))] ∧
    (BackupSaveFolder g exePath localtime now currentTime w profile autosave).world.console
      = w.console ++ [L "[" ++ currentTime ++ L "] [" ++ classLetter autosave ++
            L "] Local backup FAILED for " ++ backupFolderName localtime now autosave ++
            L ": " ++ e.what,
          separatorLine] ∧
    (BackupSaveFolder g exePath localtime now currentTime w profile autosave).localSuccess
      = false ∧
    (BackupSaveFolder g exePath localtime now currentTime w profile autosave).cloudAttempted
      = false ∧
    (BackupSaveFolder g exePath localtime now currentTime w profile autosave).cloudSuccess
      = false ∧
    (BackupSaveFolder g exePath localtime now currentTime w profile autosave).purgeMessages
      = [] ∧
    (BackupSaveFolder g exePath localtime now currentTime w profile autosave).thrown = none := by
  rw [BackupSaveFolder_of_copy_failed g exePath localtime now currentTime w profile autosave e
    hfail]
  exact ⟨rfl, rfl, rfl, rfl, rfl, rfl, rfl⟩

/-- C8, at a concrete input: a manual backup while the game holds `b.sav`
open; the mirror is enabled and configured, and still only the copy and the
cleanup are called. -/
theorem C8_failed_local_copy_stops_witness :
    (fs_copy unreadableWorld.fs (parsePath sampleProfile.savePath)
      (parsePath (targetBackupPath sampleExePath sampleProfile.name
        (backupFolderName utcLocaltime 1700000000 false))) false).2
      = some ⟨L "copy_file: cannot read the source file"⟩ ∧
    (BackupSaveFolder { defaultGlobals with g_GoogleDrivePath := L "G:\\My Drive" } sampleExePath
        utcLocaltime 1700000000 sampleCurrentTime unreadableWorld
        { sampleProfile with cloudSaveEnabled := true } false).world.calls
      = [FsCall.copy (parsePath (L "C:\\Saves"))
            (parsePath (L "C:\\App\\Backups\\G\\1700000000-[2023-11-14_22-13-20]-M")) false,
          FsCall.remove_all
            (parsePath (L "C:\\App\\Backups\\G\\1700000000-[2023-11-14_22-13-20]-M"))] :=
  ⟨by decide,
    (C8_failed_local_copy_stops { defaultGlobals with g_GoogleDrivePath := L "G:\\My Drive" }
      sampleExePath utcLocaltime 1700000000 sampleCurrentTime unreadableWorld
      { sampleProfile with cloudSaveEnabled := true } false
      ⟨L "copy_file: cannot read the source file"⟩ (by decide)).1.trans (by decide)⟩

/-- C9 as stated fails: when the target directory is already there and holds a
file that another process keeps open, the local copy throws, the cleanup
`remove_all` throws as well, its error is swallowed, and the target directory
exists when `BackupSaveFolder` returns. -/
theorem C9_counterexample :
    (BackupSaveFolder defaultGlobals sampleExePath utcLocaltime 1700000000 sampleCurrentTime
      lockedCollisionWorld sampleProfile false).localSuccess = false ∧
    (BackupSaveFolder defaultGlobals sampleExePath utcLocaltime 1700000000 sampleCurrentTime
      lockedCollisionWorld sampleProfile false).thrown = none ∧
    fs_exists
      (BackupSaveFolder defaultGlobals sampleExePath utcLocaltime 1700000000 sampleCurrentTime
        lockedCollisionWorld sampleProfile false).world.fs
      (parsePath (targetBackupPath sampleExePath sampleProfile.name
        (backupFolderName utcLocaltime 1700000000 false))) = true := by
  decide

/-- C9, amended. When the local copy throws and the cleanup `fs::remove_all`
of the target succeeds, the target archive directory does not exist when
`BackupSaveFolder` returns, and nothing is left below it. -/
theorem C9_no_partial_archive_when_cleanup_succeeds (g : Globals) (exePath : WString)
    (localtime : Int → tm) (now : Int) (currentTime : WString) (w : World)
    (profile : GameProfile) (autosave : Bool) (e : filesystem_error)
    (hfail : (fs_copy w.fs (parsePath profile.savePath)
      (parsePath (targetBackupPath exePath profile.name
        (backupFolderName localtime now autosave))) false).2 = some e)
    (hclean : (fs_remove_all (fs_copy w.fs (parsePath profile.savePath)
        (parsePath (targetBackupPath exePath profile.name
          (backupFolderName localtime now autosave))) false).1
      (parsePath (targetBackupPath exePath profile.name
        (backupFolderName localtime now autosave)))).2 = none) :
    fs_exists (BackupSaveFolder g exePath localtime now currentTime w profile autosave).world.fs
      (parsePath (targetBackupPath exePath profile.name
        (backupFolderName localtime now autosave))) = false ∧
    ∀ n ∈ (BackupSaveFolder g exePath localtime now currentTime w profile autosave).world.fs,
      isUnder (parsePath (targetBackupPath exePath profile.name
        (backupFolderName localtime now autosave))) n.path = false := by
  rw [BackupSaveFolder_of_copy_failed g exePath localtime now currentTime w profile autosave e
    hfail]
  have h := fs_remove_all_ok_none_under _ _ hclean
  exact ⟨fs_exists_false_of_none_under _ _ h, h⟩

/-- C9 amended, at a concrete input: the copy stops at the unreadable `b.sav`
after `a.sav` was copied, and the cleanup removes the partial archive. -/
theorem C9_no_partial_archive_when_cleanup_succeeds_witness :
    fs_exists (fs_copy unreadableWorld.fs (parsePath sampleProfile.savePath)
        (parsePath (targetBackupPath sampleExePath sampleProfile.name
          (backupFolderName utcLocaltime 1700000000 false))) false).1
      (parsePath (targetBackupPath sampleExePath sampleProfile.name
        (backupFolderName utcLocaltime 1700000000 false)) ++ [L "a.sav"]) = true ∧
    fs_exists
      (BackupSaveFolder defaultGlobals sampleExePath utcLocaltime 1700000000 sampleCurrentTime
        unreadableWorld sampleProfile false).world.fs
      (parsePath (targetBackupPath sampleExePath sampleProfile.name
        (backupFolderName utcLocaltime 1700000000 false))) = false :=
  ⟨by decide,
    (C9_no_partial_archive_when_cleanup_succeeds defaultGlobals sampleExePath utcLocaltime
      1700000000 sampleCurrentTime unreadableWorld sampleProfile false
      ⟨L "copy_file: cannot read the source file"⟩ (by decide) (by decide)).1⟩

/-- C10, the code at the failing input: the backup directory already holds
the manual archive of the instant 1700000000 with its file `a.sav`; a second
manual backup in the same second fails (the file exists), and when
`BackupSaveFolder` returns the archive that was there before the call is
gone, directory and file. -/
theorem C10_failed_capture_removes_existing_archive :
    fs_exists collisionWorld.fs
      (parsePath (targetBackupPath sampleExePath sampleProfile.name
        (backupFolderName utcLocaltime 1700000000 false))) = true ∧
    lookup collisionWorld.fs
      (parsePath (targetBackupPath sampleExePath sampleProfile.name
        (backupFolderName utcLocaltime 1700000000 false)) ++ [L "a.sav"])
      = some (fileNode "C:\\App\\Backups\\G\\1700000000-[2023-11-14_22-13-20]-M\\a.sav" [1, 2]) ∧
    (BackupSaveFolder defaultGlobals sampleExePath utcLocaltime 1700000000 sampleCurrentTime
      collisionWorld sampleProfile false).localSuccess = false ∧
    (BackupSaveFolder defaultGlobals sampleExePath utcLocaltime 1700000000 sampleCurrentTime
      collisionWorld sampleProfile false).world.console
      = [L ("[2023-11-14 22:13:20] [M] Local backup FAILED for " ++
            "1700000000-[2023-11-14_22-13-20]-M: copy_file: the file exists"),
          separatorLine] ∧
    fs_exists
      (BackupSaveFolder defaultGlobals sampleExePath utcLocaltime 1700000000 sampleCurrentTime
        collisionWorld sampleProfile false).world.fs
      (parsePath (targetBackupPath sampleExePath sampleProfile.name
        (backupFolderName utcLocaltime 1700000000 false))) = false ∧
    (BackupSaveFolder defaultGlobals sampleExePath utcLocaltime 1700000000 sampleCurrentTime
      collisionWorld sampleProfile false).world.fs = baseFs := by
  decide

/-! ## The file system: frames as filters -/

theorem isUnder_iff (p q : Path) : isUnder p q = true ↔ p <+: q := by
  unfold isUnder
  exact List.isPrefixOf_iff_prefix

theorem isUnder_trans (p q r : Path) (h1 : isUnder p q = true) (h2 : isUnder q r = true) :
    isUnder p r = true := by
  rw [isUnder_iff] at *
  exact h1.trans h2

theorem filter_eq_of_imp (l1 l2 : FileSystem) (Q P : Node → Bool)
    (h : l1.filter Q = l2.filter Q) (hPQ : ∀ n, P n = true → Q n = true) :
    l1.filter P = l2.filter P := by
  have e : ∀ l : FileSystem, l.filter P = (l.filter Q).filter P := by
    intro l
    rw [List.filter_filter]
    apply List.filter_congr
    intro n _
    by_cases hp : P n = true
    · simp [hp, hPQ n hp]
    · simp [hp]
  rw [e l1, e l2, h]

theorem fs_remove_all_filter (fs : FileSystem) (p : Path) (P : Node → Bool)
    (hP : ∀ n, P n = true → isUnder p n.path = false) :
    (fs_remove_all fs p).1.filter P = fs.filter P :=
  filter_eq_of_imp _ _ (fun n => !isUnder p n.path) P (fs_remove_all_frame fs p)
    (fun n hn => by simp [hP n hn])

theorem filter_map_off (fs : FileSystem) (t : Path) (k : FileKind) :
    (fs.map (fun n => if n.path == t then { n with kind := k } else n)).filter
        (fun n => n.path != t)
      = fs.filter (fun n => n.path != t) := by
  induction fs with
  | nil => rfl
  | cons n rest ih =>
    by_cases h : n.path = t
    · rw [List.map_cons, List.filter_cons, List.filter_cons, ih]
      simp [h]
    · rw [List.map_cons, List.filter_cons, List.filter_cons, ih]
      simp [h]

theorem copy_file_filter (overwrite : Bool) (fs : FileSystem) (d : Node) (content : List Nat)
    (t : Path) :
    (copy_file overwrite fs d content t).1.filter (fun n => n.path != t)
      = fs.filter (fun n => n.path != t) := by
  unfold copy_file
  by_cases hr : d.readable = true
  · simp only [hr, Bool.not_true, Bool.false_eq_true, if_false]
    cases hl : lookup fs t with
    | none => simp [List.filter_append]
    | some old =>
      simp only
      split_ifs
      · rfl
      · rfl
      · exact filter_map_off fs t _
  · simp [hr]

theorem copyEntry_filter (overwrite : Bool) (src dst : Path) (fs : FileSystem) (d : Node) :
    (copyEntry overwrite src dst fs d).1.filter (fun n => !isUnder dst n.path)
      = fs.filter (fun n => !isUnder dst n.path) := by
  unfold copyEntry
  cases hk : d.kind with
  | regular content =>
    simp only
    apply filter_eq_of_imp _ _ (fun n => n.path != dst ++ d.path.drop src.length) _
      (copy_file_filter overwrite fs d content _)
    intro n hn
    by_cases e : n.path = dst ++ d.path.drop src.length
    · rw [e, isUnder_append] at hn
      simp at hn
    · simpa using e
  | directory =>
    simp only
    cases hl : lookup fs (dst ++ d.path.drop src.length) with
    | some old =>
      simp only
      split_ifs <;> rfl
    | none =>
      simp only
      have : (fs ++ [(⟨dst ++ d.path.drop src.length, FileKind.directory, true, true⟩ : Node)]).filter
          (fun n => !isUnder dst n.path) = fs.filter (fun n => !isUnder dst n.path) := by
        simp [List.filter_append, isUnder_append]
      split_ifs <;> exact this

theorem copyEntries_filter (overwrite : Bool) (src dst : Path) (ds : List Node)
    (fs : FileSystem) :
    (copyEntries overwrite src dst ds fs).1.filter (fun n => !isUnder dst n.path)
      = fs.filter (fun n => !isUnder dst n.path) := by
  induction ds generalizing fs with
  | nil => rfl
  | cons d ds ih =>
    have h1 := copyEntry_filter overwrite src dst fs d
    unfold copyEntries
    cases hr : (copyEntry overwrite src dst fs d).2 with
    | some e =>
      have : copyEntry overwrite src dst fs d
          = ((copyEntry overwrite src dst fs d).1, some e) := by rw [← hr]
      rw [this]
      exact h1
    | none =>
      have : copyEntry overwrite src dst fs d
          = ((copyEntry overwrite src dst fs d).1, none) := by rw [← hr]
      rw [this]
      simp only
      rw [ih, h1]

/-- A copy, with or without `overwrite_existing`, leaves every node that is
not at or below its target path as it was. -/
theorem fs_copy_filter (fs : FileSystem) (src dst : Path) (overwrite : Bool) :
    (fs_copy fs src dst overwrite).1.filter (fun n => !isUnder dst n.path)
      = fs.filter (fun n => !isUnder dst n.path) := by
  unfold fs_copy
  cases hs : lookup fs src with
  | none => rfl
  | some n =>
    simp only
    cases hk : n.kind with
    | regular content =>
      simp only
      apply filter_eq_of_imp _ _
        (fun m => m.path != (if fs_is_directory fs dst then dst ++ [filename src] else dst)) _
        (copy_file_filter overwrite fs n content _)
      intro m hm
      by_cases e : m.path = (if fs_is_directory fs dst then dst ++ [filename src] else dst)
      · exfalso
        rw [e] at hm
        split_ifs at hm
        · rw [isUnder_append] at hm; simp at hm
        · rw [isUnder_self] at hm; simp at hm
      · simpa using e
    | directory =>
      simp only
      by_cases hu : isUnder src dst = true
      · simp [hu]
      simp only [hu, Bool.false_eq_true, if_false]
      cases hd : lookup fs dst with
      | some old =>
        simp only
        split_ifs
        · exact copyEntries_filter overwrite src dst _ fs
        · rfl
        · rfl
      | none =>
        simp only
        have hnew : (fs ++ [(⟨dst, FileKind.directory, true, true⟩ : Node)]).filter
            (fun n => !isUnder dst n.path) = fs.filter (fun n => !isUnder dst n.path) := by
          simp [List.filter_append, isUnder_self]
        split_ifs
        · rw [copyEntries_filter, hnew]
        · exact hnew
        · rfl

theorem createChain_append (ps : List Path) (fs : FileSystem) :
    ∃ added, (createChain ps fs).1 = fs ++ added ∧
      ∀ n ∈ added, n.path ∈ ps ∧ lookup fs n.path = none := by
  induction ps generalizing fs with
  | nil => exact ⟨[], by simp [createChain], by simp⟩
  | cons p ps ih =>
    unfold createChain
    cases hl : lookup fs p with
    | some old =>
      simp only
      split_ifs
      · obtain ⟨a, h1, h2⟩ := ih fs
        exact ⟨a, h1, fun n hn => ⟨List.mem_cons_of_mem _ (h2 n hn).1, (h2 n hn).2⟩⟩
      · exact ⟨[], by simp, by simp⟩
    | none =>
      simp only
      obtain ⟨a, h1, h2⟩ := ih (fs ++ [⟨p, FileKind.directory, true, true⟩])
      refine ⟨⟨p, FileKind.directory, true, true⟩ :: a, by rw [h1]; simp, ?_⟩
      intro n hn
      rcases List.mem_cons.1 hn with h | h
      · rw [h]; exact ⟨List.mem_cons_self _ _, hl⟩
      · refine ⟨List.mem_cons_of_mem _ (h2 n h).1, ?_⟩
        have := (h2 n h).2
        unfold lookup at this ⊢
        rw [List.find?_append] at this
        cases hf : List.find? (fun m => m.path == n.path) fs with
        | none => rfl
        | some x => simp [hf] at this

/-- `create_directories` only adds nodes, at paths that are the path or one
of its ancestors and that did not exist. -/
theorem fs_create_directories_append (fs : FileSystem) (p : Path) :
    ∃ added, (fs_create_directories fs p).1 = fs ++ added ∧
      ∀ n ∈ added, isUnder n.path p = true ∧ lookup fs n.path = none := by
  obtain ⟨a, h1, h2⟩ := createChain_append p.inits.tail fs
  refine ⟨a, h1, fun n hn => ⟨?_, (h2 n hn).2⟩⟩
  rw [isUnder_iff]
  exact (List.mem_inits _ _).1 (List.mem_of_mem_tail (h2 n hn).1)

theorem fs_create_directories_filter (fs : FileSystem) (p : Path) (P : Node → Bool)
    (hP : ∀ n, P n = true → isUnder n.path p = false) :
    (fs_create_directories fs p).1.filter P = fs.filter P := by
  obtain ⟨a, h1, h2⟩ := fs_create_directories_append fs p
  rw [h1, List.filter_append]
  have : a.filter P = [] := by
    rw [List.filter_eq_nil_iff]
    intro n hn hp
    have := hP n hp
    rw [(h2 n hn).1] at this
    cases this
  rw [this, List.append_nil]

/-! ## Restoring: what is left alone -/

theorem isChildOf_isUnder (p q : Path) (h : isChildOf p q = true) : isUnder p q = true := by
  unfold isChildOf at h
  simp only [Bool.and_eq_true, Bool.not_eq_true', beq_iff_eq] at h
  rw [isUnder_iff, ← h.2]
  exact List.dropLast_prefix q

theorem listing_children (fs : FileSystem) (p : Path) (entries : List Node)
    (h : fs_directory_iterator fs p = Except.ok entries) :
    entries = fs.filter (fun m => isChildOf p m.path) := by
  unfold fs_directory_iterator at h
  cases hl : lookup fs p with
  | none => simp [hl] at h
  | some d =>
    simp only [hl] at h
    split_ifs at h
    injection h with h
    exact h.symm

theorem clearLoop_filter (entries : List Node) (w : World) (P : Node → Bool)
    (hP : ∀ n, P n = true → ∀ e ∈ entries, isUnder e.path n.path = false) :
    (clearLoop entries w).1.fs.filter P = w.fs.filter P := by
  induction entries generalizing w with
  | nil => rfl
  | cons e es ih =>
    have h1 : (w.remove_all e.path).1.fs.filter P = w.fs.filter P :=
      fs_remove_all_filter w.fs e.path P (fun n hn => hP n hn e (List.mem_cons_self _ _))
    cases hr : (w.remove_all e.path).2 with
    | some err =>
      simp only [clearLoop, hr]
      exact h1
    | none =>
      simp only [clearLoop, hr]
      rw [ih (w.remove_all e.path).1 (fun n hn e2 he2 => hP n hn e2 (List.mem_cons_of_mem _ he2)),
        h1]

theorem clearAndCopy_filter (texts : RestoreTexts) (w : World) (backupToRestore : Path)
    (savePath : WString) :
    (clearAndCopy texts w backupToRestore savePath).1.fs.filter
        (fun n => !isUnder (parsePath savePath) n.path)
      = w.fs.filter (fun n => !isUnder (parsePath savePath) n.path) := by
  unfold clearAndCopy
  simp only [World.directory_iterator]
  cases hl : fs_directory_iterator w.fs (parsePath savePath) with
  | error e => rfl
  | ok entries =>
    simp only
    have hch := listing_children _ _ _ hl
    have hclear : (clearLoop entries
        { fs := w.fs, calls := w.calls ++ [FsCall.directory_iterator (parsePath savePath)],
          console := w.console }).1.fs.filter (fun n => !isUnder (parsePath savePath) n.path)
        = w.fs.filter (fun n => !isUnder (parsePath savePath) n.path) := by
      apply clearLoop_filter
      intro n hn e he
      rw [hch] at he
      have hc := isChildOf_isUnder _ _ (List.mem_filter.1 he).2
      by_contra hcon
      have : isUnder (parsePath savePath) n.path = true :=
        isUnder_trans _ _ _ hc (by simpa using hcon)
      simp [this] at hn
    cases hr : (clearLoop entries
        { fs := w.fs, calls := w.calls ++ [FsCall.directory_iterator (parsePath savePath)],
          console := w.console }).2 with
    | some e => exact hclear
    | none =>
      simp only [World.copy_path]
      split
      · simp only [restoreFailed, World.printAll]
        rw [fs_copy_filter, hclear]
      · simp only [World.printAll]
        rw [fs_copy_filter, hclear]

theorem not_comparable_left (p q : Path) (h : comparable p q = false) : isUnder p q = false := by
  unfold comparable at h
  simp only [Bool.or_eq_false_iff] at h
  exact h.1

theorem not_comparable_right (p q : Path) (h : comparable p q = false) : isUnder q p = false := by
  unfold comparable at h
  simp only [Bool.or_eq_false_iff] at h
  exact h.2

/-- The restore block changes nothing except at the save path, below it, and
at its ancestors (which `create_directories` may create). -/
theorem restoreBlock_filter (texts : RestoreTexts) (w : World) (backupToRestore : Path)
    (savePath : WString) :
    (restoreBlock texts w backupToRestore savePath).1.fs.filter
        (fun n => !comparable (parsePath savePath) n.path)
      = w.fs.filter (fun n => !comparable (parsePath savePath) n.path) := by
  have hstep : ∀ w1 : World,
      (clearAndCopy texts w1 backupToRestore savePath).1.fs.filter
          (fun n => !comparable (parsePath savePath) n.path)
        = w1.fs.filter (fun n => !comparable (parsePath savePath) n.path) := fun w1 =>
    filter_eq_of_imp _ _ _ _ (clearAndCopy_filter texts w1 backupToRestore savePath)
      (fun n hn => by
        have := not_comparable_left (parsePath savePath) n.path (by simpa using hn)
        simp [this])
  unfold restoreBlock
  simp only [World.file_exists]
  by_cases hex : fs_exists w.fs (parsePath savePath) = true
  · simp only [hex, Bool.not_true, Bool.false_eq_true, if_false, World.is_directory]
    split_ifs
    · rfl
    · rw [hstep]
  · simp only [hex, Bool.not_false, if_true, World.create_directories]
    have hcr : (fs_create_directories w.fs (parsePath savePath)).1.filter
        (fun n => !comparable (parsePath savePath) n.path)
        = w.fs.filter (fun n => !comparable (parsePath savePath) n.path) :=
      fs_create_directories_filter _ _ _ (fun n hn =>
        not_comparable_right (parsePath savePath) n.path (by simpa using hn))
    split
    · exact hcr
    · rw [hstep]
      exact hcr

theorem RestoreLastBackup_filter (exePath : WString)
    (last_write_time : Path → Except filesystem_error Int) (w : World) (profile : GameProfile) :
    (RestoreLastBackup exePath last_write_time w profile).1.fs.filter
        (fun n => !comparable (parsePath profile.savePath) n.path)
      = w.fs.filter (fun n => !comparable (parsePath profile.savePath) n.path) := by
  unfold RestoreLastBackup
  simp only [World.file_exists, World.directory_iterator]
  split_ifs
  · rfl
  · split
    · rfl
    · split_ifs
      · rfl
      · rw [restoreBlock_filter]

theorem restoreMenu_filter (m : MenuTexts) (w : World) (gamePath : WString)
    (selectedGame : GameProfile) (choice_str confirm : List Nat) :
    (restoreMenu m w gamePath selectedGame choice_str confirm).1.fs.filter
        (fun n => !comparable (parsePath selectedGame.savePath) n.path)
      = w.fs.filter (fun n => !comparable (parsePath selectedGame.savePath) n.path) := by
  unfold restoreMenu
  simp only [World.file_exists, World.is_directory, World.directory_iterator]
  by_cases hex : fs_exists w.fs (parsePath gamePath) = true
  · simp only [hex, if_true, Bool.not_true, Bool.false_or]
    by_cases hdir : fs_is_directory w.fs (parsePath gamePath) = true
    · simp only [hdir, Bool.not_true, Bool.false_eq_true, if_false]
      repeat' first | rfl | rw [restoreBlock_filter] | split
    · simp only [hdir, Bool.not_false, if_true]
      rfl
  · simp only [hex, Bool.false_eq_true, if_false, Bool.not_false, Bool.true_or, if_true]
    rfl

theorem filter_under_of_not_comparable (fs1 fs2 : FileSystem) (S R : Path)
    (h : fs1.filter (fun n => !comparable S n.path) = fs2.filter (fun n => !comparable S n.path))
    (hR : comparable S R = false) :
    fs1.filter (fun n => isUnder R n.path) = fs2.filter (fun n => isUnder R n.path) := by
  apply filter_eq_of_imp _ _ _ _ h
  intro n hn
  have h1 := not_comparable_left S R hR
  have h2 := not_comparable_right S R hR
  have hRn : R <+: n.path := (isUnder_iff _ _).1 hn
  have a : isUnder S n.path = false := by
    by_contra hc
    have hSn : S <+: n.path := (isUnder_iff _ _).1 (by simpa using hc)
    rcases List.prefix_or_prefix_of_prefix hSn hRn with h | h
    · rw [(isUnder_iff S R).2 h] at h1; cases h1
    · rw [(isUnder_iff R S).2 h] at h2; cases h2
  have b : isUnder n.path S = false := by
    by_contra hc
    have hnS : n.path <+: S := (isUnder_iff _ _).1 (by simpa using hc)
    rw [(isUnder_iff R S).2 (hRn.trans hnS)] at h2
    cases h2
  simp [comparable, a, b]

/-! ## Restoring: what a successful restore leaves -/

theorem fs_exists_iff (fs : FileSystem) (p : Path) :
    fs_exists fs p = true ↔ ∃ n ∈ fs, n.path = p := by
  unfold fs_exists lookup
  rw [List.find?_isSome]
  simp

theorem lookup_some_mem (fs : FileSystem) (p : Path) (n : Node) (h : lookup fs p = some n) :
    n ∈ fs ∧ n.path = p := by
  unfold lookup at h
  exact ⟨List.mem_of_find?_eq_some h, by simpa using List.find?_some h⟩

theorem lookup_of_mem_nodup (fs : FileSystem) (n : Node)
    (hnd : (fs.map (fun m => m.path)).Nodup) (hn : n ∈ fs) : lookup fs n.path = some n := by
  induction fs with
  | nil => cases hn
  | cons m rest ih =>
    rw [List.map_cons, List.nodup_cons] at hnd
    unfold lookup
    rcases List.mem_cons.1 hn with h | h
    · subst h
      simp [List.find?_cons]
    · have hne : m.path ≠ n.path := by
        intro e
        apply hnd.1
        rw [e]
        exact List.mem_map_of_mem _ h
      have hb : (m.path == n.path) = false := by simpa using hne
      rw [List.find?_cons, hb]
      exact ih hnd.2 h

theorem lookup_append_none (fs : FileSystem) (x : Node) (p : Path) :
    lookup (fs ++ [x]) p = none ↔ lookup fs p = none ∧ x.path ≠ p := by
  unfold lookup
  rw [List.find?_eq_none, List.find?_eq_none]
  simp only [List.mem_append, List.mem_singleton, beq_iff_eq]
  constructor
  · intro h
    exact ⟨fun n hn => h n (Or.inl hn), by simpa using h x (Or.inr rfl)⟩
  · rintro ⟨h1, h2⟩ n (hn | rfl)
    · exact h1 n hn
    · simpa using h2

theorem lookup_filter (fs : FileSystem) (P : Node → Bool) (p : Path)
    (hP : ∀ n ∈ fs, n.path = p → P n = true) : lookup (fs.filter P) p = lookup fs p := by
  induction fs with
  | nil => rfl
  | cons m rest ih =>
    have ih2 := ih (fun n hn => hP n (List.mem_cons_of_mem _ hn))
    unfold lookup at ih2 ⊢
    by_cases hm : m.path = p
    · have := hP m (List.mem_cons_self _ _) hm
      simp [List.filter_cons, this, List.find?_cons, hm]
    · by_cases hpm : P m = true
      · simp [List.filter_cons, hpm, List.find?_cons, hm, ih2]
      · simp [List.filter_cons, hpm, List.find?_cons, hm, ih2]

theorem strictlyUnder_iff (p q : Path) :
    strictlyUnder p q = true ↔ ∃ c r, q = p ++ c :: r := by
  unfold strictlyUnder
  simp only [Bool.and_eq_true, isUnder_iff, bne_iff_ne, ne_eq]
  constructor
  · rintro ⟨⟨t, rfl⟩, hne⟩
    cases t with
    | nil => simp at hne
    | cons c r => exact ⟨c, r, rfl⟩
  · rintro ⟨c, r, rfl⟩
    exact ⟨List.prefix_append _ _, by simp⟩

theorem strictlyUnder_isUnder (p q : Path) (h : strictlyUnder p q = true) :
    isUnder p q = true := by
  unfold strictlyUnder at h
  simp only [Bool.and_eq_true] at h
  exact h.1

theorem isChildOf_iff (p q : Path) : isChildOf p q = true ↔ ∃ c, q = p ++ [c] := by
  unfold isChildOf
  simp only [Bool.and_eq_true, Bool.not_eq_true', beq_iff_eq, List.isEmpty_eq_false]
  constructor
  · rintro ⟨hne, hd⟩
    refine ⟨q.getLast hne, ?_⟩
    rw [← hd]
    exact (List.dropLast_append_getLast hne).symm
  · rintro ⟨c, rfl⟩
    simp

theorem isChildOf_strictlyUnder (p q : Path) (h : isChildOf p q = true) :
    strictlyUnder p q = true := by
  obtain ⟨c, rfl⟩ := (isChildOf_iff p q).1 h
  exact (strictlyUnder_iff _ _).2 ⟨c, [], rfl⟩

theorem wellFormed_nodup (fs : FileSystem) (h : wellFormed fs = true) :
    (fs.map (fun n => n.path)).Nodup := by
  unfold wellFormed at h
  simp only [Bool.and_eq_true, decide_eq_true_eq] at h
  exact h.1

theorem wellFormed_ancestor (fs : FileSystem) (h : wellFormed fs = true) (n : Node)
    (hn : n ∈ fs) (k : Nat) (hk : k < n.path.length) :
    fs_exists fs (n.path.take (k + 1)) = true := by
  unfold wellFormed at h
  simp only [Bool.and_eq_true, List.all_eq_true, List.mem_range] at h
  exact h.2 n hn k hk

/-- In a well-formed file system every node below a directory lies at or below
one of the immediate children of the directory. -/
theorem wellFormed_child (fs : FileSystem) (h : wellFormed fs = true) (S : Path) (n : Node)
    (hn : n ∈ fs) (hs : strictlyUnder S n.path = true) :
    ∃ e ∈ fs, isChildOf S e.path = true ∧ isUnder e.path n.path = true := by
  obtain ⟨c, r, hq⟩ := (strictlyUnder_iff _ _).1 hs
  have hlen : S.length < n.path.length := by rw [hq]; simp
  have hex := wellFormed_ancestor fs h n hn S.length hlen
  have htake : n.path.take (S.length + 1) = S ++ [c] := by
    rw [hq]
    rw [List.take_append_eq_append_take]
    simp
  rw [htake] at hex
  obtain ⟨e, he, hp⟩ := (fs_exists_iff _ _).1 hex
  refine ⟨e, he, ?_, ?_⟩
  · rw [hp]; exact (isChildOf_iff _ _).2 ⟨c, rfl⟩
  · rw [hp, hq, isUnder_iff]
    exact ⟨r, by simp⟩

theorem clearLoop_ok (entries : List Node) (w : World) (h : (clearLoop entries w).2 = none) :
    (clearLoop entries w).1.fs
      = w.fs.filter (fun n => entries.all (fun e => !isUnder e.path n.path)) := by
  induction entries generalizing w with
  | nil => simp [clearLoop]
  | cons e es ih =>
    cases hr : (w.remove_all e.path).2 with
    | some err => simp [clearLoop, hr] at h
    | none =>
      simp only [clearLoop, hr] at h ⊢
      rw [ih _ h]
      have : (w.remove_all e.path).1.fs = w.fs.filter (fun n => !isUnder e.path n.path) :=
        fs_remove_all_ok w.fs e.path hr
      rw [this, List.filter_filter]
      apply List.filter_congr
      intro n _
      simp [List.all_cons, Bool.and_comm]

/-- Clearing a directory: when the loop over the immediate children of `S`
succeeds, what is left is the file system without the nodes below `S`. -/
theorem clearLoop_children (fs : FileSystem) (S : Path) (w : World)
    (hcl : ∀ n ∈ w.fs, strictlyUnder S n.path = true →
      ∃ e ∈ w.fs, isChildOf S e.path = true ∧ isUnder e.path n.path = true)
    (hfs : fs = w.fs)
    (h : (clearLoop (fs.filter (fun m => isChildOf S m.path)) w).2 = none) :
    (clearLoop (fs.filter (fun m => isChildOf S m.path)) w).1.fs
      = w.fs.filter (fun n => !strictlyUnder S n.path) := by
  rw [clearLoop_ok _ _ h]
  subst hfs
  apply List.filter_congr
  intro n hn
  by_cases hs : strictlyUnder S n.path = true
  · obtain ⟨e, he, hc, hu⟩ := hcl n hn hs
    simp only [hs, Bool.not_true, List.all_eq_false]
    exact ⟨e, List.mem_filter.2 ⟨he, hc⟩, by simp [hu]⟩
  · simp only [hs, Bool.not_false, List.all_eq_true]
    intro e he
    have hc := (List.mem_filter.1 he).2
    by_contra hcon
    have hu : isUnder e.path n.path = true := by simpa using hcon
    obtain ⟨c, hce⟩ := (isChildOf_iff _ _).1 hc
    obtain ⟨t, ht⟩ := (isUnder_iff _ _).1 hu
    apply hs
    rw [strictlyUnder_iff]
    exact ⟨c, t, by rw [← ht, hce]; simp⟩

theorem relocate_path (A S : Path) (d : Node) :
    (relocate A S d).path = S ++ d.path.drop A.length := rfl

theorem copyEntry_fresh (A S : Path) (fs : FileSystem) (d : Node)
    (hfresh : lookup fs (S ++ d.path.drop A.length) = none)
    (hsucc : (copyEntry true A S fs d).2 = none) :
    (copyEntry true A S fs d).1 = fs ++ [relocate A S d] := by
  unfold copyEntry at hsucc ⊢
  cases hk : d.kind with
  | directory =>
    simp only [hk, hfresh] at hsucc ⊢
    split_ifs at hsucc ⊢ with hr
    simp [relocate, hk]
  | regular content =>
    simp only [hk, copy_file, hfresh] at hsucc ⊢
    split_ifs at hsucc ⊢ with hr
    simp [relocate, hk]

/-- A recursive copy into a place that holds none of the target paths appends
the relocated nodes, in order. -/
theorem copyEntries_fresh (A S : Path) (ds : List Node) (fs : FileSystem)
    (hds : ∀ d ∈ ds, isUnder A d.path = true)
    (hnd : (ds.map (fun d => d.path)).Nodup)
    (hfresh : ∀ d ∈ ds, lookup fs (S ++ d.path.drop A.length) = none)
    (hsucc : (copyEntries true A S ds fs).2 = none) :
    (copyEntries true A S ds fs).1 = fs ++ ds.map (relocate A S) := by
  induction ds generalizing fs with
  | nil => simp [copyEntries]
  | cons d ds ih =>
    rw [List.map_cons, List.nodup_cons] at hnd
    cases hr : (copyEntry true A S fs d).2 with
    | some e =>
      have : copyEntry true A S fs d = ((copyEntry true A S fs d).1, some e) := by rw [← hr]
      unfold copyEntries at hsucc
      rw [this] at hsucc
      cases hsucc
    | none =>
      have h1 := copyEntry_fresh A S fs d (hfresh d (List.mem_cons_self _ _)) hr
      have e1 : copyEntry true A S fs d = (fs ++ [relocate A S d], none) := by
        rw [← h1, ← hr]
      unfold copyEntries at hsucc ⊢
      rw [e1] at hsucc ⊢
      simp only at hsucc ⊢
      rw [ih (fs ++ [relocate A S d]) (fun x hx => hds x (List.mem_cons_of_mem _ hx)) hnd.2 ?_
        hsucc]
      · simp
      · intro x hx
        rw [lookup_append_none]
        refine ⟨hfresh x (List.mem_cons_of_mem _ hx), ?_⟩
        rw [relocate_path]
        intro e
        have e2 := List.append_cancel_left e
        obtain ⟨t1, ht1⟩ := (isUnder_iff _ _).1 (hds d (List.mem_cons_self _ _))
        obtain ⟨t2, ht2⟩ := (isUnder_iff _ _).1 (hds x (List.mem_cons_of_mem _ hx))
        apply hnd.1
        have : d.path = x.path := by
          rw [← ht1, ← ht2] at e2 ⊢
          simp only [List.drop_left] at e2
          rw [e2]
        rw [this]
        exact List.mem_map_of_mem _ hx

theorem under_both (A S q : Path) (h1 : isUnder A q = true) (h2 : isUnder S q = true) :
    isUnder A S = true ∨ isUnder S A = true := by
  simp only [isUnder_iff] at *
  exact List.prefix_or_prefix_of_prefix h1 h2

theorem strictlyUnder_relocate (A S : Path) (d : Node) (hd : strictlyUnder A d.path = true) :
    strictlyUnder S (relocate A S d).path = true ∧
      (relocate A S d).path.drop S.length = d.path.drop A.length := by
  obtain ⟨c, r, hq⟩ := (strictlyUnder_iff _ _).1 hd
  rw [relocate_path, hq]
  simp only [List.drop_left]
  exact ⟨(strictlyUnder_iff _ _).2 ⟨c, r, rfl⟩, trivial⟩

/-- The successful copy of a restore: from the file system without the nodes
below the save path `S`, the copy of the archive `A` into `S` appends the
relocated nodes of the archive, and `A` and `S` lie apart. -/
theorem fs_copy_restore (fs : FileSystem) (A S : Path) (s : Node)
    (hnd : (fs.map (fun n => n.path)).Nodup)
    (hA : ∃ a ∈ fs, a.path = A ∧ a.kind = FileKind.directory)
    (hS : lookup fs S = some s) (hsd : s.kind = FileKind.directory)
    (hcp : (fs_copy (fs.filter (fun n => !strictlyUnder S n.path)) A S true).2 = none) :
    (fs_copy (fs.filter (fun n => !strictlyUnder S n.path)) A S true).1
      = fs.filter (fun n => !strictlyUnder S n.path)
          ++ ((fs.filter (fun n => !strictlyUnder S n.path)).filter
                (fun m => strictlyUnder A m.path)).map (relocate A S) ∧
    isUnder A S = false ∧ isUnder S A = false := by
  obtain ⟨a, ha, hap, hak⟩ := hA
  by_cases hs : strictlyUnder S A = true
  · exfalso
    have hnone : lookup (fs.filter (fun n => !strictlyUnder S n.path)) A = none := by
      cases h : lookup (fs.filter (fun n => !strictlyUnder S n.path)) A with
      | none => rfl
      | some n =>
        obtain ⟨hn, hp⟩ := lookup_some_mem _ _ _ h
        have := (List.mem_filter.1 hn).2
        rw [hp, hs] at this
        cases this
    unfold fs_copy at hcp
    rw [hnone] at hcp
    cases hcp
  · have hlA : lookup (fs.filter (fun n => !strictlyUnder S n.path)) A = some a := by
      rw [lookup_filter fs _ A (fun n _ hp => by rw [hp]; simpa using hs), ← hap]
      exact lookup_of_mem_nodup fs a hnd ha
    have hlS : lookup (fs.filter (fun n => !strictlyUnder S n.path)) S = some s := by
      rw [lookup_filter fs _ S (fun n _ hp => by
        rw [hp]; simp [strictlyUnder]), hS]
    unfold fs_copy at hcp ⊢
    rw [hlA] at hcp ⊢
    simp only [hak] at hcp ⊢
    by_cases hu : isUnder A S = true
    · simp [hu] at hcp
    simp only [hu, Bool.false_eq_true, if_false, hlS, hsd, beq_self_eq_true, if_true] at hcp ⊢
    by_cases hr : a.readable = true
    · simp only [hr, if_true] at hcp ⊢
      have hAS : isUnder A S = false := by simpa using hu
      have hne : A ≠ S := by
        intro e
        rw [e, isUnder_self] at hAS
        cases hAS
      have hSA : isUnder S A = false := by
        by_contra hc
        apply hs
        unfold strictlyUnder
        simp only [Bool.and_eq_true, bne_iff_ne, ne_eq]
        exact ⟨by simpa using hc, hne⟩
      refine ⟨?_, trivial, hSA⟩
      apply copyEntries_fresh A S _ _ _ _ _ hcp
      · intro d hd
        have := (List.mem_filter.1 hd).2
        simp only [Bool.and_eq_true] at this
        exact this.1
      · exact hnd.sublist ((List.filter_sublist _).trans (List.filter_sublist _) |>.map _)
      · intro d hd
        have hd2 : strictlyUnder A d.path = true := (List.mem_filter.1 hd).2
        cases h : lookup (fs.filter (fun n => !strictlyUnder S n.path))
            (S ++ d.path.drop A.length) with
        | none => rfl
        | some n =>
          exfalso
          obtain ⟨hn, hp⟩ := lookup_some_mem _ _ _ h
          have := (List.mem_filter.1 hn).2
          have h3 := (strictlyUnder_relocate A S d hd2).1
          rw [relocate_path, ← hp] at h3
          rw [h3] at this
          cases this
    · simp [hr] at hcp

theorem contents_after_restore (fs : FileSystem) (A S : Path)
    (hAS : isUnder A S = false) (hSA : isUnder S A = false) :
    contents (fs.filter (fun n => !strictlyUnder S n.path)
        ++ ((fs.filter (fun n => !strictlyUnder S n.path)).filter
              (fun m => strictlyUnder A m.path)).map (relocate A S)) S
      = contents fs A ∧
    contents (fs.filter (fun n => !strictlyUnder S n.path)
        ++ ((fs.filter (fun n => !strictlyUnder S n.path)).filter
              (fun m => strictlyUnder A m.path)).map (relocate A S)) A
      = contents fs A := by
  have hapart : ∀ q : Path, isUnder A q = true → isUnder S q = true → False := by
    intro q h1 h2
    rcases under_both A S q h1 h2 with h | h
    · rw [h] at hAS; cases hAS
    · rw [h] at hSA; cases hSA
  have hds : (fs.filter (fun n => !strictlyUnder S n.path)).filter
      (fun m => strictlyUnder A m.path) = fs.filter (fun m => strictlyUnder A m.path) := by
    rw [List.filter_filter]
    apply List.filter_congr
    intro n _
    by_cases h : strictlyUnder A n.path = true
    · have : strictlyUnder S n.path = false := by
        by_contra hc
        exact hapart n.path (strictlyUnder_isUnder _ _ h)
          (strictlyUnder_isUnder _ _ (by simpa using hc))
      simp [h, this]
    · simp [h]
  rw [hds]
  have h1 : (fs.filter (fun n => !strictlyUnder S n.path)).filter
      (fun n => strictlyUnder S n.path) = [] := by
    rw [List.filter_filter, List.filter_eq_nil_iff]
    intro n _
    by_cases h : strictlyUnder S n.path = true <;> simp [h]
  have h2 : ((fs.filter (fun m => strictlyUnder A m.path)).map (relocate A S)).filter
      (fun n => strictlyUnder S n.path)
      = (fs.filter (fun m => strictlyUnder A m.path)).map (relocate A S) := by
    rw [List.filter_eq_self]
    intro n hn
    obtain ⟨d, hd, rfl⟩ := List.mem_map.1 hn
    exact (strictlyUnder_relocate A S d (List.mem_filter.1 hd).2).1
  have h3 : ((fs.filter (fun m => strictlyUnder A m.path)).map (relocate A S)).filter
      (fun n => strictlyUnder A n.path) = [] := by
    rw [List.filter_eq_nil_iff]
    intro n hn hc
    obtain ⟨d, hd, rfl⟩ := List.mem_map.1 hn
    exact hapart _ (strictlyUnder_isUnder _ _ hc)
      (strictlyUnder_isUnder _ _ (strictlyUnder_relocate A S d (List.mem_filter.1 hd).2).1)
  constructor
  · unfold contents
    rw [List.filter_append, h1, h2, List.nil_append, List.map_map]
    apply List.map_congr_left
    intro d hd
    simp only [Function.comp]
    rw [(strictlyUnder_relocate A S d (List.mem_filter.1 hd).2).2]
    rfl
  · unfold contents
    rw [List.filter_append, h3, List.append_nil, hds]

theorem lookup_none_not_mem (fs : FileSystem) (p : Path) (h : lookup fs p = none) :
    p ∉ fs.map (fun n => n.path) := by
  unfold lookup at h
  rw [List.find?_eq_none] at h
  intro hm
  obtain ⟨n, hn, hp⟩ := List.mem_map.1 hm
  exact h n hn (by simpa using hp)

theorem createChain_nodup (ps : List Path) (fs : FileSystem)
    (h : (fs.map (fun n => n.path)).Nodup) :
    ((createChain ps fs).1.map (fun n => n.path)).Nodup := by
  induction ps generalizing fs with
  | nil => exact h
  | cons p ps ih =>
    unfold createChain
    cases hl : lookup fs p with
    | some old =>
      simp only
      split_ifs
      · exact ih fs h
      · exact h
    | none =>
      simp only
      apply ih
      rw [List.map_append, List.nodup_append]
      refine ⟨h, by simp, ?_⟩
      intro a ha hb
      simp only [List.map_cons, List.map_nil, List.mem_singleton] at hb
      rw [hb] at ha
      exact lookup_none_not_mem fs p hl ha

theorem listing_directory (fs : FileSystem) (p : Path) (entries : List Node)
    (h : fs_directory_iterator fs p = Except.ok entries) :
    ∃ s, lookup fs p = some s ∧ s.kind = FileKind.directory := by
  unfold fs_directory_iterator at h
  cases hl : lookup fs p with
  | none => simp [hl] at h
  | some d =>
    simp only [hl] at h
    split_ifs at h with hc
    simp only [Bool.and_eq_true, beq_iff_eq] at hc
    exact ⟨d, rfl, hc.1⟩

/-- The clearing and copying part of a restore, when it ends in success: the
save path then holds what the archive holds, the archive is as it was, and
the two lie apart. -/
theorem clearAndCopy_restored (texts : RestoreTexts) (w : World) (A A0 : Path)
    (savePath : WString)
    (hnd : (w.fs.map (fun n => n.path)).Nodup)
    (hcl : ∀ n ∈ w.fs, strictlyUnder (parsePath savePath) n.path = true →
      ∃ e ∈ w.fs, isChildOf (parsePath savePath) e.path = true ∧ isUnder e.path n.path = true)
    (hA : ∃ a ∈ w.fs, a.path = A ∧ a.kind = FileKind.directory)
    (hsucc : (clearAndCopy texts w A savePath).2 = RestoreOutcome.restored A0) :
    contents (clearAndCopy texts w A savePath).1.fs (parsePath savePath) = contents w.fs A ∧
    contents (clearAndCopy texts w A savePath).1.fs A = contents w.fs A ∧
    isUnder A (parsePath savePath) = false ∧ isUnder (parsePath savePath) A = false := by
  unfold clearAndCopy at hsucc ⊢
  simp only [World.directory_iterator] at hsucc ⊢
  cases hl : fs_directory_iterator w.fs (parsePath savePath) with
  | error e => simp [hl, restoreFailed] at hsucc
  | ok entries =>
    simp only [hl] at hsucc ⊢
    obtain ⟨s, hS, hsd⟩ := listing_directory _ _ _ hl
    have hch := listing_children _ _ _ hl
    subst hch
    cases hc : (clearLoop (w.fs.filter (fun m => isChildOf (parsePath savePath) m.path))
        { fs := w.fs, calls := w.calls ++ [FsCall.directory_iterator (parsePath savePath)],
          console := w.console }).2 with
    | some e => simp [hc, restoreFailed] at hsucc
    | none =>
      simp only [hc] at hsucc ⊢
      have hfs2 := clearLoop_children w.fs (parsePath savePath)
        { fs := w.fs, calls := w.calls ++ [FsCall.directory_iterator (parsePath savePath)],
          console := w.console } hcl rfl hc
      simp only [World.copy_path, hfs2] at hsucc ⊢
      cases hcp : (fs_copy (w.fs.filter (fun n => !strictlyUnder (parsePath savePath) n.path)) A
          (parsePath savePath) true).2 with
      | some e => simp [hcp, restoreFailed] at hsucc
      | none =>
        simp only [hcp, World.printAll]
        obtain ⟨h1, h2, h3⟩ := fs_copy_restore w.fs A (parsePath savePath) s hnd hA hS hsd hcp
        rw [h1]
        obtain ⟨h4, h5⟩ := contents_after_restore w.fs A (parsePath savePath) h2 h3
        exact ⟨h4, h5, h2, h3⟩

theorem clearAndCopy_outcome (texts : RestoreTexts) (w : World) (A A0 : Path)
    (savePath : WString)
    (h : (clearAndCopy texts w A savePath).2 = RestoreOutcome.restored A0) : A0 = A := by
  unfold clearAndCopy at h
  simp only [restoreFailed] at h
  split at h
  · cases h
  · split at h
    · cases h
    · split at h
      · cases h
      · injection h with h
        exact h.symm

theorem restoreBlock_outcome (texts : RestoreTexts) (w : World) (A A0 : Path)
    (savePath : WString)
    (h : (restoreBlock texts w A savePath).2 = RestoreOutcome.restored A0) : A0 = A := by
  unfold restoreBlock at h
  simp only [restoreFailed] at h
  split at h
  · split at h
    · cases h
    · exact clearAndCopy_outcome _ _ _ _ _ h
  · split at h
    · cases h
    · exact clearAndCopy_outcome _ _ _ _ _ h

/-- The restore block, when it ends in success in a well-formed file system
for an archive that is a directory: the save path holds what the archive
held, and the archive is as it was. -/
theorem restoreBlock_restored (texts : RestoreTexts) (w : World) (A A0 : Path)
    (savePath : WString) (hwf : wellFormed w.fs = true)
    (hA : ∃ a ∈ w.fs, a.path = A ∧ a.kind = FileKind.directory)
    (hsucc : (restoreBlock texts w A savePath).2 = RestoreOutcome.restored A0) :
    contents (restoreBlock texts w A savePath).1.fs (parsePath savePath) = contents w.fs A ∧
    contents (restoreBlock texts w A savePath).1.fs A = contents w.fs A := by
  have hnd := wellFormed_nodup w.fs hwf
  unfold restoreBlock at hsucc ⊢
  simp only [World.file_exists] at hsucc ⊢
  by_cases hex : fs_exists w.fs (parsePath savePath) = true
  · simp only [hex, Bool.not_true, Bool.false_eq_true, if_false, World.is_directory]
      at hsucc ⊢
    split_ifs at hsucc ⊢
    obtain ⟨h1, h2, _, _⟩ := clearAndCopy_restored texts
      { fs := w.fs,
        calls := (w.calls ++ [FsCall.file_exists (parsePath savePath)]) ++
          [FsCall.is_directory (parsePath savePath)],
        console := w.console } A A0 savePath hnd
      (fun n hn hs => wellFormed_child w.fs hwf _ n hn hs) hA hsucc
    exact ⟨h1, h2⟩
  · simp only [hex, Bool.not_false, if_true, World.create_directories] at hsucc ⊢
    cases hcr : (fs_create_directories w.fs (parsePath savePath)).2 with
    | some e => simp [hcr, restoreFailed] at hsucc
    | none =>
      simp only [hcr] at hsucc ⊢
      obtain ⟨added, had, hadd⟩ := fs_create_directories_append w.fs (parsePath savePath)
      have hnd1 : ((fs_create_directories w.fs (parsePath savePath)).1.map
          (fun n => n.path)).Nodup := createChain_nodup _ _ hnd
      have hcl1 : ∀ n ∈ (fs_create_directories w.fs (parsePath savePath)).1,
          strictlyUnder (parsePath savePath) n.path = true →
          ∃ e ∈ (fs_create_directories w.fs (parsePath savePath)).1,
            isChildOf (parsePath savePath) e.path = true ∧ isUnder e.path n.path = true := by
        intro n hn hs
        rw [had] at hn ⊢
        rcases List.mem_append.1 hn with h | h
        · obtain ⟨e, he, h1, h2⟩ := wellFormed_child w.fs hwf _ n h hs
          exact ⟨e, List.mem_append_left _ he, h1, h2⟩
        · exfalso
          obtain ⟨c, r, hq⟩ := (strictlyUnder_iff _ _).1 hs
          have := (isUnder_iff _ _).1 (hadd n h).1
          rw [hq] at this
          have := this.length_le
          simp at this
      have hA1 : ∃ a ∈ (fs_create_directories w.fs (parsePath savePath)).1,
          a.path = A ∧ a.kind = FileKind.directory := by
        obtain ⟨a, ha, h1, h2⟩ := hA
        exact ⟨a, by rw [had]; exact List.mem_append_left _ ha, h1, h2⟩
      obtain ⟨h1, h2, h3, _⟩ := clearAndCopy_restored texts
        { fs := (fs_create_directories w.fs (parsePath savePath)).1,
          calls := (w.calls ++ [FsCall.file_exists (parsePath savePath)]) ++
            [FsCall.create_directories (parsePath savePath)],
          console := w.console } A A0 savePath hnd1 hcl1 hA1 hsucc
      have hsame : contents (fs_create_directories w.fs (parsePath savePath)).1 A
          = contents w.fs A := by
        unfold contents
        rw [had, List.filter_append]
        have : added.filter (fun n => strictlyUnder A n.path) = [] := by
          rw [List.filter_eq_nil_iff]
          intro n hn hc
          have := isUnder_trans _ _ _ (strictlyUnder_isUnder _ _ hc) (hadd n hn).1
          rw [this] at h3
          cases h3
        rw [this, List.append_nil]
      simp only at h1 h2
      rw [hsame] at h1 h2
      exact ⟨h1, h2⟩

/-! ## The restore functions -/

theorem listing_mem (fs : FileSystem) (p : Path) (entries : List Node)
    (h : fs_directory_iterator fs p = Except.ok entries) :
    ∀ e ∈ entries, e ∈ fs ∧ isChildOf p e.path = true := by
  intro e he
  rw [listing_children fs p entries h] at he
  exact List.mem_filter.1 he

theorem restoreMenu_restored (m : MenuTexts) (w : World) (gamePath : WString)
    (selectedGame : GameProfile) (choice_str confirm : List Nat) (A : Path)
    (hwf : wellFormed w.fs = true)
    (h : (restoreMenu m w gamePath selectedGame choice_str confirm).2
      = RestoreOutcome.restored A) :
    contents (restoreMenu m w gamePath selectedGame choice_str confirm).1.fs
        (parsePath selectedGame.savePath) = contents w.fs A ∧
    contents (restoreMenu m w gamePath selectedGame choice_str confirm).1.fs A
      = contents w.fs A := by
  unfold restoreMenu at h ⊢
  simp only [World.file_exists, World.is_directory, World.directory_iterator] at h ⊢
  by_cases hex : fs_exists w.fs (parsePath gamePath) = true
  swap
  · simp [hex] at h
  simp only [hex, if_true, Bool.not_true, Bool.false_or] at h ⊢
  by_cases hdir : fs_is_directory w.fs (parsePath gamePath) = true
  swap
  · simp [hdir] at h
  simp only [hdir, Bool.not_true, Bool.false_eq_true, if_false] at h ⊢
  cases hl : fs_directory_iterator w.fs (parsePath gamePath) with
  | error e => simp [hl] at h
  | ok entries =>
    simp only [hl] at h ⊢
    by_cases hb : ((stdSort ((entries.filter (fun n => n.kind == FileKind.directory)).map
        (fun n => n.path))).reverse).isEmpty = true
    · simp [hb] at h
    simp only [hb, Bool.false_eq_true, if_false] at h ⊢
    by_cases hx : (choice_str == N "x" || choice_str == N "X") = true
    · simp [hx] at h
    simp only [hx, Bool.false_eq_true, if_false] at h ⊢
    cases hst : stoi choice_str with
    | none => simp [hst] at h
    | some v =>
      simp only [hst] at h ⊢
      by_cases hr : v - 1 ≥ 0 ∧ v - 1 < (((stdSort ((entries.filter
          (fun n => n.kind == FileKind.directory)).map (fun n => n.path))).reverse).length : Int)
      swap
      · rw [if_neg hr] at h
        cases h
      simp only [hr, and_self, if_true] at h ⊢
      by_cases hy : (confirm == N "y" || confirm == N "Y") = true
      swap
      · simp [hy] at h
      simp only [hy, if_true] at h ⊢
      have hA0 := restoreBlock_outcome _ _ _ _ _ h
      have hidx : (v - 1).toNat < ((stdSort ((entries.filter
          (fun n => n.kind == FileKind.directory)).map (fun n => n.path))).reverse).length := by
        omega
      have hmem : A ∈ (stdSort ((entries.filter
          (fun n => n.kind == FileKind.directory)).map (fun n => n.path))).reverse := by
        rw [hA0, List.getD_eq_getElem _ _ hidx]
        exact List.getElem_mem _
      rw [List.mem_reverse, (stdSort_perm _).mem_iff, List.mem_map] at hmem
      obtain ⟨e, he, hp⟩ := hmem
      have hek := (List.mem_filter.1 he).2
      have hefs := (listing_mem _ _ _ hl e (List.mem_filter.1 he).1).1
      rw [← hA0] at h ⊢
      exact restoreBlock_restored _ _ A A _ hwf
        ⟨e, hefs, hp, by simpa using hek⟩ h

/-- What the loop of `RestoreLastBackup` selects, for entries with non-empty
paths: the state is only ever replaced by a directory whose name ends in `-M`
and whose last-write time can be read; the time of the state never
decreases; and the final time is at least the time of every such directory. -/
theorem selectLatestManual_spec (lwt : Path → Except filesystem_error Int)
    (entries : List Node) (hne : ∀ e ∈ entries, e.path ≠ []) (st : Path × Int) :
    (selectLatestManual lwt entries st = st ∨
      ∃ e ∈ entries, e.kind = FileKind.directory ∧
        endsWith (filename e.path) (L "-M") = true ∧
        lwt e.path = Except.ok (selectLatestManual lwt entries st).2 ∧
        e.path = (selectLatestManual lwt entries st).1) ∧
    (st.1 ≠ [] → (selectLatestManual lwt entries st).1 ≠ [] ∧
      st.2 ≤ (selectLatestManual lwt entries st).2) ∧
    (∀ e ∈ entries, e.kind = FileKind.directory →
      endsWith (filename e.path) (L "-M") = true → ∀ t, lwt e.path = Except.ok t →
      (selectLatestManual lwt entries st).1 ≠ [] ∧ t ≤ (selectLatestManual lwt entries st).2) := by
  induction entries generalizing st with
  | nil => exact ⟨Or.inl rfl, fun h => ⟨h, le_refl _⟩, fun e he => by cases he⟩
  | cons e rest ih =>
    have hne2 : ∀ x ∈ rest, x.path ≠ [] := fun x hx => hne x (List.mem_cons_of_mem _ hx)
    have hep : e.path ≠ [] := hne e (List.mem_cons_self _ _)
    by_cases hm : (e.kind == FileKind.directory && endsWith (filename e.path) (L "-M")) = true
    swap
    · have hsel : selectLatestManual lwt (e :: rest) st = selectLatestManual lwt rest st := by
        simp [selectLatestManual, hm]
      rw [hsel]
      obtain ⟨i1, i2, i3⟩ := ih hne2 st
      refine ⟨?_, i2, ?_⟩
      · rcases i1 with h | ⟨x, hx, h⟩
        · exact Or.inl h
        · exact Or.inr ⟨x, List.mem_cons_of_mem _ hx, h⟩
      · intro x hx hk hs t ht
        rcases List.mem_cons.1 hx with h | h
        · subst h
          simp [hk, hs] at hm
        · exact i3 x h hk hs t ht
    cases hl : lwt e.path with
    | error err =>
      have hsel : selectLatestManual lwt (e :: rest) st = selectLatestManual lwt rest st := by
        simp [selectLatestManual, hm, hl]
      rw [hsel]
      obtain ⟨i1, i2, i3⟩ := ih hne2 st
      refine ⟨?_, i2, ?_⟩
      · rcases i1 with h | ⟨x, hx, h⟩
        · exact Or.inl h
        · exact Or.inr ⟨x, List.mem_cons_of_mem _ hx, h⟩
      · intro x hx hk hs t ht
        rcases List.mem_cons.1 hx with h | h
        · subst h
          rw [hl] at ht
          cases ht
        · exact i3 x h hk hs t ht
    | ok modTime =>
      simp only [Bool.and_eq_true, beq_iff_eq] at hm
      by_cases hc : (st.1.isEmpty || decide (modTime > st.2)) = true
      · have hsel : selectLatestManual lwt (e :: rest) st
            = selectLatestManual lwt rest (e.path, modTime) := by
          simp only [selectLatestManual, hm.1, hm.2, hl, hc]
          simp
        rw [hsel]
        obtain ⟨i1, i2, i3⟩ := ih hne2 (e.path, modTime)
        have i2b := i2 hep
        refine ⟨?_, ?_, ?_⟩
        · right
          rcases i1 with h | ⟨x, hx, h⟩
          · exact ⟨e, List.mem_cons_self _ _, hm.1, hm.2, by rw [h]; exact hl, by rw [h]⟩
          · exact ⟨x, List.mem_cons_of_mem _ hx, h⟩
        · intro hst
          refine ⟨i2b.1, ?_⟩
          have : modTime > st.2 := by
            simp only [Bool.or_eq_true, List.isEmpty_iff, decide_eq_true_eq] at hc
            rcases hc with h | h
            · exact absurd h hst
            · exact h
          have := i2b.2
          simp only at this
          omega
        · intro x hx hk hs t ht
          rcases List.mem_cons.1 hx with h | h
          · subst h
            rw [hl] at ht
            injection ht with ht
            subst ht
            exact i2b
          · exact i3 x h hk hs t ht
      · have hsel : selectLatestManual lwt (e :: rest) st = selectLatestManual lwt rest st := by
          simp only [selectLatestManual, hm.1, hm.2, hl, hc]
          simp
        rw [hsel]
        obtain ⟨i1, i2, i3⟩ := ih hne2 st
        simp only [Bool.or_eq_true, List.isEmpty_iff, decide_eq_true_eq, not_or] at hc
        have i2b := i2 hc.1
        refine ⟨?_, i2, ?_⟩
        · rcases i1 with h | ⟨x, hx, h⟩
          · exact Or.inl h
          · exact Or.inr ⟨x, List.mem_cons_of_mem _ hx, h⟩
        · intro x hx hk hs t ht
          rcases List.mem_cons.1 hx with h | h
          · subst h
            rw [hl] at ht
            injection ht with ht
            subst ht
            exact ⟨i2b.1, by have := i2b.2; omega⟩
          · exact i3 x h hk hs t ht

theorem isChildOf_ne_nil (p q : Path) (h : isChildOf p q = true) : q ≠ [] := by
  obtain ⟨c, rfl⟩ := (isChildOf_iff p q).1 h
  simp

theorem RestoreLastBackup_restored (exePath : WString)
    (lwt : Path → Except filesystem_error Int) (w : World) (profile : GameProfile) (A : Path)
    (hwf : wellFormed w.fs = true)
    (h : (RestoreLastBackup exePath lwt w profile).2 = RestoreOutcome.restored A) :
    contents (RestoreLastBackup exePath lwt w profile).1.fs (parsePath profile.savePath)
      = contents w.fs A ∧
    contents (RestoreLastBackup exePath lwt w profile).1.fs A = contents w.fs A := by
  unfold RestoreLastBackup at h ⊢
  simp only [World.file_exists, World.directory_iterator] at h ⊢
  by_cases hex : fs_exists w.fs (parsePath (backupPathBase exePath profile.name)) = true
  swap
  · simp [hex] at h
  simp only [hex, Bool.not_true, Bool.false_eq_true, if_false] at h ⊢
  cases hl : fs_directory_iterator w.fs (parsePath (backupPathBase exePath profile.name)) with
  | error e => simp [hl] at h
  | ok entries =>
    simp only [hl] at h ⊢
    by_cases hemp : (selectLatestManual lwt entries ([], fileTimeMin)).1.isEmpty = true
    · simp [hemp] at h
    simp only [hemp, Bool.false_eq_true, if_false] at h ⊢
    have hA0 := restoreBlock_outcome _ _ _ _ _ h
    have hne : ∀ e ∈ entries, e.path ≠ [] := fun e he =>
      isChildOf_ne_nil _ _ (listing_mem _ _ _ hl e he).2
    obtain ⟨i1, _, _⟩ := selectLatestManual_spec lwt entries hne ([], fileTimeMin)
    rcases i1 with hi | ⟨e, he, hk, _, _, hp⟩
    · rw [hi] at hemp
      simp at hemp
    · rw [← hA0] at h ⊢
      exact restoreBlock_restored _ _ A A _ hwf
        ⟨e, (listing_mem _ _ _ hl e he).1, by rw [hA0]; exact hp, hk⟩ h

/-! ## Restoring: the claims -/

/-- C11. In a well-formed file system, whenever `RestoreLastBackup`,
`RestoreFromLocal` or `RestoreFromCloud` ends with a successful restore of the
archive `A`, the save directory afterwards holds exactly what the archive
held: the nodes below the save path, with their relative paths, kinds and file
contents, are those below the archive before the call (so every entry of the
archive is there with the archive's content, and nothing that was in the save
directory and is not in the archive is left), and the archive itself is as it
was. -/
theorem C11_restore_replaces_contents (exePath : WString) (g : Globals)
    (lwt : Path → Except filesystem_error Int) (w : World) (profile : GameProfile)
    (choice_str confirm : List Nat) (A : Path) (hwf : wellFormed w.fs = true) :
    ((RestoreLastBackup exePath lwt w profile).2 = RestoreOutcome.restored A →
      contents (RestoreLastBackup exePath lwt w profile).1.fs (parsePath profile.savePath)
        = contents w.fs A ∧
      contents (RestoreLastBackup exePath lwt w profile).1.fs A = contents w.fs A) ∧
    ((RestoreFromLocal exePath w profile choice_str confirm).2 = RestoreOutcome.restored A →
      contents (RestoreFromLocal exePath w profile choice_str confirm).1.fs
          (parsePath profile.savePath) = contents w.fs A ∧
      contents (RestoreFromLocal exePath w profile choice_str confirm).1.fs A
        = contents w.fs A) ∧
    ((RestoreFromCloud g w profile choice_str confirm).2 = RestoreOutcome.restored A →
      contents (RestoreFromCloud g w profile choice_str confirm).1.fs
          (parsePath profile.savePath) = contents w.fs A ∧
      contents (RestoreFromCloud g w profile choice_str confirm).1.fs A = contents w.fs A) := by
  refine ⟨RestoreLastBackup_restored exePath lwt w profile A hwf, ?_, ?_⟩
  · intro h
    exact restoreMenu_restored _ _ _ _ _ _ A hwf h
  · intro h
    unfold RestoreFromCloud at h ⊢
    by_cases hp : g.g_GoogleDrivePath.isEmpty = true
    · simp [hp] at h
    · simp only [hp, Bool.false_eq_true, if_false] at h ⊢
      exact restoreMenu_restored _ _ _ _ _ _ A hwf h

/-- C11, at a concrete input: the second backup of the list is restored from
the local folder; the save directory, which held `a.sav` and `old.sav`, then
holds the archive's `a.sav`, `sub` and `sub\b.sav`. -/
theorem C11_restore_replaces_contents_witness :
    wellFormed restoreWorld.fs = true ∧
    (RestoreFromLocal sampleExePath restoreWorld sampleProfile (N "2") (N "y")).2
      = RestoreOutcome.restored
          (parsePath sampleBackupDir ++ [L "1700000030-[2023-11-14_22-13-50]-M"]) ∧
    contents (RestoreFromLocal sampleExePath restoreWorld sampleProfile (N "2") (N "y")).1.fs
        (parsePath sampleProfile.savePath)
      = [([L "a.sav"], FileKind.regular [5]), ([L "sub"], FileKind.directory),
         ([L "sub", L "b.sav"], FileKind.regular [6])] :=
  ⟨by decide, by decide,
    ((C11_restore_replaces_contents sampleExePath defaultGlobals epochTimes restoreWorld
      sampleProfile (N "2") (N "y")
      (parsePath sampleBackupDir ++ [L "1700000030-[2023-11-14_22-13-50]-M"])
      (by decide)).2.1 (by decide)).1.trans (by decide)⟩

/-- C12 as stated fails: the backup folder holds the manual archives of the
instants 1700000030 and 1700000090, the directory of the older one has the
later last-write time, and `RestoreLastBackup` restores from the older one. -/
theorem C12_counterexample :
    classDirs false (restoreWorld.fs.filter
        (fun m => isChildOf (parsePath sampleBackupDir) m.path))
      = [parsePath sampleBackupDir ++ [backupFolderName utcLocaltime 1700000030 false],
         parsePath sampleBackupDir ++ [backupFolderName utcLocaltime 1700000090 false]] ∧
    touchedTimes (parsePath sampleBackupDir ++ [backupFolderName utcLocaltime 1700000030 false])
      = Except.ok 1700005000 ∧
    touchedTimes (parsePath sampleBackupDir ++ [backupFolderName utcLocaltime 1700000090 false])
      = Except.ok 1700000090 ∧
    (RestoreLastBackup sampleExePath touchedTimes restoreWorld sampleProfile).2
      = RestoreOutcome.restored
          (parsePath sampleBackupDir ++ [backupFolderName utcLocaltime 1700000030 false]) := by
  refine ⟨by decide, by rfl, by rfl, by decide⟩

theorem classDirs_manual_mem (entries : List Node) (q : Path)
    (h : q ∈ classDirs false entries) :
    ∃ e ∈ entries, e.kind = FileKind.directory ∧ endsWith (filename e.path) (L "-M") = true ∧
      e.path = q := by
  simp only [classDirs, classSuffix, List.mem_map, List.mem_filter, Bool.and_eq_true,
    beq_iff_eq] at h
  obtain ⟨e, ⟨he, hk, hs⟩, hp⟩ := h
  exact ⟨e, he, hk, by simpa using hs, hp⟩

/-- C12, amended. When the listing of the backup folder succeeds and at least
one directory ending in `-M` has a last-write time that can be read,
`RestoreLastBackup` runs its restore block on a directory `A` ending in `-M`
whose last-write time is the greatest among those that can be read; and when
all these times can be read and a later time never goes with a smaller path,
`A` is the greatest of the `-M` directories in the order of the paths. -/
theorem C12_restores_latest_written (exePath : WString)
    (lwt : Path → Except filesystem_error Int) (w : World) (profile : GameProfile)
    (entries : List Node)
    (hlist : fs_directory_iterator w.fs (parsePath (backupPathBase exePath profile.name))
      = Except.ok entries)
    (hcand : ∃ q ∈ classDirs false entries, ∃ t, lwt q = Except.ok t) :
    ∃ A t, A ∈ classDirs false entries ∧ lwt A = Except.ok t ∧
      (∀ q ∈ classDirs false entries, ∀ tq, lwt q = Except.ok tq → tq ≤ t) ∧
      RestoreLastBackup exePath lwt w profile
        = restoreBlock (lastBackupTexts profile A)
            ⟨w.fs, (w.calls ++ [FsCall.file_exists (parsePath (backupPathBase exePath profile.name))]
              ++ [FsCall.directory_iterator (parsePath (backupPathBase exePath profile.name))])
              ++ lastWriteTimeCalls entries, w.console⟩ A profile.savePath ∧
      ((∀ p ∈ classDirs false entries, ∀ q ∈ classDirs false entries, ∀ tp tq,
          lwt p = Except.ok tp → lwt q = Except.ok tq → tp ≤ tq → pathLe p q) →
        (∀ q ∈ classDirs false entries, ∃ tq, lwt q = Except.ok tq) →
        ∀ q ∈ classDirs false entries, pathLe q A) := by
  have hne : ∀ e ∈ entries, e.path ≠ [] := fun e he =>
    isChildOf_ne_nil _ _ (listing_mem _ _ _ hlist e he).2
  obtain ⟨i1, _, i3⟩ := selectLatestManual_spec lwt entries hne ([], fileTimeMin)
  obtain ⟨q0, hq0, t0, ht0⟩ := hcand
  obtain ⟨e0, he0, hk0, hs0, hp0⟩ := classDirs_manual_mem entries q0 hq0
  have hsel := i3 e0 he0 hk0 hs0 t0 (by rw [hp0]; exact ht0)
  rcases i1 with hi | ⟨e, he, hk, hs, ht, hp⟩
  · exfalso
    rw [hi] at hsel
    exact hsel.1 rfl
  · have hmax : ∀ q ∈ classDirs false entries, ∀ tq, lwt q = Except.ok tq →
        tq ≤ (selectLatestManual lwt entries ([], fileTimeMin)).2 := by
      intro q hq tq htq
      obtain ⟨x, hx, hkx, hsx, hpx⟩ := classDirs_manual_mem entries q hq
      exact (i3 x hx hkx hsx tq (by rw [hpx]; exact htq)).2
    have hmem : (selectLatestManual lwt entries ([], fileTimeMin)).1 ∈ classDirs false entries := by
      rw [← hp]
      simp only [classDirs, classSuffix, List.mem_map, List.mem_filter, Bool.and_eq_true,
        beq_iff_eq]
      exact ⟨e, ⟨he, hk, by simpa using hs⟩, rfl⟩
    have hlt : lwt (selectLatestManual lwt entries ([], fileTimeMin)).1
        = Except.ok (selectLatestManual lwt entries ([], fileTimeMin)).2 := by
      rw [← hp]; exact ht
    refine ⟨_, _, hmem, hlt, hmax, ?_, ?_⟩
    · have hex := listing_exists _ _ _ hlist
      have hemp : (selectLatestManual lwt entries ([], fileTimeMin)).1.isEmpty = false := by
        have := hsel.1
        cases h : (selectLatestManual lwt entries ([], fileTimeMin)).1 with
        | nil => exact absurd h this
        | cons a b => rfl
      unfold RestoreLastBackup
      simp only [World.file_exists, hex, Bool.not_true, Bool.false_eq_true, if_false,
        World.directory_iterator, hlist, hemp]
    · intro hord hall q hq
      obtain ⟨tq, htq⟩ := hall q hq
      exact hord q hq _ hmem tq _ htq hlt (hmax q hq tq htq)

/-- C12 amended, at a concrete input: with last-write times that follow the
creation instants, the restore block runs on the archive of 1700000090. -/
theorem C12_restores_latest_written_witness :
    (∃ entries, fs_directory_iterator restoreWorld.fs
      (parsePath (backupPathBase sampleExePath sampleProfile.name)) = Except.ok entries) ∧
    (RestoreLastBackup sampleExePath epochTimes restoreWorld sampleProfile).2
      = RestoreOutcome.restored
          (parsePath sampleBackupDir ++ [backupFolderName utcLocaltime 1700000090 false]) ∧
    ∃ A t, epochTimes A = Except.ok t ∧
      RestoreLastBackup sampleExePath epochTimes restoreWorld sampleProfile
        = restoreBlock (lastBackupTexts sampleProfile A)
            ⟨restoreWorld.fs,
              (restoreWorld.calls ++
                [FsCall.file_exists (parsePath (backupPathBase sampleExePath sampleProfile.name))]
                ++ [FsCall.directory_iterator
                  (parsePath (backupPathBase sampleExePath sampleProfile.name))])
                ++ lastWriteTimeCalls (restoreWorld.fs.filter
                  (fun m => isChildOf (parsePath sampleBackupDir) m.path)),
              restoreWorld.console⟩ A sampleProfile.savePath :=
  ⟨⟨_, rfl⟩, by decide,
    by
      obtain ⟨A, t, _, h2, _, h4, _⟩ := C12_restores_latest_written sampleExePath epochTimes
        restoreWorld sampleProfile _ rfl
        ⟨parsePath sampleBackupDir ++ [backupFolderName utcLocaltime 1700000090 false],
          by decide, 1700000090, by rfl⟩
      exact ⟨A, t, h2, h4⟩⟩

theorem selectLatestManual_none (lwt : Path → Except filesystem_error Int)
    (entries : List Node) (st : Path × Int) (h : classDirs false entries = []) :
    selectLatestManual lwt entries st = st := by
  induction entries generalizing st with
  | nil => rfl
  | cons e rest ih =>
    simp only [classDirs, classSuffix, List.map_eq_nil_iff, List.filter_eq_nil_iff,
      List.mem_cons, forall_eq_or_imp, Bool.false_eq_true, if_false] at h
    have hm : (e.kind == FileKind.directory && endsWith (filename e.path) (L "-M")) = false := by
      simpa using h.1
    have hrest : classDirs false rest = [] := by
      simp only [classDirs, classSuffix, List.map_eq_nil_iff, List.filter_eq_nil_iff,
        Bool.false_eq_true, if_false]
      exact h.2
    simp only [selectLatestManual, hm, Bool.false_eq_true, if_false]
    exact ih st hrest

theorem lastWriteTimeCalls_none (entries : List Node) (h : classDirs false entries = []) :
    lastWriteTimeCalls entries = [] := by
  simp only [classDirs, classSuffix, List.map_eq_nil_iff, Bool.false_eq_true, if_false] at h
  simp only [lastWriteTimeCalls, List.map_eq_nil_iff]
  exact h

/-- When the backup folder of the profile does not exist, and when it can
be listed and holds no directory whose name ends in `-M`, `RestoreLastBackup`
prints that there is no backup (`No local backups found for this game.`,
respectively `No MANUAL (-M) backups found...`) and the separator, and the
file system (the save directory and every archive) is as it was: the function
has only tested and listed the backup folder. -/
theorem RestoreLastBackup_no_manual (exePath : WString)
    (lwt : Path → Except filesystem_error Int) (w : World) (profile : GameProfile) :
    (fs_exists w.fs (parsePath (backupPathBase exePath profile.name)) = false →
      RestoreLastBackup exePath lwt w profile
        = (⟨w.fs,
            w.calls ++ [FsCall.file_exists (parsePath (backupPathBase exePath profile.name))],
            w.console ++ [L "No local backups found for this game.", separatorLine]⟩,
          RestoreOutcome.noBackups)) ∧
    (∀ entries,
      fs_directory_iterator w.fs (parsePath (backupPathBase exePath profile.name))
        = Except.ok entries →
      classDirs false entries = [] →
      RestoreLastBackup exePath lwt w profile
        = (⟨w.fs,
            w.calls ++ [FsCall.file_exists (parsePath (backupPathBase exePath profile.name)),
              FsCall.directory_iterator (parsePath (backupPathBase exePath profile.name))],
            w.console ++
              [L "No MANUAL (-M) backups found. CTRL+R only restores the latest manual save.",
               separatorLine]⟩,
          RestoreOutcome.noManual)) := by
  constructor
  · intro hex
    unfold RestoreLastBackup
    simp [World.file_exists, hex, World.printAll]
  · intro entries hlist hnone
    have hex := listing_exists _ _ _ hlist
    unfold RestoreLastBackup
    simp only [World.file_exists, hex, Bool.not_true, Bool.false_eq_true, if_false,
      World.directory_iterator, hlist, selectLatestManual_none lwt entries _ hnone,
      lastWriteTimeCalls_none entries hnone, World.printAll]
    simp

/-- C13. The place of the backup folder is taken by a regular file, or the
folder is a directory that cannot be listed: in both worlds the folder holds
no directory whose name ends in `-M`.  `RestoreLastBackup` finds that the
path exists and iterates it (source line 1746, in no `try` block); the
`filesystem_error` leaves the function and nothing is printed, so no missing
manual archive is reported.  `RestoreFromLocal` tests `fs::is_directory`
before it iterates and reports the regular file as `No local backups found`;
a folder without backups and a folder with automatic archives only are
reported by `RestoreLastBackup` itself. -/
theorem C13_unlistable_folder_is_not_reported :
    fs_exists fileBackupWorld.fs (parsePath sampleBackupDir) = true ∧
    fileBackupWorld.fs.filter (fun m => isChildOf (parsePath sampleBackupDir) m.path) = [] ∧
    RestoreLastBackup sampleExePath epochTimes fileBackupWorld sampleProfile
      = (⟨fileBackupWorld.fs,
          [FsCall.file_exists (parsePath sampleBackupDir),
           FsCall.directory_iterator (parsePath sampleBackupDir)], []⟩,
        RestoreOutcome.thrown ⟨L "directory_iterator: cannot open directory"⟩) ∧
    unlistableWorld.fs.filter (fun m => isChildOf (parsePath sampleBackupDir) m.path) = [] ∧
    RestoreLastBackup sampleExePath epochTimes unlistableWorld sampleProfile
      = (⟨unlistableWorld.fs,
          [FsCall.file_exists (parsePath sampleBackupDir),
           FsCall.directory_iterator (parsePath sampleBackupDir)], []⟩,
        RestoreOutcome.thrown ⟨L "directory_iterator: cannot open directory"⟩) ∧
    (RestoreFromLocal sampleExePath fileBackupWorld sampleProfile (N "1") (N "y")).2
      = RestoreOutcome.noBackups ∧
    (RestoreFromLocal sampleExePath fileBackupWorld sampleProfile (N "1")
      (N "y")).1.console.head?
      = some (L "Local restore failed: No local backups found for G at:") ∧
    (RestoreLastBackup sampleExePath epochTimes rolloverWorld sampleProfile).2
      = RestoreOutcome.noManual := by
  decide

/-- C14 as stated fails: the save path of the profile is the program
directory, which holds the backup folder; `RestoreLastBackup` clears the save
path, which deletes every archive, and then fails because the archive to copy
is gone. -/
theorem C14_counterexample :
    fs_exists restoreWorld.fs
      (parsePath sampleBackupDir ++ [backupFolderName utcLocaltime 1700000030 false]) = true ∧
    (RestoreLastBackup sampleExePath epochTimes restoreWorld appProfile).2
      = RestoreOutcome.failed ⟨L "copy: the source does not exist"⟩ ∧
    fs_exists (RestoreLastBackup sampleExePath epochTimes restoreWorld appProfile).1.fs
      (parsePath sampleBackupDir ++ [backupFolderName utcLocaltime 1700000030 false]) = false ∧
    fs_exists (RestoreLastBackup sampleExePath epochTimes restoreWorld appProfile).1.fs
      (parsePath sampleBackupDir ++ [backupFolderName utcLocaltime 1700000090 false]) = false := by
  decide

theorem not_comparable_of_apart (p q : Path)
    (h : apart p q = true) : comparable p q = false := by
  unfold apart at h
  simp only [Bool.and_eq_true, Bool.not_eq_true'] at h
  cases hc : comparable p q with
  | false => rfl
  | true =>
    exfalso
    have key : ∀ a b : Path, isUnder a b = true →
        isUnder (foldPath a) (foldPath b) = true := by
      intro a b hab
      obtain ⟨t, rfl⟩ := (isUnder_iff a b).1 hab
      rw [isUnder_iff]
      exact ⟨foldPath t, by simp [foldPath]⟩
    unfold comparable at hc h
    rcases Bool.or_eq_true_iff.1 hc with h1 | h1
    · simp [key _ _ h1] at h
    · simp [key _ _ h1] at h

/-- C14, amended. Whatever the outcome of `RestoreLastBackup`,
`RestoreFromLocal` or `RestoreFromCloud`, every directory `R` that lies apart
from the save path keeps all its nodes, with their kinds and contents, and
gets no new one; so archives at a location that lies apart from the save path
are neither modified, nor deleted, nor created.  Apart means: both paths are
written in plain spelling (from the drive, in ASCII without `~`, no segment
that is empty, `.` or `..` or ends in a dot or a space), and neither is at or
below the other when the case of letters is ignored. -/
theorem C14_restore_leaves_apart_directories (exePath : WString) (g : Globals)
    (lwt : Path → Except filesystem_error Int) (w : World) (profile : GameProfile)
    (choice_str confirm : List Nat) (R : Path)
    (hR : apart (parsePath profile.savePath) R = true) :
    (RestoreLastBackup exePath lwt w profile).1.fs.filter (fun n => isUnder R n.path)
      = w.fs.filter (fun n => isUnder R n.path) ∧
    (RestoreFromLocal exePath w profile choice_str confirm).1.fs.filter
        (fun n => isUnder R n.path)
      = w.fs.filter (fun n => isUnder R n.path) ∧
    (RestoreFromCloud g w profile choice_str confirm).1.fs.filter (fun n => isUnder R n.path)
      = w.fs.filter (fun n => isUnder R n.path) := by
  have hR2 := not_comparable_of_apart _ _ hR
  refine ⟨?_, ?_, ?_⟩
  · exact filter_under_of_not_comparable _ _ _ R (RestoreLastBackup_filter exePath lwt w profile)
      hR2
  · exact filter_under_of_not_comparable _ _ _ R (restoreMenu_filter _ _ _ _ _ _) hR2
  · unfold RestoreFromCloud
    split_ifs
    · rfl
    · exact filter_under_of_not_comparable _ _ _ R (restoreMenu_filter _ _ _ _ _ _) hR2

/-- C14 amended, at a concrete input: a restore into `C:\Saves` leaves the
backup folder `C:\App\Backups\G` with all its archives as it was.  A save
path spelled `C:\Saves\..\App` or `c:\app` does not lie apart from that
folder. -/
theorem C14_restore_leaves_apart_directories_witness :
    apart (parsePath sampleProfile.savePath) (parsePath sampleBackupDir) = true ∧
    apart (parsePath (L "C:\\Saves\\..\\App")) (parsePath sampleBackupDir) = false ∧
    apart (parsePath (L "c:\\app")) (parsePath sampleBackupDir) = false ∧
    (RestoreLastBackup sampleExePath epochTimes restoreWorld sampleProfile).1.fs.filter
        (fun n => isUnder (parsePath sampleBackupDir) n.path)
      = restoreWorld.fs.filter (fun n => isUnder (parsePath sampleBackupDir) n.path) :=
  ⟨by decide, by decide, by decide,
    (C14_restore_leaves_apart_directories sampleExePath defaultGlobals epochTimes restoreWorld
      sampleProfile (N "1") (N "y") (parsePath sampleBackupDir) (by decide)).1⟩

/-! ## `BackupSaveFolder`: a successful local copy -/

theorem cloudStep_eq (g : Globals) (exePath : WString) (localtime : Int → tm) (now : Int)
    (currentTime : WString) (w : World) (profile : GameProfile) (autosave : Bool) :
    cloudStep g (localPurge g exePath localtime now w profile autosave).world profile currentTime
        (classLetter autosave)
        (targetBackupPath exePath profile.name (backupFolderName localtime now autosave))
        (backupFolderName localtime now autosave)
        (localPurge g exePath localtime now w profile autosave).logCollector
      = match (mirrorCreate g exePath localtime now w profile autosave).2 with
        | some e =>
          ((mirrorCreate g exePath localtime now w profile autosave).1.print
              (syncFailedLine currentTime (backupFolderName localtime now autosave) e),
            false, (localPurge g exePath localtime now w profile autosave).logCollector)
        | none =>
          match (mirrorCopy g exePath localtime now w profile autosave).2 with
          | some e =>
            ((mirrorCopy g exePath localtime now w profile autosave).1.print
                (syncFailedLine currentTime (backupFolderName localtime now autosave) e),
              false, (localPurge g exePath localtime now w profile autosave).logCollector)
          | none =>
            match (mirrorPurge g exePath localtime now w profile autosave).thrown with
            | some e =>
              ((mirrorPurge g exePath localtime now w profile autosave).world.print
                  (syncFailedLine currentTime (backupFolderName localtime now autosave) e),
                false, (mirrorPurge g exePath localtime now w profile autosave).logCollector)
            | none =>
              ((mirrorPurge g exePath localtime now w profile autosave).world, true,
                (mirrorPurge g exePath localtime now w profile autosave).logCollector) := rfl

/-- `BackupSaveFolder` in terms of its steps. -/
theorem BackupSaveFolder_eq (g : Globals) (exePath : WString) (localtime : Int → tm) (now : Int)
    (currentTime : WString) (w : World) (profile : GameProfile) (autosave : Bool) :
    BackupSaveFolder g exePath localtime now currentTime w profile autosave
      = match (localCopy exePath localtime now w profile autosave).2 with
        | some e =>
          ⟨(((localCopy exePath localtime now w profile autosave).1.print
                (L "[" ++ currentTime ++ L "] [" ++ classLetter autosave ++
                  L "] Local backup FAILED for " ++ backupFolderName localtime now autosave ++
                  L ": " ++ e.what)).remove_all
              (parsePath (targetBackupPath exePath profile.name
                (backupFolderName localtime now autosave)))).1.print separatorLine,
            false, false, false, [], none⟩
        | none =>
          match (localPurge g exePath localtime now w profile autosave).thrown with
          | some e =>
            ⟨(localPurge g exePath localtime now w profile autosave).world, true, false, false,
              (localPurge g exePath localtime now w profile autosave).logCollector, some e⟩
          | none =>
            if profile.cloudSaveEnabled && !g.g_GoogleDrivePath.isEmpty then
              ⟨finalLogging
                  (cloudStep g (localPurge g exePath localtime now w profile autosave).world
                    profile currentTime (classLetter autosave)
                    (targetBackupPath exePath profile.name
                      (backupFolderName localtime now autosave))
                    (backupFolderName localtime now autosave)
                    (localPurge g exePath localtime now w profile autosave).logCollector).1
                  currentTime (classLetter autosave) (backupFolderName localtime now autosave)
                  true true
                  (cloudStep g (localPurge g exePath localtime now w profile autosave).world
                    profile currentTime (classLetter autosave)
                    (targetBackupPath exePath profile.name
                      (backupFolderName localtime now autosave))
                    (backupFolderName localtime now autosave)
                    (localPurge g exePath localtime now w profile autosave).logCollector).2.1
                  (cloudStep g (localPurge g exePath localtime now w profile autosave).world
                    profile currentTime (classLetter autosave)
                    (targetBackupPath exePath profile.name
                      (backupFolderName localtime now autosave))
                    (backupFolderName localtime now autosave)
                    (localPurge g exePath localtime now w profile autosave).logCollector).2.2,
                true, true,
                (cloudStep g (localPurge g exePath localtime now w profile autosave).world
                  profile currentTime (classLetter autosave)
                  (targetBackupPath exePath profile.name
                    (backupFolderName localtime now autosave))
                  (backupFolderName localtime now autosave)
                  (localPurge g exePath localtime now w profile autosave).logCollector).2.1,
                (cloudStep g (localPurge g exePath localtime now w profile autosave).world
                  profile currentTime (classLetter autosave)
                  (targetBackupPath exePath profile.name
                    (backupFolderName localtime now autosave))
                  (backupFolderName localtime now autosave)
                  (localPurge g exePath localtime now w profile autosave).logCollector).2.2,
                none⟩
            else
              ⟨finalLogging (localPurge g exePath localtime now w profile autosave).world
                  currentTime (classLetter autosave) (backupFolderName localtime now autosave)
                  true false false
                  (localPurge g exePath localtime now w profile autosave).logCollector,
                true, false, false,
                (localPurge g exePath localtime now w profile autosave).logCollector, none⟩ := rfl

/-- The exception that leaves `BackupSaveFolder` is the one that leaves the
local purge, if the local copy succeeded; there is no other. -/
theorem BackupSaveFolder_thrown (g : Globals) (exePath : WString) (localtime : Int → tm)
    (now : Int) (currentTime : WString) (w : World) (profile : GameProfile) (autosave : Bool) :
    (BackupSaveFolder g exePath localtime now currentTime w profile autosave).thrown
      = match (localCopy exePath localtime now w profile autosave).2 with
        | some _ => none
        | none => (localPurge g exePath localtime now w profile autosave).thrown := by
  rw [BackupSaveFolder_eq]
  cases (localCopy exePath localtime now w profile autosave).2 with
  | some e => rfl
  | none =>
    simp only
    cases h : (localPurge g exePath localtime now w profile autosave).thrown with
    | some e => rfl
    | none =>
      simp only
      split_ifs <;> rfl

theorem BackupSaveFolder_cloudAttempted (g : Globals) (exePath : WString)
    (localtime : Int → tm) (now : Int) (currentTime : WString) (w : World)
    (profile : GameProfile) (autosave : Bool) :
    (BackupSaveFolder g exePath localtime now currentTime w profile autosave).cloudAttempted
        = true ↔
      ((localCopy exePath localtime now w profile autosave).2 = none ∧
        (localPurge g exePath localtime now w profile autosave).thrown = none ∧
        profile.cloudSaveEnabled = true ∧ g.g_GoogleDrivePath ≠ []) := by
  rw [BackupSaveFolder_eq]
  cases (localCopy exePath localtime now w profile autosave).2 with
  | some e => simp
  | none =>
    simp only
    cases h : (localPurge g exePath localtime now w profile autosave).thrown with
    | some e => simp
    | none =>
      simp only
      by_cases hc : (profile.cloudSaveEnabled && !g.g_GoogleDrivePath.isEmpty) = true
      · simp only [hc, if_true, true_and]
        simp only [Bool.and_eq_true, Bool.not_eq_true', List.isEmpty_eq_false] at hc
        exact ⟨fun _ => hc, fun _ => trivial⟩
      · simp only [hc, Bool.false_eq_true, if_false, true_and, false_iff]
        simp only [Bool.and_eq_true, Bool.not_eq_true', List.isEmpty_eq_false] at hc
        exact hc

/-! ## `PurgeBackups`: where it acts -/

theorem classDirs_children (autoClass : Bool) (fs : FileSystem) (dir : Path)
    (entries : List Node) (h : fs_directory_iterator fs dir = Except.ok entries) :
    ∀ p ∈ classDirs autoClass entries, isChildOf dir p = true := by
  intro p hp
  simp only [classDirs, List.mem_map, List.mem_filter] at hp
  obtain ⟨n, ⟨hn, _⟩, rfl⟩ := hp
  exact (listing_mem fs dir entries h n hn).2

/-- The paths `PurgeBackups` hands to `fs::remove_all` are immediate children
of its directory. -/
theorem PurgeBackups_deleted_children (w : World) (backupDir pfx locationName : WString)
    (autoLimit manualLimit : Int) (logCollector : List WString) :
    ∀ p ∈ purgeDeleted w
        (PurgeBackups w backupDir pfx autoLimit manualLimit locationName logCollector),
      isChildOf (parsePath backupDir) p = true := by
  intro p hp
  cases hl : fs_directory_iterator w.fs (parsePath backupDir) with
  | error e =>
    rw [PurgeBackups_deleted_of_no_listing w backupDir pfx locationName autoLimit manualLimit
      logCollector (fun entries he => by rw [hl] at he; cases he)] at hp
    cases hp
  | ok entries =>
    rw [PurgeBackups_deleted w backupDir pfx locationName autoLimit manualLimit logCollector
      entries hl, categorize_eq, List.mem_append] at hp
    rcases hp with hp | hp
    · exact classDirs_children true w.fs _ entries hl p (selection_in_class true entries _ p hp)
    · exact classDirs_children false w.fs _ entries hl p (selection_in_class false entries _ p hp)

/-- The calls of `PurgeBackups`: the existence test of its directory, its
iteration, and removals of immediate children of it. -/
theorem PurgeBackups_purge_calls (w : World) (backupDir pfx locationName : WString)
    (autoLimit manualLimit : Int) (logCollector : List WString) :
    ∃ rest,
      (PurgeBackups w backupDir pfx autoLimit manualLimit locationName logCollector).world.calls
        = w.calls ++ rest ∧
      (∀ c ∈ rest, isPurgeCall (parsePath backupDir) c = true) ∧
      removeAllTargets rest = purgeDeleted w
        (PurgeBackups w backupDir pfx autoLimit manualLimit locationName logCollector) := by
  cases hl : fs_directory_iterator w.fs (parsePath backupDir) with
  | ok entries =>
    have hd := PurgeBackups_deleted_children w backupDir pfx locationName autoLimit manualLimit
      logCollector
    have hcalls := PurgeBackups_calls w backupDir pfx locationName autoLimit manualLimit
      logCollector entries hl
    have hdel := PurgeBackups_deleted w backupDir pfx locationName autoLimit manualLimit
      logCollector entries hl
    rw [hdel] at hd
    refine ⟨[FsCall.file_exists (parsePath backupDir),
        FsCall.directory_iterator (parsePath backupDir)]
        ++ (purgeSelection (stdSort (categorize entries).1) autoLimit).map FsCall.remove_all
        ++ (purgeSelection (stdSort (categorize entries).2) manualLimit).map FsCall.remove_all,
      ?_, ?_, ?_⟩
    · rw [hcalls]
      simp only [List.append_assoc]
    · intro c hc
      simp only [List.append_assoc, List.mem_append, List.mem_cons, List.mem_singleton,
        List.mem_map, List.not_mem_nil, or_false] at hc
      rcases hc with (rfl | rfl) | ⟨p, hp, rfl⟩ | ⟨p, hp, rfl⟩
      · simp [isPurgeCall]
      · simp [isPurgeCall]
      · exact hd p (List.mem_append_left _ hp)
      · exact hd p (List.mem_append_right _ hp)
    · rw [hdel]
      simp only [removeAllTargets_append, removeAllTargets_map]
      simp [removeAllTargets]
  | error e =>
    have hdel := PurgeBackups_deleted_of_no_listing w backupDir pfx locationName autoLimit
      manualLimit logCollector (fun entries he => by rw [hl] at he; cases he)
    rw [hdel]
    unfold PurgeBackups
    by_cases hex : fs_exists w.fs (parsePath backupDir) = true
    · refine ⟨[FsCall.file_exists (parsePath backupDir),
        FsCall.directory_iterator (parsePath backupDir)], ?_, ?_, rfl⟩
      · simp [World.file_exists, hex, World.directory_iterator, hl]
      · intro c hc
        simp only [List.mem_cons, List.mem_singleton, List.not_mem_nil, or_false] at hc
        rcases hc with rfl | rfl <;> simp [isPurgeCall]
    · refine ⟨[FsCall.file_exists (parsePath backupDir)], ?_, ?_, rfl⟩
      · simp [World.file_exists, hex]
      · intro c hc
        simp only [List.mem_singleton] at hc
        subst hc
        simp [isPurgeCall]

theorem deleteLoop_filter (locationName label : WString) (P : Node → Bool) (ps : List Path)
    (w : World) (logCollector : List WString)
    (hP : ∀ p ∈ ps, ∀ n, P n = true → isUnder p n.path = false) :
    (deleteLoop locationName label ps w logCollector).1.fs.filter P = w.fs.filter P := by
  induction ps generalizing w logCollector with
  | nil => rfl
  | cons p ps ih =>
    simp only [deleteLoop]
    rw [ih _ _ (fun q hq => hP q (List.mem_cons_of_mem _ hq))]
    have h := fs_remove_all_filter w.fs p P (hP p (List.mem_cons_self _ _))
    cases hr : (w.remove_all p).2 <;> simpa [World.remove_all, World.print] using h

theorem purgeClass_filter (locationName label title : WString) (P : Node → Bool)
    (saves : List Path) (limit : Int) (w : World) (logCollector : List WString)
    (hP : ∀ p ∈ saves, ∀ n, P n = true → isUnder p n.path = false) :
    (purgeClass locationName label title saves limit w logCollector).1.fs.filter P
      = w.fs.filter P := by
  unfold purgeClass
  by_cases h : limit > 0 ∧ (saves.length : Int) > limit
  · simp only [h, and_self, if_true]
    exact deleteLoop_filter _ _ P _ _ _ (fun p hp => hP p (List.mem_of_mem_take hp))
  · simp [h]

theorem not_under_child (dir p q : Path) (hc : isChildOf dir p = true)
    (hq : isUnder dir q = false) : isUnder p q = false := by
  cases h : isUnder p q with
  | false => rfl
  | true => rw [isUnder_trans dir p q (isChildOf_isUnder dir p hc) h] at hq; cases hq

/-- The nodes that are not at or below its directory are the same, in the
same order, before and after a call of `PurgeBackups`. -/
theorem PurgeBackups_fs_filter (w : World) (backupDir pfx locationName : WString)
    (autoLimit manualLimit : Int) (logCollector : List WString) :
    (PurgeBackups w backupDir pfx autoLimit manualLimit locationName logCollector).world.fs.filter
        (fun n => !isUnder (parsePath backupDir) n.path)
      = w.fs.filter (fun n => !isUnder (parsePath backupDir) n.path) := by
  unfold PurgeBackups
  by_cases hex : fs_exists w.fs (parsePath backupDir) = true
  · simp only [World.file_exists, hex, Bool.not_true, World.directory_iterator,
      Bool.false_eq_true, if_false]
    cases hl : fs_directory_iterator w.fs (parsePath backupDir) with
    | error e => rfl
    | ok entries =>
      simp only
      have key : ∀ c, ∀ p ∈ stdSort (classDirs c entries), ∀ n : Node,
          (!isUnder (parsePath backupDir) n.path) = true → isUnder p n.path = false := by
        intro c p hp n hn
        have hp2 := (stdSort_perm _).mem_iff.1 hp
        have hch := classDirs_children c w.fs _ entries hl p hp2
        simp only [Bool.not_eq_true'] at hn
        exact not_under_child _ _ _ hch hn
      rw [categorize_eq]
      simp only
      rw [purgeClass_filter _ _ _ _ _ _ _ _ (key false), purgeClass_filter _ _ _ _ _ _ _ _ (key true)]
  · simp [World.file_exists, hex]

theorem copyCalls_append (a b : List FsCall) : copyCalls (a ++ b) = copyCalls a ++ copyCalls b := by
  induction a with
  | nil => rfl
  | cons c cs ih => cases c <;> simp [copyCalls, ih]

theorem copyCalls_of_purge (dir : Path) (l : List FsCall)
    (h : ∀ c ∈ l, isPurgeCall dir c = true) : copyCalls l = [] := by
  induction l with
  | nil => rfl
  | cons c cs ih =>
    have hc := h c (List.mem_cons_self _ _)
    have ih2 := ih (fun d hd => h d (List.mem_cons_of_mem _ hd))
    cases c <;> simp_all [copyCalls, isPurgeCall]

/-! ## `BackupSaveFolder`: the calls and the frame of its steps -/

theorem not_under_target (exePath profileName : WString) (localtime : Int → tm) (now : Int)
    (autosave : Bool) (q : Path)
    (h : isUnder (parsePath (backupPathBase exePath profileName)) q = false) :
    isUnder (parsePath (targetBackupPath exePath profileName
      (backupFolderName localtime now autosave))) q = false := by
  cases hq : isUnder (parsePath (targetBackupPath exePath profileName
      (backupFolderName localtime now autosave))) q with
  | false => rfl
  | true =>
    rw [parsePath_target] at hq
    rw [isUnder_trans _ _ _ (isUnder_append _ _) hq] at h
    cases h

theorem localCopy_calls (exePath : WString) (localtime : Int → tm) (now : Int) (w : World)
    (profile : GameProfile) (autosave : Bool) :
    (localCopy exePath localtime now w profile autosave).1.calls
      = w.calls ++ [FsCall.copy (parsePath profile.savePath)
          (parsePath (targetBackupPath exePath profile.name
            (backupFolderName localtime now autosave))) false] := rfl

theorem localCopy_fs_filter (exePath : WString) (localtime : Int → tm) (now : Int) (w : World)
    (profile : GameProfile) (autosave : Bool) :
    (localCopy exePath localtime now w profile autosave).1.fs.filter
        (fun n => !isUnder (parsePath (backupPathBase exePath profile.name)) n.path)
      = w.fs.filter
        (fun n => !isUnder (parsePath (backupPathBase exePath profile.name)) n.path) := by
  apply filter_eq_of_imp _ _ _ _ (fs_copy_filter w.fs (parsePath profile.savePath)
    (parsePath (targetBackupPath exePath profile.name (backupFolderName localtime now autosave)))
    false)
  intro n hn
  simp only [Bool.not_eq_true'] at hn ⊢
  exact not_under_target _ _ _ _ _ _ hn

theorem localPurge_calls (g : Globals) (exePath : WString) (localtime : Int → tm) (now : Int)
    (w : World) (profile : GameProfile) (autosave : Bool) :
    ∃ rest,
      (localPurge g exePath localtime now w profile autosave).world.calls
        = w.calls ++ FsCall.copy (parsePath profile.savePath)
            (parsePath (targetBackupPath exePath profile.name
              (backupFolderName localtime now autosave))) false :: rest ∧
      (∀ c ∈ rest, isPurgeCall (parsePath (backupPathBase exePath profile.name)) c = true) ∧
      removeAllTargets rest = purgeDeleted (localCopy exePath localtime now w profile autosave).1
        (localPurge g exePath localtime now w profile autosave) := by
  obtain ⟨rest, h1, h2, h3⟩ := PurgeBackups_purge_calls
    (localCopy exePath localtime now w profile autosave).1 (backupPathBase exePath profile.name)
    (classLetter autosave) (L "Local") g.g_LocalAutoSaveLimit g.g_LocalManualSaveLimit []
  refine ⟨rest, ?_, h2, h3⟩
  unfold localPurge
  rw [h1, localCopy_calls, List.append_assoc]
  rfl

theorem localPurge_fs_filter (g : Globals) (exePath : WString) (localtime : Int → tm) (now : Int)
    (w : World) (profile : GameProfile) (autosave : Bool) :
    (localPurge g exePath localtime now w profile autosave).world.fs.filter
        (fun n => !isUnder (parsePath (backupPathBase exePath profile.name)) n.path)
      = w.fs.filter
        (fun n => !isUnder (parsePath (backupPathBase exePath profile.name)) n.path) := by
  unfold localPurge
  rw [PurgeBackups_fs_filter, localCopy_fs_filter]

theorem mirrorCreate_calls (g : Globals) (exePath : WString) (localtime : Int → tm) (now : Int)
    (w : World) (profile : GameProfile) (autosave : Bool) :
    (mirrorCreate g exePath localtime now w profile autosave).1.calls
      = (localPurge g exePath localtime now w profile autosave).world.calls
        ++ [FsCall.create_directories (parsePath (cloudGamePath g profile))] := rfl

theorem parsePath_mirror_target (g : Globals) (profile : GameProfile) (localtime : Int → tm)
    (now : Int) (autosave : Bool) :
    parsePath (cloudGamePath g profile ++ L "\\" ++ backupFolderName localtime now autosave)
      = parsePath (cloudGamePath g profile) ++ [backupFolderName localtime now autosave] :=
  parsePath_child _ _ (backupFolderName_ne_nil _ _ _) (backupFolderName_no_separator _ _ _)

theorem mirrorCopy_calls (g : Globals) (exePath : WString) (localtime : Int → tm) (now : Int)
    (w : World) (profile : GameProfile) (autosave : Bool) :
    (mirrorCopy g exePath localtime now w profile autosave).1.calls
      = (mirrorCreate g exePath localtime now w profile autosave).1.calls
        ++ [FsCall.copy
          (parsePath (backupPathBase exePath profile.name)
            ++ [backupFolderName localtime now autosave])
          (parsePath (cloudGamePath g profile) ++ [backupFolderName localtime now autosave])
          false] := by
  rw [← parsePath_mirror_target, ← parsePath_target]
  rfl

/-- The calls of the mirror step, after those of the local purge. -/
theorem cloudStep_calls (g : Globals) (exePath : WString) (localtime : Int → tm) (now : Int)
    (currentTime : WString) (w : World) (profile : GameProfile) (autosave : Bool) :
    ∃ rest,
      (cloudStep g (localPurge g exePath localtime now w profile autosave).world profile
          currentTime (classLetter autosave)
          (targetBackupPath exePath profile.name (backupFolderName localtime now autosave))
          (backupFolderName localtime now autosave)
          (localPurge g exePath localtime now w profile autosave).logCollector).1.calls
        = (localPurge g exePath localtime now w profile autosave).world.calls
          ++ FsCall.create_directories (parsePath (cloudGamePath g profile)) ::
            (if (mirrorCreate g exePath localtime now w profile autosave).2 = none then
              FsCall.copy
                (parsePath (backupPathBase exePath profile.name)
                  ++ [backupFolderName localtime now autosave])
                (parsePath (cloudGamePath g profile) ++ [backupFolderName localtime now autosave])
                false :: rest
            else []) ∧
      (∀ c ∈ rest, isPurgeCall (parsePath (cloudGamePath g profile)) c = true) ∧
      removeAllTargets rest
        = if (mirrorCreate g exePath localtime now w profile autosave).2 = none ∧
            (mirrorCopy g exePath localtime now w profile autosave).2 = none then
            purgeDeleted (mirrorCopy g exePath localtime now w profile autosave).1
              (mirrorPurge g exePath localtime now w profile autosave)
          else [] := by
  rw [cloudStep_eq]
  cases h1 : (mirrorCreate g exePath localtime now w profile autosave).2 with
  | some e =>
    refine ⟨[], ?_, by simp, by simp [removeAllTargets]⟩
    simp [World.print, mirrorCreate_calls]
  | none =>
    simp only [if_true, true_and]
    cases h2 : (mirrorCopy g exePath localtime now w profile autosave).2 with
    | some e =>
      refine ⟨[], ?_, by simp, by simp [removeAllTargets]⟩
      simp [World.print, mirrorCopy_calls, mirrorCreate_calls]
    | none =>
      obtain ⟨rest, c1, c2, c3⟩ := PurgeBackups_purge_calls
        (mirrorCopy g exePath localtime now w profile autosave).1 (cloudGamePath g profile)
        (classLetter autosave) (L "Cloud") g.g_CloudAutoSaveLimit g.g_CloudManualSaveLimit
        (localPurge g exePath localtime now w profile autosave).logCollector
      have hcalls : (mirrorPurge g exePath localtime now w profile autosave).world.calls
          = (localPurge g exePath localtime now w profile autosave).world.calls
            ++ FsCall.create_directories (parsePath (cloudGamePath g profile)) ::
              FsCall.copy
                (parsePath (backupPathBase exePath profile.name)
                  ++ [backupFolderName localtime now autosave])
                (parsePath (cloudGamePath g profile) ++ [backupFolderName localtime now autosave])
                false :: rest := by
        unfold mirrorPurge
        rw [c1, mirrorCopy_calls, mirrorCreate_calls]
        simp
      refine ⟨rest, ?_, c2, ?_⟩
      · simp only
        cases h3 : (mirrorPurge g exePath localtime now w profile autosave).thrown with
        | some e => simpa [World.print] using hcalls
        | none => simpa using hcalls
      · simpa [mirrorPurge] using c3

/-- The calls of a run of `BackupSaveFolder` that attempts the mirror. -/
theorem BackupSaveFolder_attempted_calls (g : Globals) (exePath : WString)
    (localtime : Int → tm) (now : Int) (currentTime : WString) (w : World)
    (profile : GameProfile) (autosave : Bool)
    (h : (BackupSaveFolder g exePath localtime now currentTime w profile autosave).cloudAttempted
      = true) :
    ∃ restL restM,
      (BackupSaveFolder g exePath localtime now currentTime w profile autosave).world.calls
        = w.calls ++ FsCall.copy (parsePath profile.savePath)
            (parsePath (targetBackupPath exePath profile.name
              (backupFolderName localtime now autosave))) false :: restL
          ++ FsCall.create_directories (parsePath (cloudGamePath g profile)) ::
            (if (mirrorCreate g exePath localtime now w profile autosave).2 = none then
              FsCall.copy
                (parsePath (backupPathBase exePath profile.name)
                  ++ [backupFolderName localtime now autosave])
                (parsePath (cloudGamePath g profile) ++ [backupFolderName localtime now autosave])
                false :: restM
            else []) ∧
      (∀ c ∈ restL, isPurgeCall (parsePath (backupPathBase exePath profile.name)) c = true) ∧
      removeAllTargets restL = purgeDeleted (localCopy exePath localtime now w profile autosave).1
        (localPurge g exePath localtime now w profile autosave) ∧
      (∀ c ∈ restM, isPurgeCall (parsePath (cloudGamePath g profile)) c = true) ∧
      removeAllTargets restM
        = if (mirrorCreate g exePath localtime now w profile autosave).2 = none ∧
            (mirrorCopy g exePath localtime now w profile autosave).2 = none then
            purgeDeleted (mirrorCopy g exePath localtime now w profile autosave).1
              (mirrorPurge g exePath localtime now w profile autosave)
          else [] := by
  obtain ⟨hc, hp, hen, hroot⟩ :=
    (BackupSaveFolder_cloudAttempted g exePath localtime now currentTime w profile autosave).1 h
  have hcond : (profile.cloudSaveEnabled && !g.g_GoogleDrivePath.isEmpty) = true := by
    simp [hen, hroot]
  obtain ⟨restL, l1, l2, l3⟩ := localPurge_calls g exePath localtime now w profile autosave
  obtain ⟨restM, m1, m2, m3⟩ :=
    cloudStep_calls g exePath localtime now currentTime w profile autosave
  refine ⟨restL, restM, ?_, l2, l3, m2, m3⟩
  rw [BackupSaveFolder_eq]
  simp only [hc, hp, hcond, if_true]
  rw [finalLogging_calls, m1, l1, List.append_assoc]

/-- What a run of `BackupSaveFolder` that does not attempt the mirror does. -/
theorem BackupSaveFolder_not_attempted (g : Globals) (exePath : WString)
    (localtime : Int → tm) (now : Int) (currentTime : WString) (w : World)
    (profile : GameProfile) (autosave : Bool)
    (h : (BackupSaveFolder g exePath localtime now currentTime w profile autosave).cloudAttempted
      = false) :
    (BackupSaveFolder g exePath localtime now currentTime w profile autosave).cloudSuccess
        = false ∧
    (∃ rest,
      (BackupSaveFolder g exePath localtime now currentTime w profile autosave).world.calls
        = w.calls ++ FsCall.copy (parsePath profile.savePath)
            (parsePath (targetBackupPath exePath profile.name
              (backupFolderName localtime now autosave))) false :: rest ∧
      ∀ c ∈ rest,
        c = FsCall.remove_all (parsePath (targetBackupPath exePath profile.name
            (backupFolderName localtime now autosave))) ∨
        isPurgeCall (parsePath (backupPathBase exePath profile.name)) c = true) ∧
    (BackupSaveFolder g exePath localtime now currentTime w profile autosave).world.fs.filter
        (fun n => !isUnder (parsePath (backupPathBase exePath profile.name)) n.path)
      = w.fs.filter
        (fun n => !isUnder (parsePath (backupPathBase exePath profile.name)) n.path) := by
  obtain ⟨restL, l1, l2, _⟩ := localPurge_calls g exePath localtime now w profile autosave
  have lf := localPurge_fs_filter g exePath localtime now w profile autosave
  rw [BackupSaveFolder_eq] at h ⊢
  cases hc : (localCopy exePath localtime now w profile autosave).2 with
  | some e =>
    simp only
    refine ⟨trivial, ⟨[FsCall.remove_all (parsePath (targetBackupPath exePath profile.name
      (backupFolderName localtime now autosave)))], ?_, ?_⟩, ?_⟩
    · simp [World.print, World.remove_all, localCopy_calls]
    · intro c hcm
      left
      simpa using hcm
    · simp only [World.print, World.remove_all]
      rw [fs_remove_all_filter _ _ _ (fun n hn => by
        simp only [Bool.not_eq_true'] at hn
        exact not_under_target _ _ _ _ _ _ hn)]
      exact localCopy_fs_filter exePath localtime now w profile autosave
  | none =>
    rw [hc] at h
    simp only at h ⊢
    cases hp : (localPurge g exePath localtime now w profile autosave).thrown with
    | some e =>
      simp only
      exact ⟨trivial, ⟨restL, l1, fun c hcm => Or.inr (l2 c hcm)⟩, lf⟩
    | none =>
      rw [hp] at h
      simp only at h ⊢
      by_cases hcond : (profile.cloudSaveEnabled && !g.g_GoogleDrivePath.isEmpty) = true
      · rw [if_pos hcond] at h
        cases h
      · rw [if_neg hcond]
        simp only [finalLogging_calls, finalLogging_fs]
        exact ⟨trivial, ⟨restL, l1, fun c hcm => Or.inr (l2 c hcm)⟩, lf⟩

theorem filter_under_apart (fs1 fs2 : FileSystem) (S R : Path)
    (h : fs1.filter (fun n => !isUnder S n.path) = fs2.filter (fun n => !isUnder S n.path))
    (hR : comparable S R = false) :
    fs1.filter (fun n => isUnder R n.path) = fs2.filter (fun n => isUnder R n.path) := by
  apply filter_under_of_not_comparable fs1 fs2 S R _ hR
  apply filter_eq_of_imp _ _ _ _ h
  intro n hn
  simp only [comparable, Bool.not_eq_true', Bool.or_eq_false_iff] at hn
  simp [hn.1]

/-! ## The mirror step of `BackupSaveFolder` -/

/-- C15: the profile has the mirror enabled and the mirror root is set, and
still the mirror is not attempted, because the local copy fails (the game
holds `b.sav` open). -/
theorem C15_counterexample :
    mirrorProfile.cloudSaveEnabled = true ∧ mirrorGlobals.g_GoogleDrivePath ≠ [] ∧
    (BackupSaveFolder mirrorGlobals sampleExePath utcLocaltime 1700000000 sampleCurrentTime
      unreadableWorld mirrorProfile false).cloudAttempted = false := by
  decide

/-- C15 (amended). In a run of `BackupSaveFolder` that returns, the mirror
is attempted exactly when the local copy succeeded, the profile has
`cloudSaveEnabled` set and the mirror root `g_GoogleDrivePath` is not empty.
In every other case of such a run `cloudAttempted` and `cloudSuccess` are
false, the calls of the run are the local copy followed only by the cleanup
`remove_all` of the target or by the calls of the purge of the local backup
directory (no `create_directories`, no second copy, no call on the mirror
directory), the nodes outside the local backup directory are unchanged, and
when the mirror directory and the local backup directory lie apart, the nodes
at or below the mirror directory are unchanged. -/
theorem C15_mirror_attempted_iff (g : Globals) (exePath : WString) (localtime : Int → tm)
    (now : Int) (currentTime : WString) (w : World) (profile : GameProfile) (autosave : Bool)
    (hret : (BackupSaveFolder g exePath localtime now currentTime w profile autosave).thrown
      = none) :
    ((BackupSaveFolder g exePath localtime now currentTime w profile autosave).cloudAttempted
        = true ↔
      ((localCopy exePath localtime now w profile autosave).2 = none ∧
        profile.cloudSaveEnabled = true ∧ g.g_GoogleDrivePath ≠ [])) ∧
    ((BackupSaveFolder g exePath localtime now currentTime w profile autosave).cloudAttempted
        = false →
      (BackupSaveFolder g exePath localtime now currentTime w profile autosave).cloudSuccess
          = false ∧
      (∃ rest,
        (BackupSaveFolder g exePath localtime now currentTime w profile autosave).world.calls
          = w.calls ++ FsCall.copy (parsePath profile.savePath)
              (parsePath (targetBackupPath exePath profile.name
                (backupFolderName localtime now autosave))) false :: rest ∧
        ∀ c ∈ rest,
          c = FsCall.remove_all (parsePath (targetBackupPath exePath profile.name
              (backupFolderName localtime now autosave))) ∨
          isPurgeCall (parsePath (backupPathBase exePath profile.name)) c = true) ∧
      (BackupSaveFolder g exePath localtime now currentTime w profile autosave).world.fs.filter
          (fun n => !isUnder (parsePath (backupPathBase exePath profile.name)) n.path)
        = w.fs.filter
          (fun n => !isUnder (parsePath (backupPathBase exePath profile.name)) n.path) ∧
      (apart (parsePath (backupPathBase exePath profile.name))
          (parsePath (cloudGamePath g profile)) = true →
        (BackupSaveFolder g exePath localtime now currentTime w profile autosave).world.fs.filter
            (fun n => isUnder (parsePath (cloudGamePath g profile)) n.path)
          = w.fs.filter (fun n => isUnder (parsePath (cloudGamePath g profile)) n.path))) := by
  have hatt := BackupSaveFolder_cloudAttempted g exePath localtime now currentTime w profile
    autosave
  have hthr := BackupSaveFolder_thrown g exePath localtime now currentTime w profile autosave
  refine ⟨⟨fun h => ?_, fun h => ?_⟩, fun h => ?_⟩
  · obtain ⟨h1, _, h3, h4⟩ := hatt.1 h
    exact ⟨h1, h3, h4⟩
  · obtain ⟨h1, h3, h4⟩ := h
    rw [hthr, h1] at hret
    exact hatt.2 ⟨h1, hret, h3, h4⟩
  · obtain ⟨h1, h2, h3⟩ :=
      BackupSaveFolder_not_attempted g exePath localtime now currentTime w profile autosave h
    exact ⟨h1, h2, h3,
      fun hR => filter_under_apart _ _ _ _ h3 (not_comparable_of_apart _ _ hR)⟩

/-- C15 (amended), at concrete inputs: a manual backup with the mirror root
set and the mirror disabled in the profile leaves the one archive of the
mirror directory as it was, and the same backup with the mirror enabled
attempts the mirror. -/
theorem C15_mirror_attempted_iff_witness :
    (BackupSaveFolder mirrorGlobals sampleExePath utcLocaltime 1700000000 sampleCurrentTime
        mirrorCollisionWorld sampleProfile false).world.fs.filter
        (fun n => isUnder (parsePath sampleMirrorDir) n.path)
      = [dirNode "G:\\Drive\\Game Save Backup Manager\\G",
         dirNode "G:\\Drive\\Game Save Backup Manager\\G\\1700000000-[2023-11-14_22-13-20]-M",
         fileNode
           "G:\\Drive\\Game Save Backup Manager\\G\\1700000000-[2023-11-14_22-13-20]-M\\a.sav"
           [1, 2]] ∧
    (BackupSaveFolder mirrorGlobals sampleExePath utcLocaltime 1700000000 sampleCurrentTime
        mirrorCollisionWorld mirrorProfile false).cloudAttempted = true :=
  ⟨(((C15_mirror_attempted_iff mirrorGlobals sampleExePath utcLocaltime 1700000000
        sampleCurrentTime mirrorCollisionWorld sampleProfile false (by decide)).2
        (by decide)).2.2.2 (by decide)).trans (by decide),
    (C15_mirror_attempted_iff mirrorGlobals sampleExePath utcLocaltime 1700000000
      sampleCurrentTime mirrorCollisionWorld mirrorProfile false (by decide)).1.2
      ⟨by decide, by decide, by decide⟩⟩

/-- C16: the mirror root `G:\Drive` is a regular file.  The mirror is
attempted, `create_directories` of the mirror directory throws, the failure
is caught and reported, and the only copy of the run is the local one: no
copy into a mirror directory is made. -/
theorem C16_counterexample :
    (BackupSaveFolder mirrorGlobals sampleExePath utcLocaltime 1700000000 sampleCurrentTime
      blockedMirrorWorld mirrorProfile false).cloudAttempted = true ∧
    (mirrorCreate mirrorGlobals sampleExePath utcLocaltime 1700000000 blockedMirrorWorld
      mirrorProfile false).2 = some ⟨L "create_directories: a file is in the way"⟩ ∧
    copyCalls (BackupSaveFolder mirrorGlobals sampleExePath utcLocaltime 1700000000
        sampleCurrentTime blockedMirrorWorld mirrorProfile false).world.calls
      = [FsCall.copy (parsePath (L "C:\\Saves"))
          (parsePath (L "C:\\App\\Backups\\G\\1700000000-[2023-11-14_22-13-20]-M")) false] ∧
    (BackupSaveFolder mirrorGlobals sampleExePath utcLocaltime 1700000000 sampleCurrentTime
      blockedMirrorWorld mirrorProfile false).cloudSuccess = false := by
  decide

/-- C16 (amended). Whenever `BackupSaveFolder` attempts the mirror, the
copies of the run are the local copy, from the save path into the archive directory
`backupFolderName` of the local backup directory, followed, when
`create_directories` of the mirror directory succeeded, by exactly one more
copy: from that archive directory (not from the save path) into the
directory of the same name `backupFolderName` in the mirror directory. -/
theorem C16_mirror_copy_from_local_archive (g : Globals) (exePath : WString)
    (localtime : Int → tm) (now : Int) (currentTime : WString) (w : World)
    (profile : GameProfile) (autosave : Bool)
    (h : (BackupSaveFolder g exePath localtime now currentTime w profile autosave).cloudAttempted
      = true) :
    copyCalls ((BackupSaveFolder g exePath localtime now currentTime w profile
        autosave).world.calls.drop w.calls.length)
      = FsCall.copy (parsePath profile.savePath)
          (parsePath (backupPathBase exePath profile.name)
            ++ [backupFolderName localtime now autosave]) false ::
        (if (mirrorCreate g exePath localtime now w profile autosave).2 = none then
          [FsCall.copy
            (parsePath (backupPathBase exePath profile.name)
              ++ [backupFolderName localtime now autosave])
            (parsePath (cloudGamePath g profile) ++ [backupFolderName localtime now autosave])
            false]
        else []) ∧
    filename (parsePath (cloudGamePath g profile) ++ [backupFolderName localtime now autosave])
      = filename (parsePath (backupPathBase exePath profile.name)
          ++ [backupFolderName localtime now autosave]) := by
  obtain ⟨restL, restM, hcalls, l2, _, m2, _⟩ :=
    BackupSaveFolder_attempted_calls g exePath localtime now currentTime w profile autosave h
  refine ⟨?_, by rw [filename_child, filename_child]⟩
  rw [hcalls, List.append_assoc, List.drop_left, parsePath_target]
  have hL := copyCalls_of_purge _ restL l2
  have hM := copyCalls_of_purge _ restM m2
  by_cases hcr : (mirrorCreate g exePath localtime now w profile autosave).2 = none
  · rw [if_pos hcr, if_pos hcr, List.cons_append]
    have e : ∀ a b c : FsCall, ∀ l1 l2 : List FsCall,
        a :: (l1 ++ b :: c :: l2) = [a] ++ l1 ++ [b] ++ [c] ++ l2 := by
      intros
      simp
    rw [e, copyCalls_append, copyCalls_append, copyCalls_append, copyCalls_append, hL, hM]
    rfl
  · rw [if_neg hcr, if_neg hcr, List.cons_append]
    have e : ∀ a b : FsCall, ∀ l1 : List FsCall, a :: (l1 ++ [b]) = [a] ++ l1 ++ [b] := by
      intros
      simp
    rw [e, copyCalls_append, copyCalls_append, hL]
    rfl

/-- C16 (amended), at a concrete input: a manual backup of the sample profile with the
mirror enabled. -/
theorem C16_mirror_copy_from_local_archive_witness :
    copyCalls ((BackupSaveFolder mirrorGlobals sampleExePath utcLocaltime 1700000000
        sampleCurrentTime baseWorld mirrorProfile false).world.calls.drop 0)
      = [FsCall.copy (parsePath (L "C:\\Saves"))
            (parsePath (L "C:\\App\\Backups\\G\\1700000000-[2023-11-14_22-13-20]-M")) false,
          FsCall.copy (parsePath (L "C:\\App\\Backups\\G\\1700000000-[2023-11-14_22-13-20]-M"))
            (parsePath
              (L "G:\\Drive\\Game Save Backup Manager\\G\\1700000000-[2023-11-14_22-13-20]-M"))
            false] :=
  (C16_mirror_copy_from_local_archive mirrorGlobals sampleExePath utcLocaltime 1700000000
    sampleCurrentTime baseWorld mirrorProfile false (by decide)).1.trans (by decide)

/-! ## `BackupSaveFolder`: a failed mirror copy -/

theorem foldl_print_console (msgs : List WString) (w : World) :
    (msgs.foldl World.print w).console = w.console ++ msgs := by
  induction msgs generalizing w with
  | nil => simp
  | cons m ms ih => simp [List.foldl, ih, World.print]

theorem purgeClass_filter_selection (locationName label title : WString) (P : Node → Bool)
    (saves : List Path) (limit : Int) (w : World) (logCollector : List WString)
    (hP : ∀ p ∈ purgeSelection saves limit, ∀ n, P n = true → isUnder p n.path = false) :
    (purgeClass locationName label title saves limit w logCollector).1.fs.filter P
      = w.fs.filter P := by
  unfold purgeClass
  unfold purgeSelection at hP
  by_cases h : limit > 0 ∧ (saves.length : Int) > limit
  · simp only [h, and_self, if_true] at hP ⊢
    exact deleteLoop_filter _ _ P _ _ _ hP
  · simp [h]

/-- A set of nodes that lies below none of the paths `PurgeBackups` hands to
`fs::remove_all` is the same before and after the call. -/
theorem PurgeBackups_fs_filter_selection (w : World) (backupDir pfx locationName : WString)
    (autoLimit manualLimit : Int) (logCollector : List WString) (P : Node → Bool)
    (hP : ∀ p ∈ purgeDeleted w
        (PurgeBackups w backupDir pfx autoLimit manualLimit locationName logCollector),
      ∀ n, P n = true → isUnder p n.path = false) :
    (PurgeBackups w backupDir pfx autoLimit manualLimit locationName
        logCollector).world.fs.filter P
      = w.fs.filter P := by
  cases hl : fs_directory_iterator w.fs (parsePath backupDir) with
  | error e =>
    unfold PurgeBackups
    by_cases hex : fs_exists w.fs (parsePath backupDir) = true
    · simp [World.file_exists, hex, World.directory_iterator, hl]
    · simp [World.file_exists, hex]
  | ok entries =>
    rw [PurgeBackups_deleted w backupDir pfx locationName autoLimit manualLimit logCollector
      entries hl] at hP
    have hex := listing_exists _ _ _ hl
    unfold PurgeBackups
    simp only [World.file_exists, hex, Bool.not_true, World.directory_iterator, hl,
      Bool.false_eq_true, if_false]
    rw [purgeClass_filter_selection _ _ _ _ _ _ _ _
        (fun p hp => hP p (List.mem_append_right _ hp)),
      purgeClass_filter_selection _ _ _ _ _ _ _ _
        (fun p hp => hP p (List.mem_append_left _ hp))]

theorem not_under_sibling (dir p q : Path) (name : WString) (hc : isChildOf dir p = true)
    (hne : p ≠ dir ++ [name]) (hq : isUnder (dir ++ [name]) q = true) : isUnder p q = false := by
  cases h : isUnder p q with
  | false => rfl
  | true =>
    exfalso
    obtain ⟨c, rfl⟩ := (isChildOf_iff dir p).1 hc
    obtain ⟨t1, rfl⟩ := (isUnder_iff _ _).1 hq
    obtain ⟨t2, h2⟩ := (isUnder_iff _ _).1 h
    simp only [List.append_assoc, List.append_cancel_left_eq, List.singleton_append,
      List.cons.injEq] at h2
    exact hne (by rw [h2.1])

/-- An archive directory that the local purge does not select is, node by
node, the same after the purge as after the local copy. -/
theorem localPurge_keeps_archive (g : Globals) (exePath : WString) (localtime : Int → tm)
    (now : Int) (w : World) (profile : GameProfile) (autosave : Bool)
    (hT : parsePath (backupPathBase exePath profile.name)
        ++ [backupFolderName localtime now autosave]
      ∉ purgeDeleted (localCopy exePath localtime now w profile autosave).1
        (localPurge g exePath localtime now w profile autosave)) :
    (localPurge g exePath localtime now w profile autosave).world.fs.filter
        (fun n => isUnder (parsePath (backupPathBase exePath profile.name)
          ++ [backupFolderName localtime now autosave]) n.path)
      = (localCopy exePath localtime now w profile autosave).1.fs.filter
        (fun n => isUnder (parsePath (backupPathBase exePath profile.name)
          ++ [backupFolderName localtime now autosave]) n.path) := by
  unfold localPurge at hT ⊢
  apply PurgeBackups_fs_filter_selection
  intro p hp n hn
  have hch := PurgeBackups_deleted_children _ _ _ _ _ _ _ p hp
  exact not_under_sibling _ p n.path _ hch (fun e => hT (e ▸ hp)) hn

/-- The world that `BackupSaveFolder` leaves when the mirror is attempted and
its copy throws. -/
theorem BackupSaveFolder_of_mirror_copy_failed (g : Globals) (exePath : WString)
    (localtime : Int → tm) (now : Int) (currentTime : WString) (w : World)
    (profile : GameProfile) (autosave : Bool) (e : filesystem_error)
    (h : (BackupSaveFolder g exePath localtime now currentTime w profile autosave).cloudAttempted
      = true)
    (hcr : (mirrorCreate g exePath localtime now w profile autosave).2 = none)
    (hf : (mirrorCopy g exePath localtime now w profile autosave).2 = some e) :
    BackupSaveFolder g exePath localtime now currentTime w profile autosave
      = ⟨finalLogging
          ((mirrorCopy g exePath localtime now w profile autosave).1.print
            (syncFailedLine currentTime (backupFolderName localtime now autosave) e))
          currentTime (classLetter autosave) (backupFolderName localtime now autosave)
          true true false (localPurge g exePath localtime now w profile autosave).logCollector,
        true, true, false,
        (localPurge g exePath localtime now w profile autosave).logCollector, none⟩ := by
  obtain ⟨hc, hp, hen, hroot⟩ :=
    (BackupSaveFolder_cloudAttempted g exePath localtime now currentTime w profile autosave).1 h
  have hcond : (profile.cloudSaveEnabled && !g.g_GoogleDrivePath.isEmpty) = true := by
    simp [hen, hroot]
  rw [BackupSaveFolder_eq]
  simp only [hc, hp, hcond, if_true]
  rw [cloudStep_eq]
  simp only [hcr, hf]

/-- C17: an automatic backup at the clock reading 1700000000 while the local
backup directory holds the archive of the instant 1700000090 and one
automatic archive is kept.  The local copy succeeds; the local purge sorts
the new archive first and removes it; the mirror copy then fails, for its
source is gone.  The flags are true, true and false, and the archive the run
has just created is removed. -/
theorem C17_counterexample :
    (localCopy sampleExePath utcLocaltime 1700000000 clockBackWorld mirrorProfile true).2
      = none ∧
    (mirrorCopy tightGlobals sampleExePath utcLocaltime 1700000000 clockBackWorld mirrorProfile
      true).2 = some ⟨L "copy: the source does not exist"⟩ ∧
    (BackupSaveFolder tightGlobals sampleExePath utcLocaltime 1700000000 sampleCurrentTime
      clockBackWorld mirrorProfile true).localSuccess = true ∧
    (BackupSaveFolder tightGlobals sampleExePath utcLocaltime 1700000000 sampleCurrentTime
      clockBackWorld mirrorProfile true).cloudAttempted = true ∧
    (BackupSaveFolder tightGlobals sampleExePath utcLocaltime 1700000000 sampleCurrentTime
      clockBackWorld mirrorProfile true).cloudSuccess = false ∧
    removeAllTargets (BackupSaveFolder tightGlobals sampleExePath utcLocaltime 1700000000
      sampleCurrentTime clockBackWorld mirrorProfile true).world.calls
      = [parsePath (L "C:\\App\\Backups\\G\\1700000000-[2023-11-14_22-13-20]-A")] ∧
    fs_exists (BackupSaveFolder tightGlobals sampleExePath utcLocaltime 1700000000
      sampleCurrentTime clockBackWorld mirrorProfile true).world.fs
      (parsePath (L "C:\\App\\Backups\\G\\1700000000-[2023-11-14_22-13-20]-A")) = false := by
  decide

/-- C17 (amended). If the local copy of `BackupSaveFolder` succeeds, the local
purge throws nothing, the profile has the mirror enabled, the mirror root is
set, `create_directories` of the mirror directory succeeds and the mirror
copy throws, then the function ends with `localSuccess` true,
`cloudAttempted` true and `cloudSuccess` false and throws nothing; it prints,
after the output of the local purge, the line `[CLOUD] Sync FAILED` with the
text of the error, the summary line `completed (Local only due to Cloud sync
failure).`, the purge messages and the separator; the only `remove_all` calls
of the run are those of the local purge; from the end of the local purge on,
nodes are only added to the file system; and when the local purge has not
selected the archive just created, every path at or below that archive has
at the end the node that the local copy left there. -/
theorem C17_mirror_copy_failure_keeps_local (g : Globals) (exePath : WString)
    (localtime : Int → tm) (now : Int) (currentTime : WString) (w : World)
    (profile : GameProfile) (autosave : Bool) (e : filesystem_error)
    (hc : (localCopy exePath localtime now w profile autosave).2 = none)
    (hp : (localPurge g exePath localtime now w profile autosave).thrown = none)
    (hen : profile.cloudSaveEnabled = true) (hroot : g.g_GoogleDrivePath ≠ [])
    (hcr : (mirrorCreate g exePath localtime now w profile autosave).2 = none)
    (hf : (mirrorCopy g exePath localtime now w profile autosave).2 = some e) :
    (BackupSaveFolder g exePath localtime now currentTime w profile autosave).localSuccess
      = true ∧
    (BackupSaveFolder g exePath localtime now currentTime w profile autosave).cloudAttempted
      = true ∧
    (BackupSaveFolder g exePath localtime now currentTime w profile autosave).cloudSuccess
      = false ∧
    (BackupSaveFolder g exePath localtime now currentTime w profile autosave).thrown = none ∧
    (BackupSaveFolder g exePath localtime now currentTime w profile autosave).world.console
      = (localPurge g exePath localtime now w profile autosave).world.console
        ++ [syncFailedLine currentTime (backupFolderName localtime now autosave) e,
            L "[" ++ currentTime ++ L "] [" ++ classLetter autosave ++ L "] Backup " ++
              backupFolderName localtime now autosave ++
              L " completed (Local only due to Cloud sync failure)."]
        ++ (localPurge g exePath localtime now w profile autosave).logCollector
        ++ [separatorLine] ∧
    removeAllTargets ((BackupSaveFolder g exePath localtime now currentTime w profile
        autosave).world.calls.drop w.calls.length)
      = purgeDeleted (localCopy exePath localtime now w profile autosave).1
          (localPurge g exePath localtime now w profile autosave) ∧
    (∃ added,
      (BackupSaveFolder g exePath localtime now currentTime w profile autosave).world.fs
        = (localPurge g exePath localtime now w profile autosave).world.fs ++ added) ∧
    (parsePath (backupPathBase exePath profile.name) ++ [backupFolderName localtime now autosave]
        ∉ purgeDeleted (localCopy exePath localtime now w profile autosave).1
          (localPurge g exePath localtime now w profile autosave) →
      ∀ p n,
        isUnder (parsePath (backupPathBase exePath profile.name)
          ++ [backupFolderName localtime now autosave]) p = true →
        lookup (localCopy exePath localtime now w profile autosave).1.fs p = some n →
        lookup (BackupSaveFolder g exePath localtime now currentTime w profile
          autosave).world.fs p = some n) := by
  have h := (BackupSaveFolder_cloudAttempted g exePath localtime now currentTime w profile
    autosave).2 ⟨hc, hp, hen, hroot⟩
  have hfs : ∃ added,
      (BackupSaveFolder g exePath localtime now currentTime w profile autosave).world.fs
        = (localPurge g exePath localtime now w profile autosave).world.fs ++ added := by
    rw [BackupSaveFolder_of_mirror_copy_failed g exePath localtime now currentTime w profile
      autosave e h hcr hf]
    simp only [finalLogging_fs, World.print]
    obtain ⟨a1, c1, _⟩ := fs_create_directories_append
      (localPurge g exePath localtime now w profile autosave).world.fs
      (parsePath (cloudGamePath g profile))
    obtain ⟨a2, c2, _⟩ := fs_copy_frame
      (mirrorCreate g exePath localtime now w profile autosave).1.fs
      (parsePath (targetBackupPath exePath profile.name
        (backupFolderName localtime now autosave)))
      (parsePath (cloudGamePath g profile ++ L "\\" ++ backupFolderName localtime now autosave))
    refine ⟨a1 ++ a2, ?_⟩
    have e1 : (mirrorCopy g exePath localtime now w profile autosave).1.fs
        = (fs_copy (mirrorCreate g exePath localtime now w profile autosave).1.fs
          (parsePath (targetBackupPath exePath profile.name
            (backupFolderName localtime now autosave)))
          (parsePath (cloudGamePath g profile ++ L "\\" ++
            backupFolderName localtime now autosave)) false).1 := rfl
    have e2 : (mirrorCreate g exePath localtime now w profile autosave).1.fs
        = (fs_create_directories (localPurge g exePath localtime now w profile autosave).world.fs
          (parsePath (cloudGamePath g profile))).1 := rfl
    rw [e1, c2, e2, c1, List.append_assoc]
  refine ⟨?_, h, ?_, ?_, ?_, ?_, hfs, ?_⟩
  · rw [BackupSaveFolder_of_mirror_copy_failed g exePath localtime now currentTime w profile
      autosave e h hcr hf]
  · rw [BackupSaveFolder_of_mirror_copy_failed g exePath localtime now currentTime w profile
      autosave e h hcr hf]
  · rw [BackupSaveFolder_of_mirror_copy_failed g exePath localtime now currentTime w profile
      autosave e h hcr hf]
  · rw [BackupSaveFolder_of_mirror_copy_failed g exePath localtime now currentTime w profile
      autosave e h hcr hf]
    simp only [finalLogging, Bool.and_self, Bool.not_false, Bool.and_false, Bool.false_eq_true,
      if_false, if_true, World.print, foldl_print_console, List.append_assoc]
    rfl
  · obtain ⟨restL, k1, _, k3⟩ := localPurge_calls g exePath localtime now w profile autosave
    rw [BackupSaveFolder_of_mirror_copy_failed g exePath localtime now currentTime w profile
      autosave e h hcr hf]
    simp only [finalLogging_calls, World.print]
    rw [mirrorCopy_calls, mirrorCreate_calls, k1, List.append_assoc, List.append_assoc,
      List.drop_left, ← k3]
    simp [removeAllTargets, removeAllTargets_append]
  · intro hT p n hu hl
    obtain ⟨added, ha⟩ := hfs
    have hk := localPurge_keeps_archive g exePath localtime now w profile autosave hT
    have h1 := lookup_filter (localCopy exePath localtime now w profile autosave).1.fs
      (fun n => isUnder (parsePath (backupPathBase exePath profile.name)
        ++ [backupFolderName localtime now autosave]) n.path) p
      (fun m _ hm => by subst hm; exact hu)
    have h2 := lookup_filter (localPurge g exePath localtime now w profile autosave).world.fs
      (fun n => isUnder (parsePath (backupPathBase exePath profile.name)
        ++ [backupFolderName localtime now autosave]) n.path) p
      (fun m _ hm => by subst hm; exact hu)
    rw [hk, h1, hl] at h2
    rw [ha]
    unfold lookup at h2 ⊢
    rw [List.find?_append, ← h2]
    rfl

/-- C17 (amended), at a concrete input: a manual backup with the mirror
enabled while the mirror directory already holds an archive of the same name
with `a.sav`.  The mirror copy throws, and the archived `a.sav` of the local
archive is there at the end. -/
theorem C17_mirror_copy_failure_keeps_local_witness :
    (mirrorCopy mirrorGlobals sampleExePath utcLocaltime 1700000000 mirrorCollisionWorld
      mirrorProfile false).2 = some ⟨L "copy_file: the file exists"⟩ ∧
    (BackupSaveFolder mirrorGlobals sampleExePath utcLocaltime 1700000000 sampleCurrentTime
      mirrorCollisionWorld mirrorProfile false).cloudSuccess = false ∧
    lookup (BackupSaveFolder mirrorGlobals sampleExePath utcLocaltime 1700000000
        sampleCurrentTime mirrorCollisionWorld mirrorProfile false).world.fs
        (parsePath (L "C:\\App\\Backups\\G\\1700000000-[2023-11-14_22-13-20]-M\\a.sav"))
      = some ⟨parsePath (L "C:\\App\\Backups\\G")
          ++ [L "1700000000-[2023-11-14_22-13-20]-M", L "a.sav"],
        FileKind.regular [1, 2], true, true⟩ :=
  ⟨by decide,
    (C17_mirror_copy_failure_keeps_local mirrorGlobals sampleExePath utcLocaltime 1700000000
      sampleCurrentTime mirrorCollisionWorld mirrorProfile false
      ⟨L "copy_file: the file exists"⟩ (by decide) (by decide) (by decide) (by decide)
      (by decide) (by decide)).2.2.1,
    (C17_mirror_copy_failure_keeps_local mirrorGlobals sampleExePath utcLocaltime 1700000000
      sampleCurrentTime mirrorCollisionWorld mirrorProfile false
      ⟨L "copy_file: the file exists"⟩ (by decide) (by decide) (by decide) (by decide)
      (by decide) (by decide)).2.2.2.2.2.2.2 (by decide) _ _ (by decide) (by decide)⟩

/-! ## The two purges of `BackupSaveFolder` -/

theorem localPurge_congr (g g2 : Globals) (exePath : WString) (localtime : Int → tm) (now : Int)
    (w : World) (profile : GameProfile) (autosave : Bool)
    (ha : g2.g_LocalAutoSaveLimit = g.g_LocalAutoSaveLimit)
    (hm : g2.g_LocalManualSaveLimit = g.g_LocalManualSaveLimit) :
    localPurge g2 exePath localtime now w profile autosave
      = localPurge g exePath localtime now w profile autosave := by
  unfold localPurge
  rw [ha, hm]

/-- The `remove_all` calls of a run of `BackupSaveFolder` whose local copy
succeeds and whose local purge throws nothing: those of the local purge,
then those of the mirror purge when the mirror step reaches it. -/
theorem BackupSaveFolder_removals (g : Globals) (exePath : WString) (localtime : Int → tm)
    (now : Int) (currentTime : WString) (w : World) (profile : GameProfile) (autosave : Bool)
    (hc : (localCopy exePath localtime now w profile autosave).2 = none)
    (hp : (localPurge g exePath localtime now w profile autosave).thrown = none) :
    removeAllTargets ((BackupSaveFolder g exePath localtime now currentTime w profile
        autosave).world.calls.drop w.calls.length)
      = purgeDeleted (localCopy exePath localtime now w profile autosave).1
          (localPurge g exePath localtime now w profile autosave)
        ++ (if (profile.cloudSaveEnabled = true ∧ g.g_GoogleDrivePath ≠ []) ∧
              (mirrorCreate g exePath localtime now w profile autosave).2 = none ∧
              (mirrorCopy g exePath localtime now w profile autosave).2 = none then
            purgeDeleted (mirrorCopy g exePath localtime now w profile autosave).1
              (mirrorPurge g exePath localtime now w profile autosave)
          else []) := by
  by_cases hcond : profile.cloudSaveEnabled = true ∧ g.g_GoogleDrivePath ≠ []
  · have h := (BackupSaveFolder_cloudAttempted g exePath localtime now currentTime w profile
      autosave).2 ⟨hc, hp, hcond.1, hcond.2⟩
    obtain ⟨restL, restM, hcalls, _, l3, _, m3⟩ :=
      BackupSaveFolder_attempted_calls g exePath localtime now currentTime w profile autosave h
    rw [hcalls, List.append_assoc, List.drop_left, ← l3]
    by_cases hcr : (mirrorCreate g exePath localtime now w profile autosave).2 = none
    · rw [if_pos hcr]
      by_cases hcp : (mirrorCopy g exePath localtime now w profile autosave).2 = none
      · rw [if_pos ⟨hcr, hcp⟩] at m3
        rw [if_pos ⟨hcond, hcr, hcp⟩, ← m3]
        simp [removeAllTargets, removeAllTargets_append]
      · rw [if_neg (fun hx => hcp hx.2)] at m3
        rw [if_neg (fun hx => hcp hx.2.2)]
        simp [removeAllTargets, removeAllTargets_append, m3]
    · rw [if_neg hcr, if_neg (fun hx => hcr hx.2.1)]
      simp [removeAllTargets, removeAllTargets_append]
  · obtain ⟨restL, l1, _, l3⟩ := localPurge_calls g exePath localtime now w profile autosave
    have hb : (profile.cloudSaveEnabled && !g.g_GoogleDrivePath.isEmpty) = false := by
      cases hen : profile.cloudSaveEnabled with
      | false => rfl
      | true =>
        cases hr : g.g_GoogleDrivePath with
        | nil => rfl
        | cons a l => exact absurd ⟨hen, by rw [hr]; simp⟩ hcond
    rw [BackupSaveFolder_eq]
    simp only [hc, hp, hb, Bool.false_eq_true, if_false, finalLogging_calls]
    rw [l1, List.drop_left, ← l3, if_neg (fun hx => hcond hx.1)]
    simp [removeAllTargets]

/-! ## Failures during a purge -/

/-- Whatever removals fail: when the listing of the directory succeeds,
`PurgeBackups` makes, after the existence test and the iteration, one
`fs::remove_all` call for every directory selected in the automatic class
and then one for every directory selected in the manual class (the first
`N - L` directories of the sorted class when the limit `L` is positive and
the class has `N > L` directories), and no exception leaves it.  The world
is arbitrary, so any of these calls may fail; a failing call changes neither
the calls that follow in its class nor those of the other class. -/
theorem PurgeBackups_attempts_every_selected (w : World)
    (backupDir pfx locationName : WString) (autoLimit manualLimit : Int)
    (logCollector : List WString) (entries : List Node)
    (hlist : fs_directory_iterator w.fs (parsePath backupDir) = Except.ok entries) :
    (PurgeBackups w backupDir pfx autoLimit manualLimit locationName logCollector).thrown
      = none ∧
    (PurgeBackups w backupDir pfx autoLimit manualLimit locationName logCollector).world.calls
      = w.calls ++ [FsCall.file_exists (parsePath backupDir),
          FsCall.directory_iterator (parsePath backupDir)]
        ++ (purgeSelection (stdSort (classDirs true entries)) autoLimit).map FsCall.remove_all
        ++ (purgeSelection (stdSort (classDirs false entries)) manualLimit).map
            FsCall.remove_all ∧
    (∀ autoClass,
      ((purgeSelection (stdSort (classDirs autoClass entries))
          (classLimit autoClass autoLimit manualLimit)).length : Int)
        = if classLimit autoClass autoLimit manualLimit ≤ 0 ∨
              ((classDirs autoClass entries).length : Int)
                ≤ classLimit autoClass autoLimit manualLimit then 0
          else ((classDirs autoClass entries).length : Int)
            - classLimit autoClass autoLimit manualLimit) := by
  refine ⟨PurgeBackups_thrown_none w backupDir pfx locationName autoLimit manualLimit
    logCollector entries hlist, ?_, ?_⟩
  · rw [PurgeBackups_calls w backupDir pfx locationName autoLimit manualLimit logCollector
      entries hlist, categorize_eq]
  · intro autoClass
    rw [purgeSelection_length, stdSort_length]

/-- C19. The backup folder holds the automatic archives of the instants
999999998, 999999999 and 1000000000, the automatic limit is 1, and a file in
the archive of 1000000000 is held open.  `PurgeBackups` announces `Deleting 2
oldest...`; the removal of the archive of 1000000000 fails and is reported,
the removal of the archive of 999999998 is still called and succeeds, and
the function returns normally.  So a failed deletion does not stop the
purge; but the two archives handed to `fs::remove_all` are not the two
oldest: the archive of 999999999, one of the two oldest, is never attempted,
and the newest one is.  The sort that the source comments as
`chronologically (oldest first)` compares the names as text. -/
theorem C19_purge_attempts_newest_at_rollover :
    (fs_remove_all rolloverLockedWorld.fs
      (parsePath sampleBackupDir ++ [backupFolderName utcLocaltime 1000000000 true])).2
      = some ⟨L "remove_all: access is denied"⟩ ∧
    purgeDeleted rolloverLockedWorld
        (PurgeBackups rolloverLockedWorld sampleBackupDir (L "A") 1 0 (L "Local") [])
      = [parsePath sampleBackupDir ++ [backupFolderName utcLocaltime 1000000000 true],
         parsePath sampleBackupDir ++ [backupFolderName utcLocaltime 999999998 true]] ∧
    (PurgeBackups rolloverLockedWorld sampleBackupDir (L "A") 1 0 (L "Local") []).thrown
      = none ∧
    (PurgeBackups rolloverLockedWorld sampleBackupDir (L "A") 1 0 (L "Local") []).logCollector
      = [L "      [PURGE:Local] Auto-save limit (1) exceeded. Deleting 2 oldest...",
         L "         - Deleting: 1000000000-[2001-09-09_01-46-40]-A",
         L "         - Deleting: 999999998-[2001-09-09_01-46-38]-A"] ∧
    (PurgeBackups rolloverLockedWorld sampleBackupDir (L "A") 1 0 (L "Local") []).world.console
      = [L "      [PURGE:Local] FAILED to delete Auto 1000000000-[2001-09-09_01-46-40]-A: remove_all: access is denied"] ∧
    (PurgeBackups rolloverLockedWorld sampleBackupDir (L "A") 1 0 (L "Local") []).world.fs.map
        (fun n => n.path)
      = (baseFs.map (fun n => n.path)) ++
        [parsePath (L "C:\\App\\Backups\\G\\999999999-[2001-09-09_01-46-39]-A"),
         parsePath (L "C:\\App\\Backups\\G\\1000000000-[2001-09-09_01-46-40]-A"),
         parsePath (L "C:\\App\\Backups\\G\\1000000000-[2001-09-09_01-46-40]-A\\a.sav")] := by
  decide

/-! ## Exceptions that leave `BackupSaveFolder` -/

/-- C20. A manual backup while the local backup directory cannot be listed:
the local copy succeeds, the `fs::directory_iterator` of the local purge
throws, and the exception leaves `BackupSaveFolder` (the call of
`PurgeBackups` at source line 1595 is in no `try` block); no line of the log
is printed.  The same failure at the mirror is caught: with a mirror
directory that cannot be listed the function returns normally with
`cloudSuccess` false and the line `[CLOUD] Sync FAILED`. -/
theorem C20_local_listing_failure_propagates :
    (localCopy sampleExePath utcLocaltime 1700000000 unlistableWorld mirrorProfile false).2
      = none ∧
    (BackupSaveFolder mirrorGlobals sampleExePath utcLocaltime 1700000000 sampleCurrentTime
      unlistableWorld mirrorProfile false).thrown
      = some ⟨L "directory_iterator: cannot open directory"⟩ ∧
    (BackupSaveFolder mirrorGlobals sampleExePath utcLocaltime 1700000000 sampleCurrentTime
      unlistableWorld mirrorProfile false).world.console = [] ∧
    (BackupSaveFolder mirrorGlobals sampleExePath utcLocaltime 1700000000 sampleCurrentTime
      unlistableMirrorWorld mirrorProfile false).thrown = none ∧
    (BackupSaveFolder mirrorGlobals sampleExePath utcLocaltime 1700000000 sampleCurrentTime
      unlistableMirrorWorld mirrorProfile false).cloudSuccess = false ∧
    (BackupSaveFolder mirrorGlobals sampleExePath utcLocaltime 1700000000 sampleCurrentTime
      unlistableMirrorWorld mirrorProfile false).world.console
      = [L "[2023-11-14 22:13:20] [CLOUD] Sync FAILED for 1700000000-[2023-11-14_22-13-20]-M: directory_iterator: cannot open directory",
         L "[2023-11-14 22:13:20] [M] Backup 1700000000-[2023-11-14_22-13-20]-M completed (Local only due to Cloud sync failure).",
         separatorLine] := by
  decide

/-! ## `IsValidFilename` -/

theorem forbiddenChars_eq : forbiddenChars = [60, 62, 58, 34, 47, 92, 124, 63, 42] := by
  decide

theorem elem_cons_or (c a : Nat) (l : List Nat) :
    List.elem c (a :: l) = (c == a || List.elem c l) := by
  rw [List.elem_cons]
  cases c == a <;> rfl

theorem forbiddenChars_contains (c : Nat) :
    forbiddenChars.contains c
      = (c == 60 || c == 62 || c == 58 || c == 34 || c == 47 || c == 92 || c == 124 || c == 63 ||
          c == 42) := by
  rw [forbiddenChars_eq]
  simp only [List.contains, elem_cons_or, List.elem_nil, Bool.or_false, Bool.or_assoc]

theorem hasInvalidChar_eq (name : WString) :
    hasInvalidChar name = name.any (fun c => forbiddenChars.contains c || decide (c < 32)) := by
  induction name with
  | nil => rfl
  | cons c cs ih =>
    simp only [hasInvalidChar, ih, List.any_cons, forbiddenChars_contains]
    cases h : (c == 60 || c == 62 || c == 58 || c == 34 || c == 47 || c == 92 || c == 124 ||
      c == 63 || c == 42)
    · by_cases h2 : c < 32 <;> simp [h2]
    · simp

/-- A code unit that `towupper` leaves alone and that only its own lower-case
form is mapped to: a letter `A`..`Z` or a digit. -/
theorem towupper_eq_iff (c d : Nat) (hd : (65 ≤ d ∧ d ≤ 90) ∨ (48 ≤ d ∧ d ≤ 57)) :
    towupper c = d ↔ foldCase c = foldCase d := by
  unfold towupper foldCase
  by_cases h1 : 97 ≤ c ∧ c ≤ 122 <;> by_cases h2 : 65 ≤ c ∧ c ≤ 90 <;>
    by_cases h3 : 65 ≤ d ∧ d ≤ 90 <;>
    simp only [h1, h2, h3, Bool.and_eq_true, decide_eq_true_eq, if_true, if_false,
      and_self] <;> omega

theorem map_towupper_eq_iff (name r : WString)
    (hr : ∀ d ∈ r, (65 ≤ d ∧ d ≤ 90) ∨ (48 ≤ d ∧ d ≤ 57)) :
    name.map towupper = r ↔ name.map foldCase = r.map foldCase := by
  induction name generalizing r with
  | nil => cases r <;> simp
  | cons c cs ih =>
    cases r with
    | nil => simp
    | cons d ds =>
      simp only [List.map_cons, List.cons.injEq]
      rw [towupper_eq_iff c d (hr d (List.mem_cons_self _ _)),
        ih ds (fun x hx => hr x (List.mem_cons_of_mem _ hx))]

theorem reservedNames_letters :
    ∀ r ∈ reservedNames, ∀ d ∈ r, (65 ≤ d ∧ d ≤ 90) ∨ (48 ≤ d ∧ d ≤ 57) := by
  decide

theorem numbered_device_iff (u : WString) (a b c : Nat) :
    (u.length == 4 && u.take 3 == [a, b, c] && decide (u.getD 3 0 ≥ 49) &&
        decide (u.getD 3 0 ≤ 57)) = true ↔
      u ∈ [[a, b, c, 49], [a, b, c, 50], [a, b, c, 51], [a, b, c, 52], [a, b, c, 53],
        [a, b, c, 54], [a, b, c, 55], [a, b, c, 56], [a, b, c, 57]] := by
  match u with
  | [] => simp
  | [_] => simp
  | [_, _] => simp
  | [_, _, _] => simp
  | _ :: _ :: _ :: _ :: _ :: _ => simp
  | [x, y, z, d] =>
    simp only [List.length_cons, List.length_nil, List.take, List.getD_cons_succ,
      List.getD_cons_zero, Bool.and_eq_true, beq_iff_eq, decide_eq_true_eq, List.mem_cons,
      List.cons.injEq, List.mem_singleton, and_true, List.not_mem_nil, or_false]
    constructor
    · rintro ⟨⟨⟨_, rfl, rfl, rfl⟩, h1⟩, h2⟩
      have : d = 49 ∨ d = 50 ∨ d = 51 ∨ d = 52 ∨ d = 53 ∨ d = 54 ∨ d = 55 ∨ d = 56 ∨ d = 57 := by
        omega
      simpa using this
    · intro h
      rcases h with h | h | h | h | h | h | h | h | h <;>
        (obtain ⟨rfl, rfl, rfl, rfl⟩ := h; simp)

theorem reservedNames_eq :
    reservedNames = [[67, 79, 78], [80, 82, 78], [65, 85, 88], [78, 85, 76]]
      ++ [[67, 79, 77, 49], [67, 79, 77, 50], [67, 79, 77, 51], [67, 79, 77, 52],
        [67, 79, 77, 53], [67, 79, 77, 54], [67, 79, 77, 55], [67, 79, 77, 56], [67, 79, 77, 57]]
      ++ [[76, 80, 84, 49], [76, 80, 84, 50], [76, 80, 84, 51], [76, 80, 84, 52],
        [76, 80, 84, 53], [76, 80, 84, 54], [76, 80, 84, 55], [76, 80, 84, 56],
        [76, 80, 84, 57]] := by
  decide

/-- The test of `IsValidFilename` for the reserved names holds exactly for the
upper-cased names in the list of reserved names. -/
theorem reserved_test_iff (u : WString) :
    (u == L "CON" || u == L "PRN" || u == L "AUX" || u == L "NUL" ||
        (u.length == 4 && u.take 3 == L "COM" && decide (u.getD 3 0 ≥ 49) &&
          decide (u.getD 3 0 ≤ 57)) ||
        (u.length == 4 && u.take 3 == L "LPT" && decide (u.getD 3 0 ≥ 49) &&
          decide (u.getD 3 0 ≤ 57))) = true ↔ u ∈ reservedNames := by
  have e1 : L "CON" = [67, 79, 78] := by decide
  have e2 : L "PRN" = [80, 82, 78] := by decide
  have e3 : L "AUX" = [65, 85, 88] := by decide
  have e4 : L "NUL" = [78, 85, 76] := by decide
  have e5 : L "COM" = [67, 79, 77] := by decide
  have e6 : L "LPT" = [76, 80, 84] := by decide
  rw [e1, e2, e3, e4, e5, e6, reservedNames_eq, List.mem_append, List.mem_append,
    ← numbered_device_iff u 67 79 77, ← numbered_device_iff u 76 80 84]
  simp only [Bool.or_eq_true, beq_iff_eq, List.mem_cons, List.mem_singleton, List.not_mem_nil,
    or_false, or_assoc]

theorem reserved_any_iff (name : WString) :
    reservedNames.any (fun r => equalIgnoringCase name r) = true ↔
      name.map towupper ∈ reservedNames := by
  rw [List.any_eq_true]
  constructor
  · rintro ⟨r, hr, he⟩
    have := (map_towupper_eq_iff name r (reservedNames_letters r hr)).2
      (by simpa [equalIgnoringCase] using he)
    rw [this]
    exact hr
  · intro h
    refine ⟨name.map towupper, h, ?_⟩
    simpa [equalIgnoringCase] using
      (map_towupper_eq_iff name _ (reservedNames_letters _ h)).1 rfl

/-- C28. For every wide string `name`, `IsValidFilename(name)` is true exactly
when `name` is not empty, contains none of the characters `< > : " / \ | ? *`
and no code unit below 32, is not one of `CON`, `PRN`, `AUX`, `NUL`,
`COM1`..`COM9`, `LPT1`..`LPT9` when the case of its letters is ignored, and
does not end in a space or a dot. -/
theorem C28_IsValidFilename_spec (name : WString) :
    IsValidFilename name = isValidFilename_spec name := by
  unfold IsValidFilename isValidFilename_spec
  have hres := reserved_test_iff (name.map towupper)
  have hany := reserved_any_iff name
  have hall : reservedNames.all (fun r => !equalIgnoringCase name r)
      = !reservedNames.any (fun r => equalIgnoringCase name r) := by
    rw [List.all_eq_not_any_not]
    simp
  have hchars : name.all (fun c => !forbiddenChars.contains c && !decide (c < 32))
      = !hasInvalidChar name := by
    rw [hasInvalidChar_eq, List.all_eq_not_any_not]
    congr 2
    funext c
    simp
  rw [hall, hchars]
  cases he : name.isEmpty
  · cases hc : hasInvalidChar name
    · simp only [Bool.false_eq_true, if_false, Bool.not_false, Bool.true_and]
      by_cases hr : name.map towupper ∈ reservedNames
      · rw [if_pos (hres.2 hr), hany.2 hr]
        rfl
      · have h1 : ¬ _ := fun h => hr (hres.1 h)
        have h2 : reservedNames.any (fun r => equalIgnoringCase name r) = false := by
          cases h : reservedNames.any (fun r => equalIgnoringCase name r)
          · rfl
          · exact absurd (hany.1 h) hr
        rw [if_neg h1, h2]
        cases hl : (name.getLast? == some 32 || name.getLast? == some 46) <;> simp
    · simp
  · simp

theorem IsValidFilename_parts (name : WString) (h : IsValidFilename name = true) :
    name ≠ [] ∧ hasInvalidChar name = false ∧
      ¬ (name.getLast? = some 32 ∨ name.getLast? = some 46) := by
  unfold IsValidFilename at h
  cases he : name.isEmpty
  · cases hc : hasInvalidChar name
    · simp only [he, hc, Bool.false_eq_true, if_false, Bool.not_false, Bool.true_and] at h
      split_ifs at h with h1 h2
      have hne : name ≠ [] := by
        intro hn
        rw [hn] at he
        cases he
      refine ⟨hne, rfl, ?_⟩
      simpa using h2
    · simp [he, hc] at h
  · simp [he] at h

theorem hasInvalidChar_false (name : WString) (h : hasInvalidChar name = false) :
    ∀ c ∈ name, forbiddenChars.contains c = false ∧ 32 ≤ c := by
  rw [hasInvalidChar_eq] at h
  intro c hc
  have := List.any_eq_false.1 h c hc
  simp only [Bool.or_eq_true, decide_eq_true_eq, not_or, Bool.not_eq_true, not_lt] at this
  exact this

theorem no_separator_of_valid (name : WString) (h : IsValidFilename name = true) :
    ∀ c ∈ name, isSeparator c = false ∧ c ≠ 58 := by
  intro c hc
  have h1 := (hasInvalidChar_false name (IsValidFilename_parts name h).2.1 c hc).1
  rw [forbiddenChars_contains] at h1
  simp only [Bool.or_eq_false_iff, beq_eq_false_iff_ne, ne_eq] at h1
  obtain ⟨⟨⟨⟨⟨⟨⟨⟨_, _⟩, h58⟩, _⟩, h47⟩, h92⟩, _⟩, _⟩, _⟩ := h1
  refine ⟨?_, h58⟩
  simp [isSeparator, h47, h92]

theorem parsePath_profile_dir (root name : WString) (hne : name ≠ [])
    (hs : ∀ c ∈ name, isSeparator c = false) (mid : String) :
    parsePath (root ++ (L mid ++ L "\\") ++ name) = parsePath (root ++ L mid) ++ [name] := by
  rw [← List.append_assoc root]
  exact parsePath_child _ _ hne hs

/-- C29. Every profile name that `IsValidFilename` accepts is one directory
segment: it is not empty, contains no path separator (`\` or `/`) and no
colon, and is neither `.` nor `..`.  So the folders `<exe>\Backups\<name>` and
`<mirror root>\Game Save Backup Manager\<name>`, as `BackupSaveFolder` builds
them for the copy and the purge and as `DeleteGame` builds them for the
removal of all backups of a profile, are immediate children of
`<exe>\Backups` and of `<mirror root>\Game Save Backup Manager`, with the
profile name as their last segment. -/
theorem C29_valid_name_is_one_segment (exePath : WString) (g : Globals) (profile : GameProfile)
    (h : IsValidFilename profile.name = true) :
    profile.name ≠ [] ∧
    (∀ c ∈ profile.name, isSeparator c = false ∧ c ≠ 58) ∧
    profile.name ≠ L "." ∧ profile.name ≠ L ".." ∧
    parsePath (backupPathBase exePath profile.name)
      = parsePath (exePath ++ L "\\Backups") ++ [profile.name] ∧
    parsePath (cloudGamePath g profile)
      = parsePath (g.g_GoogleDrivePath ++ L "\\Game Save Backup Manager") ++ [profile.name] ∧
    parsePath (localBackupPath exePath profile)
      = parsePath (exePath ++ L "\\Backups") ++ [profile.name] ∧
    parsePath (cloudBackupPath g profile)
      = parsePath (g.g_GoogleDrivePath ++ L "\\Game Save Backup Manager") ++ [profile.name] ∧
    isChildOf (parsePath (exePath ++ L "\\Backups"))
      (parsePath (backupPathBase exePath profile.name)) = true ∧
    isChildOf (parsePath (g.g_GoogleDrivePath ++ L "\\Game Save Backup Manager"))
      (parsePath (cloudGamePath g profile)) = true := by
  obtain ⟨hne, _, hlast⟩ := IsValidFilename_parts profile.name h
  have hsep := no_separator_of_valid profile.name h
  have hs : ∀ c ∈ profile.name, isSeparator c = false := fun c hc => (hsep c hc).1
  have e1 : L "\\Backups\\" = L "\\Backups" ++ L "\\" := by decide
  have e2 : L "\\Game Save Backup Manager\\" = L "\\Game Save Backup Manager" ++ L "\\" := by
    decide
  have p1 : parsePath (backupPathBase exePath profile.name)
      = parsePath (exePath ++ L "\\Backups") ++ [profile.name] := by
    unfold backupPathBase
    rw [e1]
    exact parsePath_profile_dir exePath profile.name hne hs "\\Backups"
  have p2 : parsePath (cloudGamePath g profile)
      = parsePath (g.g_GoogleDrivePath ++ L "\\Game Save Backup Manager") ++ [profile.name] := by
    unfold cloudGamePath
    rw [e2]
    exact parsePath_profile_dir g.g_GoogleDrivePath profile.name hne hs
      "\\Game Save Backup Manager"
  refine ⟨hne, hsep, ?_, ?_, p1, p2, p1, p2, ?_, ?_⟩
  · intro hd
    rw [hd] at hlast
    exact hlast (Or.inr (by decide))
  · intro hd
    rw [hd] at hlast
    exact hlast (Or.inr (by decide))
  · rw [p1]
    exact (isChildOf_iff _ _).2 ⟨_, rfl⟩
  · rw [p2]
    exact (isChildOf_iff _ _).2 ⟨_, rfl⟩

/-- C29, at a concrete input: the profile name `Elden Ring`. -/
theorem C29_valid_name_is_one_segment_witness :
    IsValidFilename (L "Elden Ring") = true ∧
    parsePath (backupPathBase sampleExePath (L "Elden Ring"))
      = [L "C:", L "App", L "Backups", L "Elden Ring"] :=
  ⟨by decide,
    (C29_valid_name_is_one_segment sampleExePath mirrorGlobals ⟨L "Elden Ring", L "C:\\Saves", 60,
      true⟩ (by decide)).2.2.2.2.1.trans (by decide)⟩

/-! ## The folder name determines the instant and the class -/

theorem digitsValue_append (l : List Nat) (c acc : Nat) :
    digitsValue (l ++ [c]) acc = digitsValue l acc * 10 + (c - 48) := by
  induction l generalizing acc with
  | nil => rfl
  | cons d ds ih => simp [digitsValue, ih]

theorem digitsValue_natToWString (n : Nat) : digitsValue (natToWString n) 0 = n := by
  induction n using Nat.strong_induction_on with
  | _ n ih =>
    rw [natToWString_eq]
    by_cases h : n < 10
    · simp [h, digitsValue]
    · rw [if_neg h, digitsValue_append, ih (n / 10) (by omega)]
      omega

theorem natToWString_injective (a b : Nat) (h : natToWString a = natToWString b) : a = b := by
  rw [← digitsValue_natToWString a, ← digitsValue_natToWString b, h]

theorem natToWString_head_digit (n : Nat) : ∃ c l, natToWString n = c :: l ∧ isDigit c = true := by
  cases h : natToWString n with
  | nil => exact absurd h (natToWString_ne_nil n)
  | cons c l =>
    refine ⟨c, l, rfl, ?_⟩
    exact natToWString_digits n c (by rw [h]; exact List.mem_cons_self _ _)

theorem to_wstring_injective (a b : Int) (h : to_wstring a = to_wstring b) : a = b := by
  unfold to_wstring at h
  obtain ⟨c1, l1, e1, d1⟩ := natToWString_head_digit a.toNat
  obtain ⟨c2, l2, e2, d2⟩ := natToWString_head_digit b.toNat
  by_cases ha : a < 0 <;> by_cases hb : b < 0
  · simp only [ha, hb, if_true, List.cons.injEq, true_and] at h
    have := natToWString_injective _ _ h
    omega
  · simp only [ha, hb, if_true, if_false] at h
    rw [e2] at h
    injection h with h1 _
    rw [← h1] at d2
    exact absurd d2 (by decide)
  · simp only [ha, hb, if_true, if_false] at h
    rw [e1] at h
    injection h with h1 _
    rw [h1] at d1
    exact absurd d1 (by decide)
  · simp only [ha, hb, if_false] at h
    have := natToWString_injective _ _ h
    omega

theorem to_wstring_no_bracket (v : Int) : ∀ c ∈ to_wstring v, c ≠ 91 := by
  intro c hc
  unfold to_wstring at hc
  have hd : ∀ c ∈ natToWString v.natAbs, c ≠ 91 := fun c hc h => by
    have := natToWString_digits _ c hc
    rw [h] at this
    exact absurd this (by decide)
  have hd2 : ∀ c ∈ natToWString v.toNat, c ≠ 91 := fun c hc h => by
    have := natToWString_digits _ c hc
    rw [h] at this
    exact absurd this (by decide)
  by_cases h : v < 0
  · simp only [h, if_true] at hc
    rcases List.mem_cons.1 hc with rfl | hc
    · decide
    · exact hd c hc
  · simp only [h, if_false] at hc
    exact hd2 c hc

/-- Two texts that agree and are cut at the first occurrence of a mark have
the same part before the mark. -/
theorem append_mark_cancel (x : Nat) (a b r1 r2 : List Nat) (ha : ∀ c ∈ a, c ≠ x)
    (hb : ∀ c ∈ b, c ≠ x) (h : a ++ x :: r1 = b ++ x :: r2) : a = b := by
  induction a generalizing b with
  | nil =>
    cases b with
    | nil => rfl
    | cons d ds =>
      simp only [List.nil_append, List.cons_append, List.cons.injEq] at h
      exact absurd h.1.symm (hb d (List.mem_cons_self _ _))
  | cons c cs ih =>
    cases b with
    | nil =>
      simp only [List.nil_append, List.cons_append, List.cons.injEq] at h
      exact absurd h.1 (ha c (List.mem_cons_self _ _))
    | cons d ds =>
      simp only [List.cons_append, List.cons.injEq] at h
      rw [h.1, ih ds (fun y hy => ha y (List.mem_cons_of_mem _ hy))
        (fun y hy => hb y (List.mem_cons_of_mem _ hy)) h.2]

theorem backupFolderName_injective (lt1 lt2 : Int → tm) (t1 t2 : Int) (a1 a2 : Bool)
    (h : backupFolderName lt1 t1 a1 = backupFolderName lt2 t2 a2) : t1 = t2 ∧ a1 = a2 := by
  constructor
  · apply to_wstring_injective
    unfold backupFolderName at h
    have e : L "-[" = [45, 91] := by decide
    simp only [e, List.append_assoc, List.cons_append, List.nil_append] at h
    have h2 : (to_wstring t1 ++ [45]) ++ 91 :: (wcsftime (lt1 t1) ++ (L "]-" ++ classLetter a1))
        = (to_wstring t2 ++ [45]) ++ 91 :: (wcsftime (lt2 t2) ++ (L "]-" ++ classLetter a2)) := by
      simpa using h
    have h3 := append_mark_cancel 91 _ _ _ _
      (fun c hc => by
        rcases List.mem_append.1 hc with hc | hc
        · exact to_wstring_no_bracket t1 c hc
        · simp only [List.mem_singleton] at hc
          omega)
      (fun c hc => by
        rcases List.mem_append.1 hc with hc | hc
        · exact to_wstring_no_bracket t2 c hc
        · simp only [List.mem_singleton] at hc
          omega) h2
    exact List.append_cancel_right h3
  · have e1 := backupFolderName_endsWith lt1 t1 a1 45 65
    have e2 := backupFolderName_endsWith lt2 t2 a2 45 65
    rw [h, e2] at e1
    cases a1 <;> cases a2 <;> simp at e1 <;> rfl

/-- C26. The automatic and the manual folder name of one instant differ, one
ends in `-A` and the other in `-M`, and two folder names built by
`BackupSaveFolder` (for any instants, classes and time-zone conversions) are
equal only if the instant and the class are the same.  The local copy of a
backup of one class changes no node at or below the archive directory of the
other class of the same instant: the two backups give two archive
directories, and neither copy writes into the other. -/
theorem C26_name_determines_instant_and_class (exePath : WString) (lt1 lt2 : Int → tm)
    (t1 t2 : Int) (a1 a2 : Bool) (w : World) (profile : GameProfile) (autosave : Bool) :
    backupFolderName lt1 t1 true ≠ backupFolderName lt1 t1 false ∧
    (backupFolderName lt1 t1 a1 = backupFolderName lt2 t2 a2 → t1 = t2 ∧ a1 = a2) ∧
    endsWith (backupFolderName lt1 t1 true) (L "-A") = true ∧
    endsWith (backupFolderName lt1 t1 false) (L "-M") = true ∧
    (localCopy exePath lt1 t1 w profile autosave).1.fs.filter
        (fun n => isUnder (parsePath (backupPathBase exePath profile.name)
          ++ [backupFolderName lt1 t1 (!autosave)]) n.path)
      = w.fs.filter
        (fun n => isUnder (parsePath (backupPathBase exePath profile.name)
          ++ [backupFolderName lt1 t1 (!autosave)]) n.path) := by
  have hA : L "-A" = [45, 65] := by decide
  have hM : L "-M" = [45, 77] := by decide
  refine ⟨?_, backupFolderName_injective lt1 lt2 t1 t2 a1 a2, ?_, ?_, ?_⟩
  · intro h
    have := (backupFolderName_injective lt1 lt1 t1 t1 true false h).2
    cases this
  · rw [hA, backupFolderName_endsWith]
    rfl
  · rw [hM, backupFolderName_endsWith]
    rfl
  · apply filter_eq_of_imp _ _ _ _ (fs_copy_filter w.fs (parsePath profile.savePath)
      (parsePath (targetBackupPath exePath profile.name (backupFolderName lt1 t1 autosave)))
      false)
    intro n hn
    rw [parsePath_target]
    simp only [Bool.not_eq_true']
    apply not_under_sibling _ _ n.path (backupFolderName lt1 t1 (!autosave))
      ((isChildOf_iff _ _).2 ⟨_, rfl⟩) _ hn
    intro he
    have h2 := List.append_cancel_left he
    simp only [List.cons.injEq, and_true] at h2
    have := (backupFolderName_injective lt1 lt1 t1 t1 autosave (!autosave) h2).2
    cases autosave <;> cases this

/-- C26, at a concrete input: a manual and then an automatic backup at the
clock reading 1700000000; both archive directories are there at the end, each
with its copy of `a.sav`. -/
theorem C26_name_determines_instant_and_class_witness :
    backupFolderName utcLocaltime 1700000000 true
      ≠ backupFolderName utcLocaltime 1700000000 false ∧
    ((BackupSaveFolder defaultGlobals sampleExePath utcLocaltime 1700000000 sampleCurrentTime
        (BackupSaveFolder defaultGlobals sampleExePath utcLocaltime 1700000000
          sampleCurrentTime baseWorld sampleProfile false).world
        sampleProfile true).world.fs.filter
        (fun n => isUnder (parsePath sampleBackupDir) n.path)).map (fun n => n.path)
      = [parsePath (L "C:\\App\\Backups\\G"),
         parsePath (L "C:\\App\\Backups\\G\\1700000000-[2023-11-14_22-13-20]-M"),
         parsePath (L "C:\\App\\Backups\\G\\1700000000-[2023-11-14_22-13-20]-M\\a.sav"),
         parsePath (L "C:\\App\\Backups\\G\\1700000000-[2023-11-14_22-13-20]-A"),
         parsePath (L "C:\\App\\Backups\\G\\1700000000-[2023-11-14_22-13-20]-A\\a.sav")] :=
  ⟨(C26_name_determines_instant_and_class sampleExePath utcLocaltime utcLocaltime 1700000000
      1700000000 true false baseWorld sampleProfile true).1,
    by decide⟩

/-! ## The restore menus: the list and the choice -/

/-- What a restore menu does once its folder is listed. -/
theorem restoreMenu_listed (m : MenuTexts) (w : World) (gamePath : WString)
    (selectedGame : GameProfile) (choice_str confirm : List Nat) (entries : List Node)
    (hdir : fs_is_directory w.fs (parsePath gamePath) = true)
    (hlist : fs_directory_iterator w.fs (parsePath gamePath) = Except.ok entries)
    (hne : offeredBackups entries ≠ []) :
    restoreMenu m w gamePath selectedGame choice_str confirm
      = if choice_str == N "x" || choice_str == N "X" then
          ((menuShown m w gamePath selectedGame entries).printAll [L "Cancelled."],
            RestoreOutcome.cancelled)
        else
          match stoi choice_str with
          | none =>
            ((menuShown m w gamePath selectedGame entries).printAll [L "Invalid selection."],
              RestoreOutcome.invalidSelection)
          | some v =>
            if v - 1 ≥ 0 ∧ v - 1 < ((offeredBackups entries).length : Int) then
              if confirm == N "y" || confirm == N "Y" then
                restoreBlock m.texts
                  ((menuShown m w gamePath selectedGame entries).printAll
                    (warningLines m ((offeredBackups entries).getD (v - 1).toNat [])))
                  ((offeredBackups entries).getD (v - 1).toNat []) selectedGame.savePath
              else
                (((menuShown m w gamePath selectedGame entries).printAll
                    (warningLines m ((offeredBackups entries).getD (v - 1).toNat []))).printAll
                  [L "Restore cancelled."], RestoreOutcome.cancelled)
            else
              ((menuShown m w gamePath selectedGame entries).printAll [L "Invalid selection."],
                RestoreOutcome.invalidSelection) := by
  have hex := listing_exists _ _ _ hlist
  have hne2 : (offeredBackups entries).isEmpty = false := by
    cases h : offeredBackups entries with
    | nil => exact absurd h hne
    | cons a l => rfl
  unfold offeredBackups at hne2
  unfold restoreMenu
  simp only [World.file_exists, hex, World.is_directory, hdir, if_true, Bool.not_true,
    Bool.or_self, Bool.false_eq_true, if_false, World.directory_iterator, hlist, hne2]
  simp only [menuShown, offeredBackups, warningLines, World.printAll, List.append_assoc,
    List.cons_append, List.nil_append]

theorem offeredBackups_perm (entries : List Node) :
    (offeredBackups entries).Perm
      ((entries.filter (fun n => n.kind == FileKind.directory)).map (fun n => n.path)) :=
  (List.reverse_perm _).trans (stdSort_perm _)

theorem offeredBackups_descending (entries : List Node) :
    List.Pairwise (fun a b => pathLe b a) (offeredBackups entries) := by
  unfold offeredBackups
  rw [List.pairwise_reverse]
  exact stdSort_sorted _

/-- In a list in descending order a greater path stands before a smaller one. -/
theorem descending_position (l : List Path) (h : List.Pairwise (fun a b => pathLe b a) l)
    (p q : Path) (i j : Nat) (hi : l[i]? = some p) (hj : l[j]? = some q)
    (hlt : pathCompare p q = Ordering.lt) : j < i := by
  by_contra hn
  have hle : i ≤ j := by omega
  rcases Nat.lt_or_eq_of_le hle with hij | hij
  · obtain ⟨hi1, hi2⟩ := List.getElem?_eq_some_iff.1 hi
    obtain ⟨hj1, hj2⟩ := List.getElem?_eq_some_iff.1 hj
    have := List.pairwise_iff_getElem.1 h i j hi1 hj1 hij
    rw [hi2, hj2] at this
    exact this hlt
  · subst hij
    rw [hi] at hj
    injection hj with hj
    subst hj
    rw [(pathCompare_eq_iff p p).2 rfl] at hlt
    cases hlt

theorem menuLines_mem (l : List Path) (k : Nat) (p : Path) (hp : p ∈ l) :
    ∃ i, (L "    " ++ natToWString (i + 1) ++ L ". " ++ filename p) ∈ menuLines l k := by
  induction l generalizing k with
  | nil => cases hp
  | cons a rest ih =>
    rcases List.mem_cons.1 hp with rfl | h
    · exact ⟨k, List.mem_cons_self _ _⟩
    · obtain ⟨i, hi⟩ := ih (k + 1) h
      exact ⟨i, List.mem_cons_of_mem _ hi⟩

theorem clearLoop_console (entries : List Node) (w : World) :
    (clearLoop entries w).1.console = w.console := by
  induction entries generalizing w with
  | nil => rfl
  | cons e rest ih =>
    simp only [clearLoop]
    cases hr : (w.remove_all e.path).2 with
    | some err => rfl
    | none =>
      simp only
      rw [ih]
      rfl

theorem clearAndCopy_console (texts : RestoreTexts) (w : World) (A : Path) (savePath : WString) :
    w.console <+: (clearAndCopy texts w A savePath).1.console := by
  unfold clearAndCopy
  simp only [World.directory_iterator]
  cases hl : fs_directory_iterator w.fs (parsePath savePath) with
  | error e => exact List.prefix_append _ _
  | ok entries =>
    simp only
    have hc := clearLoop_console entries
      ⟨w.fs, w.calls ++ [FsCall.directory_iterator (parsePath savePath)], w.console⟩
    cases h3 : (clearLoop entries
        ⟨w.fs, w.calls ++ [FsCall.directory_iterator (parsePath savePath)], w.console⟩).2 with
    | some e =>
      simp only [restoreFailed, World.printAll, hc]
      exact List.prefix_append _ _
    | none =>
      simp only
      split
      · simp only [restoreFailed, World.printAll, World.copy_path, hc]
        exact List.prefix_append _ _
      · simp only [World.printAll, World.copy_path, hc]
        exact List.prefix_append _ _

theorem restoreBlock_console (texts : RestoreTexts) (w : World) (A : Path) (savePath : WString) :
    w.console <+: (restoreBlock texts w A savePath).1.console := by
  unfold restoreBlock
  simp only [World.file_exists]
  split
  · simp only [World.create_directories]
    split
    · simp only [restoreFailed, World.printAll]
      exact List.prefix_append _ _
    · refine List.IsPrefix.trans ?_ (clearAndCopy_console _ _ _ _)
      exact List.prefix_rfl
  · simp only [World.is_directory]
    split
    · exact List.prefix_append _ _
    · refine List.IsPrefix.trans ?_ (clearAndCopy_console _ _ _ _)
      exact List.prefix_rfl

/-- Once the folder is listed and holds a directory, what a restore menu has
printed when it returns begins with the console of `menuShown`. -/
theorem restoreMenu_console (m : MenuTexts) (w : World) (gamePath : WString)
    (selectedGame : GameProfile) (choice_str confirm : List Nat) (entries : List Node)
    (hdir : fs_is_directory w.fs (parsePath gamePath) = true)
    (hlist : fs_directory_iterator w.fs (parsePath gamePath) = Except.ok entries)
    (hne : offeredBackups entries ≠ []) :
    (menuShown m w gamePath selectedGame entries).console
      <+: (restoreMenu m w gamePath selectedGame choice_str confirm).1.console := by
  rw [restoreMenu_listed m w gamePath selectedGame choice_str confirm entries hdir hlist hne]
  split
  · exact List.prefix_append _ _
  · split
    · exact List.prefix_append _ _
    · split
      · split
        · refine List.IsPrefix.trans ?_ (restoreBlock_console _ _ _ _)
          exact List.prefix_append _ _
        · simp only [World.printAll, List.append_assoc]
          exact List.prefix_append _ _
      · exact List.prefix_append _ _

theorem stoi_x : stoi (N "x") = none ∧ stoi (N "X") = none := by decide

/-- What the restore menus list and restore.  When the backup folder is listed, the list `backups` of
`RestoreFromLocal` and `RestoreFromCloud` is a permutation of the paths of
the directories among the entries of the folder, in descending order of the
paths; a name built by `BackupSaveFolder` for a later instant stands before
one built for an earlier instant when the epoch seconds of the two have the
same number of digits (and are not negative).  The list is printed with
numbers from 1, and for a number `v` with `1 ≤ v ≤` the length of the list,
confirmed with `y` or `Y`, the restore block runs on the `v`-th entry of the
list. -/
theorem restoreMenu_lists_descending_paths (m : MenuTexts) (exePath : WString) (g : Globals)
    (w : World) (gamePath : WString) (selectedGame : GameProfile)
    (choice_str confirm : List Nat) (entries : List Node)
    (hlist : fs_directory_iterator w.fs (parsePath gamePath) = Except.ok entries) :
    (offeredBackups entries).Perm
      ((entries.filter (fun n => n.kind == FileKind.directory)).map (fun n => n.path)) ∧
    List.Pairwise (fun a b => pathLe b a) (offeredBackups entries) ∧
    (∀ (lt1 lt2 : Int → tm) (t1 t2 : Int) (c1 c2 : Bool) (i j : Nat),
      0 ≤ t1 → t1 < t2 → (to_wstring t1).length = (to_wstring t2).length →
      (offeredBackups entries)[i]? = some (parsePath gamePath ++ [backupFolderName lt1 t1 c1]) →
      (offeredBackups entries)[j]? = some (parsePath gamePath ++ [backupFolderName lt2 t2 c2]) →
      j < i) ∧
    (offeredBackups entries ≠ [] →
      (menuShown m w gamePath selectedGame entries).console
        <+: (restoreMenu m w gamePath selectedGame choice_str confirm).1.console) ∧
    (∀ v : Int, 1 ≤ v → v ≤ ((offeredBackups entries).length : Int) →
      stoi choice_str = some v → (confirm = N "y" ∨ confirm = N "Y") →
      ∃ A, (offeredBackups entries)[(v - 1).toNat]? = some A ∧
        restoreMenu m w gamePath selectedGame choice_str confirm
          = restoreBlock m.texts
              ((menuShown m w gamePath selectedGame entries).printAll (warningLines m A))
              A selectedGame.savePath) ∧
    RestoreFromLocal exePath w selectedGame choice_str confirm
      = restoreMenu localMenuTexts w (exePath ++ L "\\Backups\\" ++ selectedGame.name)
          selectedGame choice_str confirm ∧
    (g.g_GoogleDrivePath ≠ [] →
      RestoreFromCloud g w selectedGame choice_str confirm
        = restoreMenu cloudMenuTexts w (cloudGamePath g selectedGame) selectedGame choice_str
            confirm) := by
  have hdir : fs_is_directory w.fs (parsePath gamePath) = true := by
    obtain ⟨s, hs, hk⟩ := listing_directory _ _ _ hlist
    simp [fs_is_directory, hs, hk]
  refine ⟨offeredBackups_perm entries, offeredBackups_descending entries, ?_, ?_, ?_, rfl, ?_⟩
  · intro lt1 lt2 t1 t2 c1 c2 i j h0 hlt hlen hi hj
    apply descending_position _ (offeredBackups_descending entries) _ _ i j hi hj
    rw [pathCompare_sibling]
    unfold backupFolderName
    simp only [List.append_assoc]
    exact wcompare_lt_append _ _ _ _ hlen (to_wstring_lt t1 t2 h0 hlt hlen)
  · intro hne
    exact restoreMenu_console m w gamePath selectedGame choice_str confirm entries hdir hlist hne
  · intro v h1 h2 hs hc
    have hne : offeredBackups entries ≠ [] := by
      intro he
      rw [he] at h2
      simp at h2
      omega
    have hx : (choice_str == N "x" || choice_str == N "X") = false := by
      cases hb : (choice_str == N "x" || choice_str == N "X")
      · rfl
      · simp only [Bool.or_eq_true, beq_iff_eq] at hb
        rcases hb with hb | hb
        · rw [hb, stoi_x.1] at hs
          cases hs
        · rw [hb, stoi_x.2] at hs
          cases hs
    have hy : (confirm == N "y" || confirm == N "Y") = true := by
      rcases hc with hc | hc <;> simp [hc]
    have hlt : (v - 1).toNat < (offeredBackups entries).length := by omega
    refine ⟨(offeredBackups entries)[(v - 1).toNat], List.getElem?_eq_getElem hlt, ?_⟩
    rw [restoreMenu_listed m w gamePath selectedGame choice_str confirm entries hdir hlist hne,
      hx, hs]
    have hr : v - 1 ≥ 0 ∧ v - 1 < ((offeredBackups entries).length : Int) := by omega
    simp only [Bool.false_eq_true, if_false, hr, and_self, if_true, hy]
    rw [List.getD_eq_getElem _ _ hlt]
  · intro hroot
    unfold RestoreFromCloud
    have : g.g_GoogleDrivePath.isEmpty = false := by
      cases h : g.g_GoogleDrivePath with
      | nil => exact absurd h hroot
      | cons a l => rfl
    simp [this]

/-- C24. The folder holds the archives of the instants 999999999 and
1000000000.  Under the heading `(Newest first)` the list of
`RestoreFromLocal` has the archive of the earlier instant 999999999 as
number 1, and the choice `1` restores it: the sort that the source comments
as `descending order (newest first)` compares the paths as text. -/
theorem C24_menu_offers_older_archive_first_at_rollover :
    (999999999 : Int) < 1000000000 ∧
    offeredBackups (rolloverWorld.fs.filter
        (fun m => isChildOf (parsePath sampleBackupDir) m.path))
      = [parsePath sampleBackupDir ++ [backupFolderName utcLocaltime 999999999 true],
         parsePath sampleBackupDir ++ [backupFolderName utcLocaltime 1000000000 true]] ∧
    (RestoreFromLocal sampleExePath rolloverWorld sampleProfile (N "1") (N "y")).2
      = RestoreOutcome.restored
          (parsePath sampleBackupDir ++ [backupFolderName utcLocaltime 999999999 true]) ∧
    (RestoreFromLocal sampleExePath rolloverWorld sampleProfile (N "1") (N "y")).1.console.take 5
      = [L "   --- Local Backups for G ---", L "   (Newest first)", L "",
         L "    1. 999999999-[2001-09-09_01-46-39]-A",
         L "    2. 1000000000-[2001-09-09_01-46-40]-A"] := by
  decide


/-! ## Directories of neither class -/

/-- C27. A directory of the backup folder whose name ends in neither `-A` nor
`-M` is in neither of the two class vectors whose sizes `PurgeBackups`
compares with its limits (and the vectors are the same as for the listing
without this directory), it is not among the paths `PurgeBackups` hands to
`fs::remove_all`, and it is in the list of `RestoreFromLocal` and
`RestoreFromCloud`: whatever the user answers, the numbered line with its
name is on the console when the function returns. -/
theorem C27_directories_of_neither_class (w : World) (backupDir pfx locationName : WString)
    (autoLimit manualLimit : Int) (logCollector : List WString) (exePath : WString)
    (g : Globals) (selectedGame : GameProfile) (choice_str confirm : List Nat)
    (entries : List Node) (d : Node)
    (hlist : fs_directory_iterator w.fs (parsePath backupDir) = Except.ok entries)
    (hd : d ∈ entries) (hk : d.kind = FileKind.directory)
    (hA : endsWith (filename d.path) (L "-A") = false)
    (hM : endsWith (filename d.path) (L "-M") = false) :
    (∀ autoClass, d.path ∉ classDirs autoClass entries) ∧
    (∀ autoClass, classDirs autoClass (entries.filter (fun n => n != d))
      = classDirs autoClass entries) ∧
    d.path ∉ purgeDeleted w
      (PurgeBackups w backupDir pfx autoLimit manualLimit locationName logCollector) ∧
    d.path ∈ offeredBackups entries ∧
    (backupDir = exePath ++ L "\\Backups\\" ++ selectedGame.name →
      ∃ i, (L "    " ++ natToWString (i + 1) ++ L ". " ++ filename d.path)
        ∈ (RestoreFromLocal exePath w selectedGame choice_str confirm).1.console) ∧
    (g.g_GoogleDrivePath ≠ [] → backupDir = cloudGamePath g selectedGame →
      ∃ i, (L "    " ++ natToWString (i + 1) ++ L ". " ++ filename d.path)
        ∈ (RestoreFromCloud g w selectedGame choice_str confirm).1.console) := by
  have hsuf : ∀ autoClass, endsWith (filename d.path) (classSuffix autoClass) = false := by
    intro c
    cases c
    · exact hM
    · exact hA
  have h1 : ∀ autoClass, d.path ∉ classDirs autoClass entries := by
    intro c hc
    have := classDirs_suffix c entries d.path hc
    rw [hsuf c] at this
    cases this
  have hoff : d.path ∈ offeredBackups entries := by
    rw [(offeredBackups_perm entries).mem_iff]
    exact List.mem_map.2 ⟨d, List.mem_filter.2 ⟨hd, by simp [hk]⟩, rfl⟩
  have hne : offeredBackups entries ≠ [] := List.ne_nil_of_mem hoff
  have hdir : fs_is_directory w.fs (parsePath backupDir) = true := by
    obtain ⟨s, hs, hks⟩ := listing_directory _ _ _ hlist
    simp [fs_is_directory, hs, hks]
  have hline : ∀ m : MenuTexts,
      ∃ i, (L "    " ++ natToWString (i + 1) ++ L ". " ++ filename d.path)
        ∈ (restoreMenu m w backupDir selectedGame choice_str confirm).1.console := by
    intro m
    obtain ⟨i, hi⟩ := menuLines_mem (offeredBackups entries) 0 d.path hoff
    refine ⟨i, ?_⟩
    apply (restoreMenu_console m w backupDir selectedGame choice_str confirm entries hdir hlist
      hne).subset
    simp only [menuShown, List.mem_append]
    exact Or.inr (Or.inl (Or.inr hi))
  refine ⟨h1, ?_, ?_, hoff, ?_, ?_⟩
  · intro c
    unfold classDirs
    rw [List.filter_filter]
    congr 1
    apply List.filter_congr
    intro n _
    by_cases hn : n = d
    · subst hn
      simp [hsuf c]
    · simp [hn]
  · intro hdel
    cases hl2 : fs_directory_iterator w.fs (parsePath backupDir) with
    | error e => rw [hlist] at hl2; cases hl2
    | ok e2 =>
      rw [PurgeBackups_deleted w backupDir pfx locationName autoLimit manualLimit logCollector
        entries hlist, categorize_eq, List.mem_append] at hdel
      rcases hdel with h | h
      · exact h1 true (selection_in_class true entries _ _ h)
      · exact h1 false (selection_in_class false entries _ _ h)
  · intro hb
    subst hb
    exact hline localMenuTexts
  · intro hroot hb
    subst hb
    have : g.g_GoogleDrivePath.isEmpty = false := by
      cases h : g.g_GoogleDrivePath with
      | nil => exact absurd h hroot
      | cons a l => rfl
    unfold RestoreFromCloud
    simp only [this, Bool.false_eq_true, if_false]
    exact hline cloudMenuTexts

/-- C27, at a concrete input: the directory `notes` of `purgeWorld`.  With one
archive kept in each class the purge removes two automatic archives and one
manual archive, `notes` stays, and the menu of `RestoreFromLocal` has the
line `    1. notes`. -/
theorem C27_directories_of_neither_class_witness :
    dirNode "C:\\App\\Backups\\G\\notes" ∈ purgeWorld.fs.filter
      (fun m => isChildOf (parsePath sampleBackupDir) m.path) ∧
    parsePath (L "C:\\App\\Backups\\G\\notes") ∉ purgeDeleted purgeWorld
      (PurgeBackups purgeWorld sampleBackupDir (L "A") 1 1 (L "Local") []) ∧
    (purgeDeleted purgeWorld
      (PurgeBackups purgeWorld sampleBackupDir (L "A") 1 1 (L "Local") [])).length = 3 ∧
    L "    1. notes"
      ∈ (RestoreFromLocal sampleExePath purgeWorld sampleProfile (N "x") []).1.console :=
  ⟨by decide,
    (C27_directories_of_neither_class purgeWorld sampleBackupDir (L "A") (L "Local") 1 1 []
      sampleExePath defaultGlobals sampleProfile (N "x") [] _
      (dirNode "C:\\App\\Backups\\G\\notes") rfl (by decide) rfl (by decide) (by decide)).2.2.1,
    by decide, by decide⟩

/-! ## The archive with the greatest name -/

theorem greatest_not_in_take (s : List Path) (T : Path) (k : Nat)
    (hs : List.Sorted pathLe s) (hnd : s.Nodup) (hmax : ∀ q ∈ s, pathLe q T)
    (hk : k < s.length) : T ∉ s.take k := by
  intro h
  obtain ⟨i, hm, hi⟩ := List.mem_take_iff_getElem.1 h
  have hik : i < k := by
    have := Nat.min_le_left k s.length
    omega
  have hj : s.length - 1 < s.length := by omega
  have hij : i < s.length - 1 := by omega
  have h1 : pathLe s[i] s[s.length - 1] :=
    List.pairwise_iff_getElem.1 hs i (s.length - 1) (by omega) hj hij
  have h2 : pathLe s[s.length - 1] T := hmax _ (List.getElem_mem _)
  rw [hi] at h1
  have h3 := pathLe_antisymm _ _ h1 h2
  rw [← hi] at h3
  have := (hnd.getElem_inj_iff).1 h3
  omega

theorem purgeSelection_keeps_greatest (v : List Path) (T : Path) (limit : Int)
    (hnd : v.Nodup) (hmax : ∀ q ∈ v, pathLe q T) :
    T ∉ purgeSelection (stdSort v) limit := by
  unfold purgeSelection
  by_cases h : limit > 0 ∧ ((stdSort v).length : Int) > limit
  · simp only [h, and_self, if_true]
    apply greatest_not_in_take _ _ _ (stdSort_sorted v) ((stdSort_perm v).nodup_iff.2 hnd)
      (fun q hq => hmax q ((stdSort_perm v).mem_iff.1 hq))
    omega
  · simp [h]

theorem classDirs_nodup (autoClass : Bool) (entries : List Node)
    (hnd : (entries.map (fun n => n.path)).Nodup) : (classDirs autoClass entries).Nodup := by
  unfold classDirs
  exact hnd.sublist ((List.filter_sublist _).map _)

theorem classDirs_mem_entries (autoClass : Bool) (entries : List Node) (p : Path)
    (h : p ∈ classDirs autoClass entries) : ∃ n ∈ entries, n.path = p := by
  simp only [classDirs, List.mem_map, List.mem_filter] at h
  obtain ⟨n, ⟨hn, _⟩, hp⟩ := h
  exact ⟨n, hn, hp⟩

/-- C30. In the listing that the local purge of `BackupSaveFolder` reads
(every entry listed once), let the archive directory just created be among
the directories of its class and let no directory of its class have a
greater path.  Then the local purge of the same run does not hand it to
`fs::remove_all`, whatever the limits are; every node at or below it is as
the local copy left it; and the directory exists after the local purge and
when the mirror copy is called, after `create_directories`. -/
theorem C30_greatest_archive_survives_purge (g : Globals) (exePath : WString)
    (localtime : Int → tm) (now : Int) (w : World) (profile : GameProfile) (autosave : Bool)
    (entries : List Node)
    (hlist : fs_directory_iterator (localCopy exePath localtime now w profile autosave).1.fs
      (parsePath (backupPathBase exePath profile.name)) = Except.ok entries)
    (hnd : (entries.map (fun n => n.path)).Nodup)
    (hmem : parsePath (backupPathBase exePath profile.name)
        ++ [backupFolderName localtime now autosave] ∈ classDirs autosave entries)
    (hmax : ∀ q ∈ classDirs autosave entries,
      pathLe q (parsePath (backupPathBase exePath profile.name)
        ++ [backupFolderName localtime now autosave])) :
    parsePath (backupPathBase exePath profile.name) ++ [backupFolderName localtime now autosave]
      ∉ purgeDeleted (localCopy exePath localtime now w profile autosave).1
        (localPurge g exePath localtime now w profile autosave) ∧
    (localPurge g exePath localtime now w profile autosave).world.fs.filter
        (fun n => isUnder (parsePath (backupPathBase exePath profile.name)
          ++ [backupFolderName localtime now autosave]) n.path)
      = (localCopy exePath localtime now w profile autosave).1.fs.filter
        (fun n => isUnder (parsePath (backupPathBase exePath profile.name)
          ++ [backupFolderName localtime now autosave]) n.path) ∧
    fs_exists (localPurge g exePath localtime now w profile autosave).world.fs
      (parsePath (backupPathBase exePath profile.name)
        ++ [backupFolderName localtime now autosave]) = true ∧
    fs_exists (mirrorCreate g exePath localtime now w profile autosave).1.fs
      (parsePath (backupPathBase exePath profile.name)
        ++ [backupFolderName localtime now autosave]) = true := by
  have hT : parsePath (backupPathBase exePath profile.name)
      ++ [backupFolderName localtime now autosave]
      ∉ purgeDeleted (localCopy exePath localtime now w profile autosave).1
        (localPurge g exePath localtime now w profile autosave) := by
    unfold localPurge
    rw [PurgeBackups_deleted _ _ _ _ _ _ _ entries hlist, categorize_eq, List.mem_append]
    have hown : ∀ limit, parsePath (backupPathBase exePath profile.name)
        ++ [backupFolderName localtime now autosave]
        ∉ purgeSelection (stdSort (classDirs autosave entries)) limit :=
      fun limit => purgeSelection_keeps_greatest _ _ limit (classDirs_nodup _ _ hnd) hmax
    have hother : ∀ limit, parsePath (backupPathBase exePath profile.name)
        ++ [backupFolderName localtime now autosave]
        ∉ purgeSelection (stdSort (classDirs (!autosave) entries)) limit := by
      intro limit hsel
      have h1 := classDirs_suffix (!autosave) entries _ (selection_in_class _ entries _ _ hsel)
      have h2 := classDirs_other autosave entries _ hmem
      rw [h1] at h2
      cases h2
    cases autosave
    · rintro (h | h)
      · exact hother _ h
      · exact hown _ h
    · rintro (h | h)
      · exact hown _ h
      · exact hother _ h
  have hk := localPurge_keeps_archive g exePath localtime now w profile autosave hT
  obtain ⟨n, hn, hp⟩ := classDirs_mem_entries _ _ _ hmem
  have hin : n ∈ (localPurge g exePath localtime now w profile autosave).world.fs := by
    have h1 : n ∈ (localCopy exePath localtime now w profile autosave).1.fs.filter
        (fun n => isUnder (parsePath (backupPathBase exePath profile.name)
          ++ [backupFolderName localtime now autosave]) n.path) :=
      List.mem_filter.2 ⟨(listing_mem _ _ _ hlist n hn).1, by rw [hp]; exact isUnder_self _⟩
    rw [← hk] at h1
    exact (List.mem_filter.1 h1).1
  refine ⟨hT, hk, (fs_exists_iff _ _).2 ⟨n, hin, hp⟩, ?_⟩
  obtain ⟨added, ha, _⟩ := fs_create_directories_append
    (localPurge g exePath localtime now w profile autosave).world.fs
    (parsePath (cloudGamePath g profile))
  have e : (mirrorCreate g exePath localtime now w profile autosave).1.fs
      = (fs_create_directories (localPurge g exePath localtime now w profile autosave).world.fs
        (parsePath (cloudGamePath g profile))).1 := rfl
  rw [e, ha]
  exact (fs_exists_iff _ _).2 ⟨n, List.mem_append_left _ hin, hp⟩

/-- C30, at a concrete input: an automatic backup at the clock reading
1700000180 with three earlier automatic archives and two of them kept.  The
purge removes the archives of 1700000000 and 1700000060, and the archive
just created exists when the mirror copy is called. -/
theorem C30_greatest_archive_survives_purge_witness :
    purgeDeleted (localCopy sampleExePath utcLocaltime 1700000180 pairWorld mirrorProfile true).1
        (localPurge pairGlobals sampleExePath utcLocaltime 1700000180 pairWorld mirrorProfile
          true)
      = [parsePath (L "C:\\App\\Backups\\G\\1700000000-[2023-11-14_22-13-20]-A"),
         parsePath (L "C:\\App\\Backups\\G\\1700000060-[2023-11-14_22-14-20]-A")] ∧
    fs_exists (mirrorCreate pairGlobals sampleExePath utcLocaltime 1700000180 pairWorld
        mirrorProfile true).1.fs
      (parsePath (backupPathBase sampleExePath mirrorProfile.name)
        ++ [backupFolderName utcLocaltime 1700000180 true]) = true :=
  ⟨by decide,
    (C30_greatest_archive_survives_purge pairGlobals sampleExePath utcLocaltime 1700000180
      pairWorld mirrorProfile true _ rfl (by decide) (by decide) (by decide)).2.2.2⟩

/-! ## The scheduler thread: the shape of what it does -/

theorem sleepBlock_succ (n : Nat) :
    sleepBlock (n + 1) = AutoEvent.flagRead true :: AutoEvent.sleep :: sleepBlock n := by
  simp [sleepBlock, List.replicate_succ]

theorem sleepLoop_frame (keep : Nat → Bool) (k : Nat) (s : AutoState) :
    (sleepLoop keep k s).1.world = s.world ∧ (sleepLoop keep k s).1.backups = s.backups := by
  induction k generalizing s with
  | zero => exact ⟨rfl, rfl⟩
  | succ k ih =>
    simp only [sleepLoop]
    cases hk : keep s.loads
    · exact ⟨rfl, rfl⟩
    · simp only [Bool.not_true, Bool.false_eq_true, if_false]
      exact ih _

/-- A sleep loop that is left without a return has made all its sleeps, each
after a test that found the flag set. -/
theorem sleepLoop_done (keep : Nat → Bool) (k : Nat) (s : AutoState)
    (h : (sleepLoop keep k s).2 = false) :
    (sleepLoop keep k s).1.events = s.events ++ sleepBlock k ∧
    (sleepLoop keep k s).1.loads = s.loads + k ∧
    ∀ j, s.loads ≤ j → j < s.loads + k → keep j = true := by
  induction k generalizing s with
  | zero =>
    refine ⟨by simp [sleepLoop, sleepBlock], rfl, ?_⟩
    intro j h1 h2
    omega
  | succ k ih =>
    simp only [sleepLoop] at h ⊢
    cases hk : keep s.loads
    · simp [hk] at h
    · simp only [hk, Bool.not_true, Bool.false_eq_true, if_false] at h ⊢
      obtain ⟨e1, e2, e3⟩ := ih _ h
      refine ⟨?_, ?_, ?_⟩
      · rw [e1, sleepBlock_succ]
        simp [AutoState.load]
      · rw [e2]
        simp only [AutoState.load]
        omega
      · intro j h1 h2
        by_cases hj : j = s.loads
        · rw [hj]
          exact hk
        · apply e3 j
          · simp only [AutoState.load]
            omega
          · simp only [AutoState.load]
            omega

/-- A sleep loop that returns has found the flag cleared in the test before
one of its sleeps, after the earlier tests found it set. -/
theorem sleepLoop_returned (keep : Nat → Bool) (k : Nat) (s : AutoState)
    (h : (sleepLoop keep k s).2 = true) :
    ∃ i, i < k ∧
      (sleepLoop keep k s).1.events
        = s.events ++ sleepBlock i ++ [AutoEvent.flagRead false, AutoEvent.returned] := by
  induction k generalizing s with
  | zero => simp [sleepLoop] at h
  | succ k ih =>
    simp only [sleepLoop] at h ⊢
    cases hk : keep s.loads
    · refine ⟨0, by omega, ?_⟩
      simp [AutoState.load, sleepBlock]
    · simp only [hk, Bool.not_true, Bool.false_eq_true, if_false] at h ⊢
      obtain ⟨i, hi, e⟩ := ih _ h
      refine ⟨i + 1, by omega, ?_⟩
      rw [e, sleepBlock_succ]
      simp [AutoState.load]

theorem sleepLoop_of_keep (keep : Nat → Bool) (k : Nat) (s : AutoState)
    (h : ∀ j, s.loads ≤ j → j < s.loads + k → keep j = true) :
    (sleepLoop keep k s).2 = false := by
  induction k generalizing s with
  | zero => rfl
  | succ k ih =>
    simp only [sleepLoop]
    have hk := h s.loads (le_refl _) (by omega)
    simp only [hk, Bool.not_true, Bool.false_eq_true, if_false]
    apply ih
    intro j h1 h2
    simp only [AutoState.load] at h1 h2
    exact h j (by omega) (by omega)

/-- The outcome event of a call of `BackupSaveFolder` in the thread. -/
theorem outcome_cases (thrown : Option filesystem_error) :
    (match thrown with
      | none => AutoEvent.backupReturned
      | some e => AutoEvent.backupCaught e) = AutoEvent.backupReturned ∨
    ∃ e, (match thrown with
      | none => AutoEvent.backupReturned
      | some e => AutoEvent.backupCaught e) = AutoEvent.backupCaught e := by
  cases thrown with
  | none => exact Or.inl rfl
  | some e => exact Or.inr ⟨e, rfl⟩

/-- A round that does not return has found the flag set in all its tests, has
made all its sleeps and has called `BackupSaveFolder`; an exception of the
call is caught and its line printed. -/
theorem autoSaveRound_backup (env : AutoEnv) (profile : GameProfile) (s : AutoState)
    (h : (autoSaveRound env profile s).2 = false) :
    (∀ j, s.loads ≤ j → j < s.loads + profile.autoSaveInterval.toNat + 2 →
      env.keepAutoSaving j = true) ∧
    (autoSaveRound env profile s).1.loads = s.loads + profile.autoSaveInterval.toNat + 2 ∧
    (autoSaveRound env profile s).1.backups = s.backups + 1 ∧
    (autoSaveRound env profile s).1.world
      = (match (BackupSaveFolder env.g env.exePath env.localtime (env.clock s.backups).1
            (env.clock s.backups).2 s.world profile true).thrown with
        | none => (BackupSaveFolder env.g env.exePath env.localtime (env.clock s.backups).1
            (env.clock s.backups).2 s.world profile true).world
        | some e => (BackupSaveFolder env.g env.exePath env.localtime (env.clock s.backups).1
            (env.clock s.backups).2 s.world profile true).world.print
              (L "Auto-save thread backup error: " ++ e.what)) ∧
    (autoSaveRound env profile s).1.events
      = s.events ++ backupRound profile.autoSaveInterval.toNat
          (match (BackupSaveFolder env.g env.exePath env.localtime (env.clock s.backups).1
              (env.clock s.backups).2 s.world profile true).thrown with
            | none => AutoEvent.backupReturned
            | some e => AutoEvent.backupCaught e) := by
  unfold autoSaveRound at h ⊢
  cases hk : env.keepAutoSaving s.loads
  · simp [hk] at h
  · simp only [hk, Bool.not_true, Bool.false_eq_true, if_false] at h ⊢
    have hf := sleepLoop_frame env.keepAutoSaving profile.autoSaveInterval.toNat
      (s.load true)
    cases hs : (sleepLoop env.keepAutoSaving profile.autoSaveInterval.toNat (s.load true)).2
    · obtain ⟨e1, e2, e3⟩ := sleepLoop_done _ _ _ hs
      simp only [hs, Bool.false_eq_true, if_false] at h ⊢
      generalize sleepLoop env.keepAutoSaving profile.autoSaveInterval.toNat (s.load true)
        = r1 at h hf e1 e2 e3 ⊢
      obtain ⟨⟨w1, l1, b1, ev1⟩, ret1⟩ := r1
      simp only [AutoState.load] at h hf e1 e2 e3 ⊢
      obtain ⟨hw, hb⟩ := hf
      subst hw hb e1 e2
      cases hk2 : env.keepAutoSaving (s.loads + 1 + profile.autoSaveInterval.toNat)
      · simp [hk2] at h
      · simp only [hk2, Bool.not_true, Bool.false_eq_true, if_false]
        refine ⟨?_, ?_, ?_, ?_, ?_⟩
        · intro j h1 h2
          by_cases hj0 : j = s.loads
          · rw [hj0]
            exact hk
          · by_cases hj1 : j < s.loads + 1 + profile.autoSaveInterval.toNat
            · exact e3 j (by omega) hj1
            · have : j = s.loads + 1 + profile.autoSaveInterval.toNat := by omega
              rw [this]
              exact hk2
        · cases (BackupSaveFolder env.g env.exePath env.localtime (env.clock s.backups).1
            (env.clock s.backups).2 s.world profile true).thrown <;> simp only <;> omega
        · cases (BackupSaveFolder env.g env.exePath env.localtime (env.clock s.backups).1
            (env.clock s.backups).2 s.world profile true).thrown <;> rfl
        · cases (BackupSaveFolder env.g env.exePath env.localtime (env.clock s.backups).1
            (env.clock s.backups).2 s.world profile true).thrown <;> rfl
        · cases (BackupSaveFolder env.g env.exePath env.localtime (env.clock s.backups).1
            (env.clock s.backups).2 s.world profile true).thrown <;>
            simp [backupRound]
    · simp [hs] at h

/-- A round that returns has found the flag cleared in one of its tests and
has called nothing after that test. -/
theorem autoSaveRound_returned (env : AutoEnv) (profile : GameProfile) (s : AutoState)
    (h : (autoSaveRound env profile s).2 = true) :
    ∃ i, i ≤ profile.autoSaveInterval.toNat + 1 ∧
      (autoSaveRound env profile s).1.events = s.events ++ cancelledRound i ∧
      (autoSaveRound env profile s).1.backups = s.backups ∧
      (autoSaveRound env profile s).1.world = s.world := by
  unfold autoSaveRound at h ⊢
  cases hk : env.keepAutoSaving s.loads
  · refine ⟨0, by omega, ?_, rfl, rfl⟩
    simp [AutoState.load, cancelledRound]
  · simp only [hk, Bool.not_true, Bool.false_eq_true, if_false] at h ⊢
    have hf := sleepLoop_frame env.keepAutoSaving profile.autoSaveInterval.toNat
      (s.load true)
    cases hs : (sleepLoop env.keepAutoSaving profile.autoSaveInterval.toNat (s.load true)).2
    · obtain ⟨e1, e2, _⟩ := sleepLoop_done _ _ _ hs
      simp only [hs, Bool.false_eq_true, if_false] at h ⊢
      generalize sleepLoop env.keepAutoSaving profile.autoSaveInterval.toNat (s.load true)
        = r1 at h hf e1 e2 ⊢
      obtain ⟨⟨w1, l1, b1, ev1⟩, ret1⟩ := r1
      simp only [AutoState.load] at h hf e1 e2 ⊢
      obtain ⟨hw, hb⟩ := hf
      subst hw hb e1 e2
      cases hk2 : env.keepAutoSaving (s.loads + 1 + profile.autoSaveInterval.toNat)
      · refine ⟨profile.autoSaveInterval.toNat + 1, le_refl _, ?_, ?_, ?_⟩ <;>
          simp [cancelledRound]
      · simp only [hk2, Bool.not_true, Bool.false_eq_true, if_false] at h
        split at h <;> cases h
    · obtain ⟨i, hi, e⟩ := sleepLoop_returned _ _ _ hs
      simp only [hs, if_true]
      refine ⟨i + 1, by omega, ?_, hf.2, hf.1⟩
      rw [e]
      simp [AutoState.load, cancelledRound]

theorem autoSaveRound_of_keep (env : AutoEnv) (profile : GameProfile) (s : AutoState)
    (h : ∀ j, s.loads ≤ j → j < s.loads + profile.autoSaveInterval.toNat + 2 →
      env.keepAutoSaving j = true) :
    (autoSaveRound env profile s).2 = false := by
  cases hr : (autoSaveRound env profile s).2 with
  | false => rfl
  | true =>
    exfalso
    unfold autoSaveRound at hr
    have hk := h s.loads (le_refl _) (by omega)
    simp only [hk, Bool.not_true, Bool.false_eq_true, if_false] at hr
    have hs := sleepLoop_of_keep env.keepAutoSaving profile.autoSaveInterval.toNat (s.load true)
      (fun j h1 h2 => h j (by simp only [AutoState.load] at h1; omega)
        (by simp only [AutoState.load] at h2; omega))
    obtain ⟨_, e2, _⟩ := sleepLoop_done _ _ _ hs
    have hk2 := h (sleepLoop env.keepAutoSaving profile.autoSaveInterval.toNat
      (s.load true)).1.loads (by rw [e2]; simp only [AutoState.load]; omega)
      (by rw [e2]; simp only [AutoState.load]; omega)
    simp only [hs, Bool.false_eq_true, if_false, hk2, Bool.not_true] at hr
    split at hr <;> cases hr

/-- The shape of what `AutoSaveThreadFunction` has done after some rounds:
rounds that each end in a backup, followed, when the function has returned,
by one round in which a test found the flag cleared. -/
theorem AutoSaveThreadFunction_shape (env : AutoEnv) (profile : GameProfile) (rounds : Nat)
    (s : AutoState) :
    ∃ outcomes : List AutoEvent,
      (∀ o ∈ outcomes, o = AutoEvent.backupReturned ∨ ∃ e, o = AutoEvent.backupCaught e) ∧
      (AutoSaveThreadFunction env profile rounds s).1.backups = s.backups + outcomes.length ∧
      ((AutoSaveThreadFunction env profile rounds s).2 = false →
        (AutoSaveThreadFunction env profile rounds s).1.events
          = s.events ++ (outcomes.map (backupRound profile.autoSaveInterval.toNat)).flatten ∧
        outcomes.length = rounds ∧
        (AutoSaveThreadFunction env profile rounds s).1.loads
          = s.loads + rounds * (profile.autoSaveInterval.toNat + 2) ∧
        ∀ j, s.loads ≤ j → j < (AutoSaveThreadFunction env profile rounds s).1.loads →
          env.keepAutoSaving j = true) ∧
      ((AutoSaveThreadFunction env profile rounds s).2 = true →
        ∃ i, i ≤ profile.autoSaveInterval.toNat + 1 ∧
          (AutoSaveThreadFunction env profile rounds s).1.events
            = s.events ++ (outcomes.map (backupRound profile.autoSaveInterval.toNat)).flatten
              ++ cancelledRound i) := by
  induction rounds generalizing s with
  | zero =>
    refine ⟨[], by simp, by simp [AutoSaveThreadFunction], ?_, ?_⟩
    · intro _
      refine ⟨by simp [AutoSaveThreadFunction], rfl, by simp [AutoSaveThreadFunction], ?_⟩
      intro j h1 h2
      simp only [AutoSaveThreadFunction] at h2
      omega
    · intro h
      simp [AutoSaveThreadFunction] at h
  | succ rounds ih =>
    simp only [AutoSaveThreadFunction]
    cases hr : (autoSaveRound env profile s).2
    · simp only [Bool.false_eq_true, if_false]
      obtain ⟨k1, k2, k3, _, k5⟩ := autoSaveRound_backup env profile s hr
      obtain ⟨outcomes, o1, o2, o3, o4⟩ := ih (autoSaveRound env profile s).1
      refine ⟨(match (BackupSaveFolder env.g env.exePath env.localtime (env.clock s.backups).1
          (env.clock s.backups).2 s.world profile true).thrown with
        | none => AutoEvent.backupReturned
        | some e => AutoEvent.backupCaught e) :: outcomes, ?_, ?_, ?_, ?_⟩
      · intro o ho
        rcases List.mem_cons.1 ho with rfl | ho
        · exact outcome_cases _
        · exact o1 o ho
      · rw [o2, k3, List.length_cons]
        omega
      · intro h
        obtain ⟨a1, a2, a3, a4⟩ := o3 h
        refine ⟨?_, ?_, ?_, ?_⟩
        · rw [a1, k5]
          simp
        · rw [List.length_cons, a2]
        · rw [a3, k2]
          rw [Nat.succ_mul]
          omega
        · intro j h1 h2
          by_cases hj : j < s.loads + profile.autoSaveInterval.toNat + 2
          · exact k1 j h1 hj
          · exact a4 j (by rw [k2]; omega) h2
      · intro h
        obtain ⟨i, hi, e⟩ := o4 h
        refine ⟨i, hi, ?_⟩
        rw [e, k5]
        simp
    · simp only [if_true]
      obtain ⟨i, hi, e, hb, _⟩ := autoSaveRound_returned env profile s hr
      refine ⟨[], by simp, by simp [hb], ?_, ?_⟩
      · intro h
        rw [hr] at h
        cases h
      · intro _
        exact ⟨i, hi, by simp [e]⟩

theorem AutoSaveThreadFunction_of_keep (env : AutoEnv) (profile : GameProfile) (rounds : Nat)
    (s : AutoState) (hkeep : ∀ k, env.keepAutoSaving k = true) :
    (AutoSaveThreadFunction env profile rounds s).2 = false := by
  induction rounds generalizing s with
  | zero => rfl
  | succ rounds ih =>
    simp only [AutoSaveThreadFunction]
    rw [autoSaveRound_of_keep env profile s (fun j _ _ => hkeep j)]
    simp only [Bool.false_eq_true, if_false]
    exact ih _

/-- C21. While every load of `g_keepAutoSaving` finds the flag set, a round of
`AutoSaveThreadFunction` calls `BackupSaveFolder(profile, true)` and does not
return, whatever the call does; when the call throws, the exception is
caught, the line `Auto-save thread backup error:` with the text of the error
is printed, and the round ends like any other.  So the loop goes on: after
any number of rounds the function has not returned and has called
`BackupSaveFolder` once in every round, also in the rounds after a failed
one. -/
theorem C21_failed_backup_does_not_stop_thread (env : AutoEnv) (profile : GameProfile)
    (s : AutoState) (rounds : Nat) (hkeep : ∀ k, env.keepAutoSaving k = true) :
    (autoSaveRound env profile s).2 = false ∧
    (autoSaveRound env profile s).1.backups = s.backups + 1 ∧
    (∀ e, (BackupSaveFolder env.g env.exePath env.localtime (env.clock s.backups).1
          (env.clock s.backups).2 s.world profile true).thrown = some e →
      (autoSaveRound env profile s).1.world
        = (BackupSaveFolder env.g env.exePath env.localtime (env.clock s.backups).1
            (env.clock s.backups).2 s.world profile true).world.print
            (L "Auto-save thread backup error: " ++ e.what) ∧
      (autoSaveRound env profile s).1.events
        = s.events ++ backupRound profile.autoSaveInterval.toNat (AutoEvent.backupCaught e)) ∧
    (AutoSaveThreadFunction env profile rounds s).2 = false ∧
    (AutoSaveThreadFunction env profile rounds s).1.backups = s.backups + rounds ∧
    AutoSaveThreadFunction env profile (rounds + 1) s
      = AutoSaveThreadFunction env profile rounds (autoSaveRound env profile s).1 := by
  have h1 := autoSaveRound_of_keep env profile s (fun j _ _ => hkeep j)
  obtain ⟨_, _, k3, k4, k5⟩ := autoSaveRound_backup env profile s h1
  have h2 := AutoSaveThreadFunction_of_keep env profile rounds s hkeep
  obtain ⟨outcomes, _, o2, o3, _⟩ := AutoSaveThreadFunction_shape env profile rounds s
  refine ⟨h1, k3, ?_, h2, ?_, ?_⟩
  · intro e he
    rw [k4, k5, he]
    exact ⟨rfl, rfl⟩
  · rw [o2, (o3 h2).2.1]
  · simp only [AutoSaveThreadFunction, h1, Bool.false_eq_true, if_false]

/-- C21, at a concrete input: the local backup folder cannot be listed, so
every automatic backup throws out of `BackupSaveFolder`.  After two rounds
the thread has called it twice, has printed the error line twice and is
still running. -/
theorem C21_failed_backup_does_not_stop_thread_witness :
    (AutoSaveThreadFunction runningEnv quickProfile 2 (AutoState.start unlistableWorld)).1.backups
      = 2 ∧
    (AutoSaveThreadFunction runningEnv quickProfile 2 (AutoState.start unlistableWorld)).2
      = false ∧
    (AutoSaveThreadFunction runningEnv quickProfile 2
      (AutoState.start unlistableWorld)).1.world.console
      = [L "Auto-save thread backup error: directory_iterator: cannot open directory",
         L "Auto-save thread backup error: directory_iterator: cannot open directory"] :=
  ⟨(C21_failed_backup_does_not_stop_thread runningEnv quickProfile
      (AutoState.start unlistableWorld) 2 (fun _ => rfl)).2.2.2.2.1,
    (C21_failed_backup_does_not_stop_thread runningEnv quickProfile
      (AutoState.start unlistableWorld) 2 (fun _ => rfl)).2.2.2.1,
    by decide⟩

/-- C22. What `AutoSaveThreadFunction` has done after any number of rounds of
its loop is a sequence of complete rounds, each made of the test of the loop,
`autoSaveInterval` sleeps of one second with a test of the flag before each,
one more test, and the call of `BackupSaveFolder` with its outcome (all these
tests found the flag set); and, when the function has returned, one last
round in which a test found the flag cleared, directly followed by the
return: no sleep and no backup comes after a test that found the flag
cleared, and (by the shape of the rounds) every sleep is directly followed
by a test.  If the load number `j` of the flag finds it cleared, the function
has returned after any number of rounds whose loads reach beyond `j`. -/
theorem C22_backup_after_sleeps_and_tests (env : AutoEnv) (profile : GameProfile)
    (rounds : Nat) (w : World) :
    (∃ outcomes : List AutoEvent,
      (∀ o ∈ outcomes, o = AutoEvent.backupReturned ∨ ∃ e, o = AutoEvent.backupCaught e) ∧
      (AutoSaveThreadFunction env profile rounds (AutoState.start w)).1.backups
        = outcomes.length ∧
      (((AutoSaveThreadFunction env profile rounds (AutoState.start w)).2 = false ∧
          (AutoSaveThreadFunction env profile rounds (AutoState.start w)).1.events
            = (outcomes.map (backupRound profile.autoSaveInterval.toNat)).flatten) ∨
        ((AutoSaveThreadFunction env profile rounds (AutoState.start w)).2 = true ∧
          ∃ i, i ≤ profile.autoSaveInterval.toNat + 1 ∧
            (AutoSaveThreadFunction env profile rounds (AutoState.start w)).1.events
              = (outcomes.map (backupRound profile.autoSaveInterval.toNat)).flatten
                ++ cancelledRound i))) ∧
    (∀ j, env.keepAutoSaving j = false →
      j < rounds * (profile.autoSaveInterval.toNat + 2) →
      (AutoSaveThreadFunction env profile rounds (AutoState.start w)).2 = true) := by
  obtain ⟨outcomes, o1, o2, o3, o4⟩ :=
    AutoSaveThreadFunction_shape env profile rounds (AutoState.start w)
  constructor
  · refine ⟨outcomes, o1, by simpa [AutoState.start] using o2, ?_⟩
    cases hr : (AutoSaveThreadFunction env profile rounds (AutoState.start w)).2
    · left
      exact ⟨rfl, by simpa [AutoState.start] using (o3 hr).1⟩
    · right
      obtain ⟨i, hi, e⟩ := o4 hr
      exact ⟨rfl, i, hi, by simpa [AutoState.start] using e⟩
  · intro j hj hlt
    cases hr : (AutoSaveThreadFunction env profile rounds (AutoState.start w)).2
    · exfalso
      obtain ⟨_, _, a3, a4⟩ := o3 hr
      have := a4 j (by simp [AutoState.start]) (by rw [a3]; simpa [AutoState.start] using hlt)
      rw [hj] at this
      cases this
    · rfl

/-- C22, at a concrete input: an interval of two seconds and a flag that is
cleared before the sixth load.  The first round makes its two sleeps and the
backup; in the second round the test of the sleep loop finds the flag cleared
and the function returns. -/
theorem C22_backup_after_sleeps_and_tests_witness :
    (AutoSaveThreadFunction stoppedEnv quickProfile 3 (AutoState.start baseWorld)).2 = true ∧
    (AutoSaveThreadFunction stoppedEnv quickProfile 3 (AutoState.start baseWorld)).1.events
      = [AutoEvent.flagRead true, AutoEvent.flagRead true, AutoEvent.sleep,
         AutoEvent.flagRead true, AutoEvent.sleep, AutoEvent.flagRead true,
         AutoEvent.backupCalled, AutoEvent.backupReturned,
         AutoEvent.flagRead true, AutoEvent.flagRead false, AutoEvent.returned] :=
  ⟨(C22_backup_after_sleeps_and_tests stoppedEnv quickProfile 3 baseWorld).2 5 (by decide)
      (by decide),
    by decide⟩

/-! ## The two threads -/

/-- C23: the foreground thread receives the hotkey of the manual backup while
the automatic backup of the first round of the scheduler thread is in
progress.  The interleaving is an execution of the two threads, and in it a
manual and an automatic run of `BackupSaveFolder` are in progress at the same
time. -/
theorem C23_counterexample :
    isExecution [1]
      (AutoSaveThreadFunction runningEnv quickProfile 1 (AutoState.start baseWorld)).1.events
      overlapTrace = true ∧
    bothInProgress false false overlapTrace = true := by
  decide

theorem mainSerial_messageLoop (msgs : List Nat) : mainSerial false (messageLoop msgs) = true := by
  induction msgs with
  | nil => rfl
  | cons m rest ih =>
    unfold messageLoop
    split_ifs
    · simpa [mainSerial] using ih
    · rfl
    · exact ih

theorem autoSerial_sleepBlock (n : Nat) (b : Bool) (rest : List AutoEvent) :
    autoSerial b (sleepBlock n ++ rest) = autoSerial b rest := by
  induction n with
  | zero => simp [sleepBlock]
  | succ n ih =>
    rw [sleepBlock_succ]
    simpa [autoSerial] using ih

theorem nothingAfterReturn_sleepBlock (n : Nat) (rest : List AutoEvent) :
    nothingAfterReturn (sleepBlock n ++ rest) = nothingAfterReturn rest := by
  induction n with
  | zero => simp [sleepBlock]
  | succ n ih =>
    rw [sleepBlock_succ]
    simpa [nothingAfterReturn] using ih

theorem autoSerial_rounds (n : Nat) (outcomes : List AutoEvent) (rest : List AutoEvent)
    (ho : ∀ o ∈ outcomes, o = AutoEvent.backupReturned ∨ ∃ e, o = AutoEvent.backupCaught e) :
    autoSerial false ((outcomes.map (backupRound n)).flatten ++ rest) = autoSerial false rest := by
  induction outcomes with
  | nil => simp
  | cons o os ih =>
    have ih2 := ih (fun x hx => ho x (List.mem_cons_of_mem _ hx))
    simp only [List.map_cons, List.flatten_cons, List.append_assoc, backupRound,
      List.cons_append]
    rcases ho o (List.mem_cons_self _ _) with rfl | ⟨e, rfl⟩ <;>
      simp [autoSerial, autoSerial_sleepBlock, ih2]

theorem nothingAfterReturn_rounds (n : Nat) (outcomes : List AutoEvent)
    (rest : List AutoEvent)
    (ho : ∀ o ∈ outcomes, o = AutoEvent.backupReturned ∨ ∃ e, o = AutoEvent.backupCaught e) :
    nothingAfterReturn ((outcomes.map (backupRound n)).flatten ++ rest)
      = nothingAfterReturn rest := by
  induction outcomes with
  | nil => simp
  | cons o os ih =>
    have ih2 := ih (fun x hx => ho x (List.mem_cons_of_mem _ hx))
    simp only [List.map_cons, List.flatten_cons, List.append_assoc, backupRound,
      List.cons_append]
    rcases ho o (List.mem_cons_self _ _) with rfl | ⟨e, rfl⟩ <;>
      simp [nothingAfterReturn, nothingAfterReturn_sleepBlock, ih2]

theorem cancelledRound_serial (i : Nat) :
    autoSerial false (cancelledRound i) = true ∧ nothingAfterReturn (cancelledRound i) = true := by
  cases i with
  | zero => exact ⟨rfl, rfl⟩
  | succ i =>
    simp [cancelledRound, autoSerial, autoSerial_sleepBlock, nothingAfterReturn,
      nothingAfterReturn_sleepBlock]

/-- The scheduler thread enters no backup while one of its own is in progress,
and does nothing after its return. -/
theorem AutoSaveThreadFunction_serial (env : AutoEnv) (profile : GameProfile) (rounds : Nat)
    (w : World) :
    autoSerial false (AutoSaveThreadFunction env profile rounds (AutoState.start w)).1.events
      = true ∧
    nothingAfterReturn (AutoSaveThreadFunction env profile rounds (AutoState.start w)).1.events
      = true := by
  obtain ⟨outcomes, o1, _, o3, o4⟩ :=
    AutoSaveThreadFunction_shape env profile rounds (AutoState.start w)
  cases hr : (AutoSaveThreadFunction env profile rounds (AutoState.start w)).2
  · have e := (o3 hr).1
    simp only [AutoState.start, List.nil_append] at e
    have e2 : (AutoSaveThreadFunction env profile rounds (AutoState.start w)).1.events
        = (outcomes.map (backupRound profile.autoSaveInterval.toNat)).flatten ++ [] := by
      simpa [AutoState.start] using e
    rw [e2, autoSerial_rounds _ _ _ o1, nothingAfterReturn_rounds _ _ _ o1]
    exact ⟨rfl, rfl⟩
  · obtain ⟨i, _, e⟩ := o4 hr
    have e2 : (AutoSaveThreadFunction env profile rounds (AutoState.start w)).1.events
        = (outcomes.map (backupRound profile.autoSaveInterval.toNat)).flatten
          ++ cancelledRound i := by
      simpa [AutoState.start] using e
    rw [e2, autoSerial_rounds _ _ _ o1, nothingAfterReturn_rounds _ _ _ o1]
    exact cancelledRound_serial i

theorem sameKindSerial_of_parts (t : List ThreadEvent) (manual automatic : Bool)
    (hm : mainSerial manual (mainPart t) = true)
    (ha : autoSerial automatic (autoPart t) = true) :
    sameKindSerial manual automatic t = true := by
  induction t generalizing manual automatic with
  | nil => rfl
  | cons ev t ih =>
    cases ev with
    | main e =>
      cases e <;> simp only [mainPart, autoPart, mainSerial, sameKindSerial, Bool.and_eq_true]
        at hm ha ⊢
      · exact ⟨hm.1, ih _ _ hm.2 ha⟩
      · exact ih _ _ hm ha
      · exact ih _ _ hm ha
      · exact ih _ _ hm ha
    | auto e =>
      cases e <;> simp only [mainPart, autoPart, autoSerial, sameKindSerial, Bool.and_eq_true]
        at hm ha ⊢
      · exact ih _ _ hm ha
      · exact ih _ _ hm ha
      · exact ⟨ha.1, ih _ _ hm ha.2⟩
      · exact ih _ _ hm ha
      · exact ih _ _ hm ha
      · exact ih _ _ hm ha

theorem quietAfterJoin_of_respects (t : List ThreadEvent) (flag threadReturned joined : Bool)
    (hr : respectsShared flag threadReturned t = true)
    (hj : joined = true → threadReturned = true)
    (hp : if threadReturned then autoPart t = []
      else nothingAfterReturn (autoPart t) = true) :
    quietAfterJoin joined t = true := by
  induction t generalizing flag threadReturned joined with
  | nil => rfl
  | cons ev t ih =>
    cases ev with
    | main e =>
      cases e <;> simp only [respectsShared, quietAfterJoin, autoPart, Bool.and_eq_true] at hr hp ⊢
      · exact ih _ _ _ hr hj hp
      · exact ih _ _ _ hr hj hp
      · exact ih _ _ _ hr hj hp
      · exact ih _ _ _ hr.2 (fun _ => hr.1) hp
    | auto e =>
      cases threadReturned with
      | true => simp [autoPart] at hp
      | false =>
        have hjf : joined = false := by
          cases joined
          · rfl
          · exact absurd (hj rfl) (by decide)
        subst hjf
        simp only [Bool.false_eq_true, if_false] at hp
        cases e <;>
          simp only [respectsShared, quietAfterJoin, autoPart, nothingAfterReturn,
            Bool.and_eq_true, Bool.not_false, true_and] at hr hp ⊢
        · exact ih _ _ _ hr.2 (fun h => by cases h) (by simpa using hp)
        · exact ih _ _ _ hr (fun h => by cases h) (by simpa using hp)
        · exact ih _ _ _ hr (fun h => by cases h) (by simpa using hp)
        · exact ih _ _ _ hr (fun h => by cases h) (by simpa using hp)
        · exact ih _ _ _ hr (fun h => by cases h) (by simpa using hp)
        · exact ih _ _ _ hr (fun h => by cases h) (by simpa using hp)

/-- C23 (amended). In every execution of the foreground thread and the
scheduler thread (any messages, any values read from the flag, any number of
rounds), no manual run of `BackupSaveFolder` is entered while a manual run is
in progress and no automatic run while an automatic run is in progress, and
the scheduler thread does nothing after `g_autoSaveThread.join()` has
returned in the foreground thread.  Nothing orders a manual run and an
automatic run against each other. -/
theorem C23_runs_of_one_kind_are_serial (env : AutoEnv) (profile : GameProfile) (rounds : Nat)
    (w : World) (msgs : List Nat) (t : List ThreadEvent)
    (h : isExecution msgs
      (AutoSaveThreadFunction env profile rounds (AutoState.start w)).1.events t = true) :
    sameKindSerial false false t = true ∧ quietAfterJoin false t = true := by
  unfold isExecution at h
  simp only [Bool.and_eq_true, beq_iff_eq] at h
  obtain ⟨⟨h1, h2⟩, h3⟩ := h
  obtain ⟨s1, s2⟩ := AutoSaveThreadFunction_serial env profile rounds w
  constructor
  · apply sameKindSerial_of_parts
    · rw [h1]
      exact mainSerial_messageLoop msgs
    · rw [h2]
      exact s1
  · apply quietAfterJoin_of_respects t true false false h3 (fun hc => by cases hc)
    simp only [Bool.false_eq_true, if_false]
    rw [h2]
    exact s2

/-- C23 (amended), at a concrete input: the execution in which the manual
backup is called while the automatic backup is in progress. -/
theorem C23_runs_of_one_kind_are_serial_witness :
    isExecution [1]
      (AutoSaveThreadFunction runningEnv quickProfile 1 (AutoState.start baseWorld)).1.events
      overlapTrace = true ∧
    sameKindSerial false false overlapTrace = true ∧
    quietAfterJoin false overlapTrace = true :=
  ⟨by decide,
    C23_runs_of_one_kind_are_serial runningEnv quickProfile 1 baseWorld [1] overlapTrace
      (by decide)⟩

/-! ## A copy into a fresh directory -/

theorem copyEntry_frame_path (src dst : Path) (fs : FileSystem) (d : Node) :
    ∃ added, (copyEntry false src dst fs d).1 = fs ++ added ∧
      ∀ n ∈ added, n.path = dst ++ d.path.drop src.length := by
  unfold copyEntry
  cases hk : d.kind with
  | regular content =>
    exact copy_file_frame fs d content (dst ++ d.path.drop src.length)
  | directory =>
    simp only
    cases hl : lookup fs (dst ++ d.path.drop src.length) with
    | some old =>
      refine ⟨[], ?_, by simp⟩
      simp only [List.append_nil]
      split_ifs <;> rfl
    | none =>
      refine ⟨[⟨dst ++ d.path.drop src.length, FileKind.directory, true, true⟩], ?_, ?_⟩
      · simp only
        split_ifs <;> rfl
      · intro n hn
        rw [List.mem_singleton.1 hn]

theorem strictlyUnder_relocated (src dst p : Path) (h : strictlyUnder src p = true) :
    strictlyUnder dst (dst ++ p.drop src.length) = true := by
  obtain ⟨c, t, hp⟩ := (strictlyUnder_iff src p).1 h
  rw [strictlyUnder_iff]
  exact ⟨c, t, by rw [hp]; simp⟩

theorem copyEntries_frame_strict (src dst : Path) (ds : List Node) (fs : FileSystem)
    (hds : ∀ d ∈ ds, strictlyUnder src d.path = true) :
    ∃ added, (copyEntries false src dst ds fs).1 = fs ++ added ∧
      ∀ n ∈ added, strictlyUnder dst n.path = true := by
  induction ds generalizing fs with
  | nil => exact ⟨[], by simp [copyEntries], by simp⟩
  | cons d ds ih =>
    obtain ⟨a1, h1, h2⟩ := copyEntry_frame_path src dst fs d
    have h2s : ∀ n ∈ a1, strictlyUnder dst n.path = true := fun n hn => by
      rw [h2 n hn]
      exact strictlyUnder_relocated src dst d.path (hds d (List.mem_cons_self _ _))
    unfold copyEntries
    cases hr : (copyEntry false src dst fs d).2 with
    | some e =>
      refine ⟨a1, ?_, h2s⟩
      rw [← h1]
      have : copyEntry false src dst fs d = ((copyEntry false src dst fs d).1, some e) := by
        rw [← hr]
      rw [this]
    | none =>
      obtain ⟨a2, h3, h4⟩ := ih (copyEntry false src dst fs d).1
        (fun x hx => hds x (List.mem_cons_of_mem _ hx))
      refine ⟨a1 ++ a2, ?_, ?_⟩
      · have : copyEntry false src dst fs d = ((copyEntry false src dst fs d).1, none) := by
          rw [← hr]
        rw [this]
        simp only
        rw [h3, h1, List.append_assoc]
      · intro n hn
        rcases List.mem_append.1 hn with h | h
        · exact h2s n h
        · exact h4 n h

theorem lookup_append_left (fs added : FileSystem) (p : Path) (n : Node)
    (h : lookup fs p = some n) : lookup (fs ++ added) p = some n := by
  unfold lookup at h ⊢
  rw [List.find?_append, h]
  rfl

theorem lookup_append_right (fs added : FileSystem) (p : Path) (h : lookup fs p = none) :
    lookup (fs ++ added) p = lookup added p := by
  unfold lookup at h ⊢
  rw [List.find?_append, h]
  rfl

/-- A copy that succeeds and leaves a directory at a target path that did not
exist has appended the directory node of the target and, after it, only
nodes strictly below the target. -/
theorem fs_copy_fresh_dir (fs : FileSystem) (S T : Path) (hfresh : lookup fs T = none)
    (hok : (fs_copy fs S T false).2 = none)
    (hdir : fs_is_directory (fs_copy fs S T false).1 T = true) :
    ∃ rest, (fs_copy fs S T false).1 = fs ++ ⟨T, FileKind.directory, true, true⟩ :: rest ∧
      ∀ n ∈ rest, strictlyUnder T n.path = true := by
  unfold fs_copy at hok hdir ⊢
  cases hs : lookup fs S with
  | none => simp [hs] at hok
  | some s =>
    simp only [hs] at hok hdir ⊢
    cases hk : s.kind with
    | regular content =>
      exfalso
      have hnd : fs_is_directory fs T = false := by simp [fs_is_directory, hfresh]
      simp only [hk, hnd, Bool.false_eq_true, if_false] at hok hdir
      unfold copy_file at hok hdir
      by_cases hr : s.readable = true
      · simp only [hr, Bool.not_true, Bool.false_eq_true, if_false, hfresh] at hok hdir
        have hf : List.find? (fun n => n.path == T) fs = none := hfresh
        simp [fs_is_directory, lookup, hf] at hdir
      · simp [hr] at hok
    | directory =>
      simp only [hk, hfresh] at hok hdir ⊢
      by_cases hu : isUnder S T = true
      · simp [hu] at hok
      · simp only [hu, Bool.false_eq_true, if_false] at hok hdir ⊢
        by_cases hp : fs_is_directory fs T.dropLast = true
        · simp only [hp, if_true] at hok hdir ⊢
          by_cases hr : s.readable = true
          · simp only [hr, if_true] at hok hdir ⊢
            obtain ⟨added, h1, h2⟩ := copyEntries_frame_strict S T
              (fs.filter (fun m => isUnder S m.path && m.path != S))
              (fs ++ [⟨T, FileKind.directory, true, true⟩])
              (fun d hd => by
                have := (List.mem_filter.1 hd).2
                simpa [strictlyUnder] using this)
            exact ⟨added, by rw [h1]; simp, h2⟩
          · simp [hr] at hok
        · simp [hp] at hok

/-! ## Removals that succeed -/

theorem deleteLoop_ok (locationName label : WString) (ps : List Path) (w : World)
    (logCollector : List WString) (h : removalsSucceed ps w.fs = true) :
    (deleteLoop locationName label ps w logCollector).1.fs
      = w.fs.filter (fun n => ps.all (fun p => !isUnder p n.path)) := by
  induction ps generalizing w logCollector with
  | nil => simp [deleteLoop]
  | cons p ps ih =>
    simp only [removalsSucceed, Bool.and_eq_true, Option.isNone_iff_eq_none] at h
    have hfs := fs_remove_all_ok w.fs p h.1
    simp only [deleteLoop, World.remove_all, h.1]
    rw [ih _ _ h.2]
    simp only [hfs, List.filter_filter, List.all_cons]
    apply List.filter_congr
    intro n _
    rw [Bool.and_comm]

theorem removalsSucceed_append (a b : List Path) (fs : FileSystem)
    (h : removalsSucceed (a ++ b) fs = true) :
    removalsSucceed a fs = true ∧
    removalsSucceed b (fs.filter (fun n => a.all (fun p => !isUnder p n.path))) = true := by
  induction a generalizing fs with
  | nil => simpa [removalsSucceed] using h
  | cons p ps ih =>
    simp only [List.cons_append, removalsSucceed, Bool.and_eq_true,
      Option.isNone_iff_eq_none] at h ⊢
    have hfs := fs_remove_all_ok fs p h.1
    obtain ⟨h1, h2⟩ := ih _ h.2
    refine ⟨⟨h.1, h1⟩, ?_⟩
    rw [hfs, List.filter_filter] at h2
    have : (fun n : Node => (p :: ps).all (fun q => !isUnder q n.path))
        = (fun n : Node => ps.all (fun q => !isUnder q n.path) && !isUnder p n.path) := by
      funext n
      rw [List.all_cons, Bool.and_comm]
    rw [this]
    exact h2

theorem purgeClass_ok (locationName label title : WString) (saves : List Path) (limit : Int)
    (w : World) (logCollector : List WString)
    (h : removalsSucceed (purgeSelection saves limit) w.fs = true) :
    (purgeClass locationName label title saves limit w logCollector).1.fs
      = w.fs.filter (fun n => (purgeSelection saves limit).all (fun p => !isUnder p n.path)) := by
  unfold purgeClass purgeSelection at *
  by_cases hc : limit > 0 ∧ (saves.length : Int) > limit
  · simp only [hc, and_self, if_true] at h ⊢
    exact deleteLoop_ok _ _ _ _ _ h
  · simp [hc]

/-- A purge whose listing and removals succeed leaves the nodes that are not
at or below a selected path. -/
theorem PurgeBackups_ok (w : World) (backupDir pfx locationName : WString)
    (autoLimit manualLimit : Int) (logCollector : List WString) (entries : List Node)
    (hlist : fs_directory_iterator w.fs (parsePath backupDir) = Except.ok entries)
    (hrem : removalsSucceed (purgeSelection (stdSort (classDirs true entries)) autoLimit
        ++ purgeSelection (stdSort (classDirs false entries)) manualLimit) w.fs = true) :
    (PurgeBackups w backupDir pfx autoLimit manualLimit locationName logCollector).world.fs
      = w.fs.filter (fun n =>
          (purgeSelection (stdSort (classDirs true entries)) autoLimit
            ++ purgeSelection (stdSort (classDirs false entries)) manualLimit).all
            (fun p => !isUnder p n.path)) := by
  have hex := listing_exists _ _ _ hlist
  obtain ⟨h1, h2⟩ := removalsSucceed_append _ _ _ hrem
  unfold PurgeBackups
  simp only [World.file_exists, hex, Bool.not_true, Bool.false_eq_true, if_false,
    World.directory_iterator, hlist, categorize_eq]
  rw [purgeClass_ok, purgeClass_ok]
  · simp only [List.filter_filter, List.all_append]
    apply List.filter_congr
    intro n _
    rw [Bool.and_comm]
  · exact h1
  · rw [purgeClass_ok _ _ _ _ _ _ _ (by exact h1)]
    exact h2

/-! ## The mirror step and the local backup folder -/

theorem comparable_child_apart (M B : Path) (c : WString) (h : comparable M B = false) :
    comparable (M ++ [c]) B = false := by
  simp only [comparable, Bool.or_eq_false_iff] at h ⊢
  constructor
  · cases hu : isUnder (M ++ [c]) B with
    | false => rfl
    | true => rw [isUnder_trans M (M ++ [c]) B (isUnder_append M [c]) hu] at h; exact absurd h.1 (by simp)
  · cases hu : isUnder B (M ++ [c]) with
    | false => rfl
    | true =>
      rcases List.prefix_concat_iff.1 ((isUnder_iff _ _).1 hu) with he | hpre
      · rw [he, isUnder_append] at h
        exact absurd h.1 (by simp)
      · rw [(isUnder_iff _ _).2 hpre] at h
        exact absurd h.2 (by simp)

/-- A run of `BackupSaveFolder` whose local copy and local purge throw
nothing leaves, at and below the local backup folder, what the local purge
left there, when the mirror step is not entered or the mirror directory of
the profile lies apart from the local backup folder. -/
theorem BackupSaveFolder_local_frame (g : Globals) (exePath : WString) (localtime : Int → tm)
    (now : Int) (currentTime : WString) (w : World) (profile : GameProfile) (autosave : Bool)
    (hc : (localCopy exePath localtime now w profile autosave).2 = none)
    (hp : (localPurge g exePath localtime now w profile autosave).thrown = none)
    (hapart : profile.cloudSaveEnabled = false ∨ g.g_GoogleDrivePath = [] ∨
      comparable (parsePath (cloudGamePath g profile))
        (parsePath (backupPathBase exePath profile.name)) = false) :
    (BackupSaveFolder g exePath localtime now currentTime w profile autosave).world.fs.filter
        (fun n => isUnder (parsePath (backupPathBase exePath profile.name)) n.path)
      = (localPurge g exePath localtime now w profile autosave).world.fs.filter
        (fun n => isUnder (parsePath (backupPathBase exePath profile.name)) n.path) := by
  rw [BackupSaveFolder_eq]
  simp only [hc, hp]
  by_cases hcond : (profile.cloudSaveEnabled && !g.g_GoogleDrivePath.isEmpty) = true
  · have hap : comparable (parsePath (cloudGamePath g profile))
        (parsePath (backupPathBase exePath profile.name)) = false := by
      rcases hapart with h | h | h
      · simp [h] at hcond
      · simp [h] at hcond
      · exact h
    have e1 : (mirrorCreate g exePath localtime now w profile autosave).1.fs.filter
          (fun n => isUnder (parsePath (backupPathBase exePath profile.name)) n.path)
        = (localPurge g exePath localtime now w profile autosave).world.fs.filter
          (fun n => isUnder (parsePath (backupPathBase exePath profile.name)) n.path) := by
      apply fs_create_directories_filter
      intro n hn
      cases hu : isUnder n.path (parsePath (cloudGamePath g profile)) with
      | false => rfl
      | true =>
        simp only [comparable, Bool.or_eq_false_iff] at hap
        rw [isUnder_trans _ _ _ hn hu] at hap
        exact absurd hap.2 (by simp)
    have e2 : (mirrorCopy g exePath localtime now w profile autosave).1.fs.filter
          (fun n => isUnder (parsePath (backupPathBase exePath profile.name)) n.path)
        = (localPurge g exePath localtime now w profile autosave).world.fs.filter
          (fun n => isUnder (parsePath (backupPathBase exePath profile.name)) n.path) := by
      rw [← e1]
      apply filter_under_apart _ _
        (parsePath (cloudGamePath g profile) ++ [backupFolderName localtime now autosave])
      · rw [← parsePath_mirror_target]
        exact fs_copy_filter _ _ _ _
      · exact comparable_child_apart _ _ _ hap
    have e3 : (mirrorPurge g exePath localtime now w profile autosave).world.fs.filter
          (fun n => isUnder (parsePath (backupPathBase exePath profile.name)) n.path)
        = (localPurge g exePath localtime now w profile autosave).world.fs.filter
          (fun n => isUnder (parsePath (backupPathBase exePath profile.name)) n.path) := by
      rw [← e2]
      exact filter_under_apart _ _ (parsePath (cloudGamePath g profile)) _
        (PurgeBackups_fs_filter _ _ _ _ _ _ _) hap
    simp only [hcond, if_true, finalLogging_fs, cloudStep_eq]
    cases h1 : (mirrorCreate g exePath localtime now w profile autosave).2 with
    | some e => exact e1
    | none =>
      cases h2 : (mirrorCopy g exePath localtime now w profile autosave).2 with
      | some e => exact e2
      | none =>
        cases h3 : (mirrorPurge g exePath localtime now w profile autosave).thrown with
        | some e => exact e3
        | none => exact e3
  · simp only [hcond, Bool.false_eq_true, if_false, finalLogging_fs]

/-! ## The listing of a backup folder during a backup -/

theorem listing_of_under (fs : FileSystem) (dir : Path) :
    fs_directory_iterator (fs.filter (fun n => isUnder dir n.path)) dir
      = fs_directory_iterator fs dir := by
  unfold fs_directory_iterator
  rw [lookup_filter fs _ dir (fun n _ hp => by rw [hp]; exact isUnder_self dir)]
  have e : (fs.filter (fun n => isUnder dir n.path)).filter (fun m => isChildOf dir m.path)
      = fs.filter (fun m => isChildOf dir m.path) := by
    rw [List.filter_filter]
    apply List.filter_congr
    intro n _
    cases hc : isChildOf dir n.path with
    | false => rfl
    | true => simp [isChildOf_isUnder dir n.path hc]
  rw [e]

theorem listing_congr (fs1 fs2 : FileSystem) (dir : Path)
    (h : fs1.filter (fun n => isUnder dir n.path) = fs2.filter (fun n => isUnder dir n.path)) :
    fs_directory_iterator fs1 dir = fs_directory_iterator fs2 dir := by
  rw [← listing_of_under fs1, ← listing_of_under fs2, h]

theorem sibling_under (dir p q : Path) (hp : isChildOf dir p = true)
    (hq : isChildOf dir q = true) (hu : isUnder p q = true) : p = q := by
  obtain ⟨c, rfl⟩ := (isChildOf_iff dir p).1 hp
  obtain ⟨d, rfl⟩ := (isChildOf_iff dir q).1 hq
  exact List.IsPrefix.eq_of_length ((isUnder_iff _ _).1 hu) (by simp)

theorem child_not_above (dir p : Path) (hp : isChildOf dir p = true) : isUnder p dir = false := by
  obtain ⟨c, rfl⟩ := (isChildOf_iff dir p).1 hp
  cases hu : isUnder (dir ++ [c]) dir with
  | false => rfl
  | true =>
    have := List.IsPrefix.length_le ((isUnder_iff _ _).1 hu)
    simp at this

theorem below_child_not_child (dir : Path) (c : WString) (p : Path)
    (h : strictlyUnder (dir ++ [c]) p = true) : isChildOf dir p = false := by
  obtain ⟨x, t, rfl⟩ := (strictlyUnder_iff _ _).1 h
  cases hc : isChildOf dir (dir ++ [c] ++ x :: t) with
  | false => rfl
  | true =>
    obtain ⟨d, hd⟩ := (isChildOf_iff _ _).1 hc
    have := congrArg List.length hd
    simp at this

/-- The listing of a folder after a new directory was made in it. -/
theorem listing_after_copy (fs : FileSystem) (dir : Path) (c : WString) (rest : FileSystem)
    (entries : List Node) (hlist : fs_directory_iterator fs dir = Except.ok entries)
    (hrest : ∀ n ∈ rest, strictlyUnder (dir ++ [c]) n.path = true) :
    fs_directory_iterator (fs ++ ⟨dir ++ [c], FileKind.directory, true, true⟩ :: rest) dir
      = Except.ok (entries ++ [⟨dir ++ [c], FileKind.directory, true, true⟩]) := by
  have hch := listing_children fs dir entries hlist
  unfold fs_directory_iterator at hlist ⊢
  cases hl : lookup fs dir with
  | none => simp [hl] at hlist
  | some d =>
    simp only [hl] at hlist
    rw [lookup_append_left fs _ dir d hl]
    simp only
    split_ifs at hlist ⊢
    rw [List.filter_append, ← hch, List.filter_cons]
    have h1 : isChildOf dir (dir ++ [c]) = true := (isChildOf_iff _ _).2 ⟨c, rfl⟩
    have h2 : rest.filter (fun m => isChildOf dir m.path) = [] := by
      rw [List.filter_eq_nil_iff]
      intro n hn
      rw [below_child_not_child dir c n.path (hrest n hn)]
      simp
    simp only [h1, if_true, h2]

/-- The listing of a folder after some of its entries were removed. -/
theorem listing_after_removals (fs : FileSystem) (dir : Path) (sel : List Path)
    (entries : List Node) (hlist : fs_directory_iterator fs dir = Except.ok entries)
    (hsel : ∀ p ∈ sel, isChildOf dir p = true) :
    fs_directory_iterator (fs.filter (fun n => sel.all (fun p => !isUnder p n.path))) dir
      = Except.ok (entries.filter (fun n => sel.all (fun p => !isUnder p n.path))) := by
  have hch := listing_children fs dir entries hlist
  unfold fs_directory_iterator at hlist ⊢
  rw [lookup_filter fs _ dir (fun n _ hp => by
    rw [hp, List.all_eq_true]
    intro p hpm
    rw [child_not_above dir p (hsel p hpm)]
    rfl)]
  cases hl : lookup fs dir with
  | none => simp [hl] at hlist
  | some d =>
    simp only [hl] at hlist ⊢
    split_ifs at hlist ⊢
    rw [hch, List.filter_filter, List.filter_filter]
    congr 1
    apply List.filter_congr
    intro n _
    rw [Bool.and_comm]

theorem filter_not_under_take (entries : List Node) (dir : Path) (k : Nat)
    (hch : ∀ n ∈ entries, isChildOf dir n.path = true)
    (hnd : (entries.map (fun n => n.path)).Nodup) :
    entries.filter (fun n => ((entries.map (fun n => n.path)).take k).all
        (fun p => !isUnder p n.path))
      = entries.drop k := by
  have hsel : (entries.map (fun n => n.path)).take k = (entries.take k).map (fun n => n.path) :=
    (List.map_take _ _ _).symm
  rw [hsel]
  generalize hs : (entries.take k).map (fun n => n.path) = sel
  have hsplit : entries = entries.take k ++ entries.drop k := (List.take_append_drop k entries).symm
  have hnd2 : (sel ++ (entries.drop k).map (fun n => n.path)).Nodup := by
    rw [← hs, ← List.map_append, ← hsplit]
    exact hnd
  have hdis := (List.nodup_append.1 hnd2).2.2
  calc entries.filter (fun n => sel.all (fun p => !isUnder p n.path))
      = (entries.take k ++ entries.drop k).filter (fun n => sel.all (fun p => !isUnder p n.path)) := by
        rw [← hsplit]
    _ = [] ++ entries.drop k := by
        rw [List.filter_append]
        congr 1
        · rw [List.filter_eq_nil_iff]
          intro n hn
          have hmem : n.path ∈ sel := by
            rw [← hs]
            exact List.mem_map_of_mem _ hn
          simp only [List.all_eq_true, Bool.not_eq_true', not_forall]
          exact ⟨n.path, hmem, by simp [isUnder_self]⟩
        · rw [List.filter_eq_self]
          intro n hn
          rw [List.all_eq_true]
          intro p hp
          cases hu : isUnder p n.path with
          | false => rfl
          | true =>
            exfalso
            have hpc : isChildOf dir p = true := by
              rw [← hs] at hp
              obtain ⟨m, hm, rfl⟩ := List.mem_map.1 hp
              exact hch m (List.mem_of_mem_take hm)
            have he := sibling_under dir p n.path hpc (hch n (List.mem_of_mem_drop hn)) hu
            exact hdis hp (he ▸ List.mem_map_of_mem _ hn)
    _ = entries.drop k := rfl

theorem purgeSelection_eq_take (saves : List Path) (limit : Int) (h : 0 < limit) :
    purgeSelection saves limit = saves.take (saves.length - limit.toNat) := by
  unfold purgeSelection
  by_cases hc : limit > 0 ∧ (saves.length : Int) > limit
  · simp only [hc, and_self, if_true]
    congr 1
    omega
  · simp only [hc, if_false]
    have : saves.length - limit.toNat = 0 := by omega
    rw [this, List.take_zero]

theorem purgeSelection_nil (limit : Int) : purgeSelection [] limit = [] := by
  unfold purgeSelection
  split_ifs <;> simp

theorem classDirs_all_auto (entries : List Node)
    (h : ∀ n ∈ entries, n.kind = FileKind.directory ∧ endsWith (filename n.path) (L "-A") = true) :
    classDirs true entries = entries.map (fun n => n.path) ∧ classDirs false entries = [] := by
  unfold classDirs
  constructor
  · rw [List.filter_eq_self.2]
    intro n hn
    simp [(h n hn).1, (h n hn).2, classSuffix]
  · rw [List.map_eq_nil_iff, List.filter_eq_nil_iff]
    intro n hn
    simp [classSuffix, endsWith_A_not_M _ (h n hn).2]

/-! ## One automatic backup in a folder of automatic archives -/

theorem autoArchive_injective (localtime : Int → tm) (dir : Path) :
    Function.Injective (autoArchive localtime dir) := by
  intro a b h
  unfold autoArchive at h
  have h2 := List.append_cancel_left h
  simp only [List.cons.injEq, and_true] at h2
  exact (backupFolderName_injective _ _ _ _ _ _ h2).1

theorem archives_sorted (localtime : Int → tm) (dir : Path) (times : List Int)
    (hinc : times.Pairwise (fun a b => a < b)) (hnonneg : ∀ t ∈ times, 0 ≤ t)
    (hdig : ∀ s ∈ times, ∀ t ∈ times, (to_wstring s).length = (to_wstring t).length) :
    List.Sorted pathLe (times.map (autoArchive localtime dir)) := by
  unfold List.Sorted
  rw [List.pairwise_map]
  apply List.Pairwise.imp_of_mem _ hinc
  intro a b ha hb hab
  have hlt : pathCompare (autoArchive localtime dir a) (autoArchive localtime dir b)
      = Ordering.lt := by
    unfold autoArchive
    rw [pathCompare_sibling]
    exact backupFolderName_lt localtime a b true true (hnonneg a ha) hab (hdig a ha b hb)
  rcases pathLe_total (autoArchive localtime dir a) (autoArchive localtime dir b) with h | h
  · exact h
  · exact absurd hlt h

theorem archives_nodup (localtime : Int → tm) (dir : Path) (times : List Int)
    (hinc : times.Pairwise (fun a b => a < b)) :
    (times.map (autoArchive localtime dir)).Nodup :=
  List.Nodup.map (autoArchive_injective localtime dir)
    (List.Pairwise.imp (fun h => ne_of_lt h) hinc)

theorem stdSort_archives (localtime : Int → tm) (dir : Path) (times : List Int)
    (hinc : times.Pairwise (fun a b => a < b)) (hnonneg : ∀ t ∈ times, 0 ≤ t)
    (hdig : ∀ s ∈ times, ∀ t ∈ times, (to_wstring s).length = (to_wstring t).length) :
    stdSort (times.map (autoArchive localtime dir)) = times.map (autoArchive localtime dir) :=
  (stdSort_unique _ _ (List.Perm.refl _) (archives_sorted localtime dir times hinc hnonneg hdig)).symm

/-- One automatic backup that succeeds, in a folder that holds the automatic
archives of earlier instants with names of the same length: afterwards the
folder holds the newest archives, as many as the limit allows. -/
theorem autoBackup_step (g : Globals) (exePath : WString) (localtime : Int → tm)
    (profile : GameProfile) (now : Int) (currentTime : WString) (w : World) (times : List Int)
    (hL : 0 < g.g_LocalAutoSaveLimit)
    (hapart : profile.cloudSaveEnabled = false ∨ g.g_GoogleDrivePath = [] ∨
      comparable (parsePath (cloudGamePath g profile))
        (parsePath (backupPathBase exePath profile.name)) = false)
    (hinv : holdsAutoArchives localtime (parsePath (backupPathBase exePath profile.name)) w.fs
      times)
    (hinc : (times ++ [now]).Pairwise (fun a b => a < b))
    (hnonneg : ∀ t ∈ times ++ [now], 0 ≤ t)
    (hdig : ∀ s ∈ times ++ [now], ∀ t ∈ times ++ [now],
      (to_wstring s).length = (to_wstring t).length)
    (hcopy : (localCopy exePath localtime now w profile true).2 = none)
    (hdir : fs_is_directory (localCopy exePath localtime now w profile true).1.fs
      (parsePath (backupPathBase exePath profile.name) ++ [backupFolderName localtime now true])
      = true)
    (hrem : removalsSucceed
      (purgeDeleted (localCopy exePath localtime now w profile true).1
        (localPurge g exePath localtime now w profile true))
      (localCopy exePath localtime now w profile true).1.fs = true) :
    holdsAutoArchives localtime (parsePath (backupPathBase exePath profile.name))
      (BackupSaveFolder g exePath localtime now currentTime w profile true).world.fs
      ((times ++ [now]).drop (times.length + 1 - g.g_LocalAutoSaveLimit.toNat)) := by
  obtain ⟨es, hlist, hpaths, hkinds⟩ := hinv
  -- the archive of `now` is not there yet
  have hfresh : lookup w.fs (parsePath (backupPathBase exePath profile.name)
      ++ [backupFolderName localtime now true]) = none := by
    cases hl : lookup w.fs (parsePath (backupPathBase exePath profile.name)
      ++ [backupFolderName localtime now true]) with
    | none => rfl
    | some n =>
      exfalso
      obtain ⟨hn, hp⟩ := lookup_some_mem _ _ _ hl
      have hes : n ∈ es := by
        rw [listing_children _ _ _ hlist]
        exact List.mem_filter.2 ⟨hn, by rw [hp]; exact (isChildOf_iff _ _).2 ⟨_, rfl⟩⟩
      have hmem : n.path ∈ times.map (autoArchive localtime
          (parsePath (backupPathBase exePath profile.name))) := by
        rw [← hpaths]
        exact List.mem_map_of_mem _ hes
      obtain ⟨t, ht, he⟩ := List.mem_map.1 hmem
      rw [hp] at he
      have htn : t = now := autoArchive_injective localtime _ he
      have hlt := (List.pairwise_append.1 hinc).2.2 t ht now (List.mem_singleton_self _)
      omega
  -- the local copy
  have hfs0 : (localCopy exePath localtime now w profile true).1.fs
      = (fs_copy w.fs (parsePath profile.savePath)
          (parsePath (backupPathBase exePath profile.name)
            ++ [backupFolderName localtime now true]) false).1 := by
    unfold localCopy World.copy
    rw [parsePath_target]
  have hok0 : (fs_copy w.fs (parsePath profile.savePath)
      (parsePath (backupPathBase exePath profile.name)
        ++ [backupFolderName localtime now true]) false).2 = none := by
    rw [← hcopy]
    unfold localCopy World.copy
    rw [parsePath_target]
  rw [hfs0] at hdir
  obtain ⟨rest, hfs, hrest⟩ := fs_copy_fresh_dir _ _ _ hfresh hok0 hdir
  obtain ⟨tn, htn⟩ : ∃ tn : Node, tn = ⟨parsePath (backupPathBase exePath profile.name)
      ++ [backupFolderName localtime now true], FileKind.directory, true, true⟩ := ⟨_, rfl⟩
  rw [← htn] at hfs
  have hlist2 : fs_directory_iterator (localCopy exePath localtime now w profile true).1.fs
      (parsePath (backupPathBase exePath profile.name))
      = Except.ok (es ++ [tn]) := by
    rw [hfs0, hfs, htn]
    exact listing_after_copy _ _ _ _ _ hlist hrest
  -- the entries the purge sees
  have hpaths2 : (es ++ [tn]).map
        (fun n => n.path)
      = (times ++ [now]).map (autoArchive localtime
          (parsePath (backupPathBase exePath profile.name))) := by
    rw [List.map_append, List.map_append, hpaths, htn]
    rfl
  have hkinds2 : ∀ n ∈ es ++ [tn],
      n.kind = FileKind.directory := by
    intro n hn
    rcases List.mem_append.1 hn with h | h
    · exact hkinds n h
    · rw [List.mem_singleton.1 h, htn]
  have hnames2 : ∀ n ∈ es ++ [tn],
      endsWith (filename n.path) (L "-A") = true := by
    intro n hn
    have hmem : n.path ∈ (times ++ [now]).map (autoArchive localtime
        (parsePath (backupPathBase exePath profile.name))) := by
      rw [← hpaths2]
      exact List.mem_map_of_mem _ hn
    obtain ⟨t, _, he⟩ := List.mem_map.1 hmem
    rw [← he]
    unfold autoArchive
    rw [filename_child]
    have e : L "-A" = [45, 65] := by decide
    rw [e, backupFolderName_endsWith]
    rfl
  obtain ⟨hcA, hcM⟩ := classDirs_all_auto _ (fun n hn => ⟨hkinds2 n hn, hnames2 n hn⟩)
  have hsort := stdSort_archives localtime (parsePath (backupPathBase exePath profile.name))
    (times ++ [now]) hinc hnonneg hdig
  -- the purge
  have hdel := PurgeBackups_deleted (localCopy exePath localtime now w profile true).1
    (backupPathBase exePath profile.name) (classLetter true) (L "Local") g.g_LocalAutoSaveLimit
    g.g_LocalManualSaveLimit [] _ hlist2
  have hpok := PurgeBackups_ok (localCopy exePath localtime now w profile true).1
    (backupPathBase exePath profile.name) (classLetter true) (L "Local") g.g_LocalAutoSaveLimit
    g.g_LocalManualSaveLimit [] _ hlist2
  have hthrown := PurgeBackups_thrown_none (localCopy exePath localtime now w profile true).1
    (backupPathBase exePath profile.name) (classLetter true) (L "Local") g.g_LocalAutoSaveLimit
    g.g_LocalManualSaveLimit [] _ hlist2
  rw [categorize_eq] at hdel
  have e0 : stdSort [] = [] := rfl
  simp only [hcA, hcM, hpaths2, hsort, e0, purgeSelection_nil, List.append_nil] at hdel hpok
  rw [purgeSelection_eq_take _ _ hL] at hdel hpok
  have hpurge : (localPurge g exePath localtime now w profile true).world.fs
      = (localCopy exePath localtime now w profile true).1.fs.filter (fun n =>
          (((es ++ [tn]).map
              (fun n => n.path)).take
            (times.length + 1 - g.g_LocalAutoSaveLimit.toNat)).all
            (fun p => !isUnder p n.path)) := by
    rw [hpaths2]
    simp only [List.length_map] at hdel hpok
    rw [List.length_append, List.length_singleton] at hdel hpok
    exact hpok (by rw [← hdel]; exact hrem)
  have hframe := BackupSaveFolder_local_frame g exePath localtime now currentTime w profile true
    hcopy hthrown hapart
  have hchild : ∀ n ∈ es ++ [tn],
      isChildOf (parsePath (backupPathBase exePath profile.name)) n.path = true :=
    fun n hn => (listing_mem _ _ _ hlist2 n hn).2
  refine ⟨(es ++ [tn]).drop
      (times.length + 1 - g.g_LocalAutoSaveLimit.toNat), ?_, ?_, ?_⟩
  · rw [listing_congr _ _ _ hframe, hpurge,
      listing_after_removals _ _ _ _ hlist2
        (fun p hp => by
          obtain ⟨n, hn, rfl⟩ := List.mem_map.1 (List.mem_of_mem_take hp)
          exact hchild n hn),
      filter_not_under_take _ _ _ hchild
        (by rw [hpaths2]; exact archives_nodup localtime _ _ hinc)]
  · rw [List.map_drop, hpaths2, List.map_drop]
  · exact fun n hn => hkinds2 n (List.mem_of_mem_drop hn)

/-! ## A series of automatic backups -/

theorem lastN_snoc (past : List Int) (x : Int) (k : Nat) (hk : 0 < k) :
    (past.drop (past.length - k) ++ [x]).drop ((past.drop (past.length - k)).length + 1 - k)
      = (past ++ [x]).drop ((past ++ [x]).length - k) := by
  rw [List.length_drop, List.length_append, List.length_singleton]
  by_cases h : past.length ≤ k
  · have e : past.length - k = 0 := by omega
    rw [e, List.drop_zero]
    rfl
  · have e0 : past.length - (past.length - k) = k := Nat.sub_sub_self (by omega)
    have e1 : k + 1 - k = 1 := by omega
    have e2 : past.length + 1 - k = (past.length - k) + 1 := by omega
    have e3 : (past ++ [x]).drop (past.length - k) = past.drop (past.length - k) ++ [x] :=
      List.drop_append_of_le_length (by omega)
    rw [e0, e1, e2, ← List.drop_drop, e3]

theorem autoBackups_holds (g : Globals) (exePath : WString) (localtime : Int → tm)
    (profile : GameProfile) (hL : 0 < g.g_LocalAutoSaveLimit)
    (hapart : profile.cloudSaveEnabled = false ∨ g.g_GoogleDrivePath = [] ∨
      comparable (parsePath (cloudGamePath g profile))
        (parsePath (backupPathBase exePath profile.name)) = false) :
    ∀ (readings : List (Int × WString)) (past : List Int) (w : World),
      holdsAutoArchives localtime (parsePath (backupPathBase exePath profile.name)) w.fs
        (past.drop (past.length - g.g_LocalAutoSaveLimit.toNat)) →
      (past ++ readings.map Prod.fst).Pairwise (fun a b => a < b) →
      (∀ t ∈ past ++ readings.map Prod.fst, 0 ≤ t) →
      (∀ s ∈ past ++ readings.map Prod.fst, ∀ t ∈ past ++ readings.map Prod.fst,
        (to_wstring s).length = (to_wstring t).length) →
      backupsSucceed g exePath localtime profile readings w = true →
      holdsAutoArchives localtime (parsePath (backupPathBase exePath profile.name))
        (autoBackups g exePath localtime profile readings w).fs
        ((past ++ readings.map Prod.fst).drop
          ((past ++ readings.map Prod.fst).length - g.g_LocalAutoSaveLimit.toNat)) := by
  intro readings
  induction readings with
  | nil =>
    intro past w hinv _ _ _ _
    simpa [autoBackups] using hinv
  | cons r rest ih =>
    intro past w hinv hinc hnonneg hdig hsucc
    simp only [backupsSucceed, Bool.and_eq_true, Option.isNone_iff_eq_none] at hsucc
    obtain ⟨⟨⟨hcopy, hdir⟩, hrem⟩, hrest⟩ := hsucc
    have hsub : List.Sublist (past.drop (past.length - g.g_LocalAutoSaveLimit.toNat) ++ [r.1])
        (past ++ (r :: rest).map Prod.fst) := by
      apply List.Sublist.append (List.drop_sublist _ _)
      simp
    have hstep := autoBackup_step g exePath localtime profile r.1 r.2 w _ hL hapart hinv
      (hinc.sublist hsub) (fun t ht => hnonneg t (hsub.subset ht))
      (fun s hs t ht => hdig s (hsub.subset hs) t (hsub.subset ht)) hcopy hdir hrem
    rw [lastN_snoc past r.1 _ (by omega)] at hstep
    have e : past ++ (r :: rest).map Prod.fst = (past ++ [r.1]) ++ rest.map Prod.fst := by simp
    rw [e] at hinc hnonneg hdig ⊢
    exact ih (past ++ [r.1]) _ hstep hinc hnonneg hdig hrest

theorem holds_localArchives (localtime : Int → tm) (exePath : WString) (profile : GameProfile)
    (w : World) (times : List Int)
    (h : holdsAutoArchives localtime (parsePath (backupPathBase exePath profile.name)) w.fs times) :
    localArchives exePath profile true w
      = times.map (autoArchive localtime (parsePath (backupPathBase exePath profile.name))) := by
  obtain ⟨es, hlist, hpaths, hkinds⟩ := h
  unfold localArchives
  rw [← listing_children _ _ _ hlist, ← hpaths]
  refine (classDirs_all_auto es (fun n hn => ⟨hkinds n hn, ?_⟩)).1
  have hmem : n.path ∈ times.map (autoArchive localtime
      (parsePath (backupPathBase exePath profile.name))) := by
    rw [← hpaths]
    exact List.mem_map_of_mem _ hn
  obtain ⟨t, _, he⟩ := List.mem_map.1 hmem
  rw [← he]
  unfold autoArchive
  rw [filename_child]
  have e : L "-A" = [45, 65] := by decide
  rw [e, backupFolderName_endsWith]
  rfl

theorem holds_absent (localtime : Int → tm) (dir : Path) (fs : FileSystem) (times : List Int)
    (t : Int) (h : holdsAutoArchives localtime dir fs times) (ht : t ∉ times) :
    fs_exists fs (autoArchive localtime dir t) = false := by
  obtain ⟨es, hlist, hpaths, _⟩ := h
  cases hex : fs_exists fs (autoArchive localtime dir t) with
  | false => rfl
  | true =>
    exfalso
    obtain ⟨n, hn, hp⟩ := (fs_exists_iff _ _).1 hex
    have hes : n ∈ es := by
      rw [listing_children _ _ _ hlist]
      exact List.mem_filter.2 ⟨hn, by rw [hp]; exact (isChildOf_iff _ _).2 ⟨_, rfl⟩⟩
    have hmem : n.path ∈ times.map (autoArchive localtime dir) := by
      rw [← hpaths]
      exact List.mem_map_of_mem _ hes
    obtain ⟨s, hs, he⟩ := List.mem_map.1 hmem
    rw [hp] at he
    exact ht (autoArchive_injective localtime dir he ▸ hs)

/-- C25. From an empty local backup folder with the automatic limit 1, the
automatic backups at the instants 999999999 and 1000000000 both succeed,
with every removal succeeding.  The purge of the second run announces
`Deleting 1 oldest...` and removes the archive that the run has just made:
the one automatic archive that remains is the one of the earlier instant,
and the archive of the later instant is gone.  The sort that the source
comments as `chronologically (oldest first)` compares the names as text. -/
theorem C25_series_keeps_older_archive_at_rollover :
    fs_directory_iterator baseWorld.fs (parsePath (backupPathBase sampleExePath sampleProfile.name))
      = Except.ok [] ∧
    tightGlobals.g_LocalAutoSaveLimit = 1 ∧
    (rolloverReadings.map Prod.fst).Pairwise (fun a b => a < b) ∧
    backupsSucceed tightGlobals sampleExePath utcLocaltime sampleProfile rolloverReadings baseWorld
      = true ∧
    localArchives sampleExePath sampleProfile true
        (autoBackups tightGlobals sampleExePath utcLocaltime sampleProfile rolloverReadings
          baseWorld)
      = [autoArchive utcLocaltime (parsePath (backupPathBase sampleExePath sampleProfile.name))
          999999999] ∧
    fs_exists
        (autoBackups tightGlobals sampleExePath utcLocaltime sampleProfile rolloverReadings
          baseWorld).fs
        (autoArchive utcLocaltime (parsePath (backupPathBase sampleExePath sampleProfile.name))
          1000000000) = false ∧
    (autoBackups tightGlobals sampleExePath utcLocaltime sampleProfile rolloverReadings
        baseWorld).console
      = [L "[2001-09-09 01:46:39] [A] Backup 999999999-[2001-09-09_01-46-39]-A completed (Local).",
         separatorLine,
         L "[2001-09-09 01:46:40] [A] Backup 1000000000-[2001-09-09_01-46-40]-A completed (Local).",
         L "      [PURGE:Local] Auto-save limit (1) exceeded. Deleting 1 oldest...",
         L "         - Deleting: 1000000000-[2001-09-09_01-46-40]-A",
         separatorLine] := by
  refine ⟨rfl, rfl, by decide, by decide, by decide, by decide, by decide⟩

/-- A series of automatic backups with names of equal length: start from a
local backup folder that can be listed and is empty, with an automatic limit above zero and with the mirror step not
entered or the mirror directory of the profile apart from the local backup
folder (in the sense of `apart`).  After automatic backups that all succeed
(the local copy throws nothing and makes the archive directory, every removal of the local purge
succeeds), taken at strictly increasing instants that are not negative and
whose epoch seconds have the same number of digits, the automatic archives
in the folder are those of the latest instants, as many as the smaller of
the number of backups and the limit, and the archive directory of every
earlier instant does not exist. -/
theorem autoBackups_keep_latest (g : Globals) (exePath : WString) (localtime : Int → tm)
    (profile : GameProfile) (readings : List (Int × WString)) (w : World)
    (hL : 0 < g.g_LocalAutoSaveLimit)
    (hempty : fs_directory_iterator w.fs (parsePath (backupPathBase exePath profile.name))
      = Except.ok [])
    (hfar : profile.cloudSaveEnabled = false ∨ g.g_GoogleDrivePath = [] ∨
      apart (parsePath (cloudGamePath g profile))
        (parsePath (backupPathBase exePath profile.name)) = true)
    (hinc : (readings.map Prod.fst).Pairwise (fun a b => a < b))
    (hnonneg : ∀ r ∈ readings, 0 ≤ r.1)
    (hdig : ∀ r ∈ readings, ∀ s ∈ readings, (to_wstring r.1).length = (to_wstring s.1).length)
    (hsucc : backupsSucceed g exePath localtime profile readings w = true) :
    localArchives exePath profile true (autoBackups g exePath localtime profile readings w)
      = ((readings.map Prod.fst).drop (readings.length - g.g_LocalAutoSaveLimit.toNat)).map
          (autoArchive localtime (parsePath (backupPathBase exePath profile.name))) ∧
    (localArchives exePath profile true
        (autoBackups g exePath localtime profile readings w)).length
      = min readings.length g.g_LocalAutoSaveLimit.toNat ∧
    ∀ t ∈ (readings.map Prod.fst).take (readings.length - g.g_LocalAutoSaveLimit.toNat),
      fs_exists (autoBackups g exePath localtime profile readings w).fs
        (autoArchive localtime (parsePath (backupPathBase exePath profile.name)) t) = false := by
  have hapart : profile.cloudSaveEnabled = false ∨ g.g_GoogleDrivePath = [] ∨
      comparable (parsePath (cloudGamePath g profile))
        (parsePath (backupPathBase exePath profile.name)) = false :=
    hfar.imp id (Or.imp id (not_comparable_of_apart _ _))
  have h0 : holdsAutoArchives localtime (parsePath (backupPathBase exePath profile.name)) w.fs
      (([] : List Int).drop (([] : List Int).length - g.g_LocalAutoSaveLimit.toNat)) :=
    ⟨[], hempty, by simp, fun n hn => by cases hn⟩
  have hfin := autoBackups_holds g exePath localtime profile hL hapart readings [] w h0
    (by simpa using hinc)
    (by
      intro t ht
      rw [List.nil_append] at ht
      obtain ⟨r, hr, rfl⟩ := List.mem_map.1 ht
      exact hnonneg r hr)
    (by
      intro s hs t ht
      rw [List.nil_append] at hs ht
      obtain ⟨r1, hr1, rfl⟩ := List.mem_map.1 hs
      obtain ⟨r2, hr2, rfl⟩ := List.mem_map.1 ht
      exact hdig r1 hr1 r2 hr2)
    hsucc
  simp only [List.nil_append, List.length_map] at hfin
  have harch := holds_localArchives localtime exePath profile _ _ hfin
  refine ⟨harch, ?_, ?_⟩
  · rw [harch, List.length_map, List.length_drop, List.length_map]
    omega
  · intro t ht
    apply holds_absent localtime _ _ _ t hfin
    intro hd
    have hnd : (readings.map Prod.fst).Nodup := List.Pairwise.imp (fun h => ne_of_lt h) hinc
    rw [← List.take_append_drop (readings.length - g.g_LocalAutoSaveLimit.toNat)
      (readings.map Prod.fst)] at hnd
    exact (List.nodup_append.1 hnd).2.2 ht hd

/-! ## Two file systems that agree on a part -/

theorem lookup_congr (A : Node → Bool) (fs1 fs2 : FileSystem) (p : Path)
    (hA : fs1.filter A = fs2.filter A) (hp : ∀ n : Node, n.path = p → A n = true) :
    lookup fs1 p = lookup fs2 p := by
  rw [← lookup_filter fs1 A p (fun n _ h => hp n h),
    ← lookup_filter fs2 A p (fun n _ h => hp n h), hA]

theorem filter_append_congr (A : Node → Bool) (fs1 fs2 added : FileSystem)
    (hA : fs1.filter A = fs2.filter A) :
    (fs1 ++ added).filter A = (fs2 ++ added).filter A := by
  rw [List.filter_append, List.filter_append, hA]

theorem unchanged_congr (fs1 fs2 : FileSystem) (err : Option filesystem_error)
    (P : Node → Prop) :
    ∃ added e, (fs1, err) = (fs1 ++ added, e) ∧ (fs2, err) = (fs2 ++ added, e) ∧
      ∀ n ∈ added, P n :=
  ⟨[], err, by simp, by simp, by simp⟩

theorem createChain_congr (A : Node → Bool) (ps : List Path) (fs1 fs2 : FileSystem)
    (hA : fs1.filter A = fs2.filter A)
    (hps : ∀ p ∈ ps, ∀ n : Node, n.path = p → A n = true) :
    ∃ added err, createChain ps fs1 = (fs1 ++ added, err) ∧
      createChain ps fs2 = (fs2 ++ added, err) ∧ ∀ n ∈ added, n.path ∈ ps := by
  induction ps generalizing fs1 fs2 with
  | nil => exact ⟨[], none, by simp [createChain], by simp [createChain], by simp⟩
  | cons p ps ih =>
    have hl := lookup_congr A fs1 fs2 p hA (hps p (List.mem_cons_self _ _))
    have hps2 : ∀ q ∈ ps, ∀ n : Node, n.path = q → A n = true :=
      fun q hq => hps q (List.mem_cons_of_mem _ hq)
    unfold createChain
    rw [hl]
    cases hl2 : lookup fs2 p with
    | some old =>
      simp only
      by_cases hk : (old.kind == FileKind.directory) = true
      · simp only [hk, if_true]
        obtain ⟨added, err, h1, h2, h3⟩ := ih fs1 fs2 hA hps2
        exact ⟨added, err, h1, h2, fun n hn => List.mem_cons_of_mem _ (h3 n hn)⟩
      · simp only [hk, Bool.false_eq_true, if_false]
        exact unchanged_congr fs1 fs2 _ _
    | none =>
      simp only
      obtain ⟨added, err, h1, h2, h3⟩ := ih (fs1 ++ [⟨p, FileKind.directory, true, true⟩])
        (fs2 ++ [⟨p, FileKind.directory, true, true⟩]) (filter_append_congr A _ _ _ hA) hps2
      refine ⟨⟨p, FileKind.directory, true, true⟩ :: added, err, ?_, ?_, ?_⟩
      · rw [h1, List.append_assoc]
        rfl
      · rw [h2, List.append_assoc]
        rfl
      · intro n hn
        rcases List.mem_cons.1 hn with h | h
        · rw [h]
          exact List.mem_cons_self _ _
        · exact List.mem_cons_of_mem _ (h3 n h)

theorem copy_file_congr (A : Node → Bool) (fs1 fs2 : FileSystem) (d : Node)
    (content : List Nat) (t : Path) (hA : fs1.filter A = fs2.filter A)
    (ht : ∀ n : Node, n.path = t → A n = true) :
    ∃ added err, copy_file false fs1 d content t = (fs1 ++ added, err) ∧
      copy_file false fs2 d content t = (fs2 ++ added, err) ∧ ∀ n ∈ added, n.path = t := by
  have hl := lookup_congr A fs1 fs2 t hA ht
  unfold copy_file
  rw [hl]
  by_cases hr : (!d.readable) = true
  · simp only [hr, if_true]
    exact unchanged_congr fs1 fs2 _ _
  · simp only [hr, Bool.false_eq_true, if_false]
    cases hl2 : lookup fs2 t with
    | none => exact ⟨[⟨t, FileKind.regular content, true, true⟩], none, rfl, rfl, by simp⟩
    | some old =>
      simp only [Bool.not_false, if_true]
      exact unchanged_congr fs1 fs2 _ _

theorem copyEntry_congr (A : Node → Bool) (src dst : Path) (fs1 fs2 : FileSystem) (d : Node)
    (hA : fs1.filter A = fs2.filter A)
    (hdst : ∀ n : Node, isUnder dst n.path = true → A n = true) :
    ∃ added err, copyEntry false src dst fs1 d = (fs1 ++ added, err) ∧
      copyEntry false src dst fs2 d = (fs2 ++ added, err) ∧
      ∀ n ∈ added, isUnder dst n.path = true := by
  have ht : ∀ n : Node, n.path = dst ++ d.path.drop src.length → A n = true :=
    fun n hn => hdst n (by rw [hn]; exact isUnder_append _ _)
  unfold copyEntry
  cases hk : d.kind with
  | regular content =>
    obtain ⟨added, err, h1, h2, h3⟩ := copy_file_congr A fs1 fs2 d content _ hA ht
    exact ⟨added, err, h1, h2, fun n hn => by rw [h3 n hn]; exact isUnder_append _ _⟩
  | directory =>
    simp only
    rw [lookup_congr A fs1 fs2 _ hA ht]
    cases hl2 : lookup fs2 (dst ++ d.path.drop src.length) with
    | some old =>
      simp only
      split_ifs
      · exact unchanged_congr fs1 fs2 _ _
      · exact unchanged_congr fs1 fs2 _ _
      · exact unchanged_congr fs1 fs2 _ _
    | none =>
      simp only
      split_ifs
      · exact ⟨[⟨dst ++ d.path.drop src.length, FileKind.directory, true, true⟩], _, rfl, rfl,
          fun n hn => by rw [List.mem_singleton.1 hn]; exact isUnder_append _ _⟩
      · exact ⟨[⟨dst ++ d.path.drop src.length, FileKind.directory, true, true⟩], _, rfl, rfl,
          fun n hn => by rw [List.mem_singleton.1 hn]; exact isUnder_append _ _⟩

theorem copyEntries_congr (A : Node → Bool) (src dst : Path) (ds : List Node)
    (fs1 fs2 : FileSystem) (hA : fs1.filter A = fs2.filter A)
    (hdst : ∀ n : Node, isUnder dst n.path = true → A n = true) :
    ∃ added err, copyEntries false src dst ds fs1 = (fs1 ++ added, err) ∧
      copyEntries false src dst ds fs2 = (fs2 ++ added, err) ∧
      ∀ n ∈ added, isUnder dst n.path = true := by
  induction ds generalizing fs1 fs2 with
  | nil => exact ⟨[], none, by simp [copyEntries], by simp [copyEntries], by simp⟩
  | cons d ds ih =>
    obtain ⟨a1, e1, h1, h2, h3⟩ := copyEntry_congr A src dst fs1 fs2 d hA hdst
    unfold copyEntries
    rw [h1, h2]
    cases e1 with
    | some e => exact ⟨a1, some e, rfl, rfl, h3⟩
    | none =>
      simp only
      obtain ⟨a2, e2, k1, k2, k3⟩ := ih (fs1 ++ a1) (fs2 ++ a1)
        (filter_append_congr A _ _ _ hA)
      refine ⟨a1 ++ a2, e2, by rw [k1, List.append_assoc], by rw [k2, List.append_assoc], ?_⟩
      intro n hn
      rcases List.mem_append.1 hn with h | h
      · exact h3 n h
      · exact k3 n h

/-- A copy without `overwrite_existing` run in two file systems that agree
on the source and on a part that holds the target, its parent and everything
below the target: it adds the same nodes and ends in the same way. -/
theorem fs_copy_congr (A : Node → Bool) (fs1 fs2 : FileSystem) (src dst : Path)
    (hA : fs1.filter A = fs2.filter A)
    (hsrc : fs1.filter (fun n => isUnder src n.path) = fs2.filter (fun n => isUnder src n.path))
    (hdst : ∀ n : Node, isUnder dst n.path = true → A n = true)
    (hpar : ∀ n : Node, n.path = dst.dropLast → A n = true) :
    ∃ added err, fs_copy fs1 src dst false = (fs1 ++ added, err) ∧
      fs_copy fs2 src dst false = (fs2 ++ added, err) ∧
      ∀ n ∈ added, isUnder dst n.path = true := by
  have hls : lookup fs1 src = lookup fs2 src :=
    lookup_congr _ fs1 fs2 src hsrc (fun n hn => by rw [hn]; exact isUnder_self src)
  have hld : lookup fs1 dst = lookup fs2 dst :=
    lookup_congr A fs1 fs2 dst hA (fun n hn => hdst n (by rw [hn]; exact isUnder_self dst))
  have hlp : lookup fs1 dst.dropLast = lookup fs2 dst.dropLast :=
    lookup_congr A fs1 fs2 _ hA hpar
  have hfd : fs_is_directory fs1 dst = fs_is_directory fs2 dst := by
    unfold fs_is_directory
    rw [hld]
  have hfp : fs_is_directory fs1 dst.dropLast = fs_is_directory fs2 dst.dropLast := by
    unfold fs_is_directory
    rw [hlp]
  have hds : fs1.filter (fun m => isUnder src m.path && m.path != src)
      = fs2.filter (fun m => isUnder src m.path && m.path != src) := by
    have e : ∀ fs : FileSystem, fs.filter (fun m => isUnder src m.path && m.path != src)
        = (fs.filter (fun n => isUnder src n.path)).filter (fun m => m.path != src) := by
      intro fs
      rw [List.filter_filter]
      apply List.filter_congr
      intro n _
      rw [Bool.and_comm]
    rw [e fs1, e fs2, hsrc]
  unfold fs_copy
  rw [hls]
  cases hs : lookup fs2 src with
  | none => exact unchanged_congr fs1 fs2 _ _
  | some s =>
    simp only
    cases hk : s.kind with
    | regular content =>
      rw [hfd]
      by_cases hd : fs_is_directory fs2 dst = true
      · simp only [hd, if_true]
        obtain ⟨added, err, h1, h2, h3⟩ := copy_file_congr A fs1 fs2 s content
          (dst ++ [filename src]) hA
          (fun n hn => hdst n (by rw [hn]; exact isUnder_append _ _))
        exact ⟨added, err, h1, h2, fun n hn => by rw [h3 n hn]; exact isUnder_append _ _⟩
      · simp only [hd, Bool.false_eq_true, if_false]
        obtain ⟨added, err, h1, h2, h3⟩ := copy_file_congr A fs1 fs2 s content dst hA
          (fun n hn => hdst n (by rw [hn]; exact isUnder_self _))
        exact ⟨added, err, h1, h2, fun n hn => by rw [h3 n hn]; exact isUnder_self _⟩
    | directory =>
      simp only
      by_cases hu : isUnder src dst = true
      · simp only [hu, if_true]
        exact unchanged_congr fs1 fs2 _ _
      · simp only [hu, Bool.false_eq_true, if_false]
        rw [hld]
        cases hd : lookup fs2 dst with
        | some old =>
          simp only
          by_cases hok : (old.kind == FileKind.directory) = true
          · simp only [hok, if_true]
            by_cases hr : s.readable = true
            · simp only [hr, if_true]
              rw [hds]
              exact copyEntries_congr A src dst _ fs1 fs2 hA hdst
            · simp only [hr, Bool.false_eq_true, if_false]
              exact unchanged_congr fs1 fs2 _ _
          · simp only [hok, Bool.false_eq_true, if_false]
            exact unchanged_congr fs1 fs2 _ _
        | none =>
          simp only
          rw [hfp]
          by_cases hp : fs_is_directory fs2 dst.dropLast = true
          · simp only [hp, if_true]
            by_cases hr : s.readable = true
            · simp only [hr, if_true]
              rw [hds]
              obtain ⟨added, err, h1, h2, h3⟩ := copyEntries_congr A src dst
                (fs2.filter (fun m => isUnder src m.path && m.path != src))
                (fs1 ++ [⟨dst, FileKind.directory, true, true⟩])
                (fs2 ++ [⟨dst, FileKind.directory, true, true⟩])
                (filter_append_congr A _ _ _ hA) hdst
              refine ⟨⟨dst, FileKind.directory, true, true⟩ :: added, err, ?_, ?_, ?_⟩
              · rw [h1, List.append_assoc]
                rfl
              · rw [h2, List.append_assoc]
                rfl
              · intro n hn
                rcases List.mem_cons.1 hn with h | h
                · rw [h]
                  exact isUnder_self _
                · exact h3 n h
            · simp only [hr, Bool.false_eq_true, if_false]
              exact ⟨[⟨dst, FileKind.directory, true, true⟩], _, rfl, rfl,
                fun n hn => by rw [List.mem_singleton.1 hn]; exact isUnder_self _⟩
          · simp only [hp, Bool.false_eq_true, if_false]
            exact unchanged_congr fs1 fs2 _ _

/-! ## The mirror purge under other Local limits -/

theorem PurgeBackups_thrown_eq (w : World) (backupDir : WString) (p1 p2 loc1 loc2 : WString)
    (a1 m1 a2 m2 : Int) (log1 log2 : List WString) :
    (PurgeBackups w backupDir p1 a1 m1 loc1 log1).thrown
      = (PurgeBackups w backupDir p2 a2 m2 loc2 log2).thrown := by
  unfold PurgeBackups
  by_cases hex : fs_exists w.fs (parsePath backupDir) = true
  · simp only [World.file_exists, hex, Bool.not_true, Bool.false_eq_true, if_false,
      World.directory_iterator]
    cases fs_directory_iterator w.fs (parsePath backupDir) <;> rfl
  · simp [World.file_exists, hex]

theorem comparable_of_common (a b p : Path) (h1 : isUnder a p = true) (h2 : isUnder b p = true) :
    comparable a b = true := by
  unfold comparable
  rcases under_both a b p h1 h2 with h | h
  · simp [h]
  · simp [h]

/-- The mirror step of two runs of `BackupSaveFolder` that differ in the two
Local limits only, when the mirror directory and the local backup directory
have no common part and the local purge of neither run removes the archive
just made: `create_directories` and the mirror copy end in the same way in
both runs, and the mirror purge hands the same paths to `fs::remove_all`. -/
theorem mirror_step_congr (g : Globals) (exePath : WString) (localtime : Int → tm) (now : Int)
    (w : World) (profile : GameProfile) (autosave : Bool) (la lm : Int)
    (hfar : comparable (parsePath (cloudGamePath g profile))
      (parsePath (backupPathBase exePath profile.name)) = false)
    (hT1 : parsePath (backupPathBase exePath profile.name)
        ++ [backupFolderName localtime now autosave]
      ∉ purgeDeleted (localCopy exePath localtime now w profile autosave).1
        (localPurge g exePath localtime now w profile autosave))
    (hT2 : parsePath (backupPathBase exePath profile.name)
        ++ [backupFolderName localtime now autosave]
      ∉ purgeDeleted (localCopy exePath localtime now w profile autosave).1
        (localPurge ⟨g.g_GoogleDrivePath, la, lm, g.g_CloudAutoSaveLimit,
          g.g_CloudManualSaveLimit⟩ exePath localtime now w profile autosave)) :
    (mirrorCreate ⟨g.g_GoogleDrivePath, la, lm, g.g_CloudAutoSaveLimit,
        g.g_CloudManualSaveLimit⟩ exePath localtime now w profile autosave).2
      = (mirrorCreate g exePath localtime now w profile autosave).2 ∧
    (mirrorCopy ⟨g.g_GoogleDrivePath, la, lm, g.g_CloudAutoSaveLimit,
        g.g_CloudManualSaveLimit⟩ exePath localtime now w profile autosave).2
      = (mirrorCopy g exePath localtime now w profile autosave).2 ∧
    purgeDeleted
        (mirrorCopy ⟨g.g_GoogleDrivePath, la, lm, g.g_CloudAutoSaveLimit,
          g.g_CloudManualSaveLimit⟩ exePath localtime now w profile autosave).1
        (mirrorPurge ⟨g.g_GoogleDrivePath, la, lm, g.g_CloudAutoSaveLimit,
          g.g_CloudManualSaveLimit⟩ exePath localtime now w profile autosave)
      = purgeDeleted (mirrorCopy g exePath localtime now w profile autosave).1
          (mirrorPurge g exePath localtime now w profile autosave) := by
  obtain ⟨g2, hg2⟩ : ∃ g2 : Globals, g2 = ⟨g.g_GoogleDrivePath, la, lm, g.g_CloudAutoSaveLimit,
    g.g_CloudManualSaveLimit⟩ := ⟨_, rfl⟩
  rw [← hg2] at hT2 ⊢
  have hroot : g2.g_GoogleDrivePath = g.g_GoogleDrivePath := by rw [hg2]
  have hca : g2.g_CloudAutoSaveLimit = g.g_CloudAutoSaveLimit := by rw [hg2]
  have hcm : g2.g_CloudManualSaveLimit = g.g_CloudManualSaveLimit := by rw [hg2]
  have hM : cloudGamePath g2 profile = cloudGamePath g profile := by
    unfold cloudGamePath
    rw [hroot]
  have hBM : isUnder (parsePath (backupPathBase exePath profile.name))
      (parsePath (cloudGamePath g profile)) = false := by
    unfold comparable at hfar
    simp only [Bool.or_eq_false_iff] at hfar
    exact hfar.2
  -- the part outside the local backup directory
  have hAof : ∀ q : Path, isUnder (parsePath (cloudGamePath g profile)) q = true →
      ∀ n : Node, n.path = q →
        (!isUnder (parsePath (backupPathBase exePath profile.name)) n.path) = true := by
    intro q hq n hn
    cases hu : isUnder (parsePath (backupPathBase exePath profile.name)) n.path with
    | false => rfl
    | true =>
      rw [hn] at hu
      rw [comparable_of_common _ _ q hq hu] at hfar
      cases hfar
  have hA0 : (localPurge g2 exePath localtime now w profile autosave).world.fs.filter
        (fun n => !isUnder (parsePath (backupPathBase exePath profile.name)) n.path)
      = (localPurge g exePath localtime now w profile autosave).world.fs.filter
        (fun n => !isUnder (parsePath (backupPathBase exePath profile.name)) n.path) := by
    rw [localPurge_fs_filter, localPurge_fs_filter]
  have hT0 : (localPurge g2 exePath localtime now w profile autosave).world.fs.filter
        (fun n => isUnder (parsePath (backupPathBase exePath profile.name)
          ++ [backupFolderName localtime now autosave]) n.path)
      = (localPurge g exePath localtime now w profile autosave).world.fs.filter
        (fun n => isUnder (parsePath (backupPathBase exePath profile.name)
          ++ [backupFolderName localtime now autosave]) n.path) := by
    rw [localPurge_keeps_archive g2 exePath localtime now w profile autosave hT2,
      localPurge_keeps_archive g exePath localtime now w profile autosave hT1]
  -- create_directories
  obtain ⟨addedC, errC, c2, c1, hc3⟩ := createChain_congr
    (fun n => !isUnder (parsePath (backupPathBase exePath profile.name)) n.path)
    (parsePath (cloudGamePath g profile)).inits.tail
    (localPurge g2 exePath localtime now w profile autosave).world.fs
    (localPurge g exePath localtime now w profile autosave).world.fs hA0
    (fun p hp n hn => by
      have hpre : isUnder p (parsePath (cloudGamePath g profile)) = true :=
        (isUnder_iff _ _).2 ((List.mem_inits _ _).1 (List.mem_of_mem_tail hp))
      have hno : isUnder (parsePath (backupPathBase exePath profile.name)) n.path = false := by
        cases hu : isUnder (parsePath (backupPathBase exePath profile.name)) n.path with
        | false => rfl
        | true =>
          rw [hn] at hu
          rw [isUnder_trans _ _ _ hu hpre] at hBM
          cases hBM
      simp [hno])
  have hmc2 : mirrorCreate g2 exePath localtime now w profile autosave
      = (⟨(localPurge g2 exePath localtime now w profile autosave).world.fs ++ addedC,
          (localPurge g2 exePath localtime now w profile autosave).world.calls
            ++ [FsCall.create_directories (parsePath (cloudGamePath g profile))],
          (localPurge g2 exePath localtime now w profile autosave).world.console⟩, errC) := by
    unfold mirrorCreate World.create_directories fs_create_directories
    rw [hM, c2]
  have hmc1 : mirrorCreate g exePath localtime now w profile autosave
      = (⟨(localPurge g exePath localtime now w profile autosave).world.fs ++ addedC,
          (localPurge g exePath localtime now w profile autosave).world.calls
            ++ [FsCall.create_directories (parsePath (cloudGamePath g profile))],
          (localPurge g exePath localtime now w profile autosave).world.console⟩, errC) := by
    unfold mirrorCreate World.create_directories fs_create_directories
    rw [c1]
  -- the mirror copy
  obtain ⟨addedK, errK, k2, k1, _⟩ := fs_copy_congr
    (fun n => !isUnder (parsePath (backupPathBase exePath profile.name)) n.path)
    ((localPurge g2 exePath localtime now w profile autosave).world.fs ++ addedC)
    ((localPurge g exePath localtime now w profile autosave).world.fs ++ addedC)
    (parsePath (backupPathBase exePath profile.name) ++ [backupFolderName localtime now autosave])
    (parsePath (cloudGamePath g profile) ++ [backupFolderName localtime now autosave])
    (filter_append_congr _ _ _ _ hA0) (filter_append_congr _ _ _ _ hT0)
    (fun n hn => hAof n.path
      (isUnder_trans _ _ _ (isUnder_append _ [backupFolderName localtime now autosave]) hn) n rfl)
    (fun n hn => hAof n.path (by rw [hn, List.dropLast_concat]; exact isUnder_self _) n rfl)
  have hmk2 : (mirrorCopy g2 exePath localtime now w profile autosave).1.fs
        = ((localPurge g2 exePath localtime now w profile autosave).world.fs ++ addedC) ++ addedK ∧
      (mirrorCopy g2 exePath localtime now w profile autosave).2 = errK := by
    unfold mirrorCopy World.copy
    rw [hmc2, hM, parsePath_target, parsePath_mirror_target]
    simp only
    rw [k2]
    exact ⟨rfl, rfl⟩
  have hmk1 : (mirrorCopy g exePath localtime now w profile autosave).1.fs
        = ((localPurge g exePath localtime now w profile autosave).world.fs ++ addedC) ++ addedK ∧
      (mirrorCopy g exePath localtime now w profile autosave).2 = errK := by
    unfold mirrorCopy World.copy
    rw [hmc1, parsePath_target, parsePath_mirror_target]
    simp only
    rw [k1]
    exact ⟨rfl, rfl⟩
  -- the listing the mirror purge reads
  have hlist : fs_directory_iterator (mirrorCopy g2 exePath localtime now w profile autosave).1.fs
        (parsePath (cloudGamePath g profile))
      = fs_directory_iterator (mirrorCopy g exePath localtime now w profile autosave).1.fs
        (parsePath (cloudGamePath g profile)) := by
    apply listing_congr
    rw [hmk2.1, hmk1.1]
    apply filter_eq_of_imp _ _ _ _
      (filter_append_congr _ _ _ addedK (filter_append_congr _ _ _ addedC hA0))
    intro n hn
    exact hAof n.path hn n rfl
  refine ⟨by rw [hmc2, hmc1], by rw [hmk2.2, hmk1.2], ?_⟩
  unfold mirrorPurge
  rw [hM, hca, hcm]
  cases hl : fs_directory_iterator (mirrorCopy g exePath localtime now w profile autosave).1.fs
      (parsePath (cloudGamePath g profile)) with
  | ok entries =>
    rw [PurgeBackups_deleted _ _ _ _ _ _ _ entries (hlist.trans hl),
      PurgeBackups_deleted _ _ _ _ _ _ _ entries hl]
  | error e =>
    rw [PurgeBackups_deleted_of_no_listing _ _ _ _ _ _ _
        (fun entries he => by rw [hlist, hl] at he; cases he),
      PurgeBackups_deleted_of_no_listing _ _ _ _ _ _ _
        (fun entries he => by rw [hl] at he; cases he)]

/-! ## The two purges of a run -/

theorem removedUnder_other (dir other : Path) (ps : List Path)
    (hps : ∀ p ∈ ps, isChildOf other p = true) (hne : dir ≠ other) :
    ps.filter (fun p => isChildOf dir p) = [] := by
  rw [List.filter_eq_nil_iff]
  intro p hp hc
  have h1 := hps p hp
  unfold isChildOf at h1 hc
  simp only [Bool.and_eq_true, beq_iff_eq] at h1 hc
  exact hne (hc.2.symm.trans h1.2)

theorem removedUnder_own (dir : Path) (ps : List Path)
    (hps : ∀ p ∈ ps, isChildOf dir p = true) :
    ps.filter (fun p => isChildOf dir p) = ps :=
  List.filter_eq_self.2 hps

/-- C18: the local backup folder holds one automatic archive of a later
instant (the clock has been set back) and the mirror directory holds two
automatic archives.  Two runs of the same automatic backup, with the same
mirror root and the same Cloud limits: with the Local automatic limit 0 the
mirror purge removes the two older archives of the mirror; with the Local
automatic limit 1 the local purge removes the archive just made, the mirror
copy finds no source and the mirror purge is not reached, so nothing is
removed at the mirror. -/
theorem C18_counterexample :
    looseLocalGlobals.g_GoogleDrivePath = tightLocalGlobals.g_GoogleDrivePath ∧
    looseLocalGlobals.g_CloudAutoSaveLimit = tightLocalGlobals.g_CloudAutoSaveLimit ∧
    looseLocalGlobals.g_CloudManualSaveLimit = tightLocalGlobals.g_CloudManualSaveLimit ∧
    removedUnder (parsePath sampleMirrorDir)
        (BackupSaveFolder looseLocalGlobals sampleExePath utcLocaltime 1700000000
          sampleCurrentTime clockBackMirrorWorld mirrorProfile true).world.calls
      = [parsePath
           (L "G:\\Drive\\Game Save Backup Manager\\G\\1600000000-[2020-09-13_12-26-40]-A"),
         parsePath
           (L "G:\\Drive\\Game Save Backup Manager\\G\\1600000060-[2020-09-13_12-27-40]-A")] ∧
    removedUnder (parsePath sampleMirrorDir)
        (BackupSaveFolder tightLocalGlobals sampleExePath utcLocaltime 1700000000
          sampleCurrentTime clockBackMirrorWorld mirrorProfile true).world.calls
      = [] ∧
    removeAllTargets (BackupSaveFolder tightLocalGlobals sampleExePath utcLocaltime 1700000000
        sampleCurrentTime clockBackMirrorWorld mirrorProfile true).world.calls
      = [parsePath (L "C:\\App\\Backups\\G\\1700000000-[2023-11-14_22-13-20]-A")] := by
  decide

/-- C18 (amended). In a run of `BackupSaveFolder`, the paths the local purge
hands to `fs::remove_all` are given by the listing of the local backup
directory that the purge reads and the two Local limits, and the paths the
mirror purge removes by the listing of the mirror directory that it reads and
the two Cloud limits: for each class, the first directories of the sorted
class beyond its limit.  The result of the local purge is the same under any
other settings that have the same two Local limits, whatever the mirror root
and the Cloud limits.  Each purge removes only immediate children of its own
directory.  The `remove_all` calls of a run whose local copy succeeds and
whose local purge throws nothing are those of the local purge followed by
those of the mirror purge, if the mirror step reaches it.  And what a run
that returns removes in the mirror directory is the same under any other two
Local limits, when the mirror directory lies apart from the local backup
directory and the local purge removes the archive just made under neither
of the two settings. -/
theorem C18_location_independence (g : Globals) (exePath : WString) (localtime : Int → tm)
    (now : Int) (currentTime : WString) (w : World) (profile : GameProfile) (autosave : Bool) :
    (∀ entries,
      fs_directory_iterator (localCopy exePath localtime now w profile autosave).1.fs
          (parsePath (backupPathBase exePath profile.name)) = Except.ok entries →
      purgeDeleted (localCopy exePath localtime now w profile autosave).1
          (localPurge g exePath localtime now w profile autosave)
        = purgeSelection (stdSort (classDirs true entries)) g.g_LocalAutoSaveLimit
          ++ purgeSelection (stdSort (classDirs false entries)) g.g_LocalManualSaveLimit) ∧
    (∀ entries,
      fs_directory_iterator (mirrorCopy g exePath localtime now w profile autosave).1.fs
          (parsePath (cloudGamePath g profile)) = Except.ok entries →
      purgeDeleted (mirrorCopy g exePath localtime now w profile autosave).1
          (mirrorPurge g exePath localtime now w profile autosave)
        = purgeSelection (stdSort (classDirs true entries)) g.g_CloudAutoSaveLimit
          ++ purgeSelection (stdSort (classDirs false entries)) g.g_CloudManualSaveLimit) ∧
    (∀ g2 : Globals, g2.g_LocalAutoSaveLimit = g.g_LocalAutoSaveLimit →
      g2.g_LocalManualSaveLimit = g.g_LocalManualSaveLimit →
      localPurge g2 exePath localtime now w profile autosave
        = localPurge g exePath localtime now w profile autosave) ∧
    (∀ p ∈ purgeDeleted (localCopy exePath localtime now w profile autosave).1
        (localPurge g exePath localtime now w profile autosave),
      isChildOf (parsePath (backupPathBase exePath profile.name)) p = true) ∧
    (∀ p ∈ purgeDeleted (mirrorCopy g exePath localtime now w profile autosave).1
        (mirrorPurge g exePath localtime now w profile autosave),
      isChildOf (parsePath (cloudGamePath g profile)) p = true) ∧
    ((localCopy exePath localtime now w profile autosave).2 = none →
      (localPurge g exePath localtime now w profile autosave).thrown = none →
      removeAllTargets ((BackupSaveFolder g exePath localtime now currentTime w profile
          autosave).world.calls.drop w.calls.length)
        = purgeDeleted (localCopy exePath localtime now w profile autosave).1
            (localPurge g exePath localtime now w profile autosave)
          ++ (if (profile.cloudSaveEnabled = true ∧ g.g_GoogleDrivePath ≠ []) ∧
                (mirrorCreate g exePath localtime now w profile autosave).2 = none ∧
                (mirrorCopy g exePath localtime now w profile autosave).2 = none then
              purgeDeleted (mirrorCopy g exePath localtime now w profile autosave).1
                (mirrorPurge g exePath localtime now w profile autosave)
            else [])) ∧
    (∀ (la lm : Int),
      apart (parsePath (cloudGamePath g profile))
        (parsePath (backupPathBase exePath profile.name)) = true →
      parsePath (backupPathBase exePath profile.name) ++ [backupFolderName localtime now autosave]
        ∉ purgeDeleted (localCopy exePath localtime now w profile autosave).1
          (localPurge g exePath localtime now w profile autosave) →
      parsePath (backupPathBase exePath profile.name) ++ [backupFolderName localtime now autosave]
        ∉ purgeDeleted (localCopy exePath localtime now w profile autosave).1
          (localPurge ⟨g.g_GoogleDrivePath, la, lm, g.g_CloudAutoSaveLimit,
            g.g_CloudManualSaveLimit⟩ exePath localtime now w profile autosave) →
      (BackupSaveFolder g exePath localtime now currentTime w profile autosave).thrown = none →
      removedUnder (parsePath (cloudGamePath g profile))
          ((BackupSaveFolder ⟨g.g_GoogleDrivePath, la, lm, g.g_CloudAutoSaveLimit,
            g.g_CloudManualSaveLimit⟩ exePath localtime now currentTime w profile
            autosave).world.calls.drop w.calls.length)
        = removedUnder (parsePath (cloudGamePath g profile))
          ((BackupSaveFolder g exePath localtime now currentTime w profile
            autosave).world.calls.drop w.calls.length)) := by
  refine ⟨?_, ?_, ?_, ?_, ?_, ?_, ?_⟩
  · intro entries hl
    unfold localPurge
    rw [PurgeBackups_deleted _ _ _ _ _ _ _ entries hl, categorize_eq]
  · intro entries hl
    unfold mirrorPurge
    rw [PurgeBackups_deleted _ _ _ _ _ _ _ entries hl, categorize_eq]
  · intro g2 ha hm
    exact localPurge_congr g g2 exePath localtime now w profile autosave ha hm
  · exact PurgeBackups_deleted_children _ _ _ _ _ _ _
  · exact PurgeBackups_deleted_children _ _ _ _ _ _ _
  · exact BackupSaveFolder_removals g exePath localtime now currentTime w profile autosave
  · intro la lm hap hT1 hT2 hret
    have hfar := not_comparable_of_apart _ _ hap
    cases hc : (localCopy exePath localtime now w profile autosave).2 with
    | some e =>
      rw [BackupSaveFolder_eq, BackupSaveFolder_eq]
      simp only [hc]
    | none =>
      have hp : (localPurge g exePath localtime now w profile autosave).thrown = none := by
        rw [BackupSaveFolder_thrown, hc] at hret
        exact hret
      have hp2 : (localPurge ⟨g.g_GoogleDrivePath, la, lm, g.g_CloudAutoSaveLimit,
          g.g_CloudManualSaveLimit⟩ exePath localtime now w profile autosave).thrown = none := by
        rw [← hp]
        unfold localPurge
        exact PurgeBackups_thrown_eq _ _ _ _ _ _ _ _ _ _ _ _
      obtain ⟨m1, m2, m3⟩ := mirror_step_congr g exePath localtime now w profile autosave la lm
        hfar hT1 hT2
      have hne : parsePath (cloudGamePath g profile)
          ≠ parsePath (backupPathBase exePath profile.name) := by
        intro he
        rw [he] at hfar
        simp [comparable, isUnder_self] at hfar
      have hown : ∀ gx : Globals, cloudGamePath gx profile = cloudGamePath g profile →
          (purgeDeleted (mirrorCopy gx exePath localtime now w profile autosave).1
            (mirrorPurge gx exePath localtime now w profile autosave)).filter
              (fun p => isChildOf (parsePath (cloudGamePath g profile)) p)
            = purgeDeleted (mirrorCopy gx exePath localtime now w profile autosave).1
              (mirrorPurge gx exePath localtime now w profile autosave) := by
        intro gx hgx
        apply removedUnder_own
        rw [← hgx]
        exact fun p hp => PurgeBackups_deleted_children _ _ _ _ _ _ _ p hp
      have hside : ∀ gx : Globals, cloudGamePath gx profile = cloudGamePath g profile →
          (localCopy exePath localtime now w profile autosave).2 = none →
          (localPurge gx exePath localtime now w profile autosave).thrown = none →
          removedUnder (parsePath (cloudGamePath g profile))
              ((BackupSaveFolder gx exePath localtime now currentTime w profile
                autosave).world.calls.drop w.calls.length)
            = if (profile.cloudSaveEnabled = true ∧ gx.g_GoogleDrivePath ≠ []) ∧
                  (mirrorCreate gx exePath localtime now w profile autosave).2 = none ∧
                  (mirrorCopy gx exePath localtime now w profile autosave).2 = none then
                purgeDeleted (mirrorCopy gx exePath localtime now w profile autosave).1
                  (mirrorPurge gx exePath localtime now w profile autosave)
              else [] := by
        intro gx hgx hcx hpx
        have hloc : (purgeDeleted (localCopy exePath localtime now w profile autosave).1
              (localPurge gx exePath localtime now w profile autosave)).filter
              (fun p => isChildOf (parsePath (cloudGamePath g profile)) p) = [] :=
          removedUnder_other _ (parsePath (backupPathBase exePath profile.name)) _
            (PurgeBackups_deleted_children _ _ _ _ _ _ _) hne
        unfold removedUnder
        rw [BackupSaveFolder_removals gx exePath localtime now currentTime w profile autosave
          hcx hpx, List.filter_append, hloc, List.nil_append]
        split_ifs
        · exact hown gx hgx
        · rfl
      rw [hside ⟨g.g_GoogleDrivePath, la, lm, g.g_CloudAutoSaveLimit, g.g_CloudManualSaveLimit⟩
          rfl hc hp2, hside g rfl hc hp, m1, m2, m3]

/-- C18 (amended), at a concrete input: an automatic backup at the clock
reading 1700000180 with three automatic archives at the local location and
two at the mirror (one is kept there).  With the Local automatic limit 2 the
local purge removes two local archives, with the Local limits 0 it removes
none; the mirror purge removes the same two archives of the mirror in both
runs. -/
theorem C18_location_independence_witness :
    removedUnder (parsePath (cloudGamePath pairGlobals mirrorProfile))
        ((BackupSaveFolder ⟨pairGlobals.g_GoogleDrivePath, 0, 0, pairGlobals.g_CloudAutoSaveLimit,
          pairGlobals.g_CloudManualSaveLimit⟩ sampleExePath utcLocaltime 1700000180
          sampleCurrentTime pairWorld mirrorProfile true).world.calls.drop
          pairWorld.calls.length)
      = [parsePath
           (L "G:\\Drive\\Game Save Backup Manager\\G\\1700000060-[2023-11-14_22-14-20]-A"),
         parsePath
           (L "G:\\Drive\\Game Save Backup Manager\\G\\1700000120-[2023-11-14_22-15-20]-A")] ∧
    removeAllTargets (BackupSaveFolder pairGlobals sampleExePath utcLocaltime 1700000180
        sampleCurrentTime pairWorld mirrorProfile true).world.calls
      = [parsePath (L "C:\\App\\Backups\\G\\1700000000-[2023-11-14_22-13-20]-A"),
         parsePath (L "C:\\App\\Backups\\G\\1700000060-[2023-11-14_22-14-20]-A"),
         parsePath
           (L "G:\\Drive\\Game Save Backup Manager\\G\\1700000060-[2023-11-14_22-14-20]-A"),
         parsePath
           (L "G:\\Drive\\Game Save Backup Manager\\G\\1700000120-[2023-11-14_22-15-20]-A")] ∧
    removeAllTargets (BackupSaveFolder ⟨pairGlobals.g_GoogleDrivePath, 0, 0,
        pairGlobals.g_CloudAutoSaveLimit, pairGlobals.g_CloudManualSaveLimit⟩ sampleExePath
        utcLocaltime 1700000180 sampleCurrentTime pairWorld mirrorProfile true).world.calls
      = [parsePath
           (L "G:\\Drive\\Game Save Backup Manager\\G\\1700000060-[2023-11-14_22-14-20]-A"),
         parsePath
           (L "G:\\Drive\\Game Save Backup Manager\\G\\1700000120-[2023-11-14_22-15-20]-A")] :=
  ⟨((C18_location_independence pairGlobals sampleExePath utcLocaltime 1700000180
      sampleCurrentTime pairWorld mirrorProfile true).2.2.2.2.2.2 0 0 (by decide)
      (by decide) (by decide) (by decide)).trans (by decide),
    by decide, by decide⟩
end GameSaveBackupManager
